import Mathlib

/-!
# SMSA virtual disk driver: address translation, block cache and block I/O

A shallow embedding of `smsa_driver.c`, `smsa_cache.c`, `smsa_client.c` and
the device library `smsa.c`, followed by the properties established for them.

Conventions of the embedding:

* C unsigned integers are natural numbers, reduced modulo `2^w` wherever the
  C type narrows or wraps (`u8`, `u16`, `u32`);
* a byte buffer is a function from byte index to byte value;
* a pointer is `Option Nat` (`none` is `NULL`, `some p` an address handed out
  by `malloc`);
* an execution that leaves defined behaviour (array index outside the
  allocation, dereferenced `NULL`, failed `assert`) ends in a `Fault`.
-/

namespace SMSA

set_option linter.unusedVariables false

/-! ## Constants of `smsa.h` -/

/-- Number of drums, `SMSA_DISK_ARRAY_SIZE`. -/
def SMSA_DISK_ARRAY_SIZE : Nat := 16

/-- Bytes per drum, `SMSA_DISK_SIZE`. -/
def SMSA_DISK_SIZE : Nat := 65536

/-- Bytes per block, `SMSA_BLOCK_SIZE`. -/
def SMSA_BLOCK_SIZE : Nat := 256

/-- Blocks per drum, `SMSA_MAX_BLOCK_ID = SMSA_DISK_SIZE / SMSA_BLOCK_SIZE`. -/
def SMSA_MAX_BLOCK_ID : Nat := SMSA_DISK_SIZE / SMSA_BLOCK_SIZE

/-- Size of the virtual address space, `MAX_SMSA_VIRTUAL_ADDRESS`. -/
def MAX_SMSA_VIRTUAL_ADDRESS : Nat := SMSA_DISK_ARRAY_SIZE * SMSA_DISK_SIZE

/-! ## Machine integers -/

/-- Conversion to `unsigned char` (`SMSA_DRUM_ID`). -/
def u8 (n : Nat) : Nat := n % 256

/-- Conversion to `unsigned short` (`SMSA_BLOCK_ID`). -/
def u16 (n : Nat) : Nat := n % 65536

/-- Conversion to `uint32_t`. -/
def u32 (n : Nat) : Nat := n % 4294967296

/-! ## Address translation (`smsa_driver.c`) -/

/-- The six output parameters of `getDiskBlockParameters`. -/
structure DiskBlockParameters where
  diskStart : Nat
  blockStart : Nat
  diskEnd : Nat
  blockEnd : Nat
  byteStart : Nat
  byteEnd : Nat
  deriving DecidableEq, Repr

/-- The last byte address `addr + len - 1`, computed in `uint32_t`. -/
def lastAddr (addr len : Nat) : Nat := u32 (addr + len + 4294967295)

/-- The function `getDiskBlockParameters`: the return code and the outputs.
`diskStart` and `diskEnd` are stored through `SMSA_DRUM_ID *` (8 bits), the
block numbers through `SMSA_BLOCK_ID *` (16 bits). -/
def getDiskBlockParameters (addr len : Nat) : Nat × DiskBlockParameters :=
  let diskStart := u8 (addr >>> 16)
  let blockStart := u16 (u16 (addr &&& 0xffff) >>> 8)
  let diskEnd := u8 (lastAddr addr len >>> 16)
  let blockEnd := u16 (u16 (lastAddr addr len &&& 0xffff) >>> 8)
  let byteStart := addr &&& 0xff
  let byteEnd := lastAddr addr len &&& 0xff
  let p : DiskBlockParameters :=
    { diskStart := diskStart, blockStart := blockStart, diskEnd := diskEnd,
      blockEnd := blockEnd, byteStart := byteStart, byteEnd := byteEnd }
  if diskStart > 15 ∨ diskEnd > 15 ∨ blockStart > SMSA_BLOCK_SIZE
      ∨ blockEnd > SMSA_BLOCK_SIZE ∨ byteStart > SMSA_BLOCK_SIZE
      ∨ byteEnd > SMSA_BLOCK_SIZE then
    (2, p)
  else
    (0, p)


/-! ## Faults, buffers and pointers -/

/-- The ways an execution leaves defined behaviour, and `diverges` for a loop
that never reaches its exit test. -/
inductive Fault where
  | outOfBounds
  | nullDeref
  | assertFail
  | diverges
  deriving DecidableEq, Repr

/-- A computation that either completes with a value or ends in a fault. -/
abbrev Exec (α : Type) : Type := Except Fault α

/-- A byte buffer: byte index to byte value. -/
abbrev Block : Type := Nat → Nat

/-- A pointer to a block buffer: `none` is `NULL`. -/
abbrev Ptr : Type := Option Nat

/-- The library call `memcpy(&dst[dOff], &src[sOff], n)`. -/
def memcpy (dst : Block) (dOff : Nat) (src : Block) (sOff n : Nat) : Block :=
  fun i => if dOff ≤ i ∧ i < dOff + n then src (sOff + (i - dOff)) else dst i

/-- Reading one byte through a pointer (`*p`). -/
def deref (p : Ptr) : Exec Unit :=
  match p with
  | none => throw Fault.nullDeref
  | some _ => pure ()

/-! ## The block cache (`smsa_cache.c`) -/

/-- One entry of the cache array, `SMSA_CACHE_LINE` (the time stamp `used` is
written but never read and is left out). -/
structure SMSA_CACHE_LINE where
  drum : Nat
  block : Nat
  line : Ptr
  deriving DecidableEq, Repr

/-- The globals of `smsa_cache.c`: the array `cache` (`alloc` tells whether the
pointer is non-null, `arr` holds the `maxIndex` allocated entries),
`currentIndex`, `maxIndex`, `misses` and `hits`. -/
structure Cache where
  alloc : Bool
  arr : Int → SMSA_CACHE_LINE
  currentIndex : Int
  maxIndex : Int
  misses : Nat
  hits : Nat

/-- The globals before `smsa_init_cache` has run (zero-initialised statics). -/
def Cache.boot : Cache :=
  { alloc := false, arr := fun _ => ⟨0, 0, none⟩, currentIndex := 0, maxIndex := 0,
    misses := 0, hits := 0 }

/-- The read `cache[i]`. -/
def Cache.rd (c : Cache) (i : Int) : Exec SMSA_CACHE_LINE :=
  if c.alloc = false then throw Fault.nullDeref
  else if 0 ≤ i ∧ i < c.maxIndex then pure (c.arr i)
  else throw Fault.outOfBounds

/-- The write `cache[i] = v`. -/
def Cache.wr (c : Cache) (i : Int) (v : SMSA_CACHE_LINE) : Exec Cache :=
  if c.alloc = false then throw Fault.nullDeref
  else if 0 ≤ i ∧ i < c.maxIndex then
    pure { c with arr := fun j => if j = i then v else c.arr j }
  else throw Fault.outOfBounds

/-- The function `smsa_init_cache`: `calloc` hands out `lines` zeroed entries. -/
def smsa_init_cache (lines : Nat) : Nat × Cache :=
  (0, { alloc := true, arr := fun _ => ⟨0, 0, none⟩, currentIndex := 0,
        maxIndex := (lines : Int), misses := 0, hits := 0 })

/-- The function `smsa_close_cache`: the array is freed and the pointer set
to `NULL`. -/
def smsa_close_cache (c : Cache) : Nat × Cache :=
  (0, { c with alloc := false })

/-- The key scan `for (i = 0; i <= currentIndex; i++) if (cache[i].block == blk
&& cache[i].drum == drm)` shared by `smsa_get_cache_line` and
`smsa_put_cache_line`: the first matching index among the next `n` indices
from `i` on. -/
def findLine (drm blk : Nat) (c : Cache) : Nat → Int → Exec (Option Int)
  | 0, _ => pure none
  | n + 1, i => do
    let e ← c.rd i
    if e.block = blk ∧ e.drum = drm then pure (some i)
    else findLine drm blk c n (i + 1)

/-- The copy loop of `justUsedAdjust` and `evictLRU`: `n` iterations from index
`i` on, each asserting that `cache[i]` and `cache[i+1]` differ in key and then
copying `cache[i+1]` to `cache[i]`. -/
def shiftDown : Nat → Int → Cache → Exec Cache
  | 0, _, c => pure c
  | n + 1, i, c => do
    let a ← c.rd i
    let b ← c.rd (i + 1)
    if a.drum = b.drum ∧ a.block = b.block then throw Fault.assertFail
    else
      let c ← c.wr i b
      shiftDown n (i + 1) c

/-- The function `justUsedAdjust`. -/
def justUsedAdjust (drm blk : Nat) (buf : Ptr) (index : Int) (c : Cache) :
    Exec (Nat × Cache) := do
  if index = c.currentIndex - 1 ∧ c.currentIndex ≠ c.maxIndex - 1 then pure (0, c)
  else
    let c ← shiftDown (c.currentIndex - 1 - index).toNat index c
    let c ←
      if c.currentIndex = c.maxIndex - 1 then do
        let e ← c.rd c.currentIndex
        let c ← c.wr (c.currentIndex - 1) e
        c.wr c.currentIndex ⟨drm, blk, buf⟩
      else
        c.wr (c.currentIndex - 1) ⟨drm, blk, buf⟩
    if c.currentIndex = 0 then pure (0, { c with currentIndex := c.currentIndex + 1 })
    else pure (0, c)

/-- The function `evictLRU`. -/
def evictLRU (c : Cache) : Exec (Nat × Cache) := do
  let c ← shiftDown (c.currentIndex - 1).toNat 0 c
  if c.currentIndex = c.maxIndex - 1 then
    let e ← c.rd c.currentIndex
    let c ← c.wr (c.currentIndex - 1) e
    pure (0, c)
  else pure (0, c)

/-- The function `writeToCache`. -/
def writeToCache (drm blk : Nat) (buf : Ptr) (c : Cache) : Exec (Nat × Cache) := do
  let full ←
    if c.currentIndex = c.maxIndex - 1 then do
      let e ← c.rd c.currentIndex
      pure (e.line != none)
    else pure false
  let (err, c) ← if full then evictLRU c else pure (0, c)
  let c ← c.wr c.currentIndex ⟨drm, blk, buf⟩
  let c := if c.currentIndex < c.maxIndex - 1
    then { c with currentIndex := c.currentIndex + 1 } else c
  let err := if c.currentIndex ≥ c.maxIndex then 1 else err
  pure (err, c)

/-- The function `smsa_get_cache_line`: the returned pointer and the new
globals.  `logMessage` is an ordinary variadic function, so its argument
`*cache[..].line` is evaluated: the line pointer is dereferenced. -/
def smsa_get_cache_line (drm blk : Nat) (c : Cache) : Exec (Ptr × Cache) := do
  match ← findLine drm blk c (c.currentIndex + 1).toNat 0 with
  | some i =>
    let c ←
      if i ≠ c.currentIndex then do
        let e ← c.rd i
        let r ← justUsedAdjust drm blk e.line i c
        pure r.2
      else pure c
    let c := { c with hits := c.hits + 1 }
    if c.currentIndex = c.maxIndex - 1 then
      let e ← c.rd c.currentIndex
      deref e.line
      pure (e.line, c)
    else
      let e ← c.rd i
      deref e.line
      let r ← c.rd (c.currentIndex - 1)
      pure (r.line, c)
  | none => pure (none, { c with misses := c.misses + 1 })

/-- The function `smsa_put_cache_line`. -/
def smsa_put_cache_line (drm blk : Nat) (buf : Ptr) (c : Cache) : Exec (Nat × Cache) := do
  match ← findLine drm blk c (c.currentIndex + 1).toNat 0 with
  | some i =>
    let e ← c.rd i
    let c ← c.wr i { e with line := buf }
    if i = c.currentIndex then
      if c.currentIndex < c.maxIndex - 1 then
        pure (0, { c with currentIndex := c.currentIndex + 1 })
      else pure (0, c)
    else
      let e ← c.rd i
      let r ← justUsedAdjust drm blk e.line i c
      pure (0, r.2)
  | none =>
    let (err, c) ← writeToCache drm blk buf c
    pure (if err > 0 then 11 else err, c)

/-! ## The disk array (`smsa.c`) -/

/-- The command numbers of `SMSA_DISK_COMMAND`. -/
def SMSA_MOUNT : Nat := 0
def SMSA_UNMOUNT : Nat := 1
def SMSA_SEEK_DRUM : Nat := 2
def SMSA_SEEK_BLOCK : Nat := 3
def SMSA_DISK_READ : Nat := 4
def SMSA_DISK_WRITE : Nat := 5
def SMSA_GET_STATE : Nat := 6
def SMSA_FORMAT_DRUM : Nat := 7
def SMSA_BLOCK_SIGN : Nat := 8
def SMSA_MAX_COMMAND : Nat := 9

/-- The error levels of `SMSA_ERROR_LEVEL` that the modelled code sets. -/
def SMSA_NO_ERROR : Nat := 0
def SMSA_UNMOUNTED_DISK : Nat := 1
def SMSA_ILLEGAL_DRUM : Nat := 2
def SMSA_BAD_OPCODE : Nat := 5
def SMSA_BAD_DRUM_ID : Nat := 6
def SMSA_BAD_BLOCK_ID : Nat := 7
def SMSA_BAD_READ : Nat := 8
def SMSA_BAD_WRITE : Nat := 9

/-- The statics of `smsa.c`.  `disk d off` is byte `off` of drum `d`. -/
structure Device where
  smsa_library_initialized : Bool
  smsa_mount_state : Bool
  smsa_error_number : Nat
  smsa_drum_head : Nat
  smsa_read_head : Nat
  disk : Nat → Nat → Nat
  smsa_cycle_count : Nat

/-- The statics at program start. -/
def Device.boot : Device :=
  { smsa_library_initialized := false, smsa_mount_state := false,
    smsa_error_number := 0, smsa_drum_head := 0, smsa_read_head := 0,
    disk := fun _ _ => 0, smsa_cycle_count := 0 }

/-- The block of drum `drum` at `SMSA_BLOCK_ADDRESS(drum, blk)`. -/
def Device.blockAt (s : Device) (drum blk : Nat) : Block :=
  fun i => s.disk drum (blk * SMSA_BLOCK_SIZE + i)

/-- The decoded fields `cmd`, `did`, `bid` of `SMSA_OPERATION`. -/
structure SMSA_OPERATION where
  cmd : Nat
  did : Nat
  bid : Nat
  deriving DecidableEq, Repr

/-- The function `decode_SMSA_operation`: return code (0 or -1), the fields
stored in `*dop` and the new `smsa_error_number`. -/
def decode_SMSA_operation (op : Nat) (errno : Nat) : Int × SMSA_OPERATION × Nat :=
  let dop : SMSA_OPERATION :=
    { cmd := op >>> 26, did := u8 ((op >>> 22) &&& 0xf), bid := u16 (op &&& 0xff) }
  if dop.cmd ≥ SMSA_MAX_COMMAND then (-1, dop, SMSA_BAD_OPCODE)
  else if dop.did ≥ SMSA_DISK_ARRAY_SIZE then (-1, dop, SMSA_BAD_DRUM_ID)
  else if dop.bid ≥ SMSA_MAX_BLOCK_ID then (-1, dop, SMSA_BAD_BLOCK_ID)
  else (0, dop, errno)

/-- The macro `SMSA_DIFF(x,y)`. -/
def SMSA_DIFF (x y : Nat) : Nat := if x > y then x - y else y - x

/-- The function `operation_cycle_cost` (an `int`, -1 for an illegal command). -/
def operation_cycle_cost (s : Device) (cmd did bid : Nat) : Int :=
  if cmd = SMSA_MOUNT then 10000
  else if cmd = SMSA_UNMOUNT then 10000
  else if cmd = SMSA_SEEK_DRUM then
    ((SMSA_DIFF (s.smsa_drum_head % 4) (did % 4) : Nat) : Int) * 1000
  else if cmd = SMSA_SEEK_BLOCK then ((SMSA_DIFF s.smsa_read_head bid * 10 : Nat) : Int)
  else if cmd = SMSA_DISK_READ then 50
  else if cmd = SMSA_DISK_WRITE then 200
  else if cmd = SMSA_GET_STATE then 0
  else if cmd = SMSA_FORMAT_DRUM then 0
  else if cmd = SMSA_BLOCK_SIGN then 0
  else -1

/-- The function `SMSAMountArray`: every drum is allocated and zeroed. -/
def SMSAMountArray (s : Device) : Int × Device :=
  if s.smsa_mount_state then (0, s)
  else (0, { s with disk := fun _ _ => 0, smsa_drum_head := 0, smsa_read_head := 0,
                    smsa_mount_state := true })

/-- The function `SMSAUnmountArray`: every drum is freed. -/
def SMSAUnmountArray (s : Device) : Int × Device :=
  if ¬ s.smsa_mount_state then (0, s)
  else (0, { s with smsa_drum_head := 0, smsa_read_head := 0, smsa_mount_state := false })

/-- The function `SMSASeekDrum`. -/
def SMSASeekDrum (did : Nat) (s : Device) : Int × Device :=
  if ¬ s.smsa_mount_state then (-1, { s with smsa_error_number := SMSA_UNMOUNTED_DISK })
  else if did ≥ SMSA_DISK_ARRAY_SIZE then
    (-1, { s with smsa_error_number := SMSA_BAD_DRUM_ID })
  else (0, { s with smsa_drum_head := did, smsa_read_head := 0 })

/-- The function `SMSASeekBlock`. -/
def SMSASeekBlock (blk : Nat) (s : Device) : Int × Device :=
  if ¬ s.smsa_mount_state then (-1, { s with smsa_error_number := SMSA_UNMOUNTED_DISK })
  else if blk ≥ SMSA_MAX_BLOCK_ID then
    (-1, { s with smsa_error_number := SMSA_BAD_BLOCK_ID })
  else (0, { s with smsa_read_head := blk })

/-- The function `SMSAReadBlock`: return code, the caller's block and the new
statics. -/
def SMSAReadBlock (block : Block) (s : Device) : Exec (Int × Block × Device) :=
  if ¬ (s.smsa_drum_head < SMSA_DISK_ARRAY_SIZE) then throw Fault.assertFail
  else if ¬ (s.smsa_read_head < SMSA_MAX_BLOCK_ID) then throw Fault.assertFail
  else if ¬ s.smsa_mount_state then
    pure (-1, block, { s with smsa_error_number := SMSA_UNMOUNTED_DISK })
  else if s.smsa_drum_head ≥ SMSA_DISK_ARRAY_SIZE ∨ s.smsa_read_head ≥ SMSA_MAX_BLOCK_ID then
    pure (-1, block, { s with smsa_error_number := SMSA_BAD_READ })
  else
    pure (0, memcpy block 0 (s.blockAt s.smsa_drum_head s.smsa_read_head) 0 SMSA_BLOCK_SIZE,
          { s with smsa_read_head := u32 (s.smsa_read_head + 1) })

/-- The function `SMSAWriteBlock`. -/
def SMSAWriteBlock (block : Block) (s : Device) : Exec (Int × Device) :=
  if ¬ (s.smsa_drum_head < SMSA_DISK_ARRAY_SIZE) then throw Fault.assertFail
  else if ¬ (s.smsa_read_head < SMSA_MAX_BLOCK_ID) then throw Fault.assertFail
  else if ¬ s.smsa_mount_state then
    pure (-1, { s with smsa_error_number := SMSA_UNMOUNTED_DISK })
  else if s.smsa_drum_head ≥ SMSA_DISK_ARRAY_SIZE ∨ s.smsa_read_head ≥ SMSA_MAX_BLOCK_ID then
    pure (-1, { s with smsa_error_number := SMSA_BAD_WRITE })
  else
    pure (0, { s with
      disk := fun d => if d = s.smsa_drum_head
        then memcpy (s.disk d) (s.smsa_read_head * SMSA_BLOCK_SIZE) block 0 SMSA_BLOCK_SIZE
        else s.disk d
      smsa_read_head := u32 (s.smsa_read_head + 1) })

/-- The function `SMSAFormatDrum`. -/
def SMSAFormatDrum (s : Device) : Int × Device :=
  if ¬ s.smsa_mount_state then (-1, { s with smsa_error_number := SMSA_UNMOUNTED_DISK })
  else if s.smsa_drum_head ≥ SMSA_DISK_ARRAY_SIZE then
    (-1, { s with smsa_error_number := SMSA_ILLEGAL_DRUM })
  else (0, { s with
    disk := fun d => if d = s.smsa_drum_head then (fun _ => 0) else s.disk d
    smsa_drum_head := 0, smsa_read_head := 0 })

/-- The function `smsa_operation`: return code, the caller's block and the
new statics.  The log line indexes the nine-entry table `smsa_op_text` with
the decoded command; `SMSA_BLOCK_SIGN` only writes a signature to the log. -/
def smsa_operation (op : Nat) (block : Block) (s : Device) : Exec (Int × Block × Device) := do
  let (_, dop, errno) := decode_SMSA_operation op s.smsa_error_number
  let s := { s with smsa_error_number := errno }
  if dop.cmd ≥ 9 then throw Fault.outOfBounds
  else
    let s := if s.smsa_library_initialized = false
      then { s with smsa_mount_state := false, smsa_error_number := SMSA_NO_ERROR,
                    smsa_library_initialized := true }
      else s
    let s := { s with smsa_cycle_count :=
      (((s.smsa_cycle_count : Int) + operation_cycle_cost s dop.cmd dop.did dop.bid)
        % 18446744073709551616).toNat }
    if dop.cmd = SMSA_MOUNT then
      let r := SMSAMountArray s
      pure (r.1, block, r.2)
    else if dop.cmd = SMSA_UNMOUNT then
      let r := SMSAUnmountArray s
      pure (r.1, block, r.2)
    else if dop.cmd = SMSA_SEEK_DRUM then
      let r := SMSASeekDrum dop.did s
      pure (r.1, block, r.2)
    else if dop.cmd = SMSA_SEEK_BLOCK then
      let r := SMSASeekBlock dop.bid s
      pure (r.1, block, r.2)
    else if dop.cmd = SMSA_DISK_READ then SMSAReadBlock block s
    else if dop.cmd = SMSA_DISK_WRITE then do
      let r ← SMSAWriteBlock block s
      pure (r.1, block, r.2)
    else if dop.cmd = SMSA_GET_STATE then pure (0, block, s)
    else if dop.cmd = SMSA_FORMAT_DRUM then
      let r := SMSAFormatDrum s
      pure (r.1, block, r.2)
    else pure (0, block, s)

/-! ## Client and server (`smsa_client.c`, `smsa_server.c`) -/

/-- What lies behind the client's socket: the device statics, the server's
block buffer, the commands the device received so far (oldest first), whether
`sock` is a connection to the server (made by a mount command, closed by an
unmount command) and the schedule of the transport (`true`: the connection is
down for that exchange, nothing is delivered and `selectData` reports
failure). -/
structure World where
  dev : Device
  srvBlock : Block
  trace : List Nat
  connected : Bool
  faults : List Bool

/-- The world at program start, with a given transport schedule. -/
def World.boot (faults : List Bool) : World :=
  { dev := Device.boot, srvBlock := fun _ => 0, trace := [], connected := false,
    faults := faults }

/-- The macro `SMSA_OPCODE(op)`. -/
def SMSA_OPCODE (op : Nat) : Nat := op >>> 26

/-- One round of the loop of `smsa_server`: the request `(op, blk)` is
received (`blk` is the block of a write request), `smsa_operation` runs on the
server's buffer and the reply `(ret, block)` carries the buffer for a read. -/
def smsa_server_step (op : Nat) (blk : Option Block) (w : World) :
    Exec (Int × Option Block × World) := do
  let buf := match blk with
    | some b => b
    | none => w.srvBlock
  let (ret, buf, dev) ← smsa_operation op buf w.dev
  let w := { w with dev := dev, srvBlock := buf, trace := w.trace ++ [op] }
  pure (ret, if SMSA_OPCODE op = SMSA_DISK_READ then some buf else none, w)

/-- The function `recievePacket` of `smsa_client.c` on the fields of the reply
(result code `ret`, block if the reply carries one): return code and the
caller's block.  The reply is rejected only when `ret` equals 1; a block in
the reply is stored in the caller's buffer. -/
def recievePacket (ret : Int) (reply : Option Block) (block : Block) : Nat × Block :=
  if ret = 1 then (1, block)
  else match reply with
    | some b => (0, memcpy block 0 b 0 SMSA_BLOCK_SIZE)
    | none => (0, block)

/-- The function `smsa_client_operation` of `smsa_client.c`: return code, the
caller's block and the world.  A mount command connects first; the request
carries the block for a write; the results of `sendPacket` are compared with
-1, which `sendBytes` never returns, so only `selectData` and `recievePacket`
can make the call fail; an unmount command closes the socket after the
exchange.  On a socket that is not a connection to the server nothing reaches
the device and `selectData` fails. -/
def smsa_client_operation (op : Nat) (block : Block) (w : World) :
    Exec (Nat × Block × World) :=
  match w.faults with
  | true :: rest => pure (1, block, { w with faults := rest })
  | faults => do
    let w := { w with faults := faults.tail }
    let w := if SMSA_OPCODE op = SMSA_MOUNT then { w with connected := true } else w
    if w.connected = false then pure (1, block, w)
    else
      let (ret, reply, w) ←
        smsa_server_step op (if SMSA_OPCODE op = SMSA_DISK_WRITE then some block else none) w
      let r := recievePacket ret reply block
      if r.1 = 1 then pure (1, r.2, w)
      else if SMSA_OPCODE op = SMSA_UNMOUNT then pure (0, r.2, { w with connected := false })
      else pure (0, r.2, w)

/-! ## The driver (`smsa_driver.c`) -/

/-- The tracked head position, `HEAD`. -/
structure HEAD where
  drum : Nat
  block : Nat
  deriving DecidableEq, Repr

/-- The state the driver runs in: the world behind `smsa_client_operation`,
the cache globals, the heap (`mem p` is the 256-byte buffer at address `p`,
`brk` the next address `malloc` hands out) and the driver globals `head`,
`cache_hits`, `disk_reads`. -/
structure Driver where
  world : World
  cache : Cache
  mem : Nat → Block
  brk : Nat
  head : HEAD
  cache_hits : Nat
  disk_reads : Nat

/-- The state at program start: nothing mounted, no cache, heap contents
`mem`. -/
def Driver.boot (faults : List Bool) (mem : Nat → Block) : Driver :=
  { world := World.boot faults, cache := Cache.boot, mem := mem, brk := 0,
    head := ⟨0, 0⟩, cache_hits := 0, disk_reads := 0 }

/-- The function `checkForErrors`: 1 for the error sources 1 to 11 (case 4
falls through to case 5), 0 otherwise. -/
def checkForErrors (err : Nat) : Nat :=
  if 1 ≤ err ∧ err ≤ 11 then 1 else 0

/-- The function `generateOPCommand`: the command word (the return code is
always 0). -/
def generateOPCommand (opcode drumID reserved blockID : Nat) : Nat :=
  u32 (u32 (opcode <<< 26) ||| (u8 drumID <<< 22) ||| u32 (reserved <<< 8) ||| u16 blockID)

/-- The function `setDrumHead`. -/
def setDrumHead (drumID : Nat) (d : Driver) : Exec (Nat × Driver) := do
  let command := generateOPCommand SMSA_SEEK_DRUM drumID 0 0
  let (err, _, w) ← smsa_client_operation command (fun _ => 0) d.world
  let d := { d with world := w, head := { d.head with drum := u8 drumID } }
  if checkForErrors err = 1 then pure (6, d) else pure (0, d)

/-- The function `setBlockHead`. -/
def setBlockHead (blockID : Nat) (d : Driver) : Exec (Nat × Driver) := do
  let command := generateOPCommand SMSA_SEEK_BLOCK 0 0 blockID
  let (err, _, w) ← smsa_client_operation command (fun _ => 0) d.world
  let d := { d with world := w, head := { d.head with block := u16 blockID } }
  if checkForErrors err = 1 then pure (7, d) else pure (0, d)

/-- The function `seekIfNeedTo`: the results of `setDrumHead` and
`setBlockHead` are dropped, the local `err` stays 0. -/
def seekIfNeedTo (currentDrum currentBlock : Nat) (d : Driver) : Exec (Nat × Driver) := do
  let err := 0
  let d ←
    if currentDrum ≠ d.head.drum then do
      let r ← setDrumHead currentDrum d
      pure { r.2 with head := { r.2.head with block := 0 } }
    else pure d
  let d ←
    if currentBlock ≠ d.head.block then do
      let r ← setBlockHead currentBlock d
      pure r.2
    else pure d
  if checkForErrors err = 1 then pure (5, d) else pure (0, d)

/-- The function `readLowLevel` on the buffer at address `buffer`. -/
def readLowLevel (buffer : Nat) (d : Driver) : Exec (Nat × Driver) := do
  let command := generateOPCommand SMSA_DISK_READ 0 0 0
  let (err, blk, w) ← smsa_client_operation command (d.mem buffer) d.world
  let d := { d with world := w, mem := fun p => if p = buffer then blk else d.mem p,
                    head := { d.head with block := u16 (d.head.block + 1) } }
  if checkForErrors err = 1 then pure (4, d) else pure (0, d)

/-- The function `writeLowLevel` on the buffer at address `buffer`. -/
def writeLowLevel (buffer : Nat) (d : Driver) : Exec (Nat × Driver) := do
  let command := generateOPCommand SMSA_DISK_WRITE 0 0 0
  let (err, blk, w) ← smsa_client_operation command (d.mem buffer) d.world
  let d := { d with world := w, mem := fun p => if p = buffer then blk else d.mem p,
                    head := { d.head with block := u16 (d.head.block + 1) } }
  if checkForErrors err = 1 then pure (3, d) else pure (0, d)

/-- The function `findMemCpyBounds`: `(lowerBound, upperBound)` (the return
code is always 0). -/
def findMemCpyBounds (p : DiskBlockParameters) (currentDrum currentBlock : Nat) : Nat × Nat :=
  if p.diskStart = p.diskEnd ∧ p.blockStart = p.blockEnd then (p.byteStart, u32 (p.byteEnd + 1))
  else if currentDrum = p.diskStart ∧ currentBlock = p.blockStart then
    (p.byteStart, SMSA_BLOCK_SIZE)
  else if currentDrum = p.diskEnd ∧ currentBlock = p.blockEnd then (0, u32 (p.byteEnd + 1))
  else (0, SMSA_BLOCK_SIZE)

/-- The loop test of `smsa_vread` and `smsa_vwrite`. -/
def loopDone (p : DiskBlockParameters) (currentDrum currentBlock : Nat) : Bool :=
  (currentDrum = p.diskEnd ∧ currentBlock = p.blockEnd + 1)
    ∨ (currentDrum = p.diskEnd + 1 ∧ currentBlock = 0)

/-- The cursor step at the end of a loop round: `currentBlock++` and the move
to the next drum at block 256. -/
def nextCursor (currentDrum currentBlock : Nat) : Nat × Nat :=
  let currentBlock := u16 (currentBlock + 1)
  if currentBlock = SMSA_BLOCK_SIZE then (u8 (currentDrum + 1), 0)
  else (currentDrum, currentBlock)

/-- The function `smsa_vmount`. -/
def smsa_vmount (cache_size : Nat) (d : Driver) : Exec (Nat × Driver) := do
  let err := 0
  let command := generateOPCommand SMSA_MOUNT 0 0 0
  let (r, _, w) ← smsa_client_operation command (fun _ => 0) d.world
  let d := { d with world := w }
  if r ≠ 0 then pure (1, d)
  else
    let (r, c) := smsa_init_cache cache_size
    let d := { d with cache := c }
    if r ≠ 0 then pure (1, d)
    else
      let d := { d with head := ⟨0, 0⟩, cache_hits := 0, disk_reads := 0 }
      pure (checkForErrors err, d)

/-- The function `smsa_vunmount`.  The block opened by
`if ( smsa_client_operation(..) ) {` closes only after the call of
`smsa_close_cache`, which therefore sits behind `return 1`. -/
def smsa_vunmount (d : Driver) : Exec (Nat × Driver) := do
  let err := 0
  let command := generateOPCommand SMSA_UNMOUNT 0 0 0
  let (r, _, w) ← smsa_client_operation command (fun _ => 0) d.world
  let d := { d with world := w }
  if r ≠ 0 then pure (1, d)
  else pure (checkForErrors err, d)

/-- The `while` loop of `smsa_vread`, at most `fuel` rounds: return code, the
caller's buffer and the state. -/
def vreadLoop (p : DiskBlockParameters) :
    Nat → Nat → Nat → Nat → Nat → Block → Driver → Exec (Nat × Block × Driver)
  | 0, _, _, _, _, _, _ => throw Fault.diverges
  | fuel + 1, err, currentDrum, currentBlock, bufferIndex, buf, d =>
    if loopDone p currentDrum currentBlock then pure (checkForErrors err, buf, d)
    else do
      let temp := d.brk
      let d := { d with brk := d.brk + 1 }
      let (cacheLine, c) ← smsa_get_cache_line currentDrum currentBlock d.cache
      let d := { d with cache := c }
      let (err, temp, d) ←
        match cacheLine with
        | none => do
          let (err, d) ← readLowLevel temp d
          let (err, c) ← smsa_put_cache_line currentDrum currentBlock (some temp) d.cache
          pure (err, temp, { d with cache := c, disk_reads := d.disk_reads + 1 })
        | some q => pure (err, q, { d with cache_hits := d.cache_hits + 1 })
      let (lowerBound, upperBound) := findMemCpyBounds p currentDrum currentBlock
      let err := 0
      let n := u32 (upperBound + 4294967296 - lowerBound)
      if lowerBound + n > SMSA_BLOCK_SIZE then throw Fault.outOfBounds
      else
        let buf := memcpy buf bufferIndex (d.mem temp) lowerBound n
        let bufferIndex := bufferIndex + n
        if checkForErrors err = 1 then pure (1, buf, d)
        else
          let (currentDrum, currentBlock) := nextCursor currentDrum currentBlock
          let (err, d) ← seekIfNeedTo currentDrum currentBlock d
          vreadLoop p fuel err currentDrum currentBlock bufferIndex buf d

/-- The number of cursor positions `(currentDrum, currentBlock)` plus one: a
loop that has not met its exit test after that many rounds never does. -/
def loopFuel : Nat := 65537

/-- The function `smsa_vread`: return code, the caller's buffer and the state. -/
def smsa_vread (addr len : Nat) (buf : Block) (d : Driver) : Exec (Nat × Block × Driver) := do
  let (err, p) := getDiskBlockParameters addr len
  let currentDrum := p.diskStart
  let currentBlock := p.blockStart
  let (err, d) ← seekIfNeedTo currentDrum currentBlock d
  vreadLoop p loopFuel err currentDrum currentBlock 0 buf d

/-- The `while` loop of `smsa_vwrite`, at most `fuel` rounds: return code and
the state. -/
def vwriteLoop (p : DiskBlockParameters) (buf : Block) :
    Nat → Nat → Nat → Nat → Nat → Driver → Exec (Nat × Driver)
  | 0, _, _, _, _, _ => throw Fault.diverges
  | fuel + 1, err, currentDrum, currentBlock, bufferIndex, d =>
    if loopDone p currentDrum currentBlock then pure (checkForErrors err, d)
    else do
      let temp := d.brk
      let d := { d with brk := d.brk + 1 }
      let (lowerBound, upperBound) := findMemCpyBounds p currentDrum currentBlock
      let err := 0
      let (err, temp, d) ←
        if ¬ (lowerBound = 0 ∧ upperBound = SMSA_BLOCK_SIZE) then do
          let (cacheLine, c) ← smsa_get_cache_line currentDrum currentBlock d.cache
          let d := { d with cache := c }
          match cacheLine with
          | none => do
            let (err, d) ← readLowLevel temp d
            pure (err, temp, { d with disk_reads := d.disk_reads + 1 })
          | some q => pure (err, q, { d with cache_hits := d.cache_hits + 1 })
        else pure (err, temp, d)
      let n := u32 (upperBound + 4294967296 - lowerBound)
      if lowerBound + n > SMSA_BLOCK_SIZE then throw Fault.outOfBounds
      else
        let d := { d with mem := fun q =>
          if q = temp then memcpy (d.mem temp) lowerBound buf bufferIndex n else d.mem q }
        let bufferIndex := bufferIndex + n
        let (err, d) ← setBlockHead currentBlock d
        let (err, d) ← writeLowLevel temp d
        let (err, c) ← smsa_put_cache_line currentDrum currentBlock (some temp) d.cache
        let d := { d with cache := c }
        if checkForErrors err = 1 then pure (1, d)
        else
          let (currentDrum, currentBlock) := nextCursor currentDrum currentBlock
          let (err, d) ← seekIfNeedTo currentDrum currentBlock d
          vwriteLoop p buf fuel err currentDrum currentBlock bufferIndex d

/-- The function `smsa_vwrite`: return code and the state. -/
def smsa_vwrite (addr len : Nat) (buf : Block) (d : Driver) : Exec (Nat × Driver) := do
  let (err, p) := getDiskBlockParameters addr len
  let currentDrum := p.diskStart
  let currentBlock := p.blockStart
  let (err, d) ← seekIfNeedTo currentDrum currentBlock d
  vwriteLoop p buf loopFuel err currentDrum currentBlock 0 d

/-! ## Call sequences and the flat-array view -/

/-- A call of the virtual read/write interface; a read starts from a zeroed
caller buffer. -/
inductive Call where
  | vread (addr len : Nat)
  | vwrite (addr len : Nat) (buf : Block)

/-- What the caller observes of a call: the return code and, for a read, the
first `len` bytes of its buffer. -/
structure Reply where
  ret : Nat
  data : List Nat
  deriving DecidableEq, Repr

/-- The bytes `buf[0..len)`. -/
def bytesOf (buf : Block) (len : Nat) : List Nat :=
  (List.range len).map buf

/-- One call on the driver. -/
def stepCall (c : Call) (d : Driver) : Exec (Reply × Driver) :=
  match c with
  | Call.vread addr len => do
    let (r, out, d) ← smsa_vread addr len (fun _ => 0) d
    pure (⟨r, bytesOf out len⟩, d)
  | Call.vwrite addr len buf => do
    let (r, d) ← smsa_vwrite addr len buf d
    pure (⟨r, []⟩, d)

/-- A sequence of calls on the driver, with every reply in order. -/
def runCalls : List Call → Driver → Exec (List Reply × Driver)
  | [], d => pure ([], d)
  | c :: cs, d => do
    let (r, d) ← stepCall c d
    let (rs, d) ← runCalls cs d
    pure (r :: rs, d)

/-- A call is in range: `len >= 1` and `addr + len <= 1048576`. -/
def Call.inRange : Call → Prop
  | Call.vread addr len => 1 ≤ len ∧ addr + len ≤ MAX_SMSA_VIRTUAL_ADDRESS
  | Call.vwrite addr len _ => 1 ≤ len ∧ addr + len ≤ MAX_SMSA_VIRTUAL_ADDRESS

instance (c : Call) : Decidable c.inRange := by
  cases c <;> unfold Call.inRange <;> exact inferInstance

/-- The flat array of the specification: "a linear byte-addressable
interface", 1048576 bytes, where a write of `buf` at `[addr, addr+len)`
overwrites that range and a read returns it. -/
def flatStep (c : Call) (arr : Nat → Nat) : Reply × (Nat → Nat) :=
  match c with
  | Call.vread addr len => (⟨0, bytesOf (fun i => arr (addr + i)) len⟩, arr)
  | Call.vwrite addr len buf =>
    (⟨0, []⟩, fun x => if addr ≤ x ∧ x < addr + len then buf (x - addr) else arr x)

/-- A sequence of calls on the flat array. -/
def flatRun : List Call → (Nat → Nat) → List Reply × (Nat → Nat)
  | [], arr => ([], arr)
  | c :: cs, arr =>
    let (r, arr) := flatStep c arr
    let (rs, arr) := flatRun cs arr
    (r :: rs, arr)

/-- The driver right after `smsa_vmount(cache_size)` at program start, over a
transport with the given failure schedule. -/
def mountedOver (faults : List Bool) (cache_size : Nat) : Exec Driver := do
  let (_, d) ← smsa_vmount cache_size (Driver.boot faults (fun _ _ => 0))
  pure d

/-- The driver right after `smsa_vmount(cache_size)` at program start, over a
transport that never fails. -/
def mounted (cache_size : Nat) : Exec Driver :=
  mountedOver [] cache_size

/-- The replies of a call sequence issued right after `smsa_vmount`. -/
def replies (cache_size : Nat) (cs : List Call) : Exec (List Reply) := do
  let d ← mounted cache_size
  let (rs, _) ← runCalls cs d
  pure rs

/-- The driver state after a call sequence issued right after `smsa_vmount`. -/
def stateAfter (faults : List Bool) (cache_size : Nat) (cs : List Call) : Exec Driver := do
  let d ← mountedOver faults cache_size
  let (_, d) ← runCalls cs d
  pure d

/-- The byte the device holds for virtual address `addr`. -/
def deviceByte (d : Driver) (addr : Nat) : Nat :=
  d.world.dev.disk (addr / SMSA_DISK_SIZE) (addr % SMSA_DISK_SIZE)

/-- The commands the device has received so far, oldest first. -/
def commands (d : Driver) : List Nat :=
  d.world.trace

/-- A call of the cache interface. -/
inductive CacheOp where
  | put (drm blk : Nat) (buf : Ptr)
  | get (drm blk : Nat)

/-- What a cache call returns: the status of a put, the pointer of a get. -/
inductive CacheReply where
  | status (r : Nat)
  | line (p : Ptr)
  deriving DecidableEq, Repr

/-- One call on the cache. -/
def stepCache (op : CacheOp) (c : Cache) : Exec (CacheReply × Cache) :=
  match op with
  | CacheOp.put drm blk buf => do
    let (r, c) ← smsa_put_cache_line drm blk buf c
    pure (CacheReply.status r, c)
  | CacheOp.get drm blk => do
    let (p, c) ← smsa_get_cache_line drm blk c
    pure (CacheReply.line p, c)

/-- A sequence of calls on the cache, with every reply in order. -/
def runCache : List CacheOp → Cache → Exec (List CacheReply × Cache)
  | [], c => pure ([], c)
  | op :: ops, c => do
    let (r, c) ← stepCache op c
    let (rs, c) ← runCache ops c
    pure (r :: rs, c)

/-- The replies and the counters `(hits, misses)` of a call sequence issued
right after `smsa_init_cache(lines)`. -/
def cacheReplies (lines : Nat) (ops : List CacheOp) : Exec (List CacheReply × Nat × Nat) := do
  let (rs, c) ← runCache ops (smsa_init_cache lines).2
  pure (rs, c.hits, c.misses)

/-- The allocated lines of the cache array, `cache[0]` first. -/
def cacheLines (c : Cache) : List SMSA_CACHE_LINE :=
  (List.range c.maxIndex.toNat).map (fun (j : Nat) => c.arr (j : Int))

/-- The cache globals after a call sequence issued right after
`smsa_init_cache(lines)`. -/
def cacheAfter (lines : Nat) (ops : List CacheOp) : Exec Cache := do
  let (_, c) ← runCache ops (smsa_init_cache lines).2
  pure c

/-! ## Auxiliary notions for the general cache theorems -/

/-- The array in which the first `j` slots hold `e 0 .. e (j-1)` and every other
slot is still zeroed. -/
def filled (e : Nat → SMSA_CACHE_LINE) (j : Nat) : Int → SMSA_CACHE_LINE :=
  fun i => if 0 ≤ i ∧ i < (j : Int) then e i.toNat else ⟨0, 0, none⟩

/-- The cache globals after the lines `e 0 .. e (j-1)` were inserted into a
fresh cache of `cap` lines (`j <= cap`). -/
def fillState (cap : Nat) (e : Nat → SMSA_CACHE_LINE) (j : Nat) : Cache :=
  { alloc := true, arr := filled e j,
    currentIndex := if j < cap then (j : Int) else (cap : Int) - 1,
    maxIndex := (cap : Int), misses := 0, hits := 0 }

/-- The calls that insert the lines `e 0 .. e (n-1)` in order. -/
def insertOps (e : Nat → SMSA_CACHE_LINE) (n : Nat) : List CacheOp :=
  (List.range n).map (fun i => CacheOp.put (e i).drum (e i).block (e i).line)

/-- The array after every line moved down by one position and `x` was placed
in the last of `cap` slots. -/
def rotated (cap : Int) (f : Int → SMSA_CACHE_LINE) (x : SMSA_CACHE_LINE) :
    Int → SMSA_CACHE_LINE :=
  fun t => if t = cap - 1 then x
    else if 0 ≤ t ∧ t < cap - 1 then f (t + 1) else f t

/-- The sample lines `A, B, C, D, ..`: line `i` has key `(0, i + 1)` and the
buffer address `i + 10`. -/
def sampleLine (i : Nat) : SMSA_CACHE_LINE := ⟨0, i + 1, some (i + 10)⟩

/-- The calls of the least-recently-used scenario for a cache of `c` lines:
insert `e 0 .. e (c-1)`, look up the key of `e 0`, insert `e c`. -/
def lruOps (e : Nat → SMSA_CACHE_LINE) (c : Nat) : List CacheOp :=
  insertOps e c ++ [CacheOp.get (e 0).drum (e 0).block,
    CacheOp.put (e c).drum (e c).block (e c).line]

/-- Whether every command word of a list is a seek-drum or a seek-block
command. -/
def onlySeekCommands (ws : List Nat) : Bool :=
  ws.all (fun w => SMSA_OPCODE w = SMSA_SEEK_DRUM ∨ SMSA_OPCODE w = SMSA_SEEK_BLOCK)

/-- The frame of a driver step that only seeks: the cache, the heap, the
counters and the contents of the drums are those of `d`, and the device
received the commands `ws`, all of them seeks, after those it had received. -/
def seekFrame (d e : Driver) (ws : List Nat) : Prop :=
  e.cache = d.cache ∧ e.mem = d.mem ∧ e.brk = d.brk ∧ e.cache_hits = d.cache_hits
    ∧ e.disk_reads = d.disk_reads ∧ e.world.dev.disk = d.world.dev.disk
    ∧ e.world.trace = d.world.trace ++ ws ∧ onlySeekCommands ws = true

/-- The driver state after `smsa_vmount(4)` and `smsa_vread(256, 1)` with a
working transport: block (0,1) is stored in the cache.  (The run does not
fault; the start state stands in for the fault case.) -/
def warmDriver : Driver :=
  match stateAfter [] 4 [Call.vread 256 1] with
  | Except.ok d => d
  | Except.error _ => Driver.boot [] (fun _ _ => 0)

/-! ## More of the device library (`smsa.c`) and its unit test -/

/-- The function `encode_SMSA_operation`: the command word (0 on failure) and
the new `smsa_error_number`.  `did` arrives as `SMSA_DRUM_ID` (8 bits) and
`bid` as `SMSA_BLOCK_ID` (16 bits). -/
def encode_SMSA_operation (cmd did bid : Nat) (errno : Nat) : Nat × Nat :=
  if cmd ≥ SMSA_MAX_COMMAND then (0, SMSA_BAD_OPCODE)
  else if u8 did ≥ SMSA_DISK_ARRAY_SIZE then (0, SMSA_BAD_DRUM_ID)
  else if u16 bid ≥ SMSA_MAX_BLOCK_ID then (0, SMSA_BAD_BLOCK_ID)
  else (u32 (u32 (u32 (0 ||| u32 (cmd <<< 26)) ||| u32 (u8 did <<< 22)) ||| u16 bid), errno)

/-- The table `smsa_error_text`: twelve entries, indices 0 to 11. -/
def smsa_error_text : List String :=
  ["SMSA_NO_ERROR", "SMSA_UNMOUNTED_DISK", "SMSA_ILLEGAL_DRUM", "SMSA_DISK_CACHELOAD_FAIL",
   "SMSA_DISK_CACHEWRITE_FAIL", "SMSA_BAD_OPCODE", "SMSA_BAD_DRUM_ID", "SMSA_BAD_BLOCK_ID",
   "SMSA_BAD_READ", "SMSA_BAD_WRITE", "SMSA_SIG_FAIL", "UNKNOW ERROR"]

/-- The enumerator `SMSA_NET_ERROR`. -/
def SMSA_NET_ERROR : Nat := 11

/-- The enumerator `SMSA_MAX_ERRNO`. -/
def SMSA_MAX_ERRNO : Nat := 12

/-- Reading `smsa_error_text[i]`: an index outside the table is a fault. -/
def smsa_error_text_at (i : Nat) : Exec String :=
  match smsa_error_text.get? i with
  | some s => pure s
  | none => throw Fault.outOfBounds

/-- The function `smsa_error_string`. -/
def smsa_error_string (eno : Int) : Exec String :=
  if eno < 0 ∨ eno ≥ (SMSA_MAX_ERRNO : Int) then smsa_error_text_at SMSA_MAX_ERRNO
  else smsa_error_text_at eno.toNat

/-- The function `test_disk_block` of the unit test: 256 bytes, all equal to
`did ^ bid` (stored as `unsigned char`). -/
def test_disk_block (did bid : Nat) : Block :=
  fun _ => u8 (u8 did ^^^ u16 bid)

/-- A sequence of `smsa_operation` calls, each with its own block buffer: the
statics after the last call. -/
def runOperations : List (Nat × Block) → Device → Exec Device
  | [], s => pure s
  | (op, blk) :: rest, s => do
    let (_, _, s) ← smsa_operation op blk s
    runOperations rest s

/-- The statics after a sequence of `smsa_operation` calls issued from program
start. -/
def deviceAfter (ops : List (Nat × Block)) : Exec Device :=
  runOperations ops Device.boot

/-- The command word `encode_SMSA_operation(cmd, did, bid)` as the unit test
passes it on. -/
def testOp (cmd did bid : Nat) : Nat :=
  (encode_SMSA_operation cmd did bid 0).1

/-- Phase 1 of `smsa_unit_test` and the unmount and mount that follow it:
mount, a seek to each drum, then for each drum a seek and 256 block writes of
`test_disk_block(i, j)`, then unmount and mount. -/
def unitTestWrites : List (Nat × Block) :=
  [(testOp SMSA_MOUNT 0 0, fun _ => 0)]
    ++ (List.range SMSA_DISK_ARRAY_SIZE).map (fun i => (testOp SMSA_SEEK_DRUM i 0, fun _ => 0))
    ++ (List.range SMSA_DISK_ARRAY_SIZE).flatMap (fun i =>
        (testOp SMSA_SEEK_DRUM i 0, fun _ => 0)
          :: (List.range SMSA_MAX_BLOCK_ID).map (fun j =>
              (testOp SMSA_DISK_WRITE 0 0, test_disk_block i j)))
    ++ [(testOp SMSA_UNMOUNT 0 0, fun _ => 0), (testOp SMSA_MOUNT 0 0, fun _ => 0)]

/-- One comparison of phase 2 of `smsa_unit_test` on the statics `s`: seek to
drum `i`, seek to block `j`, read into `blk2`; the result codes of the three
calls and the block read. -/
def unitTestRead (i j : Nat) (blk2 : Block) (s : Device) : Exec (Int × Int × Int × Block) := do
  let (r1, _, s) ← smsa_operation (testOp SMSA_SEEK_DRUM i 0) (fun _ => 0) s
  let (r2, _, s) ← smsa_operation (testOp SMSA_SEEK_BLOCK 0 j) (fun _ => 0) s
  let (r3, blk, _) ← smsa_operation (testOp SMSA_DISK_READ 0 0) blk2 s
  pure (r1, r2, r3, blk)

/-- The statics `s` with `smsa_error_number` set to `e`. -/
def Device.withError (s : Device) (e : Nat) : Device :=
  { s with smsa_error_number := e }

/-- What holds of the statics at every point of a run: before the first call
of `smsa_operation` the array is not mounted, and while the array is not
mounted both heads are 0. -/
def Device.Consistent (s : Device) : Prop :=
  (s.smsa_library_initialized = false → s.smsa_mount_state = false)
    ∧ (s.smsa_mount_state = false → s.smsa_drum_head = 0 ∧ s.smsa_read_head = 0)

/-- The function `findMemCpyBounds` with its return code: the return code,
`*lowerBound` and `*upperBound`.  The function ends in `return 0`. -/
def findMemCpyBoundsResult (p : DiskBlockParameters) (currentDrum currentBlock : Nat) :
    Nat × Nat × Nat :=
  (0, findMemCpyBounds p currentDrum currentBlock)

/-- The copy bounds in the words of the specification: `(byteStart, byteEnd+1)`
when start and end are the same block; otherwise `(byteStart, 256)` when the
cursor is the start block; otherwise `(0, byteEnd+1)` when the cursor is the
end block; otherwise `(0, 256)`. -/
def specCopyBounds (p : DiskBlockParameters) (currentDrum currentBlock : Nat) : Nat × Nat :=
  if p.diskStart = p.diskEnd ∧ p.blockStart = p.blockEnd then (p.byteStart, p.byteEnd + 1)
  else if currentDrum = p.diskStart ∧ currentBlock = p.blockStart then (p.byteStart, 256)
  else if currentDrum = p.diskEnd ∧ currentBlock = p.blockEnd then (0, p.byteEnd + 1)
  else (0, 256)

/-- The statics with which `smsa_operation` enters its `switch`: the error
number is the one `decode_SMSA_operation` left, the first call of the library
resets the mount state and the error number, and every call adds the cycle
cost of the decoded command. -/
def smsa_operation_enter (dop : SMSA_OPERATION) (errno : Nat) (s : Device) : Device :=
  let s := { s with smsa_error_number := errno }
  let s := if s.smsa_library_initialized = false
    then { s with smsa_mount_state := false, smsa_error_number := SMSA_NO_ERROR,
                  smsa_library_initialized := true }
    else s
  { s with smsa_cycle_count :=
    (((s.smsa_cycle_count : Int) + operation_cycle_cost s dop.cmd dop.did dop.bid)
      % 18446744073709551616).toNat }

/-- The `switch (dop.cmd)` of `smsa_operation` for a command below 9. -/
def smsa_operation_switch (dop : SMSA_OPERATION) (block : Block) (s : Device) :
    Exec (Int × Block × Device) :=
  if dop.cmd = SMSA_MOUNT then
    let r := SMSAMountArray s
    pure (r.1, block, r.2)
  else if dop.cmd = SMSA_UNMOUNT then
    let r := SMSAUnmountArray s
    pure (r.1, block, r.2)
  else if dop.cmd = SMSA_SEEK_DRUM then
    let r := SMSASeekDrum dop.did s
    pure (r.1, block, r.2)
  else if dop.cmd = SMSA_SEEK_BLOCK then
    let r := SMSASeekBlock dop.bid s
    pure (r.1, block, r.2)
  else if dop.cmd = SMSA_DISK_READ then SMSAReadBlock block s
  else if dop.cmd = SMSA_DISK_WRITE then do
    let r ← SMSAWriteBlock block s
    pure (r.1, block, r.2)
  else if dop.cmd = SMSA_GET_STATE then pure (0, block, s)
  else if dop.cmd = SMSA_FORMAT_DRUM then
    let r := SMSAFormatDrum s
    pure (r.1, block, r.2)
  else pure (0, block, s)

/-! ## The packets of the client (`smsa_client.c`) on a little-endian host -/

/-- The constant `SMSA_NET_HEADER_SIZE`:
`sizeof(uint16_t)+sizeof(uint32_t)+sizeof(uint16_t)`. -/
def SMSA_NET_HEADER_SIZE : Nat := 8

/-- Conversion of an `int16_t` value to `uint16_t`. -/
def u16OfInt (x : Int) : Nat := (x % 65536).toNat

/-- Conversion of a `uint16_t` value to `int16_t` (two's complement). -/
def i16 (n : Nat) : Int :=
  if u16 n < 32768 then (u16 n : Int) else (u16 n : Int) - 65536

/-- The functions `htons` and `ntohs` of a little-endian host: the argument is
converted to `uint16_t` and its two bytes are swapped. -/
def htons (x : Nat) : Nat := (u16 x % 256) * 256 + u16 x / 256

/-- The functions `htonl` and `ntohl` of a little-endian host: the argument is
converted to `uint32_t` and its four bytes are reversed. -/
def htonl (x : Nat) : Nat :=
  (u32 x % 256) * 16777216 + (u32 x / 256 % 256) * 65536 + (u32 x / 65536 % 256) * 256
    + u32 x / 16777216

/-- The `n` bytes that an unsigned object of value `v` occupies in memory on a
little-endian host, lowest address first. -/
def objectBytes : Nat → Nat → List Nat
  | 0, _ => []
  | n + 1, v => (v % 256) :: objectBytes n (v / 256)

/-- The value of an unsigned object given its bytes in memory on a
little-endian host, lowest address first. -/
def objectValue : List Nat → Nat
  | [] => 0
  | b :: bs => b + 256 * objectValue bs

/-- `memcpy(&dst[off], src, n)` where `src` is given by its `n` bytes. -/
def storeBytes (dst : Block) (off : Nat) (src : List Nat) : Block :=
  fun i => if off ≤ i ∧ i < off + src.length then src.getD (i - off) 0 else dst i

/-- The bytes `src[off .. off+n)`. -/
def loadBytes (src : Block) (off n : Nat) : List Nat :=
  (List.range n).map (fun (i : Nat) => src (off + i))

/-- The function `sendPacket`: the `bufIndex` bytes of `buf` that it hands to
`sendBytes`.  `block` is `none` for `NULL`; `buf0` is what the local array
`buf` holds on entry.  `len` is a `uint32_t`, so `memcpy(.., &len, sizeof(len))`
copies four bytes, of which the opcode then overwrites the last two. -/
def sendPacket (op : Nat) (ret : Int) (block : Option Block) (buf0 : Block) : List Nat :=
  let len := SMSA_NET_HEADER_SIZE
  let len := if block.isSome then u32 (len + SMSA_BLOCK_SIZE) else len
  let len := htons len
  let op := htonl op
  let ret := i16 (htons (u16OfInt ret))
  let bufIndex := 0
  let buf := storeBytes buf0 bufIndex (objectBytes 4 len)
  let bufIndex := bufIndex + 2
  let buf := storeBytes buf bufIndex (objectBytes 4 op)
  let bufIndex := bufIndex + 2 * 2
  let buf := storeBytes buf bufIndex (objectBytes 2 (u16OfInt ret))
  let bufIndex := bufIndex + 2
  match block with
  | some b => loadBytes (memcpy buf bufIndex b 0 SMSA_BLOCK_SIZE) 0 (bufIndex + SMSA_BLOCK_SIZE)
  | none => loadBytes buf 0 bufIndex

/-- What a socket holds for the reader: the bytes that will arrive, in order,
and for each coming `read` call a bound on the bytes it returns (a `read`
returns at least one byte while bytes remain, all requested bytes once the
bounds are used up, and 0 when no byte remains: the peer closed the
connection). -/
structure Stream where
  bytes : List Nat
  chunks : List Nat

/-- One call `read(server, .., request)`: the number of bytes returned. -/
def Stream.readSize (s : Stream) (request : Nat) : Nat :=
  match s.chunks with
  | [] => min request s.bytes.length
  | c :: _ => min (min request s.bytes.length) (max c 1)

/-- The loop of `readBytes`, at most `fuel` rounds; `readBytes` is the local
counter, which every round sets to the size of the last read
(`readBytes =+ rb`).  Return code, the block and the stream. -/
def readBytesLoop (len : Nat) : Nat → Nat → Block → Stream → Exec (Nat × Block × Stream)
  | 0, _, _, _ => throw Fault.diverges
  | fuel + 1, readBytes, block, s =>
    if readBytes < len then
      let rb := s.readSize (len - readBytes)
      if rb = 0 then pure (1, block, s)
      else
        let block := storeBytes block readBytes (s.bytes.take rb)
        let s : Stream := ⟨s.bytes.drop rb, s.chunks.tail⟩
        readBytesLoop len fuel rb block s
    else pure (0, block, s)

/-- The function `readBytes`: return code, the block and the stream.  Every
round that does not return consumes at least one byte, so the loop has at most
as many rounds as the stream has bytes, plus one. -/
def readBytes (s : Stream) (len : Nat) (block : Block) : Exec (Nat × Block × Stream) :=
  readBytesLoop len (s.bytes.length + 2) 0 block s

/-- The outputs of `recievePacket`: return code, `*op`, `*ret`, `*blkSize`,
the block and the stream. -/
structure Received where
  code : Nat
  op : Nat
  ret : Int
  blkSize : Int
  block : Block
  stream : Stream

/-- The function `recievePacket` of `smsa_client.c` on a byte stream.  `op`,
`ret`, `blkSize` and `block` are what the caller's objects hold on entry,
`len0` and `header0` what the locals `len` and `header` hold.  The results of
`readBytes` are compared with -1, which it never returns.  `memcpy(&len,
header, 2)` sets the two bytes of `len` at the lowest addresses, `ntohs(len)`
converts to `uint16_t` first. -/
def recievePacketWire (s : Stream) (op : Nat) (ret : Int) (blkSize : Int) (block : Block)
    (len0 : Nat) (header0 : Block) : Exec Received := do
  let (_, header, s) ← readBytes s SMSA_NET_HEADER_SIZE header0
  let len := objectValue (loadBytes header 0 2 ++ (objectBytes 4 (u32 len0)).drop 2)
  let headerIndex := 0 + 2
  let len := htons len
  let op := objectValue (loadBytes header headerIndex (2 * 2))
  let headerIndex := headerIndex + 2 * 2
  let op := htonl op
  let ret := i16 (objectValue (loadBytes header headerIndex 2))
  let ret := i16 (htons (u16OfInt ret))
  if ret = 1 then pure ⟨1, op, ret, blkSize, block, s⟩
  else if len > SMSA_NET_HEADER_SIZE then do
    let (_, block, s) ← readBytes s (len - SMSA_NET_HEADER_SIZE) block
    pure ⟨0, op, ret, ((len - SMSA_NET_HEADER_SIZE : Nat) : Int), block, s⟩
  else pure ⟨0, op, ret, 0, block, s⟩

/-! ## The rounds of the transfer loop (`smsa_vread`, `smsa_vwrite`) -/

/-- What one round of the `while` loop of `smsa_vread` / `smsa_vwrite` works
on: the cursor, the copy bounds set by `findMemCpyBounds` and the value of
`bufferIndex` at the `memcpy`. -/
structure Round where
  currentDrum : Nat
  currentBlock : Nat
  lowerBound : Nat
  upperBound : Nat
  bufferIndex : Nat
  deriving DecidableEq, Repr

/-- The rounds of the `while` loop shared by `smsa_vread` and `smsa_vwrite`,
from the cursor `(currentDrum, currentBlock)` and the offset `bufferIndex` on,
at most `fuel` of them: the loop test, `findMemCpyBounds`, the size
`upperBound - lowerBound` of the `memcpy` (computed in `uint32_t`),
`bufferIndex += upperBound - lowerBound` and the cursor step.  The calls on
the cache and the device, which neither read nor write these variables, are
left out: these are the rounds of a run in which no such call faults or makes
the loop return 1 (the loops `vreadLoopTraced` and `vwriteLoopTraced` record
the rounds of every run).  The result is `none` when the loop test has not
held after `fuel` rounds, otherwise the rounds in order and the final
`bufferIndex`. -/
def loopRounds (p : DiskBlockParameters) : Nat → Nat → Nat → Nat → Option (List Round × Nat)
  | 0, _, _, _ => none
  | fuel + 1, currentDrum, currentBlock, bufferIndex =>
    if loopDone p currentDrum currentBlock then some ([], bufferIndex)
    else
      let bounds := findMemCpyBounds p currentDrum currentBlock
      let n := u32 (bounds.2 + 4294967296 - bounds.1)
      let next := nextCursor currentDrum currentBlock
      match loopRounds p fuel next.1 next.2 (bufferIndex + n) with
      | some (rs, fin) =>
        some (⟨currentDrum, currentBlock, bounds.1, bounds.2, bufferIndex⟩ :: rs, fin)
      | none => none

/-- The rounds of `smsa_vread(addr, len, ..)` and `smsa_vwrite(addr, len, ..)`:
the loop starts at the start block with `bufferIndex = 0`. -/
def transferRounds (addr len : Nat) : Option (List Round × Nat) :=
  loopRounds (getDiskBlockParameters addr len).2 loopFuel
    (getDiskBlockParameters addr len).2.diskStart
    (getDiskBlockParameters addr len).2.blockStart 0

/-- The linear position `drum * 256 + block` of the cursor of a round. -/
def Round.position (r : Round) : Nat :=
  r.currentDrum * 256 + r.currentBlock

/-- The round at the block of linear position `c` of the request
`(addr, len)`: the bytes of the request that lie in that block, and the
offset of the first of them in the caller's buffer. -/
def roundAt (addr len c : Nat) : Round :=
  ⟨c / 256, c % 256, addr - 256 * c, min (addr + len) (256 * (c + 1)) - 256 * c,
    256 * c - addr⟩

/-! ## Seeks, writes and a read on the device -/

/-- The calls `smsa_operation(encode_SMSA_operation(SMSA_SEEK_DRUM, d, 0), ..)`
followed by one `SMSA_DISK_WRITE` call for each block of `ws`, in order. -/
def seekAndWrite (d : Nat) (ws : List Block) : List (Nat × Block) :=
  (testOp SMSA_SEEK_DRUM d 0, fun _ => 0)
    :: ws.map (fun w => (testOp SMSA_DISK_WRITE 0 0, w))

/-- The calls `SMSA_SEEK_BLOCK` to block `j` and `SMSA_DISK_READ` into `blk2` on
the statics `s`: the two result codes, the block read and the statics
afterwards. -/
def seekAndRead (j : Nat) (blk2 : Block) (s : Device) : Exec (Int × Int × Block × Device) := do
  let (r1, _, s) ← smsa_operation (testOp SMSA_SEEK_BLOCK 0 j) (fun _ => 0) s
  let (r2, blk, s) ← smsa_operation (testOp SMSA_DISK_READ 0 0) blk2 s
  pure (r1, r2, blk, s)

/-! ## The cache against the device -/

/-- Whether the buffer of the cache line `e` holds the 256 bytes that the
device holds for block `(e.drum, e.block)`; a line without a buffer holds
nothing. -/
def lineMatchesDevice (d : Driver) (e : SMSA_CACHE_LINE) : Bool :=
  match e.line with
  | none => true
  | some p =>
    (List.range SMSA_BLOCK_SIZE).all
      (fun k => d.mem p k = d.world.dev.blockAt e.drum e.block k)

/-- Whether every line of the cache array matches the device. -/
def cacheMatchesDevice (d : Driver) : Bool :=
  (cacheLines d.cache).all (lineMatchesDevice d)

/-- The lines of the cache array, each with the first byte of its buffer (0
for a line without a buffer). -/
def cacheFirstBytes (d : Driver) : List (SMSA_CACHE_LINE × Nat) :=
  (cacheLines d.cache).map (fun e =>
    (e, match e.line with
        | some p => d.mem p 0
        | none => 0))

/-! ## Driver states for the low-level functions -/

/-- A driver whose socket is an open connection to a server whose array is
not mounted (the device rejects every seek, read and write with -1), with a
two-line cache and the tracked head at drum 3, block 7. -/
def unmountedServerDriver : Driver :=
  ⟨⟨Device.boot, fun _ => 0, [], true, []⟩, (smsa_init_cache 2).2, fun _ _ => 0, 0, ⟨3, 7⟩,
    0, 0⟩

/-- What is observed of a low-level driver call: its return code, the tracked
head, the device heads `(smsa_drum_head, smsa_read_head)`, the device's
`smsa_error_number` and the commands the device received. -/
def lowLevelView (r : Exec (Nat × Driver)) : Exec (Nat × HEAD × Nat × Nat × Nat × List Nat) :=
  r.map (fun x => (x.1, x.2.head, x.2.world.dev.smsa_drum_head, x.2.world.dev.smsa_read_head,
    x.2.world.dev.smsa_error_number, commands x.2))

/-! ## States in which every primitive succeeds -/

/-- The state of a driver for which every primitive succeeds, with the device
heads at drum `dh`, block `rh`: the socket is a connection to the server, the
transport does not fail, and the array is mounted. -/
def Driver.LiveAt (d : Driver) (dh rh : Nat) : Prop :=
  d.world.connected = true ∧ d.world.faults = []
    ∧ d.world.dev.smsa_library_initialized = true ∧ d.world.dev.smsa_mount_state = true
    ∧ d.world.dev.smsa_drum_head = dh ∧ d.world.dev.smsa_read_head = rh

/-- The state `LiveAt` in which, in addition, the tracked head equals the
device heads. -/
def Driver.SyncedAt (d : Driver) (dh rh : Nat) : Prop :=
  d.LiveAt dh rh ∧ d.head = ⟨dh, rh⟩

/-- The driver right after `smsa_vmount(2)` at program start, over a transport
that never fails.  (The mount does not fault; the start state stands in for
the fault case.) -/
def mountedDriver : Driver :=
  match mounted 2 with
  | Except.ok d => d
  | Except.error _ => Driver.boot [] (fun _ _ => 0)

/-! ## The transfer loops with a monitor on the device heads -/

/-- Whether the device heads `(smsa_drum_head, smsa_read_head)` are at the
cursor. -/
def headsAtCursor (d : Driver) (currentDrum currentBlock : Nat) : Bool :=
  d.world.dev.smsa_drum_head = currentDrum ∧ d.world.dev.smsa_read_head = currentBlock

/-- The loop of `smsa_vread` as in `vreadLoop`, with a monitor: the flag `ok`
is carried along, and right before the block read of a round is issued
(`readLowLevel`) it is cleared if the device heads are not at the cursor
`(currentDrum, currentBlock)` of the round.  The flag, the return code, the
caller's buffer and the state. -/
def vreadLoopMonitored (p : DiskBlockParameters) :
    Nat → Bool → Nat → Nat → Nat → Nat → Block → Driver → Exec (Bool × Nat × Block × Driver)
  | 0, _, _, _, _, _, _, _ => throw Fault.diverges
  | fuel + 1, ok, err, currentDrum, currentBlock, bufferIndex, buf, d =>
    if loopDone p currentDrum currentBlock then pure (ok, checkForErrors err, buf, d)
    else do
      let temp := d.brk
      let d := { d with brk := d.brk + 1 }
      let (cacheLine, c) ← smsa_get_cache_line currentDrum currentBlock d.cache
      let d := { d with cache := c }
      let (ok, err, temp, d) ←
        match cacheLine with
        | none => do
          let ok := ok && headsAtCursor d currentDrum currentBlock
          let (err, d) ← readLowLevel temp d
          let (err, c) ← smsa_put_cache_line currentDrum currentBlock (some temp) d.cache
          pure (ok, err, temp, { d with cache := c, disk_reads := d.disk_reads + 1 })
        | some q => pure (ok, err, q, { d with cache_hits := d.cache_hits + 1 })
      let (lowerBound, upperBound) := findMemCpyBounds p currentDrum currentBlock
      let err := 0
      let n := u32 (upperBound + 4294967296 - lowerBound)
      if lowerBound + n > SMSA_BLOCK_SIZE then throw Fault.outOfBounds
      else
        let buf := memcpy buf bufferIndex (d.mem temp) lowerBound n
        let bufferIndex := bufferIndex + n
        if checkForErrors err = 1 then pure (ok, 1, buf, d)
        else
          let (currentDrum, currentBlock) := nextCursor currentDrum currentBlock
          let (err, d) ← seekIfNeedTo currentDrum currentBlock d
          vreadLoopMonitored p fuel ok err currentDrum currentBlock bufferIndex buf d

/-- The function `smsa_vread` with the monitored loop. -/
def smsa_vreadMonitored (addr len : Nat) (buf : Block) (d : Driver) :
    Exec (Bool × Nat × Block × Driver) := do
  let (err, p) := getDiskBlockParameters addr len
  let currentDrum := p.diskStart
  let currentBlock := p.blockStart
  let (err, d) ← seekIfNeedTo currentDrum currentBlock d
  vreadLoopMonitored p loopFuel true err currentDrum currentBlock 0 buf d

/-- The loop of `smsa_vwrite` as in `vwriteLoop`, with a monitor: the flag `ok`
is carried along, and right before the block read of a round (`readLowLevel`)
and right before its block write (`writeLowLevel`) are issued it is cleared if
the device heads are not at the cursor `(currentDrum, currentBlock)` of the
round.  The flag, the return code and the state. -/
def vwriteLoopMonitored (p : DiskBlockParameters) (buf : Block) :
    Nat → Bool → Nat → Nat → Nat → Nat → Driver → Exec (Bool × Nat × Driver)
  | 0, _, _, _, _, _, _ => throw Fault.diverges
  | fuel + 1, ok, err, currentDrum, currentBlock, bufferIndex, d =>
    if loopDone p currentDrum currentBlock then pure (ok, checkForErrors err, d)
    else do
      let temp := d.brk
      let d := { d with brk := d.brk + 1 }
      let (lowerBound, upperBound) := findMemCpyBounds p currentDrum currentBlock
      let err := 0
      let (ok, err, temp, d) ←
        if ¬ (lowerBound = 0 ∧ upperBound = SMSA_BLOCK_SIZE) then do
          let (cacheLine, c) ← smsa_get_cache_line currentDrum currentBlock d.cache
          let d := { d with cache := c }
          match cacheLine with
          | none => do
            let ok := ok && headsAtCursor d currentDrum currentBlock
            let (err, d) ← readLowLevel temp d
            pure (ok, err, temp, { d with disk_reads := d.disk_reads + 1 })
          | some q => pure (ok, err, q, { d with cache_hits := d.cache_hits + 1 })
        else pure (ok, err, temp, d)
      let n := u32 (upperBound + 4294967296 - lowerBound)
      if lowerBound + n > SMSA_BLOCK_SIZE then throw Fault.outOfBounds
      else
        let d := { d with mem := fun q =>
          if q = temp then memcpy (d.mem temp) lowerBound buf bufferIndex n else d.mem q }
        let bufferIndex := bufferIndex + n
        let (err, d) ← setBlockHead currentBlock d
        let ok := ok && headsAtCursor d currentDrum currentBlock
        let (err, d) ← writeLowLevel temp d
        let (err, c) ← smsa_put_cache_line currentDrum currentBlock (some temp) d.cache
        let d := { d with cache := c }
        if checkForErrors err = 1 then pure (ok, 1, d)
        else
          let (currentDrum, currentBlock) := nextCursor currentDrum currentBlock
          let (err, d) ← seekIfNeedTo currentDrum currentBlock d
          vwriteLoopMonitored p buf fuel ok err currentDrum currentBlock bufferIndex d

/-- The function `smsa_vwrite` with the monitored loop. -/
def smsa_vwriteMonitored (addr len : Nat) (buf : Block) (d : Driver) :
    Exec (Bool × Nat × Driver) := do
  let (err, p) := getDiskBlockParameters addr len
  let currentDrum := p.diskStart
  let currentBlock := p.blockStart
  let (err, d) ← seekIfNeedTo currentDrum currentBlock d
  vwriteLoopMonitored p buf loopFuel true err currentDrum currentBlock 0 d

/-! ## Counters of the driver and of the cache -/

/-- The number of prior-contents fetches the driver has counted:
`cache_hits + disk_reads`. -/
def Driver.fetches (d : Driver) : Nat :=
  d.cache_hits + d.disk_reads

/-- The number of lookups the cache has counted: `hits + misses`. -/
def Driver.lookups (d : Driver) : Nat :=
  d.cache.hits + d.cache.misses

/-- Whether the copy bounds of a round do not cover the whole block, which is
the test `!( lowerBound == 0 && upperBound == SMSA_BLOCK_SIZE )` of
`smsa_vwrite`. -/
def Round.partialBlock (r : Round) : Bool :=
  ¬ (r.lowerBound = 0 ∧ r.upperBound = SMSA_BLOCK_SIZE)

/-- The counters of `e` against those of `d`: the fetches counted by the driver
and the lookups counted by the cache have both grown by `k`, and none of the
four counters `cache_hits`, `disk_reads`, `hits`, `misses` has decreased. -/
def Driver.countsGrow (d e : Driver) (k : Nat) : Prop :=
  e.fetches = d.fetches + k ∧ e.lookups = d.lookups + k
    ∧ d.cache_hits ≤ e.cache_hits ∧ d.disk_reads ≤ e.disk_reads
    ∧ d.cache.hits ≤ e.cache.hits ∧ d.cache.misses ≤ e.cache.misses

/-- The driver after `smsa_vmount(2)` and the write of 300 bytes (all 5) at
address 65500, which covers the last 36 bytes of block (0,255), all of block
(1,0) and the first 8 bytes of block (1,1).  (The write does not fault; the
state before it stands in for the fault case.) -/
def afterWrite300 : Driver :=
  match smsa_vwrite 65500 300 (fun _ => 5) mountedDriver with
  | Except.ok r => r.2
  | Except.error _ => mountedDriver

/-! ## The transfer loops with a record of their copies -/

/-- The driver right after `smsa_vmount(1)` at program start, over a transport
that never fails.  (The mount does not fault; the start state stands in for
the fault case.) -/
def oneLineDriver : Driver :=
  match mounted 1 with
  | Except.ok d => d
  | Except.error _ => Driver.boot [] (fun _ _ => 0)

/-- The loop of `smsa_vread` as in `vreadLoop`, with a record of its copies
that outlives a fault: `rounds` is carried along, and at the `memcpy` of a
round the cursor, the bounds and `bufferIndex` of that round are appended to
it.  The first component of the result is what the run has done when it ends,
however it ends (loop exit, `return 1`, or a fault in one of the calls): the
rounds whose `memcpy` was executed, in order, and the value of `bufferIndex`.
The second component is the result of the loop.  The statements of a round
before the `memcpy` and the seek after it are run as in `vreadLoop`; a fault
of either ends the run. -/
def vreadLoopTraced (p : DiskBlockParameters) :
    Nat → Nat → Nat → Nat → Nat → Block → Driver → List Round
      → (List Round × Nat) × Exec (Nat × Block × Driver)
  | 0, _, _, _, bufferIndex, _, _, rounds => ((rounds, bufferIndex), throw Fault.diverges)
  | fuel + 1, err, currentDrum, currentBlock, bufferIndex, buf, d, rounds =>
    if loopDone p currentDrum currentBlock then
      ((rounds, bufferIndex), pure (checkForErrors err, buf, d))
    else
      let temp := d.brk
      let d := { d with brk := d.brk + 1 }
      let fetched : Exec (Nat × Nat × Driver) := do
        let (cacheLine, c) ← smsa_get_cache_line currentDrum currentBlock d.cache
        let d := { d with cache := c }
        match cacheLine with
        | none => do
          let (err, d) ← readLowLevel temp d
          let (err, c) ← smsa_put_cache_line currentDrum currentBlock (some temp) d.cache
          pure (err, temp, { d with cache := c, disk_reads := d.disk_reads + 1 })
        | some q => pure (err, q, { d with cache_hits := d.cache_hits + 1 })
      match fetched with
      | Except.error e => ((rounds, bufferIndex), Except.error e)
      | Except.ok (err, temp, d) =>
        let (lowerBound, upperBound) := findMemCpyBounds p currentDrum currentBlock
        let err := 0
        let n := u32 (upperBound + 4294967296 - lowerBound)
        if lowerBound + n > SMSA_BLOCK_SIZE then
          ((rounds, bufferIndex), throw Fault.outOfBounds)
        else
          let rounds := rounds
            ++ [⟨currentDrum, currentBlock, lowerBound, upperBound, bufferIndex⟩]
          let buf := memcpy buf bufferIndex (d.mem temp) lowerBound n
          let bufferIndex := bufferIndex + n
          if checkForErrors err = 1 then ((rounds, bufferIndex), pure (1, buf, d))
          else
            let (currentDrum, currentBlock) := nextCursor currentDrum currentBlock
            match seekIfNeedTo currentDrum currentBlock d with
            | Except.error e => ((rounds, bufferIndex), Except.error e)
            | Except.ok (err, d) =>
              vreadLoopTraced p fuel err currentDrum currentBlock bufferIndex buf d rounds

/-- The function `smsa_vread` with the record of its copies: the rounds whose
`memcpy` was executed and the last value of `bufferIndex`, and the result of
`smsa_vread`. -/
def smsa_vreadTraced (addr len : Nat) (buf : Block) (d : Driver) :
    (List Round × Nat) × Exec (Nat × Block × Driver) :=
  let (err, p) := getDiskBlockParameters addr len
  let currentDrum := p.diskStart
  let currentBlock := p.blockStart
  match seekIfNeedTo currentDrum currentBlock d with
  | Except.error e => (([], 0), Except.error e)
  | Except.ok (err, d) => vreadLoopTraced p loopFuel err currentDrum currentBlock 0 buf d []

/-- The loop of `smsa_vwrite` as in `vwriteLoop`, with a record of its copies
that outlives a fault, as in `vreadLoopTraced`: at the `memcpy` of a round the
cursor, the bounds and `bufferIndex` of that round are appended to `rounds`.
The first component of the result is the rounds whose `memcpy` was executed
and the value of `bufferIndex` when the run ends, however it ends; the second
is the result of the loop. -/
def vwriteLoopTraced (p : DiskBlockParameters) (buf : Block) :
    Nat → Nat → Nat → Nat → Nat → Driver → List Round
      → (List Round × Nat) × Exec (Nat × Driver)
  | 0, _, _, _, bufferIndex, _, rounds => ((rounds, bufferIndex), throw Fault.diverges)
  | fuel + 1, err, currentDrum, currentBlock, bufferIndex, d, rounds =>
    if loopDone p currentDrum currentBlock then
      ((rounds, bufferIndex), pure (checkForErrors err, d))
    else
      let temp := d.brk
      let d := { d with brk := d.brk + 1 }
      let (lowerBound, upperBound) := findMemCpyBounds p currentDrum currentBlock
      let err := 0
      let fetched : Exec (Nat × Nat × Driver) :=
        if ¬ (lowerBound = 0 ∧ upperBound = SMSA_BLOCK_SIZE) then do
          let (cacheLine, c) ← smsa_get_cache_line currentDrum currentBlock d.cache
          let d := { d with cache := c }
          match cacheLine with
          | none => do
            let (err, d) ← readLowLevel temp d
            pure (err, temp, { d with disk_reads := d.disk_reads + 1 })
          | some q => pure (err, q, { d with cache_hits := d.cache_hits + 1 })
        else pure (err, temp, d)
      match fetched with
      | Except.error e => ((rounds, bufferIndex), Except.error e)
      | Except.ok (err, temp, d) =>
        let n := u32 (upperBound + 4294967296 - lowerBound)
        if lowerBound + n > SMSA_BLOCK_SIZE then
          ((rounds, bufferIndex), throw Fault.outOfBounds)
        else
          let rounds := rounds
            ++ [⟨currentDrum, currentBlock, lowerBound, upperBound, bufferIndex⟩]
          let d := { d with mem := fun q =>
            if q = temp then memcpy (d.mem temp) lowerBound buf bufferIndex n else d.mem q }
          let bufferIndex := bufferIndex + n
          let stored : Exec (Nat × Driver) := do
            let (err, d) ← setBlockHead currentBlock d
            let (err, d) ← writeLowLevel temp d
            let (err, c) ← smsa_put_cache_line currentDrum currentBlock (some temp) d.cache
            pure (err, { d with cache := c })
          match stored with
          | Except.error e => ((rounds, bufferIndex), Except.error e)
          | Except.ok (err, d) =>
            if checkForErrors err = 1 then ((rounds, bufferIndex), pure (1, d))
            else
              let (currentDrum, currentBlock) := nextCursor currentDrum currentBlock
              match seekIfNeedTo currentDrum currentBlock d with
              | Except.error e => ((rounds, bufferIndex), Except.error e)
              | Except.ok (err, d) =>
                vwriteLoopTraced p buf fuel err currentDrum currentBlock bufferIndex d rounds

/-- The function `smsa_vwrite` with the record of its copies: the rounds whose
`memcpy` was executed and the last value of `bufferIndex`, and the result of
`smsa_vwrite`. -/
def smsa_vwriteTraced (addr len : Nat) (buf : Block) (d : Driver) :
    (List Round × Nat) × Exec (Nat × Driver) :=
  let (err, p) := getDiskBlockParameters addr len
  let currentDrum := p.diskStart
  let currentBlock := p.blockStart
  match seekIfNeedTo currentDrum currentBlock d with
  | Except.error e => (([], 0), Except.error e)
  | Except.ok (err, d) => vwriteLoopTraced p buf loopFuel err currentDrum currentBlock 0 d []

/-- The number of rounds that claim C28 gives for the request `(addr, len)`:
`(diskEnd * 256 + blockEnd) - (diskStart * 256 + blockStart) + 1`, from the
values that `getDiskBlockParameters` stores. -/
def claimedRounds (addr len : Nat) : Nat :=
  ((getDiskBlockParameters addr len).2.diskEnd * 256
      + (getDiskBlockParameters addr len).2.blockEnd)
    - ((getDiskBlockParameters addr len).2.diskStart * 256
      + (getDiskBlockParameters addr len).2.blockStart) + 1

/-! ## Arithmetic of the bit manipulations -/

theorem and_ffff (x : Nat) : x &&& 0xffff = x % 65536 :=
  Nat.and_pow_two_sub_one_eq_mod x 16

theorem and_ff (x : Nat) : x &&& 0xff = x % 256 :=
  Nat.and_pow_two_sub_one_eq_mod x 8

theorem shr16 (x : Nat) : x >>> 16 = x / 65536 :=
  Nat.shiftRight_eq_div_pow x 16

theorem shr8 (x : Nat) : x >>> 8 = x / 256 :=
  Nat.shiftRight_eq_div_pow x 8

theorem lastAddr_eq (addr len : Nat) (hlen : 1 ≤ len)
    (h : addr + len ≤ 1048576) : lastAddr addr len = addr + len - 1 := by
  unfold lastAddr u32
  omega

/-- The closed form of `getDiskBlockParameters` on in-range requests. -/
theorem getDiskBlockParameters_eq (addr len : Nat) (hlen : 1 ≤ len)
    (h : addr + len ≤ 1048576) :
    getDiskBlockParameters addr len =
      (0, { diskStart := addr / 65536
            blockStart := addr / 256 % 256
            diskEnd := (addr + len - 1) / 65536
            blockEnd := (addr + len - 1) / 256 % 256
            byteStart := addr % 256
            byteEnd := (addr + len - 1) % 256 }) := by
  unfold getDiskBlockParameters
  rw [lastAddr_eq addr len hlen h]
  simp only [and_ffff, and_ff, shr16, shr8, u8, u16, SMSA_BLOCK_SIZE]
  have e1 : addr / 65536 % 256 = addr / 65536 := by omega
  have e2 : addr % 65536 % 65536 / 256 % 65536 = addr / 256 % 256 := by omega
  have e3 : (addr + len - 1) / 65536 % 256 = (addr + len - 1) / 65536 := by omega
  have e4 : (addr + len - 1) % 65536 % 65536 / 256 % 65536
      = (addr + len - 1) / 256 % 256 := by omega
  rw [e1, e2, e3, e4]
  have c1 : ¬ (addr / 65536 > 15 ∨ (addr + len - 1) / 65536 > 15
      ∨ addr / 256 % 256 > 256 ∨ (addr + len - 1) / 256 % 256 > 256
      ∨ addr % 256 > 256 ∨ (addr + len - 1) % 256 > 256) := by omega
  rw [if_neg c1]

/-! ## Properties of the address translation -/

/-- C4: for every in-range request (`len >= 1`, `addr + len <= 1048576`)
`getDiskBlockParameters` returns 0 and the start triple is
`(addr / 65536, (addr / 256) mod 256, addr mod 256)`, the end triple the same
decomposition of the last byte address `addr + len - 1`. -/
theorem C4_getDiskBlockParameters_decompose (addr len : Nat) (hlen : 1 ≤ len)
    (h : addr + len ≤ 1048576) :
    (getDiskBlockParameters addr len).1 = 0 ∧
    ((getDiskBlockParameters addr len).2.diskStart,
     (getDiskBlockParameters addr len).2.blockStart,
     (getDiskBlockParameters addr len).2.byteStart)
      = (addr / 65536, addr / 256 % 256, addr % 256) ∧
    ((getDiskBlockParameters addr len).2.diskEnd,
     (getDiskBlockParameters addr len).2.blockEnd,
     (getDiskBlockParameters addr len).2.byteEnd)
      = ((addr + len - 1) / 65536, (addr + len - 1) / 256 % 256,
         (addr + len - 1) % 256) := by
  rw [getDiskBlockParameters_eq addr len hlen h]
  exact ⟨rfl, rfl, rfl⟩

/-- C4 at a request that crosses a drum boundary: 300 bytes at 65500. -/
theorem C4_getDiskBlockParameters_decompose_witness :
    (1 ≤ 300 ∧ 65500 + 300 ≤ 1048576) ∧
    (getDiskBlockParameters 65500 300).1 = 0 ∧
    ((getDiskBlockParameters 65500 300).2.diskStart,
     (getDiskBlockParameters 65500 300).2.blockStart,
     (getDiskBlockParameters 65500 300).2.byteStart)
      = (65500 / 65536, 65500 / 256 % 256, 65500 % 256) ∧
    ((getDiskBlockParameters 65500 300).2.diskEnd,
     (getDiskBlockParameters 65500 300).2.blockEnd,
     (getDiskBlockParameters 65500 300).2.byteEnd)
      = ((65500 + 300 - 1) / 65536, (65500 + 300 - 1) / 256 % 256,
         (65500 + 300 - 1) % 256) :=
  ⟨by decide, C4_getDiskBlockParameters_decompose 65500 300 (by decide) (by decide)⟩

/-- C5, evaluated: the request `addr = 16777216 = 2^24`, `len = 1` addresses
a byte far beyond the array (16777216 >= 1048576), yet
`getDiskBlockParameters` returns 0: the drum number `addr >> 16 = 256` is
stored through an 8-bit `SMSA_DRUM_ID` and becomes 0 before the bounds check
`*diskStart > 15` reads it. -/
theorem C5_getDiskBlockParameters_accepts_out_of_range :
    1 ≤ 1 ∧ 16777216 < 4294967296 ∧ 1048576 ≤ 16777216 + 1 - 1 ∧
    getDiskBlockParameters 16777216 1 = (0, ⟨0, 0, 0, 0, 0, 0⟩) := by
  decide

/-- C6: for every in-range request the range computed by
`getDiskBlockParameters` is ordered (`startDrum*256+startBlock <=
endDrum*256+endBlock`, and `byteStart <= byteEnd` when start and end are the
same block), the start and end are well-formed positions, and every linear
block position `k` between start and end names a drum `k / 256` below 16 and
a block `k mod 256` below 256; both byte offsets are below 256. -/
theorem C6_range_ordered_within_geometry (addr len : Nat) (hlen : 1 ≤ len)
    (h : addr + len ≤ 1048576) :
    (getDiskBlockParameters addr len).2.diskStart * 256
        + (getDiskBlockParameters addr len).2.blockStart
      ≤ (getDiskBlockParameters addr len).2.diskEnd * 256
        + (getDiskBlockParameters addr len).2.blockEnd ∧
    ((getDiskBlockParameters addr len).2.diskStart
        = (getDiskBlockParameters addr len).2.diskEnd ∧
      (getDiskBlockParameters addr len).2.blockStart
        = (getDiskBlockParameters addr len).2.blockEnd →
      (getDiskBlockParameters addr len).2.byteStart
        ≤ (getDiskBlockParameters addr len).2.byteEnd) ∧
    ((getDiskBlockParameters addr len).2.diskStart < 16 ∧
      (getDiskBlockParameters addr len).2.blockStart < 256 ∧
      (getDiskBlockParameters addr len).2.diskEnd < 16 ∧
      (getDiskBlockParameters addr len).2.blockEnd < 256) ∧
    (∀ k, (getDiskBlockParameters addr len).2.diskStart * 256
            + (getDiskBlockParameters addr len).2.blockStart ≤ k →
          k ≤ (getDiskBlockParameters addr len).2.diskEnd * 256
            + (getDiskBlockParameters addr len).2.blockEnd →
          k / 256 < 16 ∧ k % 256 < 256) ∧
    (getDiskBlockParameters addr len).2.byteStart < 256 ∧
    (getDiskBlockParameters addr len).2.byteEnd < 256 := by
  rw [getDiskBlockParameters_eq addr len hlen h]
  refine ⟨?_, ?_, ?_, ?_, ?_, ?_⟩
  · show addr / 65536 * 256 + addr / 256 % 256
      ≤ (addr + len - 1) / 65536 * 256 + (addr + len - 1) / 256 % 256
    omega
  · show addr / 65536 = (addr + len - 1) / 65536
      ∧ addr / 256 % 256 = (addr + len - 1) / 256 % 256 →
      addr % 256 ≤ (addr + len - 1) % 256
    omega
  · show addr / 65536 < 16 ∧ addr / 256 % 256 < 256
      ∧ (addr + len - 1) / 65536 < 16 ∧ (addr + len - 1) / 256 % 256 < 256
    omega
  · intro k
    show addr / 65536 * 256 + addr / 256 % 256 ≤ k →
      k ≤ (addr + len - 1) / 65536 * 256 + (addr + len - 1) / 256 % 256 →
      k / 256 < 16 ∧ k % 256 < 256
    omega
  · show addr % 256 < 256
    omega
  · show (addr + len - 1) % 256 < 256
    omega

/-- C6 at the last byte of the array together with the 299 bytes before it. -/
theorem C6_range_ordered_within_geometry_witness :
    (1 ≤ 300 ∧ 1048276 + 300 ≤ 1048576) ∧
    ((getDiskBlockParameters 1048276 300).2.diskStart * 256
        + (getDiskBlockParameters 1048276 300).2.blockStart
      ≤ (getDiskBlockParameters 1048276 300).2.diskEnd * 256
        + (getDiskBlockParameters 1048276 300).2.blockEnd ∧
    ((getDiskBlockParameters 1048276 300).2.diskStart
        = (getDiskBlockParameters 1048276 300).2.diskEnd ∧
      (getDiskBlockParameters 1048276 300).2.blockStart
        = (getDiskBlockParameters 1048276 300).2.blockEnd →
      (getDiskBlockParameters 1048276 300).2.byteStart
        ≤ (getDiskBlockParameters 1048276 300).2.byteEnd) ∧
    ((getDiskBlockParameters 1048276 300).2.diskStart < 16 ∧
      (getDiskBlockParameters 1048276 300).2.blockStart < 256 ∧
      (getDiskBlockParameters 1048276 300).2.diskEnd < 16 ∧
      (getDiskBlockParameters 1048276 300).2.blockEnd < 256) ∧
    (∀ k, (getDiskBlockParameters 1048276 300).2.diskStart * 256
            + (getDiskBlockParameters 1048276 300).2.blockStart ≤ k →
          k ≤ (getDiskBlockParameters 1048276 300).2.diskEnd * 256
            + (getDiskBlockParameters 1048276 300).2.blockEnd →
          k / 256 < 16 ∧ k % 256 < 256) ∧
    (getDiskBlockParameters 1048276 300).2.byteStart < 256 ∧
    (getDiskBlockParameters 1048276 300).2.byteEnd < 256) :=
  ⟨by decide, C6_range_ordered_within_geometry 1048276 300 (by decide) (by decide)⟩

/-! ## The driver and the cache on concrete call sequences -/

set_option maxRecDepth 200000

/-- C1, evaluated: with a two-line cache, three in-range whole-block writes of
block (0,0) (all bytes 1, then 2, then 3) followed by a one-byte read of
address 0.  Every call returns 0, but the read delivers 2, the byte of the
second write, where the flat array holds 3: the third `smsa_put_cache_line`
matched the zeroed slot that the second one had moved in front of the entry,
so two lines carry key (0,0) and `smsa_get_cache_line` finds the older one. -/
theorem C1_vread_returns_overwritten_bytes :
    (∀ c ∈ [Call.vwrite 0 256 (fun _ => 1), Call.vwrite 0 256 (fun _ => 2),
            Call.vwrite 0 256 (fun _ => 3), Call.vread 0 1], Call.inRange c) ∧
    replies 2 [Call.vwrite 0 256 (fun _ => 1), Call.vwrite 0 256 (fun _ => 2),
               Call.vwrite 0 256 (fun _ => 3), Call.vread 0 1]
      = Except.ok [⟨0, []⟩, ⟨0, []⟩, ⟨0, []⟩, ⟨0, [2]⟩] ∧
    (flatRun [Call.vwrite 0 256 (fun _ => 1), Call.vwrite 0 256 (fun _ => 2),
              Call.vwrite 0 256 (fun _ => 3), Call.vread 0 1] (fun _ => 0)).1
      = [⟨0, []⟩, ⟨0, []⟩, ⟨0, []⟩, ⟨0, [3]⟩] :=
  ⟨by decide, rfl, rfl⟩

/-- C2, evaluated: in the state reached after `smsa_vmount(2)` and two
whole-block writes of block (0,0), `smsa_vwrite(0, 256, buf)` with all bytes 3
immediately followed by `smsa_vread(0, 256, out)` returns 0 twice, and `out`
holds 256 bytes of value 2 (the previous write), not `buf`. -/
theorem C2_write_then_read_returns_previous_write :
    replies 2 [Call.vwrite 0 256 (fun _ => 1), Call.vwrite 0 256 (fun _ => 2),
               Call.vwrite 0 256 (fun _ => 3), Call.vread 0 256]
      = Except.ok [⟨0, []⟩, ⟨0, []⟩, ⟨0, []⟩, ⟨0, List.replicate 256 2⟩] ∧
    bytesOf (fun _ => 3) 256 ≠ List.replicate 256 2 :=
  ⟨rfl, by decide⟩

/-- C3, evaluated: after `smsa_vmount(2)` and three whole-block writes of block
(0,0) the device holds 3 in bytes 0 and 1 of that block; the one-byte write
`smsa_vwrite(0, 1, [9])` then leaves 9 in byte 0 and 2 in byte 1: the bytes
outside the written range come from the stale cache line, not from the
device. -/
theorem C3_partial_write_replaces_untouched_bytes :
    (stateAfter [] 2 [Call.vwrite 0 256 (fun _ => 1), Call.vwrite 0 256 (fun _ => 2),
                      Call.vwrite 0 256 (fun _ => 3)]).map
        (fun d => (deviceByte d 0, deviceByte d 1)) = Except.ok (3, 3) ∧
    (stateAfter [] 2 [Call.vwrite 0 256 (fun _ => 1), Call.vwrite 0 256 (fun _ => 2),
                      Call.vwrite 0 256 (fun _ => 3), Call.vwrite 0 1 (fun _ => 9)]).map
        (fun d => (deviceByte d 0, deviceByte d 1)) = Except.ok (9, 2) :=
  ⟨rfl, rfl⟩

/-- C7, evaluated: after `smsa_vmount(1)`, `smsa_vwrite(0, 300, buf)` does not
complete for any `buf`: when block (0,1) is put into the one-line cache,
`evictLRU` runs with `currentIndex = 0 = maxIndex-1` and stores to
`cache[currentIndex-1]`, the element before the array. -/
theorem C7_vwrite_300_one_line_cache (buf : Block) :
    replies 1 [Call.vwrite 0 300 buf] = Except.error Fault.outOfBounds :=
  rfl

/-- The scenario of C7 with a two-line cache: the call returns 0, the device
receives seek-block 0, write, read, seek-block 1, write after the mount, and
afterwards block (0,0) holds `buf[0..256)`, bytes 0..44 of block (0,1) hold
`buf[256..300)` and bytes 44..256 of block (0,1) are still 0. -/
theorem vwrite_300_two_line_cache :
    (stateAfter [] 2 [Call.vwrite 0 300 (fun i => i % 251 + 1)]).map
        (fun d => (commands d, (List.range 512).map (deviceByte d)))
      = Except.ok
          ([0, 201326592, 335544320, 268435456, 201326593, 335544320],
           (List.range 300).map (fun i => i % 251 + 1) ++ List.replicate 212 0) :=
  rfl

/-- C8, evaluated: `getDiskBlockParameters(1048576, 1)` reports the
out-of-range error 2 (drum 16), but the code is overwritten by the result of
`seekIfNeedTo`.  After `smsa_vmount(4)` and a whole-block write of 7s to block
(0,0): `smsa_vread(1048576, 1, out)` returns 0, sends two commands to the
device (a seek and a read), stores a new cache line, moves the tracked head to
drum 16 and puts 7 into `out[0]`; `smsa_vwrite(1048576, 1, [9])` returns 0 and
changes byte 0 of the device from 7 to 9. -/
theorem C8_out_of_range_request_is_executed :
    (getDiskBlockParameters 1048576 1).1 = 2 ∧
    (do let d ← stateAfter [] 4 [Call.vwrite 0 256 (fun _ => 7)]
        let (r, out, e) ← smsa_vread 1048576 1 (fun _ => 0) d
        pure (r, out 0, commands d, commands e, d.head, e.head,
              d.cache.currentIndex, e.cache.currentIndex))
      = Except.ok (0, 7, [0, 201326592, 335544320],
          [0, 201326592, 335544320, 201326592, 268435456],
          ⟨0, 1⟩, ⟨16, 1⟩, 1, 2) ∧
    (do let d ← stateAfter [] 4 [Call.vwrite 0 256 (fun _ => 7)]
        let (r, e) ← smsa_vwrite 1048576 1 (fun _ => 9) d
        pure (r, deviceByte d 0, deviceByte e 0, (commands e).length))
      = Except.ok (0, 7, 9, 7) :=
  ⟨rfl, rfl, rfl⟩

/-- C9, evaluated: after `smsa_vmount(4)`, with `smsa_client_operation`
returning 1 for the first block read, `smsa_vread(256, 512, out)` still goes on
to the second block (a later read reaches the device) and returns 0; and with
`smsa_client_operation` returning 1 for the block write,
`smsa_vwrite(256, 256, buf)` returns 0 although the device still holds 0 at
address 256. -/
theorem C9_primitive_failure_is_not_reported :
    (do let d ← mountedOver [false, false, true] 4
        let (r, _, e) ← smsa_vread 256 512 (fun _ => 0) d
        pure (r, commands e))
      = Except.ok (0, [0, 201326593, 268435456]) ∧
    (do let d ← mountedOver [false, false, false, true] 4
        let (r, e) ← smsa_vwrite 256 256 (fun _ => 5) d
        pure (r, commands e, deviceByte e 256))
      = Except.ok (0, [0, 201326593, 201326593], 0) :=
  ⟨rfl, rfl⟩

/-- C10, evaluated: after `smsa_init_cache(2)` and three calls of
`smsa_put_cache_line` for key (0,0) with the buffers 10, 20 and 30 (all
non-null), `smsa_get_cache_line(0,0)` returns buffer 20, not the buffer 30 of
the most recent put (hits becomes 1, misses stays 0). -/
theorem C10_get_returns_older_buffer :
    cacheReplies 2 [CacheOp.put 0 0 (some 10), CacheOp.put 0 0 (some 20),
                    CacheOp.put 0 0 (some 30), CacheOp.get 0 0]
      = Except.ok ([CacheReply.status 0, CacheReply.status 0, CacheReply.status 0,
                    CacheReply.line (some 20)], 1, 0) :=
  rfl

/-! ## Cache, unmount and client on concrete inputs -/

/-- C11, evaluated: right after `smsa_init_cache(2)` no key is stored, yet
`smsa_get_cache_line(0, 0)` does not return NULL with one more miss: the scan
`i <= currentIndex` reads the zeroed slot `cache[0]`, whose drum and block are
0, takes it for the entry and dereferences its NULL line for the log line
(the `return` after it would read `cache[currentIndex-1]`, i.e. `cache[-1]`).
A key other than (0,0) misses as claimed. -/
theorem C11_lookup_of_key_zero_in_empty_cache :
    cacheReplies 2 [CacheOp.get 0 0] = Except.error Fault.nullDeref ∧
    cacheReplies 2 [CacheOp.get 0 1] = Except.ok ([CacheReply.line none], 0, 1) :=
  ⟨rfl, rfl⟩

/-- C12, evaluated: with capacity 1 the second of two distinct keys cannot be
inserted: `writeToCache` calls `evictLRU`, which runs with
`currentIndex = 0 = maxIndex-1` and stores to `cache[currentIndex-1]`, the
element before the array. -/
theorem C12_second_insert_with_one_line :
    cacheReplies 1 [CacheOp.put 0 1 (some 10), CacheOp.put 0 2 (some 20)]
      = Except.error Fault.outOfBounds :=
  rfl

/-- C14, evaluated: capacity 3, keys (0,1) and (0,2) inserted, then a lookup
hit on (0,1): two keys are stored, fewer than the capacity.  The insert of the
new key (0,3) nevertheless evicts (0,2): the lookup moved the zeroed third
slot into the middle of the array (lines (0,2), empty, (0,1)), `writeToCache`
finds a non-null line at `currentIndex` and calls `evictLRU` (lines empty,
(0,1), (0,3)); the following lookup of (0,2) misses. -/
theorem C14_insert_below_capacity_evicts :
    (cacheAfter 3 [CacheOp.put 0 1 (some 10), CacheOp.put 0 2 (some 20),
                   CacheOp.get 0 1]).map cacheLines
      = Except.ok [⟨0, 2, some 20⟩, ⟨0, 0, none⟩, ⟨0, 1, some 10⟩] ∧
    (cacheAfter 3 [CacheOp.put 0 1 (some 10), CacheOp.put 0 2 (some 20),
                   CacheOp.get 0 1, CacheOp.put 0 3 (some 30)]).map cacheLines
      = Except.ok [⟨0, 0, none⟩, ⟨0, 1, some 10⟩, ⟨0, 3, some 30⟩] ∧
    cacheReplies 3 [CacheOp.put 0 1 (some 10), CacheOp.put 0 2 (some 20),
                    CacheOp.get 0 1, CacheOp.put 0 3 (some 30), CacheOp.get 0 2]
      = Except.ok ([CacheReply.status 0, CacheReply.status 0, CacheReply.line (some 10),
                    CacheReply.status 0, CacheReply.line none], 1, 1) :=
  ⟨rfl, rfl, rfl⟩

/-- C15, evaluated: capacity 1 with its one line holding key (1,2), so exactly
capacity keys are stored; `smsa_put_cache_line(1, 3, buf)` of a key that is
not stored does not replace the line: `evictLRU` stores to `cache[-1]`. -/
theorem C15_insert_into_full_one_line_cache :
    (cacheAfter 1 [CacheOp.put 1 2 (some 5)]).map
        (fun c => (cacheLines c, c.currentIndex, c.maxIndex))
      = Except.ok ([⟨1, 2, some 5⟩], 0, 1) ∧
    (cacheAfter 1 [CacheOp.put 1 2 (some 5), CacheOp.put 1 3 (some 6)]).map cacheLines
      = Except.error Fault.outOfBounds :=
  ⟨rfl, rfl⟩

/-- C16, evaluated: capacity 3, keys (0,0) and (0,1) inserted, lookup of
(0,0); the array is then (0,1), empty, (0,0).  `smsa_put_cache_line(0, 0, 30)`
for the stored key (0,0) does not replace buffer 10: it fills the empty slot,
so the array holds key (0,0) twice, with buffers 10 and 30, and the following
lookup of (0,0) returns the old buffer 10. -/
theorem C16_update_creates_second_entry :
    (cacheAfter 3 [CacheOp.put 0 0 (some 10), CacheOp.put 0 1 (some 20),
                   CacheOp.get 0 0]).map cacheLines
      = Except.ok [⟨0, 1, some 20⟩, ⟨0, 0, none⟩, ⟨0, 0, some 10⟩] ∧
    (cacheAfter 3 [CacheOp.put 0 0 (some 10), CacheOp.put 0 1 (some 20),
                   CacheOp.get 0 0, CacheOp.put 0 0 (some 30)]).map cacheLines
      = Except.ok [⟨0, 1, some 20⟩, ⟨0, 0, some 10⟩, ⟨0, 0, some 30⟩] ∧
    cacheReplies 3 [CacheOp.put 0 0 (some 10), CacheOp.put 0 1 (some 20),
                    CacheOp.get 0 0, CacheOp.put 0 0 (some 30), CacheOp.get 0 0]
      = Except.ok ([CacheReply.status 0, CacheReply.status 0, CacheReply.line (some 10),
                    CacheReply.status 0, CacheReply.line (some 10)], 2, 0) :=
  ⟨rfl, rfl, rfl⟩

/-- C17 refuted as stated: after `smsa_vmount(4)` and `smsa_vread(256, 1)`
block (0,1) is in the cache; a second `smsa_vread(256, 1)` is served from the
cache (`cache_hits` 0 to 1, `disk_reads` stays 1) but sends two seek-block
commands (to block 1 before the lookup, to block 2 after the block), and the
device's cycle count goes from 10060 to 10080. -/
theorem C17_cached_read_still_seeks :
    (do let d ← stateAfter [] 4 [Call.vread 256 1]
        let (r, _, e) ← smsa_vread 256 1 (fun _ => 0) d
        pure (r, commands d, commands e, d.world.dev.smsa_cycle_count,
              e.world.dev.smsa_cycle_count, d.cache_hits, e.cache_hits, d.disk_reads,
              e.disk_reads))
      = Except.ok (0, [0, 201326593, 268435456],
          [0, 201326593, 268435456, 201326593, 201326594], 10060, 10080, 0, 1, 1, 1) :=
  rfl

/-- C18, evaluated: after `smsa_vmount(2)` and a whole-block write of block
(0,1), `smsa_vunmount` returns 0 and the connection is closed and the array
unmounted, but the cache pointer is still non-null and the line of block (0,1)
is still stored: `smsa_close_cache()` stands inside the block of
`if ( smsa_client_operation(..) ) {` after `return 1` and is never reached. -/
theorem C18_vunmount_keeps_the_cache :
    (do let d ← stateAfter [] 2 [Call.vwrite 256 256 (fun _ => 7)]
        let (r, e) ← smsa_vunmount d
        pure (r, e.world.connected, e.world.dev.smsa_mount_state, e.cache.alloc,
              cacheLines e.cache))
      = Except.ok (0, false, false, true, [⟨0, 1, some 0⟩, ⟨0, 0, none⟩]) :=
  rfl

/-- C19, evaluated: before any `smsa_vmount`, `smsa_vread(0, 1, buf)` and
`smsa_vwrite(0, 256, buf)` do not return: the cache pointer is NULL and is
indexed by the lookup, respectively the insert.  After `smsa_vmount(4)`, two
whole-block writes (7s to block (0,2), 5s to block (0,1)) and a successful
`smsa_vunmount`: `smsa_vread(512, 1, out)` returns 0 and stores 7 in `out[0]`;
`smsa_vwrite(512, 1, [9])` returns 0, the device receives nothing, and a
further `smsa_vread(512, 1, out)` returns 0 with `out[0] = 9`. -/
theorem C19_calls_outside_a_mount :
    (smsa_vread 0 1 (fun _ => 0) (Driver.boot [] (fun _ _ => 0))).map (fun r => r.1)
      = Except.error Fault.nullDeref ∧
    (smsa_vwrite 0 256 (fun _ => 0) (Driver.boot [] (fun _ _ => 0))).map (fun r => r.1)
      = Except.error Fault.nullDeref ∧
    (do let d ← stateAfter [] 4 [Call.vwrite 512 256 (fun _ => 7),
                                 Call.vwrite 256 256 (fun _ => 5)]
        let (r0, d) ← smsa_vunmount d
        let (r1, out1, e1) ← smsa_vread 512 1 (fun _ => 0) d
        let (r2, e2) ← smsa_vwrite 512 1 (fun _ => 9) e1
        let (r3, out3, e3) ← smsa_vread 512 1 (fun _ => 0) e2
        pure (r0, r1, out1 0, r2, (commands e3).length - (commands d).length, r3, out3 0))
      = Except.ok (0, 0, 7, 0, 0, 0, 9) :=
  ⟨rfl, rfl, rfl⟩

/-- C20, evaluated: a reply whose result code is -1 is accepted by the
client's `recievePacket` (it rejects the value 1 only); and on an open
connection to a server whose array is not mounted, the disk-read command gets
-1 from `smsa_operation` (error number `SMSA_UNMOUNTED_DISK`) while
`smsa_client_operation` returns 0. -/
theorem C20_client_accepts_failing_result :
    (recievePacket (-1) none (fun _ => 0)).1 = 0 ∧
    (do let (ret, _, w) ← smsa_server_step (generateOPCommand SMSA_DISK_READ 0 0 0) none
                            ⟨Device.boot, fun _ => 0, [], true, []⟩
        pure (ret, w.dev.smsa_error_number)) = Except.ok (-1, SMSA_UNMOUNTED_DISK) ∧
    (smsa_client_operation (generateOPCommand SMSA_DISK_READ 0 0 0) (fun _ => 0)
        ⟨Device.boot, fun _ => 0, [], true, []⟩).map (fun r => r.1) = Except.ok 0 :=
  ⟨rfl, rfl, rfl⟩

/-! ## General lemmas on the cache array -/

theorem Cache.rd_ok (c : Cache) (i : Int) (ha : c.alloc = true) (h0 : 0 ≤ i)
    (h1 : i < c.maxIndex) : c.rd i = Except.ok (c.arr i) := by
  unfold Cache.rd
  simp only [ha, h0, h1, and_self, if_true, Bool.true_eq_false, if_false]
  rfl

theorem Cache.wr_ok (c : Cache) (i : Int) (v : SMSA_CACHE_LINE) (ha : c.alloc = true)
    (h0 : 0 ≤ i) (h1 : i < c.maxIndex) :
    c.wr i v = Except.ok { c with arr := fun j => if j = i then v else c.arr j } := by
  unfold Cache.wr
  simp only [ha, h0, h1, and_self, if_true, Bool.true_eq_false, if_false]
  rfl

/-- The scan finds nothing when no scanned line carries the key. -/
theorem findLine_none (drm blk : Nat) (c : Cache) (ha : c.alloc = true) :
    ∀ (n : Nat) (a : Int), 0 ≤ a → a + n ≤ c.maxIndex →
      (∀ t : Int, a ≤ t → t < a + n → ¬ ((c.arr t).block = blk ∧ (c.arr t).drum = drm)) →
      findLine drm blk c n a = Except.ok none := by
  intro n
  induction n with
  | zero => intro a _ _ _; rfl
  | succ n ih =>
    intro a h0 h1 hno
    have hrd : c.rd a = Except.ok (c.arr a) :=
      Cache.rd_ok c a ha h0 (by push_cast at h1; omega)
    have hna := hno a (le_refl a) (by push_cast; omega)
    have ih' := ih (a + 1) (by omega) (by push_cast at h1 ⊢; omega)
      (fun t ht1 ht2 => hno t (by omega) (by push_cast; omega))
    simp only [findLine, hrd, bind, Except.bind, hna, if_false, ih']

/-- The scan returns the first index whose line carries the key. -/
theorem findLine_some (drm blk : Nat) (c : Cache) (ha : c.alloc = true) :
    ∀ (n : Nat) (a t : Int), 0 ≤ a → a ≤ t → t < a + n → t < c.maxIndex →
      (∀ s : Int, a ≤ s → s < t → ¬ ((c.arr s).block = blk ∧ (c.arr s).drum = drm)) →
      ((c.arr t).block = blk ∧ (c.arr t).drum = drm) →
      findLine drm blk c n a = Except.ok (some t) := by
  intro n
  induction n with
  | zero => intro a t _ h1 h2 _ _ _; exfalso; simp at h2; omega
  | succ n ih =>
    intro a t h0 h1 h2 h3 hno hyes
    have hrd : c.rd a = Except.ok (c.arr a) := Cache.rd_ok c a ha h0 (by omega)
    by_cases hat : a = t
    · subst hat
      simp only [findLine, hrd, bind, Except.bind, hyes, and_self, if_true, pure, Except.pure]
    · have hna := hno a (le_refl a) (by omega)
      have ih' := ih (a + 1) t (by omega) (by omega) (by push_cast at h2 ⊢; omega) h3
        (fun s hs1 hs2 => hno s (by omega) hs2) hyes
      simp only [findLine, hrd, bind, Except.bind, hna, if_false, ih']

/-- The copy loop moves the lines `i+1 .. i+n` down by one when neighbouring
lines differ in key. -/
theorem shiftDown_ok :
    ∀ (n : Nat) (i : Int) (c : Cache), c.alloc = true → 0 ≤ i → i + n < c.maxIndex →
      (∀ t : Int, i ≤ t → t < i + n →
        ¬ ((c.arr t).drum = (c.arr (t + 1)).drum ∧ (c.arr t).block = (c.arr (t + 1)).block)) →
      shiftDown n i c = Except.ok
        { c with arr := fun t => if i ≤ t ∧ t < i + n then c.arr (t + 1) else c.arr t } := by
  intro n
  induction n with
  | zero =>
    intro i c _ _ _ _
    have : (fun t : Int => if i ≤ t ∧ t < i + ((0 : Nat) : Int) then c.arr (t + 1) else c.arr t)
        = c.arr := by
      funext t
      have : ¬ (i ≤ t ∧ t < i + ((0 : Nat) : Int)) := by push_cast; omega
      simp [this]
    simp only [shiftDown, this]
    rfl
  | succ n ih =>
    intro i c ha h0 h1 hd
    have hrd1 : c.rd i = Except.ok (c.arr i) := Cache.rd_ok c i ha h0 (by omega)
    have hrd2 : c.rd (i + 1) = Except.ok (c.arr (i + 1)) :=
      Cache.rd_ok c (i + 1) ha (by omega) (by push_cast at h1; omega)
    have hwr := Cache.wr_ok c i (c.arr (i + 1)) ha h0 (by omega)
    have hdi := hd i (le_refl i) (by push_cast; omega)
    have ih' := ih (i + 1) { c with arr := fun j => if j = i then c.arr (i + 1) else c.arr j }
      ha (by omega) (by push_cast at h1 ⊢; show i + 1 + (n : Int) < c.maxIndex; omega)
      (by
        intro t ht1 ht2
        have e1 : ¬ (t = i) := by omega
        have e2 : ¬ (t + 1 = i) := by omega
        simp only [e1, e2, if_false]
        exact hd t (by omega) (by push_cast; omega))
    simp only [shiftDown, hrd1, hrd2, bind, Except.bind, hdi, if_false, hwr, ih']
    congr 2
    funext t
    simp only [Nat.cast_add, Nat.cast_one]
    split_ifs with c1 c2 c3 c4 c5
    all_goals first
      | rfl
      | (exfalso; omega)
      | (have e : t = i := by omega
         rw [e])

/-! ### The same lemmas on explicit cache globals -/

theorem rd_mk (f : Int → SMSA_CACHE_LINE) (idx cap : Int) (m h : Nat) (i : Int)
    (h0 : 0 ≤ i) (h1 : i < cap) :
    Cache.rd ⟨true, f, idx, cap, m, h⟩ i = Except.ok (f i) :=
  Cache.rd_ok _ i rfl h0 h1

theorem wr_mk (f : Int → SMSA_CACHE_LINE) (idx cap : Int) (m h : Nat) (i : Int)
    (v : SMSA_CACHE_LINE) (h0 : 0 ≤ i) (h1 : i < cap) :
    Cache.wr ⟨true, f, idx, cap, m, h⟩ i v
      = Except.ok ⟨true, fun j => if j = i then v else f j, idx, cap, m, h⟩ :=
  Cache.wr_ok _ i v rfl h0 h1

theorem shiftDown_mk (n : Nat) (i : Int) (f : Int → SMSA_CACHE_LINE) (idx cap : Int)
    (m h : Nat) (h0 : 0 ≤ i) (h1 : i + n < cap)
    (hd : ∀ t : Int, i ≤ t → t < i + n →
      ¬ ((f t).drum = (f (t + 1)).drum ∧ (f t).block = (f (t + 1)).block)) :
    shiftDown n i ⟨true, f, idx, cap, m, h⟩
      = Except.ok ⟨true, fun t => if i ≤ t ∧ t < i + n then f (t + 1) else f t,
          idx, cap, m, h⟩ :=
  shiftDown_ok n i ⟨true, f, idx, cap, m, h⟩ rfl h0 h1 hd

theorem findLine_none_mk (drm blk : Nat) (f : Int → SMSA_CACHE_LINE) (idx cap : Int)
    (m h : Nat) (n : Nat) (hn : (n : Int) ≤ cap)
    (hno : ∀ t : Int, 0 ≤ t → t < n → ¬ ((f t).block = blk ∧ (f t).drum = drm)) :
    findLine drm blk ⟨true, f, idx, cap, m, h⟩ n 0 = Except.ok none :=
  findLine_none drm blk ⟨true, f, idx, cap, m, h⟩ rfl n 0 (le_refl 0)
    (by show (0 : Int) + n ≤ cap; omega) (fun t h1 h2 => hno t h1 (by omega))

theorem findLine_some_mk (drm blk : Nat) (f : Int → SMSA_CACHE_LINE) (idx cap : Int)
    (m h : Nat) (n : Nat) (t : Int) (h0 : 0 ≤ t) (h1 : t < n) (h2 : t < cap)
    (hno : ∀ s : Int, 0 ≤ s → s < t → ¬ ((f s).block = blk ∧ (f s).drum = drm))
    (hyes : (f t).block = blk ∧ (f t).drum = drm) :
    findLine drm blk ⟨true, f, idx, cap, m, h⟩ n 0 = Except.ok (some t) :=
  findLine_some drm blk ⟨true, f, idx, cap, m, h⟩ rfl n 0 t (le_refl 0) h0 (by omega) h2
    hno hyes

/-- In a full cache of at least two lines with neighbouring keys distinct,
`evictLRU` moves every line down by one position. -/
theorem evictLRU_mk (f : Int → SMSA_CACHE_LINE) (cap : Int) (m h : Nat) (hcap : 2 ≤ cap)
    (hd : ∀ t : Int, 0 ≤ t → t < cap - 2 →
      ¬ ((f t).drum = (f (t + 1)).drum ∧ (f t).block = (f (t + 1)).block)) :
    evictLRU ⟨true, f, cap - 1, cap, m, h⟩
      = Except.ok (0, ⟨true, fun t => if 0 ≤ t ∧ t < cap - 1 then f (t + 1) else f t,
          cap - 1, cap, m, h⟩) := by
  obtain ⟨n, hn⟩ : ∃ n : Nat, (n : Int) = cap - 2 :=
    ⟨(cap - 2).toNat, Int.toNat_of_nonneg (by omega)⟩
  have hn' : (cap - 1 - 1).toNat = n := by omega
  have hs := shiftDown_mk n 0 f (cap - 1) cap m h (le_refl 0) (by omega)
    (fun t h1 h2 => hd t h1 (by omega))
  have hrd := rd_mk (fun t => if 0 ≤ t ∧ t < 0 + (n : Int) then f (t + 1) else f t)
    (cap - 1) cap m h (cap - 1) (by omega) (by omega)
  have hwr := wr_mk (fun t => if 0 ≤ t ∧ t < 0 + (n : Int) then f (t + 1) else f t)
    (cap - 1) cap m h (cap - 1 - 1)
    (if 0 ≤ cap - 1 ∧ cap - 1 < 0 + (n : Int) then f (cap - 1 + 1) else f (cap - 1))
    (by omega) (by omega)
  simp only [evictLRU, hn', hs, bind, Except.bind, if_true, hrd, hwr, pure, Except.pure]
  congr 3
  funext t
  split_ifs with c1 c2 c3 c4 c5
  all_goals first
    | rfl
    | (exfalso; omega)
    | (have e : t + 1 = cap - 1 := by omega
       rw [e])

theorem rotated_last (cap : Int) (f : Int → SMSA_CACHE_LINE) (x : SMSA_CACHE_LINE) :
    rotated cap f x (cap - 1) = x := by
  simp only [rotated, if_true]

theorem rotated_below (cap : Int) (f : Int → SMSA_CACHE_LINE) (x : SMSA_CACHE_LINE) (t : Int)
    (h0 : 0 ≤ t) (h1 : t < cap - 1) : rotated cap f x t = f (t + 1) := by
  have e : ¬ (t = cap - 1) := by omega
  simp only [rotated, e, if_false, h0, h1, and_self, if_true]

/-- An insert of a new line into a full cache of at least two lines moves every
line down by one position and puts the new line last. -/
theorem writeToCache_full (drm blk : Nat) (buf : Ptr) (f : Int → SMSA_CACHE_LINE)
    (cap : Int) (m h : Nat) (hcap : 2 ≤ cap) (p : Nat) (hl : (f (cap - 1)).line = some p)
    (hd : ∀ t : Int, 0 ≤ t → t < cap - 2 →
      ¬ ((f t).drum = (f (t + 1)).drum ∧ (f t).block = (f (t + 1)).block)) :
    writeToCache drm blk buf ⟨true, f, cap - 1, cap, m, h⟩
      = Except.ok (0, ⟨true, rotated cap f ⟨drm, blk, buf⟩, cap - 1, cap, m, h⟩) := by
  have hrd := rd_mk f (cap - 1) cap m h (cap - 1) (by omega) (by omega)
  have hev := evictLRU_mk f cap m h hcap hd
  have hwr := wr_mk (fun t => if 0 ≤ t ∧ t < cap - 1 then f (t + 1) else f t)
    (cap - 1) cap m h (cap - 1) ⟨drm, blk, buf⟩ (by omega) (by omega)
  have h1 : ¬ (cap - 1 < cap - 1) := by omega
  have h2 : ¬ (cap - 1 ≥ cap) := by omega
  have hb : (some p != (none : Option Nat)) = true := rfl
  simp only [writeToCache, if_true, hrd, bind, Except.bind, pure, Except.pure, hl, hb, hev, hwr,
    h1, h2, if_false]
  rfl

/-- A line found in `cache[0]` of a full cache of at least two lines is moved to
the last position by `justUsedAdjust`, every other line moving down by one. -/
theorem justUsedAdjust_front_full (drm blk : Nat) (buf : Ptr) (f : Int → SMSA_CACHE_LINE)
    (cap : Int) (m h : Nat) (hcap : 2 ≤ cap)
    (hd : ∀ t : Int, 0 ≤ t → t < cap - 2 →
      ¬ ((f t).drum = (f (t + 1)).drum ∧ (f t).block = (f (t + 1)).block)) :
    justUsedAdjust drm blk buf 0 ⟨true, f, cap - 1, cap, m, h⟩
      = Except.ok (0, ⟨true, rotated cap f ⟨drm, blk, buf⟩, cap - 1, cap, m, h⟩) := by
  obtain ⟨n, hn⟩ : ∃ n : Nat, (n : Int) = cap - 2 :=
    ⟨(cap - 2).toNat, Int.toNat_of_nonneg (by omega)⟩
  have hn2 : (cap - 1 - 1 - 0).toNat = n := by omega
  have hs := shiftDown_mk n 0 f (cap - 1) cap m h (le_refl 0) (by omega)
    (fun t h1 h2 => hd t h1 (by omega))
  have hrd := rd_mk (fun t => if 0 ≤ t ∧ t < 0 + (n : Int) then f (t + 1) else f t)
    (cap - 1) cap m h (cap - 1) (by omega) (by omega)
  have hwr := wr_mk (fun t => if 0 ≤ t ∧ t < 0 + (n : Int) then f (t + 1) else f t)
    (cap - 1) cap m h (cap - 1 - 1)
    ((fun t => if 0 ≤ t ∧ t < 0 + (n : Int) then f (t + 1) else f t) (cap - 1))
    (by omega) (by omega)
  have hwr2 := wr_mk (fun j => if j = cap - 1 - 1
      then ((fun t => if 0 ≤ t ∧ t < 0 + (n : Int) then f (t + 1) else f t) (cap - 1))
      else ((fun t => if 0 ≤ t ∧ t < 0 + (n : Int) then f (t + 1) else f t) j))
    (cap - 1) cap m h (cap - 1) ⟨drm, blk, buf⟩ (by omega) (by omega)
  have e2 : ¬ ((0 : Int) = cap - 1 - 1 ∧ cap - 1 ≠ cap - 1) := fun x => x.2 rfl
  have e3 : ¬ (cap - 1 = 0) := by omega
  unfold justUsedAdjust
  rw [if_neg e2]
  simp only [hn2, hs, bind, Except.bind, if_true, hrd, hwr, hwr2, e3, if_false, pure,
    Except.pure]
  congr 3
  funext t
  unfold rotated
  split_ifs with c1 c2 c3 c4 c5
  all_goals first
    | rfl
    | (exfalso; omega)
    | (have e : t + 1 = cap - 1 := by omega
       rw [e])

/-- The first step of C13 and the hit case of the general lookup: a lookup that
finds its key in `cache[0]` of a full cache of at least two lines returns that
line's buffer, counts one hit and moves the line to the last position. -/
theorem get_hit_front_full (f : Int → SMSA_CACHE_LINE) (cap : Int) (m h : Nat)
    (hcap : 2 ≤ cap) (p : Nat) (hl : (f 0).line = some p)
    (hd : ∀ t : Int, 0 ≤ t → t < cap - 2 →
      ¬ ((f t).drum = (f (t + 1)).drum ∧ (f t).block = (f (t + 1)).block)) :
    smsa_get_cache_line (f 0).drum (f 0).block ⟨true, f, cap - 1, cap, m, h⟩
      = Except.ok (some p, ⟨true, rotated cap f (f 0), cap - 1, cap, m, h + 1⟩) := by
  obtain ⟨n, hn⟩ : ∃ n : Nat, (n : Int) = cap - 2 :=
    ⟨(cap - 2).toNat, Int.toNat_of_nonneg (by omega)⟩
  have hn1 : (cap - 1 + 1).toNat = n + 2 := by omega
  have hfind := findLine_some_mk (f 0).drum (f 0).block f (cap - 1) cap m h (n + 2) 0
    (le_refl 0) (by push_cast; omega) (by omega) (fun s h1 h2 => by omega) ⟨rfl, rfl⟩
  have hrd0 := rd_mk f (cap - 1) cap m h 0 (le_refl 0) (by omega)
  have hx : (⟨(f 0).drum, (f 0).block, some p⟩ : SMSA_CACHE_LINE) = f 0 := by rw [← hl]
  have hj := justUsedAdjust_front_full (f 0).drum (f 0).block (some p) f cap m h hcap hd
  rw [hx] at hj
  have hrd3 := rd_mk (rotated cap f (f 0)) (cap - 1) cap m (h + 1) (cap - 1) (by omega) (by omega)
  have e1 : (0 : Int) ≠ cap - 1 := by omega
  unfold smsa_get_cache_line
  simp only [hn1, hfind, bind, Except.bind]
  rw [if_pos e1]
  simp only [hrd0, bind, Except.bind, hl, hj, pure, Except.pure, if_true, hrd3, rotated_last,
    deref]

theorem filled_lt (e : Nat → SMSA_CACHE_LINE) (j : Nat) (t : Nat) (h : t < j) :
    filled e j (t : Int) = e t := by
  have h0 : (0 : Int) ≤ (t : Int) := Int.ofNat_nonneg t
  have h1 : (t : Int) < (j : Int) := by omega
  simp only [filled, h0, h1, and_self, if_true, Int.toNat_ofNat]

theorem filled_ge (e : Nat → SMSA_CACHE_LINE) (j : Nat) (t : Int) (h : (j : Int) ≤ t) :
    filled e j t = ⟨0, 0, none⟩ := by
  have h1 : ¬ (0 ≤ t ∧ t < (j : Int)) := by omega
  simp only [filled, h1, if_false]

theorem filled_succ (e : Nat → SMSA_CACHE_LINE) (j : Nat) :
    (fun t : Int => if t = (j : Int) then e j else filled e j t) = filled e (j + 1) := by
  funext t
  unfold filled
  split_ifs with c1 c2 c3 c4 c5
  all_goals first
    | rfl
    | (exfalso; omega)
    | (have e1 : t.toNat = j := by omega
       rw [e1])

/-- An insert of a new line into a cache whose slot `cache[currentIndex]` is
still free stores the line there and evicts nothing. -/
theorem writeToCache_free (drm blk : Nat) (buf : Ptr) (f : Int → SMSA_CACHE_LINE)
    (j cap : Int) (m h : Nat) (h0 : 0 ≤ j) (h1 : j < cap) (hl : (f j).line = none) :
    writeToCache drm blk buf ⟨true, f, j, cap, m, h⟩
      = Except.ok (0, ⟨true, fun t => if t = j then ⟨drm, blk, buf⟩ else f t,
          if j < cap - 1 then j + 1 else j, cap, m, h⟩) := by
  have hrd := rd_mk f j cap m h j h0 h1
  have hwr := wr_mk f j cap m h j ⟨drm, blk, buf⟩ h0 h1
  have hb : ((none : Option Nat) != none) = false := rfl
  unfold writeToCache
  by_cases hc : j = cap - 1
  · have e1 : ¬ (j < cap - 1) := by omega
    have e2 : ¬ (j ≥ cap) := by omega
    simp only [hc] at hrd hwr hl
    simp only [hc, if_true, hrd, bind, Except.bind, pure, Except.pure, hl, hb, hwr,
      lt_self_iff_false, if_false, Bool.false_eq_true]
    have e3 : ¬ (cap - 1 ≥ cap) := by omega
    simp only [e3, if_false]
  · have e2 : ¬ (j + 1 ≥ cap) := by omega
    have e1 : j < cap - 1 := by omega
    simp only [hc, if_false, bind, Except.bind, pure, Except.pure, hwr, e1, if_true, e2,
      Bool.false_eq_true]

/-- The insert of the next line `e j` into a cache that holds `e 0 .. e (j-1)`
and has room left: the line lands in slot `j`, whether its key is the key of
the zeroed slot or not. -/
theorem put_fill (e : Nat → SMSA_CACHE_LINE) (cap j : Nat) (hj : j < cap)
    (hd : ∀ i : Nat, i < j → ¬ ((e i).drum = (e j).drum ∧ (e i).block = (e j).block)) :
    smsa_put_cache_line (e j).drum (e j).block (e j).line
        ⟨true, filled e j, (j : Int), (cap : Int), 0, 0⟩
      = Except.ok (0, ⟨true, filled e (j + 1),
          if (j : Int) < (cap : Int) - 1 then (j : Int) + 1 else (j : Int), (cap : Int), 0, 0⟩) := by
  have hn : ((j : Int) + 1).toNat = j + 1 := by omega
  have hz : filled e j (j : Int) = ⟨0, 0, none⟩ := filled_ge e j j (le_refl _)
  have hearlier : ∀ s : Int, 0 ≤ s → s < (j : Int) →
      ¬ ((filled e j s).block = (e j).block ∧ (filled e j s).drum = (e j).drum) := by
    intro s hs0 hs1 hm
    have hs : s = ((s.toNat : Nat) : Int) := (Int.toNat_of_nonneg hs0).symm
    rw [hs, filled_lt e j s.toNat (by omega)] at hm
    exact hd s.toNat (by omega) ⟨hm.2, hm.1⟩
  unfold smsa_put_cache_line
  by_cases hk : (e j).block = 0 ∧ (e j).drum = 0
  · have hfind := findLine_some_mk (e j).drum (e j).block (filled e j) (j : Int) (cap : Int)
      0 0 (j + 1) (j : Int) (Int.ofNat_nonneg j) (by push_cast; omega) (by omega) hearlier
      (by rw [hz]; exact ⟨hk.1.symm, hk.2.symm⟩)
    have hrd := rd_mk (filled e j) (j : Int) (cap : Int) 0 0 (j : Int) (Int.ofNat_nonneg j)
      (by omega)
    have hwr := wr_mk (filled e j) (j : Int) (cap : Int) 0 0 (j : Int)
      ⟨(filled e j (j : Int)).drum, (filled e j (j : Int)).block, (e j).line⟩
      (Int.ofNat_nonneg j) (by omega)
    have hx : (⟨(filled e j (j : Int)).drum, (filled e j (j : Int)).block, (e j).line⟩ :
        SMSA_CACHE_LINE) = e j := by
      rw [hz]
      show (⟨0, 0, (e j).line⟩ : SMSA_CACHE_LINE) = ⟨(e j).drum, (e j).block, (e j).line⟩
      rw [hk.1, hk.2]
    rw [hx, filled_succ] at hwr
    simp only [hn, hfind, bind, Except.bind, hrd, hx, hwr, if_true, pure, Except.pure]
    split_ifs <;> rfl
  · have hfind := findLine_none_mk (e j).drum (e j).block (filled e j) (j : Int) (cap : Int)
      0 0 (j + 1) (by push_cast; omega) (by
        intro t ht0 ht1 hm
        by_cases htj : t < (j : Int)
        · exact hearlier t ht0 htj hm
        · have : t = (j : Int) := by push_cast at ht1; omega
          rw [this, hz] at hm
          exact hk ⟨hm.1.symm, hm.2.symm⟩)
    have hw := writeToCache_free (e j).drum (e j).block (e j).line (filled e j) (j : Int)
      (cap : Int) 0 0 (Int.ofNat_nonneg j) (by omega) (by rw [hz])
    have hx : (⟨(e j).drum, (e j).block, (e j).line⟩ : SMSA_CACHE_LINE) = e j := rfl
    rw [hx, filled_succ] at hw
    simp only [hn, hfind, bind, Except.bind, hw, pure, Except.pure]
    rfl

/-- An insert of a key that is in no slot of a full cache of at least two lines
removes the line in `cache[0]`, moves every other line down by one position and
stores the new line in the last slot; `currentIndex` stays at the last slot. -/
theorem put_fresh_full (drm blk : Nat) (buf : Ptr) (f : Int → SMSA_CACHE_LINE)
    (cap : Int) (m h : Nat) (hcap : 2 ≤ cap) (p : Nat) (hl : (f (cap - 1)).line = some p)
    (hd : ∀ t : Int, 0 ≤ t → t < cap - 2 →
      ¬ ((f t).drum = (f (t + 1)).drum ∧ (f t).block = (f (t + 1)).block))
    (hno : ∀ t : Int, 0 ≤ t → t < cap → ¬ ((f t).block = blk ∧ (f t).drum = drm)) :
    smsa_put_cache_line drm blk buf ⟨true, f, cap - 1, cap, m, h⟩
      = Except.ok (0, ⟨true, rotated cap f ⟨drm, blk, buf⟩, cap - 1, cap, m, h⟩) := by
  obtain ⟨n, hn⟩ : ∃ n : Nat, (n : Int) = cap :=
    ⟨cap.toNat, Int.toNat_of_nonneg (by omega)⟩
  have hn1 : (cap - 1 + 1).toNat = n := by omega
  have hfind := findLine_none_mk drm blk f (cap - 1) cap m h n (by omega)
    (fun t h0 h1 => hno t h0 (by omega))
  have hw := writeToCache_full drm blk buf f cap m h hcap p hl hd
  unfold smsa_put_cache_line
  simp only [hn1, hfind, bind, Except.bind, hw, pure, Except.pure]
  rfl

/-- A lookup of a key that is in none of the slots `cache[0..currentIndex]`
returns `NULL`, counts one miss and leaves the array as it was. -/
theorem get_miss_mk (drm blk : Nat) (f : Int → SMSA_CACHE_LINE) (idx cap : Int) (m h : Nat)
    (h0 : 0 ≤ idx) (h1 : idx < cap)
    (hno : ∀ t : Int, 0 ≤ t → t ≤ idx → ¬ ((f t).block = blk ∧ (f t).drum = drm)) :
    smsa_get_cache_line drm blk ⟨true, f, idx, cap, m, h⟩
      = Except.ok (none, ⟨true, f, idx, cap, m + 1, h⟩) := by
  obtain ⟨n, hn⟩ : ∃ n : Nat, (n : Int) = idx + 1 :=
    ⟨(idx + 1).toNat, Int.toNat_of_nonneg (by omega)⟩
  have hn1 : (idx + 1).toNat = n := by omega
  have hfind := findLine_none_mk drm blk f idx cap m h n (by omega)
    (fun t h0 h1 => hno t h0 (by omega))
  unfold smsa_get_cache_line
  simp only [hn1, hfind, bind, Except.bind, pure, Except.pure]

theorem runCache_append_ok (a b : List CacheOp) :
    ∀ (c c1 c2 : Cache) (ra rb : List CacheReply),
      runCache a c = Except.ok (ra, c1) → runCache b c1 = Except.ok (rb, c2) →
      runCache (a ++ b) c = Except.ok (ra ++ rb, c2) := by
  induction a with
  | nil =>
    intro c c1 c2 ra rb ha hb
    simp only [runCache, pure, Except.pure, Except.ok.injEq, Prod.mk.injEq] at ha
    obtain ⟨h1, h2⟩ := ha
    subst h1
    subst h2
    simpa using hb
  | cons op ops ih =>
    intro c c1 c2 ra rb ha hb
    simp only [runCache, bind, Except.bind] at ha
    cases hs : stepCache op c with
    | error x => rw [hs] at ha; cases ha
    | ok v =>
      rw [hs] at ha
      obtain ⟨r, cm⟩ := v
      simp only at ha
      cases hr : runCache ops cm with
      | error x => rw [hr] at ha; cases ha
      | ok w =>
        rw [hr] at ha
        obtain ⟨rs, cx⟩ := w
        simp only [pure, Except.pure, Except.ok.injEq, Prod.mk.injEq] at ha
        obtain ⟨h1, h2⟩ := ha
        subst h1
        subst h2
        have := ih cm cx c2 rs rb hr hb
        show runCache (op :: (ops ++ b)) c = _
        simp only [runCache, bind, Except.bind, hs, this, pure, Except.pure, List.cons_append]

theorem insertOps_succ (e : Nat → SMSA_CACHE_LINE) (j : Nat) :
    insertOps e (j + 1)
      = insertOps e j ++ [CacheOp.put (e j).drum (e j).block (e j).line] := by
  simp only [insertOps, List.range_succ, List.map_append, List.map_cons, List.map_nil]

/-- The first `j` inserts of pairwise-distinct keys into a fresh cache of
`cap >= j` lines all return 0 and fill the slots `0 .. j-1` in order. -/
theorem fill_run (e : Nat → SMSA_CACHE_LINE) (cap : Nat) (hcap : 1 ≤ cap) :
    ∀ j : Nat, j ≤ cap →
      (∀ i k : Nat, i < k → k < j → ¬ ((e i).drum = (e k).drum ∧ (e i).block = (e k).block)) →
      runCache (insertOps e j) (smsa_init_cache cap).2
        = Except.ok (List.replicate j (CacheReply.status 0), fillState cap e j) := by
  intro j
  induction j with
  | zero =>
    intro _ _
    have h0 : (0 : Nat) < cap := by omega
    have hf : filled e 0 = fun _ => (⟨0, 0, none⟩ : SMSA_CACHE_LINE) := by
      funext t
      have hno : ¬ (0 ≤ t ∧ t < ((0 : Nat) : Int)) := by omega
      simp only [filled, hno, if_false]
    simp only [insertOps, List.range_zero, List.map_nil, runCache, pure, Except.pure,
      smsa_init_cache, fillState, h0, if_true, List.replicate_zero, hf, Nat.cast_zero]
  | succ j ih =>
    intro hj hd
    have hprev := ih (by omega) (fun i k h1 h2 => hd i k h1 (by omega))
    have hlt : j < cap := by omega
    have hstep := put_fill e cap j hlt (fun i hi => hd i j hi (by omega))
    have hs1 : fillState cap e j = ⟨true, filled e j, (j : Int), (cap : Int), 0, 0⟩ := by
      simp only [fillState, hlt, if_true]
    have hs2 : fillState cap e (j + 1)
        = ⟨true, filled e (j + 1),
            if (j : Int) < (cap : Int) - 1 then (j : Int) + 1 else (j : Int), (cap : Int), 0, 0⟩ := by
      unfold fillState
      congr 1
      split_ifs <;> (push_cast; omega)
    have hone : runCache [CacheOp.put (e j).drum (e j).block (e j).line] (fillState cap e j)
        = Except.ok ([CacheReply.status 0], fillState cap e (j + 1)) := by
      rw [hs1, hs2]
      simp only [runCache, stepCache, bind, Except.bind, hstep, pure, Except.pure]
    rw [insertOps_succ, List.replicate_succ']
    exact runCache_append_ok _ _ _ _ _ _ _ hprev hone

theorem lru_arr_low (e : Nat → SMSA_CACHE_LINE) (n : Nat) (t : Nat) (ht : t < n) :
    rotated ((n + 2 : Nat) : Int) (rotated ((n + 2 : Nat) : Int) (filled e (n + 2)) (e 0))
      (e (n + 2)) (t : Int) = e (t + 2) := by
  rw [rotated_below _ _ _ _ (Int.ofNat_nonneg t) (by push_cast; omega),
    rotated_below _ _ _ _ (by omega) (by push_cast; omega)]
  have h := filled_lt e (n + 2) (t + 2) (by omega)
  simpa [add_assoc] using h

theorem lru_arr_mid (e : Nat → SMSA_CACHE_LINE) (n : Nat) :
    rotated ((n + 2 : Nat) : Int) (rotated ((n + 2 : Nat) : Int) (filled e (n + 2)) (e 0))
      (e (n + 2)) (n : Int) = e 0 := by
  rw [rotated_below _ _ _ _ (Int.ofNat_nonneg n) (by push_cast; omega)]
  have h := rotated_last ((n + 2 : Nat) : Int) (filled e (n + 2)) (e 0)
  have e1 : ((n + 2 : Nat) : Int) - 1 = (n : Int) + 1 := by push_cast; omega
  rw [e1] at h
  exact h

theorem lru_arr_top (e : Nat → SMSA_CACHE_LINE) (n : Nat) :
    rotated ((n + 2 : Nat) : Int) (rotated ((n + 2 : Nat) : Int) (filled e (n + 2)) (e 0))
      (e (n + 2)) ((n + 1 : Nat) : Int) = e (n + 2) := by
  have h := rotated_last ((n + 2 : Nat) : Int)
    (rotated ((n + 2 : Nat) : Int) (filled e (n + 2)) (e 0)) (e (n + 2))
  have e1 : ((n + 2 : Nat) : Int) - 1 = ((n + 1 : Nat) : Int) := by push_cast; omega
  rw [e1] at h
  exact h

/-- The run behind C13: the replies and the final globals of the scenario
`lruOps e c` in a fresh cache of `c >= 2` lines. -/
theorem lru_run (e : Nat → SMSA_CACHE_LINE) (c : Nat) (hc : 2 ≤ c)
    (hd : ∀ i j : Nat, i < j → j ≤ c → ¬ ((e i).drum = (e j).drum ∧ (e i).block = (e j).block))
    (p : Nat) (hl : (e 0).line = some p) :
    runCache (lruOps e c) (smsa_init_cache c).2
      = Except.ok (List.replicate c (CacheReply.status 0)
            ++ [CacheReply.line (e 0).line, CacheReply.status 0],
          ⟨true, rotated (c : Int) (rotated (c : Int) (filled e c) (e 0)) (e c),
            (c : Int) - 1, (c : Int), 0, 1⟩) := by
  have hfill := fill_run e c (by omega) c (le_refl c) (fun i k h1 h2 => hd i k h1 (by omega))
  have hs : fillState c e c = ⟨true, filled e c, (c : Int) - 1, (c : Int), 0, 0⟩ := by
    simp only [fillState, lt_self_iff_false, if_false]
  have hf0 : filled e c 0 = e 0 := filled_lt e c 0 (by omega)
  have hadj : ∀ t : Int, 0 ≤ t → t < (c : Int) - 2 →
      ¬ ((filled e c t).drum = (filled e c (t + 1)).drum
        ∧ (filled e c t).block = (filled e c (t + 1)).block) := by
    intro t h0 h1
    obtain ⟨k, rfl⟩ : ∃ k : Nat, t = (k : Int) := ⟨t.toNat, (Int.toNat_of_nonneg h0).symm⟩
    have ht1 : (k : Int) + 1 = (((k + 1 : Nat)) : Int) := by push_cast; rfl
    rw [ht1, filled_lt e c k (by omega), filled_lt e c (k + 1) (by omega)]
    exact hd _ _ (by omega) (by omega)
  have hget := get_hit_front_full (filled e c) (c : Int) 0 0 (by omega) p
    (by rw [hf0]; exact hl) hadj
  rw [hf0] at hget
  have hadj2 : ∀ t : Int, 0 ≤ t → t < (c : Int) - 2 →
      ¬ ((rotated (c : Int) (filled e c) (e 0) t).drum
          = (rotated (c : Int) (filled e c) (e 0) (t + 1)).drum
        ∧ (rotated (c : Int) (filled e c) (e 0) t).block
          = (rotated (c : Int) (filled e c) (e 0) (t + 1)).block) := by
    intro t h0 h1
    obtain ⟨k, rfl⟩ : ∃ k : Nat, t = (k : Int) := ⟨t.toNat, (Int.toNat_of_nonneg h0).symm⟩
    rw [rotated_below _ _ _ (k : Int) h0 (by omega),
      rotated_below _ _ _ ((k : Int) + 1) (by omega) (by omega)]
    have ht2 : (k : Int) + 1 + 1 = (((k + 2 : Nat)) : Int) := by push_cast; omega
    have ht1 : (k : Int) + 1 = (((k + 1 : Nat)) : Int) := by push_cast; rfl
    rw [ht2, ht1, filled_lt e c (k + 1) (by omega), filled_lt e c (k + 2) (by omega)]
    exact hd _ _ (by omega) (by omega)
  have hfresh : ∀ t : Int, 0 ≤ t → t < (c : Int) →
      ¬ ((rotated (c : Int) (filled e c) (e 0) t).block = (e c).block
        ∧ (rotated (c : Int) (filled e c) (e 0) t).drum = (e c).drum) := by
    intro t h0 h1 hm
    by_cases hlast : t = (c : Int) - 1
    · rw [hlast, rotated_last] at hm
      exact hd 0 c (by omega) (le_refl c) ⟨hm.2, hm.1⟩
    · obtain ⟨k, rfl⟩ : ∃ k : Nat, t = (k : Int) := ⟨t.toNat, (Int.toNat_of_nonneg h0).symm⟩
      rw [rotated_below _ _ _ (k : Int) h0 (by omega)] at hm
      have ht1 : (k : Int) + 1 = (((k + 1 : Nat)) : Int) := by push_cast; rfl
      rw [ht1, filled_lt e c (k + 1) (by omega)] at hm
      exact hd (k + 1) c (by omega) (le_refl c) ⟨hm.2, hm.1⟩
  have hput := put_fresh_full (e c).drum (e c).block (e c).line
    (rotated (c : Int) (filled e c) (e 0)) (c : Int) 0 1 (by omega) p
    (by rw [rotated_last]; exact hl) hadj2 hfresh
  have htail : runCache [CacheOp.get (e 0).drum (e 0).block,
        CacheOp.put (e c).drum (e c).block (e c).line] (fillState c e c)
      = Except.ok ([CacheReply.line (e 0).line, CacheReply.status 0],
          ⟨true, rotated (c : Int) (rotated (c : Int) (filled e c) (e 0)) (e c),
            (c : Int) - 1, (c : Int), 0, 1⟩) := by
    rw [hs]
    simp only [runCache, stepCache, bind, Except.bind, hget, hput, pure, Except.pure, hl]
  exact runCache_append_ok _ _ _ _ _ _ _ hfill htail

theorem cacheLines_mk (f : Int → SMSA_CACHE_LINE) (idx : Int) (n m h : Nat) :
    cacheLines ⟨true, f, idx, (n : Int), m, h⟩
      = (List.range n).map (fun (j : Nat) => f (j : Int)) := by
  simp only [cacheLines, Int.toNat_ofNat]

/-! ## The least-recently-used order (C13) -/

/-- C13: for every capacity `c >= 2` and lines `e 0 .. e c` with
pairwise-distinct keys (`k1..kc` are the keys of `e 0 .. e (c-1)`, `D` is the
key of `e c`) where the buffer of `k1` is not `NULL`: after `k1..kc` are
inserted in order into a fresh cache, the lookup of `k1` hits (it returns the
buffer of `k1`, one hit, no miss) and the insert of `D` returns 0; afterwards
the array holds, from least to most recently used, `k3..kc, k1, D` with their
buffers, and a lookup of `k2` misses: `k2` was evicted, `k1` was kept. -/
theorem C13_lru_order (e : Nat → SMSA_CACHE_LINE) (c : Nat) (hc : 2 ≤ c)
    (hd : ∀ i j : Nat, i < j → j ≤ c → ¬ ((e i).drum = (e j).drum ∧ (e i).block = (e j).block))
    (hl : (e 0).line ≠ none) :
    cacheReplies c (lruOps e c)
        = Except.ok (List.replicate c (CacheReply.status 0)
            ++ [CacheReply.line (e 0).line, CacheReply.status 0], 1, 0)
    ∧ Except.map cacheLines (cacheAfter c (lruOps e c))
        = Except.ok ((List.range (c - 2)).map (fun i => e (i + 2)) ++ [e 0, e c])
    ∧ cacheReplies c (lruOps e c ++ [CacheOp.get (e 1).drum (e 1).block])
        = Except.ok ((List.replicate c (CacheReply.status 0)
            ++ [CacheReply.line (e 0).line, CacheReply.status 0])
            ++ [CacheReply.line none], 1, 1) := by
  obtain ⟨p, hp⟩ : ∃ p, (e 0).line = some p := by
    cases h : (e 0).line with
    | none => exact absurd h hl
    | some p => exact ⟨p, rfl⟩
  have hrun := lru_run e c hc hd p hp
  obtain ⟨n, rfl⟩ : ∃ n : Nat, c = n + 2 := ⟨c - 2, by omega⟩
  refine ⟨?_, ?_, ?_⟩
  · simp only [cacheReplies, hrun, bind, Except.bind, pure, Except.pure]
  · simp only [cacheAfter, hrun, bind, Except.bind, pure, Except.pure, Except.map,
      cacheLines_mk, Nat.add_sub_cancel, Except.ok.injEq]
    rw [List.range_succ, List.range_succ, List.map_append, List.map_append, List.append_assoc]
    congr 1
    · apply List.map_congr_left
      intro t ht
      exact lru_arr_low e n t (List.mem_range.mp ht)
    · simp only [List.map_cons, List.map_nil, List.singleton_append]
      rw [lru_arr_mid e n, lru_arr_top e n]
  · have hmiss := get_miss_mk (e 1).drum (e 1).block
      (rotated ((n + 2 : Nat) : Int) (rotated ((n + 2 : Nat) : Int) (filled e (n + 2)) (e 0))
        (e (n + 2)))
      (((n + 2 : Nat) : Int) - 1) ((n + 2 : Nat) : Int) 0 1 (by omega) (by omega) (by
        intro t h0 h1 hm
        obtain ⟨k, rfl⟩ : ∃ k : Nat, t = (k : Int) := ⟨t.toNat, (Int.toNat_of_nonneg h0).symm⟩
        by_cases hk : k < n
        · rw [lru_arr_low e n k hk] at hm
          exact hd 1 (k + 2) (by omega) (by omega) ⟨hm.2.symm, hm.1.symm⟩
        · by_cases hk2 : k = n
          · rw [hk2, lru_arr_mid e n] at hm
            exact hd 0 1 (by omega) (by omega) ⟨hm.2, hm.1⟩
          · have hk3 : k = n + 1 := by push_cast at h1; omega
            rw [hk3, lru_arr_top e n] at hm
            exact hd 1 (n + 2) (by omega) (le_refl _) ⟨hm.2.symm, hm.1.symm⟩)
    have hone : runCache [CacheOp.get (e 1).drum (e 1).block]
        ⟨true, rotated ((n + 2 : Nat) : Int)
          (rotated ((n + 2 : Nat) : Int) (filled e (n + 2)) (e 0)) (e (n + 2)),
          ((n + 2 : Nat) : Int) - 1, ((n + 2 : Nat) : Int), 0, 1⟩
        = Except.ok ([CacheReply.line none],
            ⟨true, rotated ((n + 2 : Nat) : Int)
              (rotated ((n + 2 : Nat) : Int) (filled e (n + 2)) (e 0)) (e (n + 2)),
              ((n + 2 : Nat) : Int) - 1, ((n + 2 : Nat) : Int), 0 + 1, 1⟩) := by
      simp only [runCache, stepCache, bind, Except.bind, hmiss, pure, Except.pure]
    have hall := runCache_append_ok _ _ _ _ _ _ _ hrun hone
    simp only [cacheReplies, hall, bind, Except.bind, pure, Except.pure]

/-- C13 at the capacity of the spec's example: capacity 3, inserts `A, B, C`
(keys `(0,1), (0,2), (0,3)`), lookup of `A`, insert of `D = (0,4)`. -/
theorem C13_lru_order_witness :
    cacheReplies 3 (lruOps sampleLine 3)
        = Except.ok (List.replicate 3 (CacheReply.status 0)
            ++ [CacheReply.line (sampleLine 0).line, CacheReply.status 0], 1, 0)
    ∧ Except.map cacheLines (cacheAfter 3 (lruOps sampleLine 3))
        = Except.ok ((List.range (3 - 2)).map (fun i => sampleLine (i + 2))
            ++ [sampleLine 0, sampleLine 3])
    ∧ cacheReplies 3 (lruOps sampleLine 3
          ++ [CacheOp.get (sampleLine 1).drum (sampleLine 1).block])
        = Except.ok ((List.replicate 3 (CacheReply.status 0)
            ++ [CacheReply.line (sampleLine 0).line, CacheReply.status 0])
            ++ [CacheReply.line none], 1, 1) :=
  C13_lru_order sampleLine 3 (by decide)
    (fun i j hij _ hk => by
      have hb : i + 1 = j + 1 := hk.2
      omega)
    (by decide)

/-! ## General lemmas on seek commands -/

theorem seek_drum_word (drumID : Nat) (h : drumID ≤ 16) :
    SMSA_OPCODE (generateOPCommand SMSA_SEEK_DRUM drumID 0 0) = 2
      ∨ SMSA_OPCODE (generateOPCommand SMSA_SEEK_DRUM drumID 0 0) = 3 := by
  interval_cases drumID <;> decide

theorem seek_block_word (blockID : Nat) (h : blockID ≤ 255) :
    SMSA_OPCODE (generateOPCommand SMSA_SEEK_BLOCK 0 0 blockID) = 2
      ∨ SMSA_OPCODE (generateOPCommand SMSA_SEEK_BLOCK 0 0 blockID) = 3 := by
  right
  unfold SMSA_OPCODE generateOPCommand SMSA_SEEK_BLOCK u32 u16 u8
  have e1 : blockID % 65536 = blockID := Nat.mod_eq_of_lt (by omega)
  rw [e1]
  simp only [Nat.shiftRight_eq_div_pow]
  have hlt : blockID < 2 ^ 26 := by omega
  have hor : (3 <<< 26 % 4294967296 ||| 0 % 256 <<< 22 ||| 0 <<< 8 % 4294967296 ||| blockID)
      = 3 * 2 ^ 26 + blockID := by
    have h3 : (3 <<< 26 % 4294967296 ||| 0 % 256 <<< 22 ||| 0 <<< 8 % 4294967296) = 3 * 2 ^ 26 := by
      decide
    rw [h3, Nat.mul_comm]
    exact (Nat.mul_add_lt_is_or hlt 3).symm
  show (3 <<< 26 % 4294967296 ||| 0 % 256 <<< 22 ||| 0 <<< 8 % 4294967296 ||| blockID)
    % 4294967296 / 2 ^ 26 = 3
  rw [hor]
  omega

theorem decode_cmd (op errno : Nat) :
    (decode_SMSA_operation op errno).2.1.cmd = op >>> 26 := by
  unfold decode_SMSA_operation
  simp only []
  split_ifs <;> rfl

theorem SMSASeekDrum_disk (did : Nat) (s : Device) : (SMSASeekDrum did s).2.disk = s.disk := by
  unfold SMSASeekDrum
  split_ifs <;> rfl

theorem SMSASeekBlock_disk (blk : Nat) (s : Device) : (SMSASeekBlock blk s).2.disk = s.disk := by
  unfold SMSASeekBlock
  split_ifs <;> rfl

/-- A seek command never faults in `smsa_operation`, hands the caller's block
back and leaves the contents of every drum as they were. -/
theorem smsa_operation_seek (op : Nat) (blk : Block) (s : Device)
    (hop : SMSA_OPCODE op = 2 ∨ SMSA_OPCODE op = 3) :
    ∃ r s1, smsa_operation op blk s = Except.ok (r, blk, s1) ∧ s1.disk = s.disk := by
  unfold SMSA_OPCODE at hop
  have hc := decode_cmd op s.smsa_error_number
  rcases hdec : decode_SMSA_operation op s.smsa_error_number with ⟨r0, dop, errno⟩
  rw [hdec] at hc
  simp only at hc
  unfold smsa_operation
  rw [hdec]
  have h9 : ¬ (dop.cmd ≥ 9) := by omega
  have h0 : ¬ (dop.cmd = SMSA_MOUNT) := by unfold SMSA_MOUNT; omega
  have h1 : ¬ (dop.cmd = SMSA_UNMOUNT) := by unfold SMSA_UNMOUNT; omega
  simp only [h9, h0, h1, if_false]
  rcases hop with h | h
  · have h2 : dop.cmd = SMSA_SEEK_DRUM := by unfold SMSA_SEEK_DRUM; omega
    simp only [h2, if_true, pure, Except.pure]
    refine ⟨_, _, rfl, ?_⟩
    rw [SMSASeekDrum_disk]
    cases s.smsa_library_initialized <;> rfl
  · have h2 : ¬ (dop.cmd = SMSA_SEEK_DRUM) := by unfold SMSA_SEEK_DRUM; omega
    have h3 : dop.cmd = SMSA_SEEK_BLOCK := by unfold SMSA_SEEK_BLOCK; omega
    simp only [h2, if_false]
    simp only [h3, if_true, pure, Except.pure]
    refine ⟨_, _, rfl, ?_⟩
    rw [SMSASeekBlock_disk]
    cases s.smsa_library_initialized <;> rfl

theorem onlySeekCommands_single (op : Nat) (hop : SMSA_OPCODE op = 2 ∨ SMSA_OPCODE op = 3) :
    onlySeekCommands [op] = true := by
  unfold onlySeekCommands SMSA_SEEK_DRUM SMSA_SEEK_BLOCK
  simp only [List.all_cons, List.all_nil, Bool.and_true, decide_eq_true_eq]
  exact hop

theorem onlySeekCommands_append (a b : List Nat) (ha : onlySeekCommands a = true)
    (hb : onlySeekCommands b = true) : onlySeekCommands (a ++ b) = true := by
  unfold onlySeekCommands at *
  rw [List.all_append, ha, hb]
  rfl

/-- One round of the server loop on a seek command: no fault, no block in the
reply, the drums keep their contents and the command is appended to the
trace. -/
theorem smsa_server_step_seek (op : Nat) (w : World)
    (hop : SMSA_OPCODE op = 2 ∨ SMSA_OPCODE op = 3) :
    ∃ r w1, smsa_server_step op none w = Except.ok (r, none, w1)
      ∧ w1.dev.disk = w.dev.disk ∧ w1.trace = w.trace ++ [op]
      ∧ w1.connected = w.connected := by
  obtain ⟨r, s1, hs, hd⟩ := smsa_operation_seek op w.srvBlock w.dev hop
  have hread : ¬ (SMSA_OPCODE op = SMSA_DISK_READ) := by
    unfold SMSA_DISK_READ
    omega
  refine ⟨r, ⟨s1, w.srvBlock, w.trace ++ [op], w.connected, w.faults⟩, ?_, hd, rfl, rfl⟩
  simp only [smsa_server_step, hs, bind, Except.bind, pure, Except.pure, hread, if_false]

/-- A seek command through `smsa_client_operation`: no fault, the caller's
block is handed back, the drums keep their contents and the device receives
at most this one command. -/
theorem smsa_client_operation_seek (op : Nat) (blk : Block) (w : World)
    (hop : SMSA_OPCODE op = 2 ∨ SMSA_OPCODE op = 3) :
    ∃ r w1 ws, smsa_client_operation op blk w = Except.ok (r, blk, w1)
      ∧ w1.dev.disk = w.dev.disk ∧ w1.trace = w.trace ++ ws
      ∧ onlySeekCommands ws = true := by
  have hm : ¬ (SMSA_OPCODE op = SMSA_MOUNT) := by
    unfold SMSA_MOUNT
    omega
  have hu : ¬ (SMSA_OPCODE op = SMSA_UNMOUNT) := by
    unfold SMSA_UNMOUNT
    omega
  have hw : ¬ (SMSA_OPCODE op = SMSA_DISK_WRITE) := by
    unfold SMSA_DISK_WRITE
    omega
  have key : ∀ (dev : Device) (sb : Block) (tr : List Nat) (conn : Bool) (fl : List Bool),
      ∃ r w1 ws,
        (if (if SMSA_OPCODE op = SMSA_MOUNT then
              (⟨dev, sb, tr, true, fl⟩ : World) else ⟨dev, sb, tr, conn, fl⟩).connected = false
          then (pure (1, blk, if SMSA_OPCODE op = SMSA_MOUNT then
              (⟨dev, sb, tr, true, fl⟩ : World) else ⟨dev, sb, tr, conn, fl⟩) :
                Exec (Nat × Block × World))
          else do
            let (ret, reply, w) ←
              smsa_server_step op (if SMSA_OPCODE op = SMSA_DISK_WRITE then some blk else none)
                (if SMSA_OPCODE op = SMSA_MOUNT then
                  (⟨dev, sb, tr, true, fl⟩ : World) else ⟨dev, sb, tr, conn, fl⟩)
            let r := recievePacket ret reply blk
            if r.1 = 1 then pure (1, r.2, w)
            else if SMSA_OPCODE op = SMSA_UNMOUNT then
              pure (0, r.2, { w with connected := false })
            else pure (0, r.2, w))
          = Except.ok (r, blk, w1)
        ∧ w1.dev.disk = dev.disk ∧ w1.trace = tr ++ ws ∧ onlySeekCommands ws = true := by
    intro dev sb tr conn fl
    simp only [hm, hw, hu, if_false]
    cases conn with
    | false =>
      exact ⟨1, _, [], rfl, rfl, (List.append_nil tr).symm, rfl⟩
    | true =>
      obtain ⟨r, w1, hs, hd, ht, _⟩ := smsa_server_step_seek op ⟨dev, sb, tr, true, fl⟩ hop
      simp only [Bool.true_eq_false, if_false, hs, bind, Except.bind, recievePacket]
      by_cases hr : r = 1
      · simp only [hr, if_true, pure, Except.pure]
        exact ⟨1, w1, [op], rfl, hd, ht, onlySeekCommands_single op hop⟩
      · simp only [hr, if_false, pure, Except.pure]
        exact ⟨0, w1, [op], rfl, hd, ht, onlySeekCommands_single op hop⟩
  obtain ⟨dev, sb, tr, conn, faults⟩ := w
  unfold smsa_client_operation
  cases faults with
  | nil => exact key dev sb tr conn _
  | cons b rest =>
    cases b with
    | true => exact ⟨1, _, [], rfl, rfl, (List.append_nil tr).symm, rfl⟩
    | false => exact key dev sb tr conn _

theorem seekFrame_refl (d : Driver) : seekFrame d d [] :=
  ⟨rfl, rfl, rfl, rfl, rfl, rfl, (List.append_nil _).symm, rfl⟩

theorem seekFrame_trans (d e f : Driver) (a b : List Nat) (h1 : seekFrame d e a)
    (h2 : seekFrame e f b) : seekFrame d f (a ++ b) := by
  obtain ⟨a1, a2, a3, a4, a5, a6, a7, a8⟩ := h1
  obtain ⟨b1, b2, b3, b4, b5, b6, b7, b8⟩ := h2
  refine ⟨b1.trans a1, b2.trans a2, b3.trans a3, b4.trans a4, b5.trans a5, b6.trans a6, ?_,
    onlySeekCommands_append a b a8 b8⟩
  rw [b7, a7, List.append_assoc]

theorem seekFrame_head (d e : Driver) (ws : List Nat) (hd : HEAD) (h : seekFrame d e ws) :
    seekFrame d ⟨e.world, e.cache, e.mem, e.brk, hd, e.cache_hits, e.disk_reads⟩ ws :=
  h

/-- The function `setDrumHead` on a drum number up to 16 sends at most one
command, a seek, and changes nothing but the device heads and the tracked
head. -/
theorem setDrumHead_frame (drumID : Nat) (d : Driver) (h : drumID ≤ 16) :
    ∃ r e ws, setDrumHead drumID d = Except.ok (r, e) ∧ seekFrame d e ws := by
  obtain ⟨r, w1, ws, hc, hdisk, htr, hws⟩ :=
    smsa_client_operation_seek (generateOPCommand SMSA_SEEK_DRUM drumID 0 0) (fun _ => 0)
      d.world (seek_drum_word drumID h)
  unfold setDrumHead
  simp only [hc, bind, Except.bind, pure, Except.pure]
  split_ifs
  · exact ⟨_, _, ws, rfl, rfl, rfl, rfl, rfl, rfl, hdisk, htr, hws⟩
  · exact ⟨_, _, ws, rfl, rfl, rfl, rfl, rfl, rfl, hdisk, htr, hws⟩

/-- The function `setBlockHead` on a block number up to 255 sends at most one
command, a seek, and changes nothing but the device heads and the tracked
head. -/
theorem setBlockHead_frame (blockID : Nat) (d : Driver) (h : blockID ≤ 255) :
    ∃ r e ws, setBlockHead blockID d = Except.ok (r, e) ∧ seekFrame d e ws := by
  obtain ⟨r, w1, ws, hc, hdisk, htr, hws⟩ :=
    smsa_client_operation_seek (generateOPCommand SMSA_SEEK_BLOCK 0 0 blockID) (fun _ => 0)
      d.world (seek_block_word blockID h)
  unfold setBlockHead
  simp only [hc, bind, Except.bind, pure, Except.pure]
  split_ifs
  · exact ⟨_, _, ws, rfl, rfl, rfl, rfl, rfl, rfl, hdisk, htr, hws⟩
  · exact ⟨_, _, ws, rfl, rfl, rfl, rfl, rfl, rfl, hdisk, htr, hws⟩

/-- The function `seekIfNeedTo` on a position with drum up to 16 and block up
to 255 returns 0, sends only seek commands and changes nothing but the device
heads and the tracked head. -/
theorem seekIfNeedTo_frame (currentDrum currentBlock : Nat) (d : Driver)
    (h1 : currentDrum ≤ 16) (h2 : currentBlock ≤ 255) :
    ∃ e ws, seekIfNeedTo currentDrum currentBlock d = Except.ok (0, e) ∧ seekFrame d e ws := by
  have hz : ¬ (checkForErrors 0 = 1) := by decide
  unfold seekIfNeedTo
  simp only [bind, Except.bind, pure, Except.pure, hz, if_false]
  by_cases hc : currentDrum ≠ d.head.drum
  · obtain ⟨r, e, ws, hs, hf⟩ := setDrumHead_frame currentDrum d h1
    rw [if_pos hc, hs]
    simp only []
    have hf1 := seekFrame_head d e ws ⟨e.head.drum, 0⟩ hf
    by_cases hc2 : currentBlock ≠ 0
    · obtain ⟨r2, e2, ws2, hs2, hf2⟩ := setBlockHead_frame currentBlock
        ⟨e.world, e.cache, e.mem, e.brk, ⟨e.head.drum, 0⟩, e.cache_hits, e.disk_reads⟩ h2
      rw [if_pos hc2, hs2]
      exact ⟨_, ws ++ ws2, rfl, seekFrame_trans _ _ _ ws ws2 hf1 hf2⟩
    · rw [if_neg hc2]
      exact ⟨_, ws, rfl, hf1⟩
  · rw [if_neg hc]
    by_cases hc2 : currentBlock ≠ d.head.block
    · obtain ⟨r2, e2, ws2, hs2, hf2⟩ := setBlockHead_frame currentBlock d h2
      rw [if_pos hc2, hs2]
      exact ⟨_, ws2, rfl, hf2⟩
    · rw [if_neg hc2]
      exact ⟨d, [], rfl, seekFrame_refl d⟩

/-- The cursor after the only block of a single-block range: the loop test of
`smsa_vread` holds there, and the position has drum up to 16 and block up to
255. -/
theorem nextCursor_done (D B bs be : Nat) (hD : D ≤ 15) (hB : B ≤ 255) :
    loopDone ⟨D, B, D, B, bs, be⟩ (nextCursor D B).1 (nextCursor D B).2 = true
      ∧ (nextCursor D B).1 ≤ 16 ∧ (nextCursor D B).2 ≤ 255 := by
  have hnc : nextCursor D B = (if B + 1 = 256 then (D + 1, 0) else (D, B + 1)) := by
    unfold nextCursor u16 u8 SMSA_BLOCK_SIZE
    have a1 : (B + 1) % 65536 = B + 1 := Nat.mod_eq_of_lt (by omega)
    have a2 : (D + 1) % 256 = D + 1 := Nat.mod_eq_of_lt (by omega)
    simp only [a1, a2]
  rw [hnc]
  by_cases h : B + 1 = 256
  · rw [if_pos h]
    simp only [loopDone, Bool.or_eq_true, Bool.and_eq_true, decide_eq_true_eq, and_self,
      or_true, true_or, true_and]
    omega
  · rw [if_neg h]
    simp only [loopDone, Bool.or_eq_true, Bool.and_eq_true, decide_eq_true_eq, and_self,
      or_true, true_or, true_and]
    omega

/-! ## A read served from the cache (C17) -/

/-- C17, amended: if the lookup of block `(d, b)` hits in the cache (it
returns the buffer `q`), then an in-range `smsa_vread` whose range lies
entirely inside block `(d, b)` returns 0 with the bytes of that buffer; every
command the device receives during the call is a seek-drum or seek-block
command (the seeks of `seekIfNeedTo` before the lookup and after the block), so
no read and no write is issued and the contents of every drum are unchanged;
the cache is left as the lookup left it, `cache_hits` grows by one and
`disk_reads` stays. -/
theorem C17_cached_read_sends_only_seeks (addr len : Nat) (buf : Block) (d : Driver)
    (q : Nat) (c1 : Cache) (hlen : 1 ≤ len) (hin : addr + len ≤ 1048576)
    (hone : addr / 256 = (addr + len - 1) / 256)
    (hhit : smsa_get_cache_line (addr / 65536) (addr / 256 % 256) d.cache
      = Except.ok (some q, c1)) :
    ∃ (e : Driver) (ws : List Nat),
      smsa_vread addr len buf d
          = Except.ok (0, memcpy buf 0 (d.mem q) (addr % 256) len, e)
        ∧ commands e = commands d ++ ws ∧ onlySeekCommands ws = true
        ∧ e.world.dev.disk = d.world.dev.disk
        ∧ e.cache = c1 ∧ e.cache_hits = d.cache_hits + 1 ∧ e.disk_reads = d.disk_reads := by
  have e1 : (addr + len - 1) / 65536 = addr / 65536 := by omega
  have e2 : (addr + len - 1) / 256 % 256 = addr / 256 % 256 := by omega
  have hD : addr / 65536 ≤ 15 := by omega
  have hB : addr / 256 % 256 ≤ 255 := by omega
  obtain ⟨d0, ws0, hs0, hf0⟩ :=
    seekIfNeedTo_frame (addr / 65536) (addr / 256 % 256) d (by omega) hB
  obtain ⟨f1, f2, f3, f4, f5, f6, f7, f8⟩ := hf0
  have hbounds : findMemCpyBounds
      ⟨addr / 65536, addr / 256 % 256, addr / 65536, addr / 256 % 256, addr % 256,
        (addr + len - 1) % 256⟩ (addr / 65536) (addr / 256 % 256)
      = (addr % 256, u32 ((addr + len - 1) % 256 + 1)) := by
    simp only [findMemCpyBounds, and_self, if_true]
  have hn : u32 (u32 ((addr + len - 1) % 256 + 1) + 4294967296 - addr % 256) = len := by
    unfold u32
    omega
  have hfit : ¬ (addr % 256 + len > SMSA_BLOCK_SIZE) := by
    unfold SMSA_BLOCK_SIZE
    omega
  have hnd : loopDone
      ⟨addr / 65536, addr / 256 % 256, addr / 65536, addr / 256 % 256, addr % 256,
        (addr + len - 1) % 256⟩ (addr / 65536) (addr / 256 % 256) = false := by
    simp only [loopDone, Bool.or_eq_false_iff, Bool.and_eq_false_imp, decide_eq_true_eq,
      decide_eq_false_iff_not]
    omega
  have hz : ¬ (checkForErrors 0 = 1) := by decide
  obtain ⟨d2, ws2, hs2, hf2, hdone⟩ : ∃ d2 ws2,
      seekIfNeedTo (nextCursor (addr / 65536) (addr / 256 % 256)).1
          (nextCursor (addr / 65536) (addr / 256 % 256)).2
          ⟨d0.world, c1, d0.mem, d0.brk + 1, d0.head, d0.cache_hits + 1, d0.disk_reads⟩
        = Except.ok (0, d2)
      ∧ seekFrame ⟨d0.world, c1, d0.mem, d0.brk + 1, d0.head, d0.cache_hits + 1,
          d0.disk_reads⟩ d2 ws2
      ∧ loopDone
          ⟨addr / 65536, addr / 256 % 256, addr / 65536, addr / 256 % 256, addr % 256,
            (addr + len - 1) % 256⟩ (nextCursor (addr / 65536) (addr / 256 % 256)).1
          (nextCursor (addr / 65536) (addr / 256 % 256)).2 = true := by
    obtain ⟨hdone, hc1, hc2⟩ := nextCursor_done (addr / 65536) (addr / 256 % 256)
      (addr % 256) ((addr + len - 1) % 256) hD hB
    obtain ⟨d2, ws2, hs2, hf2⟩ := seekIfNeedTo_frame _ _
      ⟨d0.world, c1, d0.mem, d0.brk + 1, d0.head, d0.cache_hits + 1, d0.disk_reads⟩ hc1 hc2
    exact ⟨d2, ws2, hs2, hf2, hdone⟩
  obtain ⟨g1, g2, g3, g4, g5, g6, g7, g8⟩ := hf2
  refine ⟨d2, ws0 ++ ws2, ?_, ?_, onlySeekCommands_append ws0 ws2 f8 g8, ?_, g1, ?_, ?_⟩
  · have hfuel : loopFuel = 65535 + 1 + 1 := rfl
    unfold smsa_vread
    rw [getDiskBlockParameters_eq addr len hlen hin, e1, e2]
    simp only [bind, Except.bind, hs0, hfuel]
    rw [vreadLoop]
    simp only [hnd, Bool.false_eq_true, if_false, bind, Except.bind, f1, hhit, pure,
      Except.pure, hbounds, hn, hfit, hz, hs2]
    rw [vreadLoop]
    simp only [hdone, if_true, pure, Except.pure, f2]
    rfl
  · show d2.world.trace = d.world.trace ++ (ws0 ++ ws2)
    rw [g7, ← List.append_assoc, ← f7]
  · rw [g6, f6]
  · rw [g4, f4]
  · rw [g5, f5]

/-- C17, amended, at the state reached by `smsa_vmount(4)` and
`smsa_vread(256, 1)`: the lookup of block (0,1) hits there, and a second
`smsa_vread(256, 1)` sends only seek commands. -/
theorem C17_cached_read_sends_only_seeks_witness :
    smsa_get_cache_line (256 / 65536) (256 / 256 % 256) warmDriver.cache
        = Except.ok (some 0, ⟨true, warmDriver.cache.arr, 1, 4, 1, 1⟩)
    ∧ ∃ (e : Driver) (ws : List Nat),
      smsa_vread 256 1 (fun _ => 0) warmDriver
          = Except.ok (0, memcpy (fun _ => 0) 0 (warmDriver.mem 0) (256 % 256) 1, e)
        ∧ commands e = commands warmDriver ++ ws ∧ onlySeekCommands ws = true
        ∧ e.world.dev.disk = warmDriver.world.dev.disk
        ∧ e.cache = ⟨true, warmDriver.cache.arr, 1, 4, 1, 1⟩
        ∧ e.cache_hits = warmDriver.cache_hits + 1
        ∧ e.disk_reads = warmDriver.disk_reads :=
  ⟨rfl, C17_cached_read_sends_only_seeks 256 1 (fun _ => 0) warmDriver 0
    ⟨true, warmDriver.cache.arr, 1, 4, 1, 1⟩ (by decide) (by decide) (by decide) rfl⟩

/-! ## The command word of the device library -/

theorem and_f (x : Nat) : x &&& 0xf = x % 16 :=
  Nat.and_pow_two_sub_one_eq_mod x 4

/-- The command word as a sum: command in bits 26 to 31, drum in bits 22 to 25,
block in bits 0 to 7. -/
theorem command_word_sum (cmd did bid : Nat) (hd : did < 16) (hb : bid < 256) :
    cmd <<< 26 ||| did <<< 22 ||| bid = cmd * 67108864 + did * 4194304 + bid := by
  have h1 : did * 4194304 < 2 ^ 26 := by omega
  have h2 : bid < 2 ^ 22 := by omega
  have e1 : cmd <<< 26 = 2 ^ 26 * cmd := by rw [Nat.shiftLeft_eq, Nat.mul_comm]
  have e2 : did <<< 22 = did * 4194304 := by rw [Nat.shiftLeft_eq]
  rw [e1, e2, ← Nat.mul_add_lt_is_or h1 cmd]
  have e3 : 2 ^ 26 * cmd + did * 4194304 = 2 ^ 22 * (cmd * 16 + did) := by omega
  rw [e3, ← Nat.mul_add_lt_is_or h2 (cmd * 16 + did)]
  omega

/-- The closed form of `encode_SMSA_operation` on legal arguments. -/
theorem encode_SMSA_operation_eq (cmd did bid errno : Nat) (hc : cmd < 9) (hd : did < 16)
    (hb : bid < 256) :
    encode_SMSA_operation cmd did bid errno = (cmd * 67108864 + did * 4194304 + bid, errno) := by
  have c1 : ¬ (cmd ≥ SMSA_MAX_COMMAND) := by unfold SMSA_MAX_COMMAND; omega
  have c2 : ¬ (u8 did ≥ SMSA_DISK_ARRAY_SIZE) := by unfold u8 SMSA_DISK_ARRAY_SIZE; omega
  have c3 : ¬ (u16 bid ≥ SMSA_MAX_BLOCK_ID) := by
    unfold u16 SMSA_MAX_BLOCK_ID SMSA_DISK_SIZE SMSA_BLOCK_SIZE
    omega
  have e1 : u8 did = did := Nat.mod_eq_of_lt (by omega)
  have e2 : u16 bid = bid := Nat.mod_eq_of_lt (by omega)
  have e3 : u32 (cmd <<< 26) = cmd <<< 26 := by
    rw [Nat.shiftLeft_eq]
    exact Nat.mod_eq_of_lt (by omega)
  have e4 : u32 (did <<< 22) = did <<< 22 := by
    rw [Nat.shiftLeft_eq]
    exact Nat.mod_eq_of_lt (by omega)
  have s1 : cmd <<< 26 ||| did <<< 22 = cmd * 67108864 + did * 4194304 := by
    have := command_word_sum cmd did 0 hd (by omega)
    simpa using this
  unfold encode_SMSA_operation
  rw [if_neg c1, if_neg c2, if_neg c3, e1, e2, Nat.zero_or, e3, e4]
  have e7 : u32 (cmd <<< 26 ||| did <<< 22) = cmd <<< 26 ||| did <<< 22 := by
    rw [s1]
    exact Nat.mod_eq_of_lt (by omega)
  rw [e3, e7, command_word_sum cmd did bid hd hb]
  have e8 : u32 (cmd * 67108864 + did * 4194304 + bid) = cmd * 67108864 + did * 4194304 + bid :=
    Nat.mod_eq_of_lt (by omega)
  rw [e8]

/-- The function `decode_SMSA_operation` on a word with a legal command in
bits 26 to 31, the drum in bits 22 to 25 and the block in bits 0 to 7. -/
theorem decode_SMSA_operation_eq (cmd did bid errno : Nat) (hc : cmd < 9) (hd : did < 16)
    (hb : bid < 256) :
    decode_SMSA_operation (cmd * 67108864 + did * 4194304 + bid) errno
      = (0, ⟨cmd, did, bid⟩, errno) := by
  unfold decode_SMSA_operation
  simp only [Nat.shiftRight_eq_div_pow, and_f, and_ff, u8, u16, SMSA_MAX_COMMAND,
    SMSA_DISK_ARRAY_SIZE, SMSA_MAX_BLOCK_ID, SMSA_DISK_SIZE, SMSA_BLOCK_SIZE]
  have a1 : (cmd * 67108864 + did * 4194304 + bid) / 2 ^ 26 = cmd := by omega
  have a2 : (cmd * 67108864 + did * 4194304 + bid) / 2 ^ 22 % 16 % 256 = did := by omega
  have a3 : (cmd * 67108864 + did * 4194304 + bid) % 256 % 65536 = bid := by omega
  rw [a1, a2, a3]
  have c1 : ¬ (cmd ≥ 9) := by omega
  have c2 : ¬ (did ≥ 16) := by omega
  have c3 : ¬ (bid ≥ 65536 / 256) := by omega
  rw [if_neg c1, if_neg c2, if_neg c3]

/-- C22: for every command `cmd < 9`, drum `did < 16` and block `bid < 256`
the word of `encode_SMSA_operation` has the command in its top 6 bits (bits 26
to 31), the drum in the next 4 bits (bits 22 to 25) and the block in its low 8
bits, i.e. it equals `cmd * 2^26 + did * 2^22 + bid` and is below `2^32`, the
error number is left alone, and `decode_SMSA_operation` of that word returns 0
with exactly `cmd`, `did` and `bid` and leaves the error number alone. -/
theorem C22_decode_encode_roundtrip (cmd did bid errno : Nat) (hc : cmd < 9) (hd : did < 16)
    (hb : bid < 256) :
    encode_SMSA_operation cmd did bid errno
        = (cmd * 2 ^ 26 + did * 2 ^ 22 + bid, errno)
      ∧ (encode_SMSA_operation cmd did bid errno).1 < 2 ^ 32
      ∧ (encode_SMSA_operation cmd did bid errno).1 / 2 ^ 26 = cmd
      ∧ (encode_SMSA_operation cmd did bid errno).1 / 2 ^ 22 % 2 ^ 4 = did
      ∧ (encode_SMSA_operation cmd did bid errno).1 % 2 ^ 8 = bid
      ∧ decode_SMSA_operation (encode_SMSA_operation cmd did bid errno).1 errno
        = (0, ⟨cmd, did, bid⟩, errno) := by
  rw [encode_SMSA_operation_eq cmd did bid errno hc hd hb]
  refine ⟨by norm_num, ?_, ?_, ?_, ?_, decode_SMSA_operation_eq cmd did bid errno hc hd hb⟩
  · show cmd * 67108864 + did * 4194304 + bid < 2 ^ 32
    omega
  · show (cmd * 67108864 + did * 4194304 + bid) / 2 ^ 26 = cmd
    omega
  · show (cmd * 67108864 + did * 4194304 + bid) / 2 ^ 22 % 2 ^ 4 = did
    omega
  · show (cmd * 67108864 + did * 4194304 + bid) % 2 ^ 8 = bid
    omega

/-- C22 at the disk-write command for drum 15, block 255. -/
theorem C22_decode_encode_roundtrip_witness :
    encode_SMSA_operation 5 15 255 0 = (5 * 2 ^ 26 + 15 * 2 ^ 22 + 255, 0)
      ∧ (encode_SMSA_operation 5 15 255 0).1 < 2 ^ 32
      ∧ (encode_SMSA_operation 5 15 255 0).1 / 2 ^ 26 = 5
      ∧ (encode_SMSA_operation 5 15 255 0).1 / 2 ^ 22 % 2 ^ 4 = 15
      ∧ (encode_SMSA_operation 5 15 255 0).1 % 2 ^ 8 = 255
      ∧ decode_SMSA_operation (encode_SMSA_operation 5 15 255 0).1 0
        = (0, ⟨5, 15, 255⟩, 0) :=
  C22_decode_encode_roundtrip 5 15 255 0 (by decide) (by decide) (by decide)

/-! ## Error texts, the unmounted device, copy bounds (C24, C25, C26) -/

/-- C24, evaluated: the table `smsa_error_text` has 12 entries (indices 0 to
11), and for an error number outside 0..11 (here -1, 12 and 4096)
`smsa_error_string` reads `smsa_error_text[SMSA_MAX_ERRNO]`, i.e. index 12,
one past the end of the table.  Error number 11 is `SMSA_NET_ERROR`, for which
the table has no text: the entry returned is "UNKNOW ERROR".  For 0 to 10 the
entry is the name of the error level (10 gives "SMSA_SIG_FAIL"). -/
theorem C24_error_string_reads_past_the_table :
    smsa_error_text.length = 12 ∧
    smsa_error_string (-1) = Except.error Fault.outOfBounds ∧
    smsa_error_string 12 = Except.error Fault.outOfBounds ∧
    smsa_error_string 4096 = Except.error Fault.outOfBounds ∧
    smsa_error_string (SMSA_NET_ERROR : Int) = Except.ok "UNKNOW ERROR" ∧
    smsa_error_string 10 = Except.ok "SMSA_SIG_FAIL" :=
  ⟨rfl, rfl, rfl, rfl, rfl, rfl⟩

theorem Device.boot_consistent : Device.boot.Consistent :=
  ⟨fun _ => rfl, fun _ => ⟨rfl, rfl⟩⟩

theorem SMSAMountArray_consistent (s : Device) (h : s.Consistent)
    (hi : s.smsa_library_initialized = true) :
    (SMSAMountArray s).2.Consistent ∧ (SMSAMountArray s).2.smsa_library_initialized = true := by
  obtain ⟨ini, mnt, err, dh, rh, disk, cc⟩ := s
  cases mnt <;> simp_all [SMSAMountArray, Device.Consistent]

theorem SMSAUnmountArray_consistent (s : Device) (h : s.Consistent)
    (hi : s.smsa_library_initialized = true) :
    (SMSAUnmountArray s).2.Consistent
      ∧ (SMSAUnmountArray s).2.smsa_library_initialized = true := by
  obtain ⟨ini, mnt, err, dh, rh, disk, cc⟩ := s
  cases mnt <;> simp_all [SMSAUnmountArray, Device.Consistent]

theorem SMSASeekDrum_consistent (did : Nat) (s : Device) (h : s.Consistent)
    (hi : s.smsa_library_initialized = true) :
    (SMSASeekDrum did s).2.Consistent
      ∧ (SMSASeekDrum did s).2.smsa_library_initialized = true := by
  obtain ⟨ini, mnt, err, dh, rh, disk, cc⟩ := s
  unfold SMSASeekDrum
  cases mnt <;> simp_all [Device.Consistent]
  split_ifs <;> simp_all

theorem SMSASeekBlock_consistent (blk : Nat) (s : Device) (h : s.Consistent)
    (hi : s.smsa_library_initialized = true) :
    (SMSASeekBlock blk s).2.Consistent
      ∧ (SMSASeekBlock blk s).2.smsa_library_initialized = true := by
  obtain ⟨ini, mnt, err, dh, rh, disk, cc⟩ := s
  unfold SMSASeekBlock
  cases mnt <;> simp_all [Device.Consistent]
  split_ifs <;> simp_all

theorem SMSAFormatDrum_consistent (s : Device) (h : s.Consistent)
    (hi : s.smsa_library_initialized = true) :
    (SMSAFormatDrum s).2.Consistent
      ∧ (SMSAFormatDrum s).2.smsa_library_initialized = true := by
  obtain ⟨ini, mnt, err, dh, rh, disk, cc⟩ := s
  unfold SMSAFormatDrum
  cases mnt <;> simp_all [Device.Consistent]
  split_ifs <;> simp_all

theorem SMSAReadBlock_consistent (blk : Block) (s : Device) (r : Int × Block × Device)
    (h : s.Consistent) (hi : s.smsa_library_initialized = true)
    (hr : SMSAReadBlock blk s = Except.ok r) :
    r.2.2.Consistent ∧ r.2.2.smsa_library_initialized = true := by
  obtain ⟨ini, mnt, err, dh, rh, disk, cc⟩ := s
  unfold SMSAReadBlock at hr
  split_ifs at hr <;> cases hr <;> cases mnt <;> simp_all [Device.Consistent]

theorem SMSAWriteBlock_consistent (blk : Block) (s : Device) (r : Int × Device)
    (h : s.Consistent) (hi : s.smsa_library_initialized = true)
    (hr : SMSAWriteBlock blk s = Except.ok r) :
    r.2.Consistent ∧ r.2.smsa_library_initialized = true := by
  obtain ⟨ini, mnt, err, dh, rh, disk, cc⟩ := s
  unfold SMSAWriteBlock at hr
  split_ifs at hr <;> cases hr <;> cases mnt <;> simp_all [Device.Consistent]

/-- The function `smsa_operation` is its entry step followed by its `switch`. -/
theorem smsa_operation_eq (op : Nat) (blk : Block) (s : Device) :
    smsa_operation op blk s
      = if (decode_SMSA_operation op s.smsa_error_number).2.1.cmd ≥ 9
          then throw Fault.outOfBounds
          else smsa_operation_switch (decode_SMSA_operation op s.smsa_error_number).2.1 blk
            (smsa_operation_enter (decode_SMSA_operation op s.smsa_error_number).2.1
              (decode_SMSA_operation op s.smsa_error_number).2.2 s) :=
  rfl

theorem smsa_operation_enter_consistent (dop : SMSA_OPERATION) (errno : Nat) (s : Device)
    (h : s.Consistent) :
    (smsa_operation_enter dop errno s).Consistent
      ∧ (smsa_operation_enter dop errno s).smsa_library_initialized = true := by
  obtain ⟨ini, mnt, err, dh, rh, disk, c0⟩ := s
  cases ini <;> cases mnt <;> simp_all [Device.Consistent, smsa_operation_enter]

theorem smsa_operation_switch_consistent (dop : SMSA_OPERATION) (blk : Block) (s : Device)
    (r : Int × Block × Device) (h : s.Consistent) (hi : s.smsa_library_initialized = true)
    (hr : smsa_operation_switch dop blk s = Except.ok r) :
    r.2.2.Consistent ∧ r.2.2.smsa_library_initialized = true := by
  unfold smsa_operation_switch at hr
  split_ifs at hr
  · cases hr
    exact SMSAMountArray_consistent s h hi
  · cases hr
    exact SMSAUnmountArray_consistent s h hi
  · cases hr
    exact SMSASeekDrum_consistent _ s h hi
  · cases hr
    exact SMSASeekBlock_consistent _ s h hi
  · exact SMSAReadBlock_consistent blk s r h hi hr
  · cases hw : SMSAWriteBlock blk s with
    | error e =>
      rw [hw] at hr
      cases hr
    | ok w =>
      rw [hw] at hr
      cases hr
      exact SMSAWriteBlock_consistent blk s w h hi hw
  · cases hr
    exact ⟨h, hi⟩
  · cases hr
    exact SMSAFormatDrum_consistent s h hi
  · cases hr
    exact ⟨h, hi⟩

/-- Every call of `smsa_operation` that returns keeps the statics consistent
and leaves the library initialised. -/
theorem smsa_operation_consistent (op : Nat) (blk : Block) (s : Device)
    (r : Int × Block × Device) (h : s.Consistent)
    (hr : smsa_operation op blk s = Except.ok r) :
    r.2.2.Consistent ∧ r.2.2.smsa_library_initialized = true := by
  rw [smsa_operation_eq] at hr
  by_cases h9 : (decode_SMSA_operation op s.smsa_error_number).2.1.cmd ≥ 9
  · rw [if_pos h9] at hr
    cases hr
  · rw [if_neg h9] at hr
    obtain ⟨h1, h2⟩ := smsa_operation_enter_consistent
      (decode_SMSA_operation op s.smsa_error_number).2.1
      (decode_SMSA_operation op s.smsa_error_number).2.2 s h
    exact smsa_operation_switch_consistent _ blk _ r h1 h2 hr

theorem runOperations_consistent (ops : List (Nat × Block)) :
    ∀ (s t : Device), s.Consistent → runOperations ops s = Except.ok t → t.Consistent := by
  induction ops with
  | nil =>
    intro s t h hr
    cases hr
    exact h
  | cons o rest ih =>
    intro s t h hr
    obtain ⟨op, blk⟩ := o
    simp only [runOperations, bind, Except.bind] at hr
    cases ho : smsa_operation op blk s with
    | error e =>
      rw [ho] at hr
      cases hr
    | ok r =>
      rw [ho] at hr
      exact ih r.2.2 t (smsa_operation_consistent op blk s r h ho).1 hr

/-- C25: in every state of the statics reached from program start by any
sequence of `smsa_operation` calls, while the array is not mounted each of
`SMSASeekDrum`, `SMSASeekBlock`, `SMSAReadBlock`, `SMSAWriteBlock` and
`SMSAFormatDrum` returns -1 and changes nothing but `smsa_error_number`, which
becomes `SMSA_UNMOUNTED_DISK`: the drum head, the read head, the drums and the
caller's block are as before (the asserts of the read and the write hold there,
both heads being 0). -/
theorem C25_unmounted_operations_fail (ops : List (Nat × Block)) (s : Device) (did bid : Nat)
    (blk : Block) (hs : deviceAfter ops = Except.ok s) (hm : s.smsa_mount_state = false) :
    SMSASeekDrum did s = (-1, s.withError SMSA_UNMOUNTED_DISK)
      ∧ SMSASeekBlock bid s = (-1, s.withError SMSA_UNMOUNTED_DISK)
      ∧ SMSAReadBlock blk s = Except.ok (-1, blk, s.withError SMSA_UNMOUNTED_DISK)
      ∧ SMSAWriteBlock blk s = Except.ok (-1, s.withError SMSA_UNMOUNTED_DISK)
      ∧ SMSAFormatDrum s = (-1, s.withError SMSA_UNMOUNTED_DISK)
      ∧ (s.withError SMSA_UNMOUNTED_DISK).smsa_drum_head = s.smsa_drum_head
      ∧ (s.withError SMSA_UNMOUNTED_DISK).smsa_read_head = s.smsa_read_head
      ∧ (s.withError SMSA_UNMOUNTED_DISK).smsa_error_number = SMSA_UNMOUNTED_DISK := by
  have hc := runOperations_consistent ops Device.boot s Device.boot_consistent hs
  obtain ⟨hd0, hr0⟩ := hc.2 hm
  have a1 : s.smsa_drum_head < SMSA_DISK_ARRAY_SIZE := by rw [hd0]; decide
  have a2 : s.smsa_read_head < SMSA_MAX_BLOCK_ID := by rw [hr0]; decide
  refine ⟨?_, ?_, ?_, ?_, ?_, rfl, rfl, rfl⟩
  · simp only [SMSASeekDrum, hm, Bool.false_eq_true, not_false_eq_true, if_true,
      Device.withError]
  · simp only [SMSASeekBlock, hm, Bool.false_eq_true, not_false_eq_true, if_true,
      Device.withError]
  · simp only [SMSAReadBlock, a1, a2, not_true_eq_false, if_false, hm, Bool.false_eq_true,
      not_false_eq_true, if_true, Device.withError, pure, Except.pure]
  · simp only [SMSAWriteBlock, a1, a2, not_true_eq_false, if_false, hm, Bool.false_eq_true,
      not_false_eq_true, if_true, Device.withError, pure, Except.pure]
  · simp only [SMSAFormatDrum, hm, Bool.false_eq_true, not_false_eq_true, if_true,
      Device.withError]

/-- C25 at the statics after a mount and an unmount. -/
theorem C25_unmounted_operations_fail_witness :
    deviceAfter [(testOp SMSA_MOUNT 0 0, fun _ => 0), (testOp SMSA_UNMOUNT 0 0, fun _ => 0)]
        = Except.ok ⟨true, false, 0, 0, 0, fun _ _ => 0, 20000⟩
      ∧ SMSASeekDrum 3 ⟨true, false, 0, 0, 0, fun _ _ => 0, 20000⟩
        = (-1, Device.withError ⟨true, false, 0, 0, 0, fun _ _ => 0, 20000⟩ SMSA_UNMOUNTED_DISK)
      ∧ SMSASeekBlock 7 ⟨true, false, 0, 0, 0, fun _ _ => 0, 20000⟩
        = (-1, Device.withError ⟨true, false, 0, 0, 0, fun _ _ => 0, 20000⟩ SMSA_UNMOUNTED_DISK)
      ∧ SMSAReadBlock (fun _ => 5) ⟨true, false, 0, 0, 0, fun _ _ => 0, 20000⟩
        = Except.ok (-1, fun _ => 5,
            Device.withError ⟨true, false, 0, 0, 0, fun _ _ => 0, 20000⟩ SMSA_UNMOUNTED_DISK)
      ∧ SMSAWriteBlock (fun _ => 5) ⟨true, false, 0, 0, 0, fun _ _ => 0, 20000⟩
        = Except.ok (-1,
            Device.withError ⟨true, false, 0, 0, 0, fun _ _ => 0, 20000⟩ SMSA_UNMOUNTED_DISK)
      ∧ SMSAFormatDrum ⟨true, false, 0, 0, 0, fun _ _ => 0, 20000⟩
        = (-1, Device.withError ⟨true, false, 0, 0, 0, fun _ _ => 0, 20000⟩ SMSA_UNMOUNTED_DISK)
      ∧ (Device.withError ⟨true, false, 0, 0, 0, fun _ _ => 0, 20000⟩
          SMSA_UNMOUNTED_DISK).smsa_drum_head = 0
      ∧ (Device.withError ⟨true, false, 0, 0, 0, fun _ _ => 0, 20000⟩
          SMSA_UNMOUNTED_DISK).smsa_read_head = 0
      ∧ (Device.withError ⟨true, false, 0, 0, 0, fun _ _ => 0, 20000⟩
          SMSA_UNMOUNTED_DISK).smsa_error_number = SMSA_UNMOUNTED_DISK :=
  ⟨rfl, C25_unmounted_operations_fail
    [(testOp SMSA_MOUNT 0 0, fun _ => 0), (testOp SMSA_UNMOUNT 0 0, fun _ => 0)]
    ⟨true, false, 0, 0, 0, fun _ _ => 0, 20000⟩ 3 7 (fun _ => 5) rfl rfl⟩

/-- C26: for every range whose `byteEnd` is below `2^32 - 1` (every byte offset
is below 256) and every cursor, `findMemCpyBounds` returns 0 and sets
`(lowerBound, upperBound)` to `(byteStart, byteEnd+1)` when start and end are
the same block; otherwise `(byteStart, 256)` when the cursor is the start
block; otherwise `(0, byteEnd+1)` when the cursor is the end block; otherwise
`(0, 256)`.  This covers the range of every request: `getDiskBlockParameters`
always yields a `byteEnd` below 256. -/
theorem C26_findMemCpyBounds_cases (p : DiskBlockParameters) (currentDrum currentBlock : Nat)
    (addr len : Nat) (hp : p.byteEnd < 4294967295) :
    findMemCpyBoundsResult p currentDrum currentBlock
        = (0, specCopyBounds p currentDrum currentBlock)
      ∧ findMemCpyBoundsResult (getDiskBlockParameters addr len).2 currentDrum currentBlock
        = (0, specCopyBounds (getDiskBlockParameters addr len).2 currentDrum currentBlock) := by
  have key : ∀ q : DiskBlockParameters, q.byteEnd < 4294967295 →
      findMemCpyBoundsResult q currentDrum currentBlock
        = (0, specCopyBounds q currentDrum currentBlock) := by
    intro q hq
    have e : u32 (q.byteEnd + 1) = q.byteEnd + 1 := Nat.mod_eq_of_lt (by omega)
    unfold findMemCpyBoundsResult findMemCpyBounds specCopyBounds SMSA_BLOCK_SIZE
    rw [e]
  refine ⟨key p hp, key _ ?_⟩
  have hb : (getDiskBlockParameters addr len).2.byteEnd = lastAddr addr len &&& 0xff := by
    unfold getDiskBlockParameters
    simp only []
    split_ifs <;> rfl
  rw [hb, and_ff]
  omega

/-- C26 at a range from byte 200 of block (0,1) to byte 43 of block (0,3),
with the cursor on the end block. -/
theorem C26_findMemCpyBounds_cases_witness :
    findMemCpyBoundsResult ⟨0, 1, 0, 3, 200, 43⟩ 0 3 = (0, specCopyBounds ⟨0, 1, 0, 3, 200, 43⟩ 0 3)
      ∧ findMemCpyBoundsResult (getDiskBlockParameters 456 356).2 0 3
        = (0, specCopyBounds (getDiskBlockParameters 456 356).2 0 3) :=
  C26_findMemCpyBounds_cases ⟨0, 1, 0, 3, 200, 43⟩ 0 3 456 356 (by decide)

/-! ## The device on a mounted array and the unit test (C21) -/

theorem testOp_eq (cmd did bid : Nat) (hc : cmd < 9) (hd : did < 16) (hb : bid < 256) :
    testOp cmd did bid = cmd * 67108864 + did * 4194304 + bid := by
  unfold testOp
  rw [encode_SMSA_operation_eq cmd did bid 0 hc hd hb]

/-- The function `smsa_operation` on the word of a legal command. -/
theorem smsa_operation_testOp (cmd did bid : Nat) (blk : Block) (s : Device) (hc : cmd < 9)
    (hd : did < 16) (hb : bid < 256) :
    smsa_operation (testOp cmd did bid) blk s
      = smsa_operation_switch ⟨cmd, did, bid⟩ blk
          (smsa_operation_enter ⟨cmd, did, bid⟩ s.smsa_error_number s) := by
  have h9 : ¬ (cmd ≥ 9) := by omega
  rw [smsa_operation_eq, testOp_eq cmd did bid hc hd hb,
    decode_SMSA_operation_eq cmd did bid s.smsa_error_number hc hd hb]
  exact if_neg h9

/-- A seek to a drum below 16 on the mounted array. -/
theorem seek_drum_mounted (did : Nat) (blk : Block) (err dh rh : Nat) (disk : Nat → Nat → Nat)
    (cc : Nat) (hd : did < 16) :
    ∃ cc1, smsa_operation (testOp SMSA_SEEK_DRUM did 0) blk ⟨true, true, err, dh, rh, disk, cc⟩
      = Except.ok (0, blk, ⟨true, true, err, did, 0, disk, cc1⟩) := by
  have h16 : ¬ (did ≥ SMSA_DISK_ARRAY_SIZE) := by unfold SMSA_DISK_ARRAY_SIZE; omega
  rw [smsa_operation_testOp SMSA_SEEK_DRUM did 0 blk _ (by decide) hd (by decide)]
  refine ⟨(smsa_operation_enter ⟨SMSA_SEEK_DRUM, did, 0⟩ err
    ⟨true, true, err, dh, rh, disk, cc⟩).smsa_cycle_count, ?_⟩
  simp only [smsa_operation_switch, smsa_operation_enter, SMSA_SEEK_DRUM, SMSA_MOUNT,
    SMSA_UNMOUNT, SMSASeekDrum, h16, Bool.true_eq_false, if_false, if_true, not_true_eq_false,
    OfNat.ofNat_ne_zero, OfNat.ofNat_ne_one, pure, Except.pure]

/-- A seek to a block below 256 on the mounted array. -/
theorem seek_block_mounted (bid : Nat) (blk : Block) (err dh rh : Nat) (disk : Nat → Nat → Nat)
    (cc : Nat) (hb : bid < 256) :
    ∃ cc1, smsa_operation (testOp SMSA_SEEK_BLOCK 0 bid) blk ⟨true, true, err, dh, rh, disk, cc⟩
      = Except.ok (0, blk, ⟨true, true, err, dh, bid, disk, cc1⟩) := by
  have h16 : ¬ (bid ≥ SMSA_MAX_BLOCK_ID) := by
    unfold SMSA_MAX_BLOCK_ID SMSA_DISK_SIZE SMSA_BLOCK_SIZE
    omega
  rw [smsa_operation_testOp SMSA_SEEK_BLOCK 0 bid blk _ (by decide) (by decide) hb]
  refine ⟨(smsa_operation_enter ⟨SMSA_SEEK_BLOCK, 0, bid⟩ err
    ⟨true, true, err, dh, rh, disk, cc⟩).smsa_cycle_count, ?_⟩
  simp only [smsa_operation_switch, smsa_operation_enter, SMSA_SEEK_BLOCK, SMSA_SEEK_DRUM,
    SMSA_MOUNT, SMSA_UNMOUNT, SMSASeekBlock, h16, Bool.true_eq_false, if_false, if_true,
    not_true_eq_false, OfNat.ofNat_ne_zero, OfNat.ofNat_ne_one, pure, Except.pure]
  rfl

/-- A block write on the mounted array with the heads on a drum below 16 and a
block below 256: the block is stored there and the read head advances by
one. -/
theorem write_mounted (blk : Block) (err dh rh : Nat) (disk : Nat → Nat → Nat) (cc : Nat)
    (hd : dh < 16) (hr : rh < 256) :
    ∃ cc1, smsa_operation (testOp SMSA_DISK_WRITE 0 0) blk ⟨true, true, err, dh, rh, disk, cc⟩
      = Except.ok (0, blk, ⟨true, true, err, dh, rh + 1,
          fun d => if d = dh then memcpy (disk d) (rh * SMSA_BLOCK_SIZE) blk 0 SMSA_BLOCK_SIZE
            else disk d, cc1⟩) := by
  have a1 : dh < SMSA_DISK_ARRAY_SIZE := by unfold SMSA_DISK_ARRAY_SIZE; omega
  have a2 : rh < SMSA_MAX_BLOCK_ID := by
    unfold SMSA_MAX_BLOCK_ID SMSA_DISK_SIZE SMSA_BLOCK_SIZE
    omega
  have a3 : ¬ (dh ≥ SMSA_DISK_ARRAY_SIZE ∨ rh ≥ SMSA_MAX_BLOCK_ID) := by omega
  have a4 : u32 (rh + 1) = rh + 1 := Nat.mod_eq_of_lt (by omega)
  rw [smsa_operation_testOp SMSA_DISK_WRITE 0 0 blk _ (by decide) (by decide) (by decide)]
  refine ⟨(smsa_operation_enter ⟨SMSA_DISK_WRITE, 0, 0⟩ err
    ⟨true, true, err, dh, rh, disk, cc⟩).smsa_cycle_count, ?_⟩
  simp only [smsa_operation_switch, smsa_operation_enter, SMSA_DISK_WRITE, SMSA_DISK_READ,
    SMSA_SEEK_BLOCK, SMSA_SEEK_DRUM, SMSA_MOUNT, SMSA_UNMOUNT, SMSAWriteBlock, a1, a2, a3, a4,
    Bool.true_eq_false, if_false, if_true, not_true_eq_false, OfNat.ofNat_ne_zero,
    OfNat.ofNat_ne_one, pure, Except.pure, bind, Except.bind, reduceCtorEq, Nat.reduceEqDiff]

/-- A block read on the mounted array with the heads on a drum below 16 and a
block below 256: the caller's block receives the 256 bytes stored there and
the read head advances by one. -/
theorem read_mounted (blk : Block) (err dh rh : Nat) (disk : Nat → Nat → Nat) (cc : Nat)
    (hd : dh < 16) (hr : rh < 256) :
    ∃ cc1, smsa_operation (testOp SMSA_DISK_READ 0 0) blk ⟨true, true, err, dh, rh, disk, cc⟩
      = Except.ok (0,
          memcpy blk 0 (fun i => disk dh (rh * SMSA_BLOCK_SIZE + i)) 0 SMSA_BLOCK_SIZE,
          ⟨true, true, err, dh, rh + 1, disk, cc1⟩) := by
  have a1 : dh < SMSA_DISK_ARRAY_SIZE := by unfold SMSA_DISK_ARRAY_SIZE; omega
  have a2 : rh < SMSA_MAX_BLOCK_ID := by
    unfold SMSA_MAX_BLOCK_ID SMSA_DISK_SIZE SMSA_BLOCK_SIZE
    omega
  have a3 : ¬ (dh ≥ SMSA_DISK_ARRAY_SIZE ∨ rh ≥ SMSA_MAX_BLOCK_ID) := by omega
  have a4 : u32 (rh + 1) = rh + 1 := Nat.mod_eq_of_lt (by omega)
  rw [smsa_operation_testOp SMSA_DISK_READ 0 0 blk _ (by decide) (by decide) (by decide)]
  refine ⟨(smsa_operation_enter ⟨SMSA_DISK_READ, 0, 0⟩ err
    ⟨true, true, err, dh, rh, disk, cc⟩).smsa_cycle_count, ?_⟩
  simp only [smsa_operation_switch, smsa_operation_enter, SMSA_DISK_WRITE, SMSA_DISK_READ,
    SMSA_SEEK_BLOCK, SMSA_SEEK_DRUM, SMSA_MOUNT, SMSA_UNMOUNT, SMSAReadBlock, a1, a2, a3, a4,
    Bool.true_eq_false, if_false, if_true, not_true_eq_false, OfNat.ofNat_ne_zero,
    OfNat.ofNat_ne_one, pure, Except.pure, bind, Except.bind, reduceCtorEq, Nat.reduceEqDiff]
  rfl

/-- The unmount command on the mounted array: the heads return to 0, the
mount state is cleared. -/
theorem unmount_mounted (blk : Block) (err dh rh : Nat) (disk : Nat → Nat → Nat) (cc : Nat) :
    ∃ cc1, smsa_operation (testOp SMSA_UNMOUNT 0 0) blk ⟨true, true, err, dh, rh, disk, cc⟩
      = Except.ok (0, blk, ⟨true, false, err, 0, 0, disk, cc1⟩) := by
  rw [smsa_operation_testOp SMSA_UNMOUNT 0 0 blk _ (by decide) (by decide) (by decide)]
  refine ⟨(smsa_operation_enter ⟨SMSA_UNMOUNT, 0, 0⟩ err
    ⟨true, true, err, dh, rh, disk, cc⟩).smsa_cycle_count, ?_⟩
  simp only [smsa_operation_switch, smsa_operation_enter, SMSA_MOUNT, SMSA_UNMOUNT,
    SMSAUnmountArray, Bool.true_eq_false, if_false, if_true, not_true_eq_false,
    OfNat.ofNat_ne_zero, OfNat.ofNat_ne_one, pure, Except.pure, reduceCtorEq]

/-- The mount command while the array is not mounted: every drum is allocated
anew and zeroed, whatever it held before the unmount. -/
theorem mount_unmounted (blk : Block) (ini : Bool) (err dh rh : Nat) (disk : Nat → Nat → Nat)
    (cc : Nat) :
    ∃ err1 cc1, smsa_operation (testOp SMSA_MOUNT 0 0) blk ⟨ini, false, err, dh, rh, disk, cc⟩
      = Except.ok (0, blk, ⟨true, true, err1, 0, 0, fun _ _ => 0, cc1⟩) := by
  rw [smsa_operation_testOp SMSA_MOUNT 0 0 blk _ (by decide) (by decide) (by decide)]
  cases ini
  · refine ⟨SMSA_NO_ERROR, (smsa_operation_enter ⟨SMSA_MOUNT, 0, 0⟩ err
      ⟨false, false, err, dh, rh, disk, cc⟩).smsa_cycle_count, ?_⟩
    simp only [smsa_operation_switch, smsa_operation_enter, SMSA_MOUNT, SMSAMountArray,
      Bool.true_eq_false, Bool.false_eq_true, if_false, if_true, pure, Except.pure]
  · refine ⟨err, (smsa_operation_enter ⟨SMSA_MOUNT, 0, 0⟩ err
      ⟨true, false, err, dh, rh, disk, cc⟩).smsa_cycle_count, ?_⟩
    simp only [smsa_operation_switch, smsa_operation_enter, SMSA_MOUNT, SMSAMountArray,
      Bool.true_eq_false, Bool.false_eq_true, if_false, if_true, pure, Except.pure]

theorem runOperations_cons_ok (op : Nat) (blk : Block) (rest : List (Nat × Block))
    (s : Device) (r : Int × Block × Device) (h : smsa_operation op blk s = Except.ok r) :
    runOperations ((op, blk) :: rest) s = runOperations rest r.2.2 := by
  simp only [runOperations, bind, Except.bind, h]

theorem runOperations_append_ok (a b : List (Nat × Block)) :
    ∀ (s t u : Device), runOperations a s = Except.ok t → runOperations b t = Except.ok u →
      runOperations (a ++ b) s = Except.ok u := by
  induction a with
  | nil =>
    intro s t u ha hb
    cases ha
    exact hb
  | cons o rest ih =>
    intro s t u ha hb
    obtain ⟨op, blk⟩ := o
    simp only [runOperations, bind, Except.bind] at ha
    cases ho : smsa_operation op blk s with
    | error e =>
      rw [ho] at ha
      cases ha
    | ok r =>
      rw [ho] at ha
      show runOperations ((op, blk) :: (rest ++ b)) s = Except.ok u
      simp only [runOperations, bind, Except.bind, ho]
      exact ih r.2.2 t u ha hb

/-- Consecutive block writes on the mounted array, starting at block `rh` of a
drum below 16 and ending at block 256 at most, all succeed; the array stays
mounted on the same drum and the read head advances by their number. -/
theorem writes_mounted (err dh : Nat) (hd : dh < 16) (bs : List Block) :
    ∀ (rh : Nat) (disk : Nat → Nat → Nat) (cc : Nat), rh + bs.length ≤ 256 →
      ∃ disk1 cc1,
        runOperations (bs.map (fun b => (testOp SMSA_DISK_WRITE 0 0, b)))
            ⟨true, true, err, dh, rh, disk, cc⟩
          = Except.ok ⟨true, true, err, dh, rh + bs.length, disk1, cc1⟩ := by
  induction bs with
  | nil =>
    intro rh disk cc _
    exact ⟨disk, cc, rfl⟩
  | cons b rest ih =>
    intro rh disk cc hlen
    simp only [List.length_cons] at hlen
    obtain ⟨cc1, hw⟩ := write_mounted b err dh rh disk cc hd (by omega)
    obtain ⟨disk2, cc2, hrest⟩ := ih (rh + 1) _ cc1 (by omega)
    have e : rh + 1 + rest.length = rh + (rest.length + 1) := by omega
    rw [e] at hrest
    refine ⟨disk2, cc2, ?_⟩
    rw [List.map_cons, runOperations_cons_ok _ _ _ _ _ hw, List.length_cons]
    exact hrest

/-- The write phase of the unit test on a list of drums below 16: on the
mounted array every call succeeds and the array stays mounted. -/
theorem write_phase_mounted (err : Nat) (drums : List Nat) :
    ∀ (dh rh : Nat) (disk : Nat → Nat → Nat) (cc : Nat), (∀ i ∈ drums, i < 16) →
      ∃ dh1 rh1 disk1 cc1,
        runOperations (drums.flatMap (fun i =>
            (testOp SMSA_SEEK_DRUM i 0, fun _ => 0)
              :: (List.range SMSA_MAX_BLOCK_ID).map (fun j =>
                  (testOp SMSA_DISK_WRITE 0 0, test_disk_block i j))))
            ⟨true, true, err, dh, rh, disk, cc⟩
          = Except.ok ⟨true, true, err, dh1, rh1, disk1, cc1⟩ := by
  induction drums with
  | nil =>
    intro dh rh disk cc _
    exact ⟨dh, rh, disk, cc, rfl⟩
  | cons i rest ih =>
    intro dh rh disk cc hall
    have hi : i < 16 := hall i (List.mem_cons_self i rest)
    obtain ⟨cc1, hseek⟩ := seek_drum_mounted i (fun _ => 0) err dh rh disk cc hi
    have hmap : (List.range SMSA_MAX_BLOCK_ID).map (fun j =>
          (testOp SMSA_DISK_WRITE 0 0, test_disk_block i j))
        = ((List.range SMSA_MAX_BLOCK_ID).map (test_disk_block i)).map
            (fun b => (testOp SMSA_DISK_WRITE 0 0, b)) := by
      rw [List.map_map]
      rfl
    obtain ⟨disk2, cc2, hwr⟩ := writes_mounted err i hi
      ((List.range SMSA_MAX_BLOCK_ID).map (test_disk_block i)) 0 disk cc1 (by
        simp only [List.length_map, List.length_range]
        decide)
    obtain ⟨dh3, rh3, disk3, cc3, hrest⟩ := ih i
      (0 + ((List.range SMSA_MAX_BLOCK_ID).map (test_disk_block i)).length) disk2 cc2
      (fun k hk => hall k (List.mem_cons_of_mem i hk))
    refine ⟨dh3, rh3, disk3, cc3, ?_⟩
    rw [List.flatMap_cons]
    refine runOperations_append_ok _ _ _ _ _ ?_ hrest
    rw [runOperations_cons_ok _ _ _ _ _ hseek, hmap]
    exact hwr

/-- The seeks to every drum at the start of the unit test. -/
theorem seek_phase_mounted (err : Nat) (drums : List Nat) :
    ∀ (dh rh : Nat) (disk : Nat → Nat → Nat) (cc : Nat), (∀ i ∈ drums, i < 16) →
      ∃ dh1 rh1 cc1,
        runOperations (drums.map (fun i => (testOp SMSA_SEEK_DRUM i 0, fun _ => 0)))
            ⟨true, true, err, dh, rh, disk, cc⟩
          = Except.ok ⟨true, true, err, dh1, rh1, disk, cc1⟩ := by
  induction drums with
  | nil =>
    intro dh rh disk cc _
    exact ⟨dh, rh, cc, rfl⟩
  | cons i rest ih =>
    intro dh rh disk cc hall
    obtain ⟨cc1, hseek⟩ := seek_drum_mounted i (fun _ => 0) err dh rh disk cc
      (hall i (List.mem_cons_self i rest))
    obtain ⟨dh2, rh2, cc2, hrest⟩ := ih i 0 disk cc1
      (fun k hk => hall k (List.mem_cons_of_mem i hk))
    refine ⟨dh2, rh2, cc2, ?_⟩
    rw [List.map_cons, runOperations_cons_ok _ _ _ _ _ hseek]
    exact hrest

/-- After phase 1 of the unit test, the unmount and the mount, the array is
mounted with both heads at 0 and every byte of every drum is 0. -/
theorem unit_test_remounted :
    ∃ err cc, deviceAfter unitTestWrites
      = Except.ok ⟨true, true, err, 0, 0, fun _ _ => 0, cc⟩ := by
  have hr16 : ∀ i ∈ List.range SMSA_DISK_ARRAY_SIZE, i < 16 := by
    intro i hi
    exact List.mem_range.mp hi
  obtain ⟨err0, cc0, h0⟩ := mount_unmounted (fun _ => 0) false 0 0 0 (fun _ _ => 0) 0
  obtain ⟨dh1, rh1, cc1, h1⟩ := seek_phase_mounted err0 (List.range SMSA_DISK_ARRAY_SIZE)
    0 0 (fun _ _ => 0) cc0 hr16
  obtain ⟨dh2, rh2, disk2, cc2, h2⟩ := write_phase_mounted err0
    (List.range SMSA_DISK_ARRAY_SIZE) dh1 rh1 (fun _ _ => 0) cc1 hr16
  obtain ⟨cc3, h3⟩ := unmount_mounted (fun _ => 0) err0 dh2 rh2 disk2 cc2
  obtain ⟨err4, cc4, h4⟩ := mount_unmounted (fun _ => 0) true err0 0 0 disk2 cc3
  refine ⟨err4, cc4, ?_⟩
  unfold deviceAfter unitTestWrites
  refine runOperations_append_ok _ _ _ _ _
    (runOperations_append_ok _ _ _ _ _ (runOperations_append_ok _ _ _ _ _ ?_ h1) h2) ?_
  · exact (runOperations_cons_ok _ _ [] Device.boot _ h0).trans rfl
  · exact (runOperations_cons_ok _ _ _ _ _ h3).trans
      ((runOperations_cons_ok _ _ [] _ _ h4).trans rfl)

/-- C21, as the code has it: after phase 1 of the unit test (mount, a seek to
every drum, for every drum a seek and 256 writes of `test_disk_block(i, j)`),
the unmount and the second mount, for every drum `i < 16` and block `j < 256`
the seek to drum `i`, the seek to block `j` and the read all return 0, and the
256 bytes read are all 0, not `i ^ j`: `SMSA_STORAGE_ENABLED` is not defined,
so `SMSAUnmountArray` frees the drums without storing them and
`SMSAMountArray` allocates zeroed drums. -/
theorem C21_remount_reads_zeros (i j : Nat) (blk2 : Block) (hi : i < 16) (hj : j < 256) :
    ∃ blk, (do let s ← deviceAfter unitTestWrites
               unitTestRead i j blk2 s) = Except.ok (0, 0, 0, blk)
      ∧ ∀ k, k < 256 → blk k = 0 := by
  obtain ⟨err, cc, h⟩ := unit_test_remounted
  obtain ⟨cc1, h1⟩ := seek_drum_mounted i (fun _ => 0) err 0 0 (fun _ _ => 0) cc hi
  obtain ⟨cc2, h2⟩ := seek_block_mounted j (fun _ => 0) err i 0 (fun _ _ => 0) cc1 hj
  obtain ⟨cc3, h3⟩ := read_mounted blk2 err i j (fun _ _ => 0) cc2 hi hj
  refine ⟨memcpy blk2 0 (fun _ => 0) 0 SMSA_BLOCK_SIZE, ?_, ?_⟩
  · rw [h]
    simp only [bind, Except.bind, unitTestRead, h1, h2, h3, pure, Except.pure]
  · intro k hk
    have hk2 : 0 ≤ k ∧ k < 0 + SMSA_BLOCK_SIZE := by
      unfold SMSA_BLOCK_SIZE
      omega
    simp only [memcpy, hk2, and_self, if_true]

/-- C21 at drum 0, block 1: the block written there in phase 1 holds the byte
`0 ^ 1 = 1` everywhere, the block read after the second mount holds 0. -/
theorem C21_remount_reads_zeros_witness :
    (∃ blk, (do let s ← deviceAfter unitTestWrites
                unitTestRead 0 1 (fun _ => 9) s) = Except.ok (0, 0, 0, blk)
      ∧ ∀ k, k < 256 → blk k = 0)
    ∧ test_disk_block 0 1 0 = 1 :=
  ⟨C21_remount_reads_zeros 0 1 (fun _ => 9) (by decide) (by decide), rfl⟩

/-! ## Promotion and uniqueness in the cache on concrete inputs (C29, C30) -/

/-- C29, evaluated: capacity 4 with the three keys (0,1), (0,2), (0,3) stored
(array (0,1), (0,2), (0,3), free).  A lookup hit on (0,1), the entry at
position 0 below the most recent position 2, does not yield (0,2), (0,3),
(0,1), free: the promoted entry is stored at `cache[currentIndex]` with
`currentIndex = maxIndex-1`, and the free slot is copied into position 2 (array
(0,2), (0,3), free, (0,1)).  An update of (0,1) with buffer 11 does the same.
With two keys stored (`currentIndex` below `maxIndex-1`) the order is as
claimed: (0,2), (0,1), free, free. -/
theorem C29_promotion_with_one_free_slot :
    (cacheAfter 4 [CacheOp.put 0 1 (some 10), CacheOp.put 0 2 (some 20),
                   CacheOp.put 0 3 (some 30)]).map (fun c => (cacheLines c, c.currentIndex))
      = Except.ok ([⟨0, 1, some 10⟩, ⟨0, 2, some 20⟩, ⟨0, 3, some 30⟩, ⟨0, 0, none⟩], 3) ∧
    (cacheAfter 4 [CacheOp.put 0 1 (some 10), CacheOp.put 0 2 (some 20),
                   CacheOp.put 0 3 (some 30), CacheOp.get 0 1]).map
        (fun c => (cacheLines c, c.currentIndex))
      = Except.ok ([⟨0, 2, some 20⟩, ⟨0, 3, some 30⟩, ⟨0, 0, none⟩, ⟨0, 1, some 10⟩], 3) ∧
    (cacheAfter 4 [CacheOp.put 0 1 (some 10), CacheOp.put 0 2 (some 20),
                   CacheOp.put 0 3 (some 30), CacheOp.put 0 1 (some 11)]).map
        (fun c => (cacheLines c, c.currentIndex))
      = Except.ok ([⟨0, 2, some 20⟩, ⟨0, 3, some 30⟩, ⟨0, 0, none⟩, ⟨0, 1, some 11⟩], 3) ∧
    (cacheAfter 4 [CacheOp.put 0 1 (some 10), CacheOp.put 0 2 (some 20),
                   CacheOp.get 0 1]).map (fun c => (cacheLines c, c.currentIndex))
      = Except.ok ([⟨0, 2, some 20⟩, ⟨0, 1, some 10⟩, ⟨0, 0, none⟩, ⟨0, 0, none⟩], 2) :=
  ⟨rfl, rfl, rfl, rfl⟩

/-- C30, evaluated: capacity 3, inserts of (0,0) and (0,1) with non-null
buffers, lookup of (0,1).  The state reached has `currentIndex = 2` and the
slots 0 and 1 both hold the key (0,0) (the second one is the free slot that
the lookup moved there).  In that state the insert of the new key (0,2) does
not return: `evictLRU` finds `cache[0]` and `cache[1]` with the same key and
its `assert` fails; so does the `assert` of `justUsedAdjust` on a lookup of
(0,0). -/
theorem C30_duplicate_key_assert_fires :
    (cacheAfter 3 [CacheOp.put 0 0 (some 10), CacheOp.put 0 1 (some 11),
                   CacheOp.get 0 1]).map (fun c => (cacheLines c, c.currentIndex, c.maxIndex))
      = Except.ok ([⟨0, 0, some 10⟩, ⟨0, 0, none⟩, ⟨0, 1, some 11⟩], 2, 3) ∧
    cacheReplies 3 [CacheOp.put 0 0 (some 10), CacheOp.put 0 1 (some 11), CacheOp.get 0 1,
                    CacheOp.put 0 2 (some 12)]
      = Except.error Fault.assertFail ∧
    cacheReplies 3 [CacheOp.put 0 0 (some 10), CacheOp.put 0 1 (some 11), CacheOp.get 0 1,
                    CacheOp.get 0 0]
      = Except.error Fault.assertFail :=
  ⟨rfl, rfl, rfl⟩

/-! ## Packets on the wire (C23) -/

/-- A `readBytes` for exactly the bytes `bs` at the front of a stream whose
next `read` is not cut short (no bound, or a bound of at least `bs.length`)
stores them in `block[0..len)` and consumes them with one `read`. -/
theorem readBytes_delivered (bs rest chunks : List Nat) (block : Block) (hne : 0 < bs.length)
    (hc : ∀ c ∈ chunks.head?, bs.length ≤ c) :
    readBytes ⟨bs ++ rest, chunks⟩ bs.length block
      = Except.ok (0, storeBytes block 0 bs, ⟨rest, chunks.tail⟩) := by
  have h1 : min (bs.length - 0) (bs ++ rest).length = bs.length := by
    rw [List.length_append]
    omega
  have h2 : ¬ (bs.length = 0) := by omega
  have h3 : ¬ (bs.length < bs.length) := by omega
  have hr : Stream.readSize ⟨bs ++ rest, chunks⟩ (bs.length - 0) = bs.length := by
    cases chunks with
    | nil => simp only [Stream.readSize, h1]
    | cons c cs =>
      have hcc : bs.length ≤ c := hc c (by simp only [List.head?_cons, Option.mem_def])
      simp only [Stream.readSize, h1]
      omega
  unfold readBytes
  rw [readBytesLoop]
  simp only [hne, if_true, hr, h2, if_false, List.take_left', List.drop_left']
  rw [readBytesLoop]
  simp only [h3, if_false, pure, Except.pure]

/-- A `readBytes` for exactly the bytes `bs` at the front of a stream whose
reads are not cut short stores them in `block[0..len)` and consumes them. -/
theorem readBytes_whole (bs rest : List Nat) (block : Block) (hne : 0 < bs.length) :
    readBytes ⟨bs ++ rest, []⟩ bs.length block
      = Except.ok (0, storeBytes block 0 bs, ⟨rest, []⟩) :=
  readBytes_delivered bs rest [] block hne (fun _ hm => nomatch hm)

theorem loadBytes_add (f : Block) (m n : Nat) :
    loadBytes f 0 (m + n) = loadBytes f 0 m ++ loadBytes f m n := by
  unfold loadBytes
  rw [List.range_add, List.map_append, List.map_map]
  congr 1
  apply List.map_congr_left
  intro a _
  simp only [Function.comp, Nat.zero_add]

theorem loadBytes_memcpy_below (buf b : Block) (off n k : Nat) (hk : k ≤ off) :
    loadBytes (memcpy buf off b 0 n) 0 k = loadBytes buf 0 k := by
  unfold loadBytes
  apply List.map_congr_left
  intro a ha
  have ha2 := List.mem_range.mp ha
  have hno : ¬ (off ≤ 0 + a ∧ 0 + a < off + n) := by omega
  simp only [memcpy, hno, if_false]

theorem loadBytes_memcpy_at (buf b : Block) (off n : Nat) :
    loadBytes (memcpy buf off b 0 n) off n = loadBytes b 0 n := by
  unfold loadBytes
  apply List.map_congr_left
  intro a ha
  have ha2 := List.mem_range.mp ha
  have hyes : off ≤ off + a ∧ off + a < off + n := by omega
  simp only [memcpy, hyes, and_self, if_true, Nat.add_sub_cancel_left]

theorem loadBytes_length (f : Block) (off n : Nat) : (loadBytes f off n).length = n := by
  simp only [loadBytes, List.length_map, List.length_range]

/-- The eight header bytes that `sendPacket` builds. -/
theorem sendPacket_header (op : Nat) (ret : Int) (buf0 : Block) (len : Nat) :
    loadBytes (storeBytes (storeBytes (storeBytes buf0 0 (objectBytes 4 len)) 2
        (objectBytes 4 (htonl op))) 6 (objectBytes 2 (u16OfInt (i16 (htons (u16OfInt ret))))))
        0 8
      = [len % 256, len / 256 % 256, htonl op % 256, htonl op / 256 % 256,
          htonl op / 256 / 256 % 256, htonl op / 256 / 256 / 256 % 256,
          u16OfInt (i16 (htons (u16OfInt ret))) % 256,
          u16OfInt (i16 (htons (u16OfInt ret))) / 256 % 256] :=
  rfl

theorem htons_bytes (a b : Nat) (ha : a < 256) (hb : b < 256) :
    htons (a + 256 * b) = b + 256 * a := by
  unfold htons u16
  omega

theorem htonl_bytes (a b c d : Nat) (ha : a < 256) (hb : b < 256) (hc : c < 256)
    (hd : d < 256) :
    htonl (a + 256 * (b + 256 * (c + 256 * d))) = d + 256 * (c + 256 * (b + 256 * a)) := by
  have e1 : u32 (a + 256 * (b + 256 * (c + 256 * d))) = a + 256 * (b + 256 * (c + 256 * d)) :=
    Nat.mod_eq_of_lt (by omega)
  have e2 : (a + 256 * (b + 256 * (c + 256 * d))) % 256 = a := by omega
  have e3 : (a + 256 * (b + 256 * (c + 256 * d))) / 256 % 256 = b := by omega
  have e4 : (a + 256 * (b + 256 * (c + 256 * d))) / 65536 % 256 = c := by omega
  have e5 : (a + 256 * (b + 256 * (c + 256 * d))) / 16777216 = d := by omega
  unfold htonl
  rw [e1, e2, e3, e4, e5]
  omega

theorem htons_htons (x : Nat) (hx : x < 65536) : htons (htons x) = x := by
  have e : x = x % 256 + 256 * (x / 256) := by omega
  rw [e, htons_bytes _ _ (by omega) (by omega), htons_bytes _ _ (by omega) (by omega)]

theorem htonl_htonl (x : Nat) (hx : x < 4294967296) : htonl (htonl x) = x := by
  have e : x = x % 256 + 256 * (x / 256 % 256 + 256 * (x / 65536 % 256 + 256 * (x / 16777216))) := by
    omega
  rw [e, htonl_bytes _ _ _ _ (by omega) (by omega) (by omega) (by omega),
    htonl_bytes _ _ _ _ (by omega) (by omega) (by omega) (by omega)]

theorem htons_lt (x : Nat) : htons x < 65536 := by
  unfold htons u16
  omega

theorem htonl_lt (x : Nat) : htonl x < 4294967296 := by
  unfold htonl u32
  omega

theorem u16OfInt_lt (x : Int) : u16OfInt x < 65536 := by
  unfold u16OfInt
  omega

theorem u16OfInt_i16 (n : Nat) (hn : n < 65536) : u16OfInt (i16 n) = n := by
  unfold u16OfInt i16 u16
  split_ifs <;> omega

theorem i16_u16OfInt (x : Int) (h0 : -32768 ≤ x) (h1 : x < 32768) : i16 (u16OfInt x) = x := by
  unfold u16OfInt i16 u16
  split_ifs <;> omega

theorem objectValue_two (a b : Nat) : objectValue [a, b] = a + 256 * b := by
  simp only [objectValue, Nat.mul_zero, Nat.add_zero]

theorem objectValue_four (a b c d : Nat) :
    objectValue [a, b, c, d] = a + 256 * (b + 256 * (c + 256 * d)) := by
  simp only [objectValue, Nat.mul_zero, Nat.add_zero]

theorem objectValue_low_two (x j2 j3 : Nat) (hx : x < 65536) :
    htons (objectValue ([x % 256, x / 256 % 256] ++ [j2, j3])) = htons x := by
  have e : objectValue ([x % 256, x / 256 % 256] ++ [j2, j3])
      = x % 256 + 256 * (x / 256 % 256 + 256 * (j2 + 256 * j3)) := objectValue_four _ _ _ _
  rw [e]
  unfold htons u16
  have e1 : (x % 256 + 256 * (x / 256 % 256 + 256 * (j2 + 256 * j3))) % 65536 = x := by omega
  have e2 : x % 65536 = x := by omega
  rw [e1, e2]

theorem objectValue_bytes_four (y : Nat) (hy : y < 4294967296) :
    objectValue [y % 256, y / 256 % 256, y / 256 / 256 % 256, y / 256 / 256 / 256 % 256] = y := by
  rw [objectValue_four]
  omega

theorem objectValue_bytes_two (z : Nat) (hz : z < 65536) :
    objectValue [z % 256, z / 256 % 256] = z := by
  rw [objectValue_two]
  omega

/-- The function `recievePacket` on a stream that starts with the eight bytes
of the objects `x` (16 bits), `y` (32 bits), `z` (16 bits) as a little-endian
host stores them, and whose first `read` is not cut short (no bound, or a
bound of at least 8): what it does after the header is read. -/
theorem recievePacketWire_header (x y z : Nat) (hx : x < 65536) (hy : y < 4294967296)
    (hz : z < 65536) (rest chunks : List Nat) (op : Nat) (ret bsz : Int) (block : Block)
    (len0 : Nat) (header0 : Block) (hc : ∀ c ∈ chunks.head?, 8 ≤ c) :
    recievePacketWire
        ⟨[x % 256, x / 256 % 256, y % 256, y / 256 % 256, y / 256 / 256 % 256,
            y / 256 / 256 / 256 % 256, z % 256, z / 256 % 256] ++ rest, chunks⟩
        op ret bsz block len0 header0
      = if i16 (htons z) = 1
          then Except.ok ⟨1, htonl y, i16 (htons z), bsz, block, ⟨rest, chunks.tail⟩⟩
        else if htons x > SMSA_NET_HEADER_SIZE then
          (readBytes ⟨rest, chunks.tail⟩ (htons x - SMSA_NET_HEADER_SIZE) block).bind (fun r =>
            Except.ok ⟨0, htonl y, i16 (htons z),
              ((htons x - SMSA_NET_HEADER_SIZE : Nat) : Int), r.2.1, r.2.2⟩)
        else Except.ok ⟨0, htonl y, i16 (htons z), 0, block, ⟨rest, chunks.tail⟩⟩ := by
  have hrb : readBytes
      ⟨[x % 256, x / 256 % 256, y % 256, y / 256 % 256, y / 256 / 256 % 256,
          y / 256 / 256 / 256 % 256, z % 256, z / 256 % 256] ++ rest, chunks⟩
      SMSA_NET_HEADER_SIZE header0
      = Except.ok (0, storeBytes header0 0
          [x % 256, x / 256 % 256, y % 256, y / 256 % 256, y / 256 / 256 % 256,
            y / 256 / 256 / 256 % 256, z % 256, z / 256 % 256], ⟨rest, chunks.tail⟩) :=
    readBytes_delivered _ rest chunks header0 (Nat.succ_pos 7) hc
  have h1 : loadBytes (storeBytes header0 0
      [x % 256, x / 256 % 256, y % 256, y / 256 % 256, y / 256 / 256 % 256,
        y / 256 / 256 / 256 % 256, z % 256, z / 256 % 256]) 0 2
      = [x % 256, x / 256 % 256] := rfl
  have h2 : loadBytes (storeBytes header0 0
      [x % 256, x / 256 % 256, y % 256, y / 256 % 256, y / 256 / 256 % 256,
        y / 256 / 256 / 256 % 256, z % 256, z / 256 % 256]) (0 + 2) (2 * 2)
      = [y % 256, y / 256 % 256, y / 256 / 256 % 256, y / 256 / 256 / 256 % 256] := rfl
  have h3 : loadBytes (storeBytes header0 0
      [x % 256, x / 256 % 256, y % 256, y / 256 % 256, y / 256 / 256 % 256,
        y / 256 / 256 / 256 % 256, z % 256, z / 256 % 256]) (0 + 2 + 2 * 2) 2
      = [z % 256, z / 256 % 256] := rfl
  have h4 : (objectBytes 4 (u32 len0)).drop 2
      = [u32 len0 / 256 / 256 % 256, u32 len0 / 256 / 256 / 256 % 256] := rfl
  unfold recievePacketWire
  simp only [hrb, bind, Except.bind, h1, h2, h3, h4, objectValue_low_two x _ _ hx,
    objectValue_bytes_four y hy, objectValue_bytes_two z hz, u16OfInt_i16 z hz, pure,
    Except.pure]

theorem sendPacket_none_bytes (op : Nat) (ret : Int) (buf0 : Block) :
    sendPacket op ret none buf0
      = [htons SMSA_NET_HEADER_SIZE % 256, htons SMSA_NET_HEADER_SIZE / 256 % 256,
          htonl op % 256, htonl op / 256 % 256, htonl op / 256 / 256 % 256,
          htonl op / 256 / 256 / 256 % 256,
          u16OfInt (i16 (htons (u16OfInt ret))) % 256,
          u16OfInt (i16 (htons (u16OfInt ret))) / 256 % 256] := by
  unfold sendPacket
  simp only [Option.isSome, Bool.false_eq_true, if_false, Nat.zero_add, Nat.reduceMul,
    Nat.reduceAdd]
  exact sendPacket_header op ret buf0 (htons SMSA_NET_HEADER_SIZE)

theorem sendPacket_some_bytes (op : Nat) (ret : Int) (b buf0 : Block) :
    sendPacket op ret (some b) buf0
      = [htons (u32 (SMSA_NET_HEADER_SIZE + SMSA_BLOCK_SIZE)) % 256,
          htons (u32 (SMSA_NET_HEADER_SIZE + SMSA_BLOCK_SIZE)) / 256 % 256,
          htonl op % 256, htonl op / 256 % 256, htonl op / 256 / 256 % 256,
          htonl op / 256 / 256 / 256 % 256,
          u16OfInt (i16 (htons (u16OfInt ret))) % 256,
          u16OfInt (i16 (htons (u16OfInt ret))) / 256 % 256]
        ++ loadBytes b 0 SMSA_BLOCK_SIZE := by
  unfold sendPacket
  simp only [Option.isSome, if_true, Nat.zero_add, Nat.reduceMul, Nat.reduceAdd]
  rw [loadBytes_add, loadBytes_memcpy_below _ _ 8 _ 8 (le_refl 8), loadBytes_memcpy_at,
    sendPacket_header]

theorem bytes_of_four (a b c d : Nat) (ha : a < 256) (hb : b < 256) (hc : c < 256)
    (hd : d < 256) :
    (a + 256 * (b + 256 * (c + 256 * d))) % 256 = a
      ∧ (a + 256 * (b + 256 * (c + 256 * d))) / 256 % 256 = b
      ∧ (a + 256 * (b + 256 * (c + 256 * d))) / 256 / 256 % 256 = c
      ∧ (a + 256 * (b + 256 * (c + 256 * d))) / 256 / 256 / 256 % 256 = d := by
  have e1 : (a + 256 * (b + 256 * (c + 256 * d))) / 256 = b + 256 * (c + 256 * d) := by omega
  have e2 : (b + 256 * (c + 256 * d)) / 256 = c + 256 * d := by omega
  have e3 : (c + 256 * d) / 256 = d := by omega
  rw [e1, e2, e3]
  omega

theorem bytes_of_two (a b : Nat) (ha : a < 256) (hb : b < 256) :
    (a + 256 * b) % 256 = a ∧ (a + 256 * b) / 256 % 256 = b := by
  omega

/-- The bytes of a packet in network byte order: the total length in two
bytes (8 without a block, 264 with one), the opcode in four bytes, the result
code in two bytes, then the block. -/
theorem sendPacket_layout (op : Nat) (ret : Int) (block : Option Block) (buf0 : Block)
    (hop : op < 4294967296) (h0 : -32768 ≤ ret) (h1 : ret < 32768) :
    sendPacket op ret block buf0
      = [(if block.isSome then 264 else 8) / 256, (if block.isSome then 264 else 8) % 256,
          op / 16777216, op / 65536 % 256, op / 256 % 256, op % 256,
          u16OfInt ret / 256, u16OfInt ret % 256]
        ++ (match block with
            | some b => loadBytes b 0 256
            | none => []) := by
  have hr := u16OfInt_lt ret
  have hz : u16OfInt (i16 (htons (u16OfInt ret))) = htons (u16OfInt ret) :=
    u16OfInt_i16 _ (htons_lt _)
  have ez : htons (u16OfInt ret) = u16OfInt ret / 256 + 256 * (u16OfInt ret % 256) := by
    unfold htons u16
    omega
  have ey : htonl op = op / 16777216 + 256 * (op / 65536 % 256 + 256 * (op / 256 % 256
      + 256 * (op % 256))) := by
    have e : op = op % 256 + 256 * (op / 256 % 256 + 256 * (op / 65536 % 256
        + 256 * (op / 16777216))) := by omega
    have hb := htonl_bytes (op % 256) (op / 256 % 256) (op / 65536 % 256) (op / 16777216)
      (by omega) (by omega) (by omega) (by omega)
    rw [← e] at hb
    exact hb
  obtain ⟨y0, y1, y2, y3⟩ := bytes_of_four (op / 16777216) (op / 65536 % 256) (op / 256 % 256)
    (op % 256) (by omega) (by omega) (by omega) (by omega)
  obtain ⟨z0, z1⟩ := bytes_of_two (u16OfInt ret / 256) (u16OfInt ret % 256) (by omega)
    (by omega)
  cases block with
  | none =>
    have ex : htons SMSA_NET_HEADER_SIZE = 2048 := by decide
    rw [sendPacket_none_bytes, hz, ez, ey, ex, y0, y1, y2, y3, z0, z1]
    rfl
  | some b =>
    have ex : htons (u32 (SMSA_NET_HEADER_SIZE + SMSA_BLOCK_SIZE)) = 2049 := by decide
    rw [sendPacket_some_bytes, hz, ez, ey, ex, y0, y1, y2, y3, z0, z1]
    simp only [Option.isSome, if_true, SMSA_BLOCK_SIZE, Nat.reduceMod, Nat.reduceDiv]

/-- The round trip of a packet through `recievePacket` for every result code
other than 1, on a stream with any bounds `chunks` on its coming reads under
which the two reads of `recievePacket` are not cut short (the bound of the
first, if there is one, is at least 8, and for a packet with a block the bound
of the second at least 256): `recievePacket` returns 0 with the same `op` and
`ret`, `blkSize` 0 and the caller's block untouched for a packet without a
block, `blkSize` 256 and the block's 256 bytes in the caller's block for a
packet with one; the bytes behind the packet are left in the stream. -/
theorem recievePacketWire_delivered (op : Nat) (ret : Int) (block : Option Block)
    (buf0 : Block) (rest chunks : List Nat) (op0 : Nat) (ret0 bsz : Int) (blk : Block)
    (len0 : Nat) (header0 : Block) (hop : op < 4294967296) (h0 : -32768 ≤ ret)
    (h1 : ret < 32768) (hne : ret ≠ 1) (hc1 : ∀ c ∈ chunks.head?, 8 ≤ c) :
    (block.isSome = true → ∀ c ∈ chunks.tail.head?, 256 ≤ c) →
    recievePacketWire ⟨sendPacket op ret block buf0 ++ rest, chunks⟩ op0 ret0 bsz blk len0
        header0
      = Except.ok (match block with
          | some b => ⟨0, op, ret, 256, storeBytes blk 0 (loadBytes b 0 SMSA_BLOCK_SIZE),
              ⟨rest, chunks.tail.tail⟩⟩
          | none => ⟨0, op, ret, 0, blk, ⟨rest, chunks.tail⟩⟩) := by
  intro hc2
  have hz : u16OfInt (i16 (htons (u16OfInt ret))) = htons (u16OfInt ret) :=
    u16OfInt_i16 _ (htons_lt _)
  have hret : i16 (htons (htons (u16OfInt ret))) = ret := by
    rw [htons_htons _ (u16OfInt_lt ret), i16_u16OfInt ret h0 h1]
  have hne1 : ¬ (ret = 1) := hne
  cases block with
  | none =>
    have ex : htons (htons SMSA_NET_HEADER_SIZE) = 8 := by decide
    have e8 : ¬ (8 > SMSA_NET_HEADER_SIZE) := by decide
    rw [sendPacket_none_bytes, hz,
      recievePacketWire_header (htons SMSA_NET_HEADER_SIZE) (htonl op) (htons (u16OfInt ret))
        (htons_lt _) (htonl_lt _) (htons_lt _) rest chunks op0 ret0 bsz blk len0 header0 hc1,
      hret, htonl_htonl op hop, ex]
    simp only [hne1, if_false, e8]
  | some b =>
    have ex : htons (htons (u32 (SMSA_NET_HEADER_SIZE + SMSA_BLOCK_SIZE))) = 264 := by decide
    have e8 : 264 > SMSA_NET_HEADER_SIZE := by decide
    have el : 264 - SMSA_NET_HEADER_SIZE = (loadBytes b 0 SMSA_BLOCK_SIZE).length := by
      rw [loadBytes_length]
      decide
    have hrb := readBytes_delivered (loadBytes b 0 SMSA_BLOCK_SIZE) rest chunks.tail blk (by
      rw [loadBytes_length]
      decide) (by
      rw [loadBytes_length]
      exact hc2 rfl)
    rw [sendPacket_some_bytes, hz, List.append_assoc,
      recievePacketWire_header (htons (u32 (SMSA_NET_HEADER_SIZE + SMSA_BLOCK_SIZE)))
        (htonl op) (htons (u16OfInt ret)) (htons_lt _) (htonl_lt _) (htons_lt _) _ chunks op0
        ret0 bsz blk len0 header0 hc1, hret,
      htonl_htonl op hop, ex]
    simp only [hne1, if_false, e8, if_true]
    rw [el, hrb]
    simp only [Except.bind, loadBytes_length, SMSA_BLOCK_SIZE, Nat.cast_ofNat]

/-- The round trip on a stream without bounds on its reads. -/
theorem recievePacketWire_sendPacket (op : Nat) (ret : Int) (block : Option Block)
    (buf0 : Block) (rest : List Nat) (op0 : Nat) (ret0 bsz : Int) (blk : Block) (len0 : Nat)
    (header0 : Block) (hop : op < 4294967296) (h0 : -32768 ≤ ret) (h1 : ret < 32768)
    (hne : ret ≠ 1) :
    recievePacketWire ⟨sendPacket op ret block buf0 ++ rest, []⟩ op0 ret0 bsz blk len0 header0
      = Except.ok (match block with
          | some b => ⟨0, op, ret, 256, storeBytes blk 0 (loadBytes b 0 SMSA_BLOCK_SIZE),
              ⟨rest, []⟩⟩
          | none => ⟨0, op, ret, 0, blk, ⟨rest, []⟩⟩) :=
  recievePacketWire_delivered op ret block buf0 rest [] op0 ret0 bsz blk len0 header0 hop h0 h1
    hne (fun _ hm => nomatch hm) (fun _ _ hm => nomatch hm)

/-- A packet with result code 1, on a stream whose first read is not cut
short: `recievePacket` returns 1 after the header, with `op` and `ret` set,
`blkSize` and the caller's block as they were, and the block of the packet,
if any, unread in the stream. -/
theorem recievePacketWire_ret_one_delivered (op : Nat) (block : Option Block) (buf0 : Block)
    (rest chunks : List Nat) (op0 : Nat) (ret0 bsz : Int) (blk : Block) (len0 : Nat)
    (header0 : Block) (hop : op < 4294967296) (hc1 : ∀ c ∈ chunks.head?, 8 ≤ c) :
    recievePacketWire ⟨sendPacket op 1 block buf0 ++ rest, chunks⟩ op0 ret0 bsz blk len0
        header0
      = Except.ok ⟨1, op, 1, bsz, blk,
          ⟨(match block with
            | some b => loadBytes b 0 SMSA_BLOCK_SIZE
            | none => []) ++ rest, chunks.tail⟩⟩ := by
  have hz : u16OfInt (i16 (htons (u16OfInt 1))) = htons (u16OfInt 1) :=
    u16OfInt_i16 _ (htons_lt _)
  have hret : i16 (htons (htons (u16OfInt 1))) = 1 := by decide
  cases block with
  | none =>
    rw [sendPacket_none_bytes, hz,
      recievePacketWire_header (htons SMSA_NET_HEADER_SIZE) (htonl op) (htons (u16OfInt 1))
        (htons_lt _) (htonl_lt _) (htons_lt _) rest chunks op0 ret0 bsz blk len0 header0 hc1,
      hret, htonl_htonl op hop]
    simp only [if_true, List.nil_append]
  | some b =>
    rw [sendPacket_some_bytes, hz, List.append_assoc,
      recievePacketWire_header (htons (u32 (SMSA_NET_HEADER_SIZE + SMSA_BLOCK_SIZE)))
        (htonl op) (htons (u16OfInt 1)) (htons_lt _) (htonl_lt _) (htons_lt _) _ chunks op0
        ret0 bsz blk len0 header0 hc1, hret,
      htonl_htonl op hop]
    simp only [if_true]

theorem recievePacketWire_ret_one (op : Nat) (block : Option Block) (buf0 : Block)
    (rest : List Nat) (op0 : Nat) (ret0 bsz : Int) (blk : Block) (len0 : Nat) (header0 : Block)
    (hop : op < 4294967296) :
    recievePacketWire ⟨sendPacket op 1 block buf0 ++ rest, []⟩ op0 ret0 bsz blk len0 header0
      = Except.ok ⟨1, op, 1, bsz, blk,
          ⟨(match block with
            | some b => loadBytes b 0 SMSA_BLOCK_SIZE
            | none => []) ++ rest, []⟩⟩ :=
  recievePacketWire_ret_one_delivered op block buf0 rest [] op0 ret0 bsz blk len0 header0 hop
    (fun _ hm => nomatch hm)

theorem storeBytes_loadBytes (blk b : Block) (n : Nat) :
    storeBytes blk 0 (loadBytes b 0 n) = memcpy blk 0 b 0 n := by
  funext i
  unfold storeBytes memcpy
  rw [loadBytes_length]
  by_cases h : 0 ≤ i ∧ i < 0 + n
  · rw [if_pos h, if_pos h]
    have hi : i - 0 < (loadBytes b 0 n).length := by
      rw [loadBytes_length]
      omega
    rw [List.getD_eq_getElem _ _ hi]
    simp only [loadBytes, List.getElem_map, List.getElem_range]
  · rw [if_neg h, if_neg h]

/-- The field-level `recievePacket` used in `smsa_client_operation` agrees with
the byte-level function on the bytes of a packet: return code and caller's
block are the same. -/
theorem recievePacket_refines (op : Nat) (ret : Int) (reply : Option Block) (buf0 : Block)
    (rest : List Nat) (op0 : Nat) (ret0 bsz : Int) (blk : Block) (len0 : Nat) (header0 : Block)
    (hop : op < 4294967296) (h0 : -32768 ≤ ret) (h1 : ret < 32768) :
    (recievePacketWire ⟨sendPacket op ret reply buf0 ++ rest, []⟩ op0 ret0 bsz blk len0
        header0).map (fun r => (r.code, r.block))
      = Except.ok (recievePacket ret reply blk) := by
  by_cases hr : ret = 1
  · subst hr
    rw [recievePacketWire_ret_one op reply buf0 rest op0 ret0 bsz blk len0 header0 hop]
    simp only [Except.map, recievePacket, if_true]
  · rw [recievePacketWire_sendPacket op ret reply buf0 rest op0 ret0 bsz blk len0 header0 hop
      h0 h1 hr]
    cases reply with
    | none => simp only [Except.map, recievePacket, hr, if_false]
    | some b => simp only [Except.map, recievePacket, hr, if_false, storeBytes_loadBytes]

/-- C23 refuted as stated: `recievePacket` applied to the bytes of
`sendPacket(0x10000000, 1, block)`, with one more byte (7) behind them in the
stream, returns 1, not success: it stops at `if ( *ret == 1 )` after the
header, `*blkSize` keeps its 0, the caller's block is untouched and the 256
bytes of the block stay unread in the stream.  And when a `read` is cut short
the round trip fails for other result codes too (`readBytes =+ rb`): with the
first `read` delivering 3 of the 8 header bytes of `sendPacket(0x10000000, 0,
NULL)`, `recievePacket` returns 0 with `op = 0x10000007`, having read the byte
behind the packet into the header; with the `read` for the block delivering
100 of its 256 bytes, it returns 0 with byte 156 of the block replaced by the
byte behind the packet. -/
theorem C23_round_trip_fails :
    recievePacketWire
        ⟨sendPacket 268435456 1 (some (fun i => i % 256)) (fun _ => 0) ++ [7], []⟩
        0 0 0 (fun _ => 0) 0 (fun _ => 0)
      = Except.ok ⟨1, 268435456, 1, 0, fun _ => 0,
          ⟨loadBytes (fun i => i % 256) 0 SMSA_BLOCK_SIZE ++ [7], []⟩⟩
    ∧ (recievePacketWire ⟨sendPacket 268435456 0 none (fun _ => 0) ++ [7], [3]⟩
          0 0 0 (fun _ => 0) 0 (fun _ => 0)).map
        (fun r => (r.code, r.op, r.ret, r.blkSize, r.stream.bytes))
      = Except.ok (0, 268435463, 0, 0, [])
    ∧ (recievePacketWire
          ⟨sendPacket 268435456 0 (some (fun i => i % 256)) (fun _ => 0) ++ [7], [8, 100]⟩
          0 0 0 (fun _ => 0) 0 (fun _ => 0)).map
        (fun r => (r.code, r.op, r.ret, r.blkSize, loadBytes r.block 154 4, r.stream.bytes))
      = Except.ok (0, 268435456, 0, 256, [154, 155, 7, 157], []) :=
  ⟨recievePacketWire_ret_one 268435456 (some (fun i => i % 256)) (fun _ => 0) [7] 0 0 0
      (fun _ => 0) 0 (fun _ => 0) (by decide), rfl, rfl⟩

/-- C23, amended: for every 32-bit `op`, every signed 16-bit result code `ret`
and every optional block, the bytes built by `sendPacket(op, ret, block)` are,
in order, the total length in two bytes (8 without a block, 264 with one), the
opcode in four bytes, the result code in two bytes, all most significant byte
first, then the 256 bytes of the block.  On a stream that starts with those
bytes, with any bytes `rest` behind them and any bounds `chunks` on the sizes
of its coming reads under which the reads of `recievePacket` are not cut short
(the bound of the first read, if there is one, is at least 8; for a packet
with a block and `ret` other than 1 the bound of the second read, if there is
one, is at least 256): for every `ret` other than 1, `recievePacket` returns 0
with the same `op` and `ret`, with `blkSize` 0 and the caller's block
untouched for a packet without a block, and with `blkSize` 256 and the 256
bytes of the block in the caller's block for a packet with one, and consumes
exactly the packet, with one read for the header and one for the block.  For
`ret = 1` it returns 1 with `op` and `ret` set, `blkSize` and the caller's
block as they were and the block of the packet, if any, unread. -/
theorem C23_packet_round_trip (op : Nat) (ret : Int) (block : Option Block) (buf0 : Block)
    (rest chunks : List Nat) (op0 : Nat) (ret0 bsz : Int) (blk : Block) (len0 : Nat)
    (header0 : Block) (hop : op < 4294967296) (h0 : -32768 ≤ ret) (h1 : ret < 32768)
    (hc1 : ∀ c ∈ chunks.head?, 8 ≤ c) :
    sendPacket op ret block buf0
        = [(if block.isSome then 264 else 8) / 256, (if block.isSome then 264 else 8) % 256,
            op / 16777216, op / 65536 % 256, op / 256 % 256, op % 256,
            u16OfInt ret / 256, u16OfInt ret % 256]
          ++ (match block with
              | some b => loadBytes b 0 256
              | none => [])
      ∧ (ret ≠ 1 → (block.isSome = true → ∀ c ∈ chunks.tail.head?, 256 ≤ c) →
          recievePacketWire ⟨sendPacket op ret block buf0 ++ rest, chunks⟩ op0 ret0 bsz blk len0
              header0
            = Except.ok (match block with
                | some b => ⟨0, op, ret, 256, storeBytes blk 0 (loadBytes b 0 SMSA_BLOCK_SIZE),
                    ⟨rest, chunks.tail.tail⟩⟩
                | none => ⟨0, op, ret, 0, blk, ⟨rest, chunks.tail⟩⟩))
      ∧ (ret = 1 →
          recievePacketWire ⟨sendPacket op ret block buf0 ++ rest, chunks⟩ op0 ret0 bsz blk len0
              header0
            = Except.ok ⟨1, op, 1, bsz, blk,
                ⟨(match block with
                  | some b => loadBytes b 0 SMSA_BLOCK_SIZE
                  | none => []) ++ rest, chunks.tail⟩⟩)
      ∧ ∀ (b : Block) (i : Nat),
          storeBytes blk 0 (loadBytes b 0 SMSA_BLOCK_SIZE) i = if i < 256 then b i else blk i := by
  refine ⟨sendPacket_layout op ret block buf0 hop h0 h1, ?_, ?_, ?_⟩
  · intro hne hc2
    exact recievePacketWire_delivered op ret block buf0 rest chunks op0 ret0 bsz blk len0
      header0 hop h0 h1 hne hc1 hc2
  · intro h
    subst h
    exact recievePacketWire_ret_one_delivered op block buf0 rest chunks op0 ret0 bsz blk len0
      header0 hop hc1
  · intro b i
    rw [storeBytes_loadBytes]
    unfold memcpy SMSA_BLOCK_SIZE
    by_cases h : i < 256
    · rw [if_pos h, if_pos ⟨Nat.zero_le i, by omega⟩]
      simp only [Nat.sub_zero, Nat.zero_add]
    · rw [if_neg h, if_neg (by omega)]

/-- C23, amended, at the reply to a disk read that failed on the device
(`ret = -1`) and still carries a block, on a stream whose coming reads are
bounded by 8, 256 and 1 bytes: the result code travels as the bytes 255, 255,
and `recievePacket` returns 0 with `ret = -1` and the block, leaving the byte
behind the packet and the third bound. -/
theorem C23_packet_round_trip_witness :
    sendPacket 268435456 (-1) (some (fun i => i % 256)) (fun _ => 0)
        = [1, 8, 16, 0, 0, 0, 255, 255] ++ loadBytes (fun i => i % 256) 0 256
      ∧ recievePacketWire
          ⟨sendPacket 268435456 (-1) (some (fun i => i % 256)) (fun _ => 0) ++ [7],
            [8, 256, 1]⟩
          0 0 0 (fun _ => 0) 0 (fun _ => 0)
        = Except.ok ⟨0, 268435456, -1, 256,
            storeBytes (fun _ => 0) 0 (loadBytes (fun i => i % 256) 0 SMSA_BLOCK_SIZE),
            ⟨[7], [1]⟩⟩
      ∧ storeBytes (fun _ => 0) 0 (loadBytes (fun i => i % 256) 0 SMSA_BLOCK_SIZE) 200 = 200 :=
  ⟨(C23_packet_round_trip 268435456 (-1) (some (fun i => i % 256)) (fun _ => 0) [7] [8, 256, 1]
      0 0 0 (fun _ => 0) 0 (fun _ => 0) (by decide) (by decide) (by decide)
      (by decide)).1,
    (C23_packet_round_trip 268435456 (-1) (some (fun i => i % 256)) (fun _ => 0) [7] [8, 256, 1]
      0 0 0 (fun _ => 0) 0 (fun _ => 0) (by decide) (by decide) (by decide)
      (by decide)).2.1 (by decide) (fun _ => by decide),
    ((C23_packet_round_trip 268435456 (-1) (some (fun i => i % 256)) (fun _ => 0) [7]
      [8, 256, 1] 0 0 0 (fun _ => 0) 0 (fun _ => 0) (by decide) (by decide) (by decide)
      (by decide)).2.2.2 (fun i => i % 256) 200).trans rfl⟩

/-! ## The rounds of the transfer loop: cursor, bounds and buffer offset -/

theorem loopDone_inside (addr len c : Nat) (hlen : 1 ≤ len) (h : addr + len ≤ 1048576)
    (hc : c ≤ (addr + len - 1) / 256) :
    loopDone (getDiskBlockParameters addr len).2 (c / 256) (c % 256) = false := by
  rw [getDiskBlockParameters_eq addr len hlen h]
  simp only [loopDone, decide_eq_false_iff_not]
  omega

theorem loopDone_after (addr len : Nat) (hlen : 1 ≤ len) (h : addr + len ≤ 1048576) :
    loopDone (getDiskBlockParameters addr len).2 (((addr + len - 1) / 256 + 1) / 256)
      (((addr + len - 1) / 256 + 1) % 256) = true := by
  rw [getDiskBlockParameters_eq addr len hlen h]
  simp only [loopDone, decide_eq_true_eq]
  omega

theorem findMemCpyBounds_inside (addr len c : Nat) (hlen : 1 ≤ len)
    (h : addr + len ≤ 1048576) (hs : addr / 256 ≤ c) (hc : c ≤ (addr + len - 1) / 256) :
    findMemCpyBounds (getDiskBlockParameters addr len).2 (c / 256) (c % 256)
      = (addr - 256 * c, min (addr + len) (256 * (c + 1)) - 256 * c) := by
  rw [getDiskBlockParameters_eq addr len hlen h]
  unfold findMemCpyBounds
  simp only [u32, SMSA_BLOCK_SIZE]
  split_ifs <;> simp only [Prod.mk.injEq] <;> omega

theorem nextCursor_linear (c : Nat) (hc : c ≤ 4095) :
    nextCursor (c / 256) (c % 256) = ((c + 1) / 256, (c + 1) % 256) := by
  unfold nextCursor
  simp only [u16, u8, SMSA_BLOCK_SIZE]
  split_ifs <;> simp only [Prod.mk.injEq] <;> omega

theorem loopRounds_from (addr len : Nat) (hlen : 1 ≤ len) (h : addr + len ≤ 1048576) :
    ∀ (m c fuel : Nat), c + m = (addr + len - 1) / 256 + 1 → addr / 256 ≤ c → m < fuel →
      loopRounds (getDiskBlockParameters addr len).2 fuel (c / 256) (c % 256)
          (min (256 * c) (addr + len) - addr)
        = some ((List.range' c m).map (roundAt addr len), len) := by
  intro m
  induction m with
  | zero =>
    intro c fuel hcm _ hf
    obtain ⟨f, rfl⟩ : ∃ f, fuel = f + 1 := ⟨fuel - 1, by omega⟩
    have hc : c = (addr + len - 1) / 256 + 1 := by omega
    have hb : min (256 * c) (addr + len) - addr = len := by omega
    unfold loopRounds
    rw [hc, loopDone_after addr len hlen h, ← hc, hb]
    rfl
  | succ m ih =>
    intro c fuel hcm hs hf
    obtain ⟨f, rfl⟩ : ∃ f, fuel = f + 1 := ⟨fuel - 1, by omega⟩
    have hc : c ≤ (addr + len - 1) / 256 := by omega
    have hn : u32 (min (addr + len) (256 * (c + 1)) - 256 * c + 4294967296 - (addr - 256 * c))
        = min (addr + len) (256 * (c + 1)) - 256 * c - (addr - 256 * c) := by
      unfold u32
      omega
    have hb : min (256 * c) (addr + len) - addr
          + (min (addr + len) (256 * (c + 1)) - 256 * c - (addr - 256 * c))
        = min (256 * (c + 1)) (addr + len) - addr := by omega
    have hi : min (256 * c) (addr + len) - addr = 256 * c - addr := by omega
    unfold loopRounds
    rw [loopDone_inside addr len c hlen h hc]
    simp only [Bool.false_eq_true, if_false]
    rw [findMemCpyBounds_inside addr len c hlen h hs hc, nextCursor_linear c (by omega)]
    simp only []
    rw [hn, hb, ih (c + 1) f (by omega) (by omega) (by omega), List.range'_succ, List.map_cons, hi]
    rfl

theorem transferRounds_eq (addr len : Nat) (hlen : 1 ≤ len) (h : addr + len ≤ 1048576) :
    transferRounds addr len
      = some ((List.range' (addr / 256) ((addr + len - 1) / 256 - addr / 256 + 1)).map
          (roundAt addr len), len) := by
  have e := loopRounds_from addr len hlen h ((addr + len - 1) / 256 - addr / 256 + 1)
    (addr / 256) loopFuel (by omega) (le_refl _) (by unfold loopFuel; omega)
  have e0 : min (256 * (addr / 256)) (addr + len) - addr = 0 := by omega
  have e1 : (getDiskBlockParameters addr len).2.diskStart = addr / 256 / 256 := by
    rw [getDiskBlockParameters_eq addr len hlen h]
    simp only []
    omega
  have e2 : (getDiskBlockParameters addr len).2.blockStart = addr / 256 % 256 := by
    rw [getDiskBlockParameters_eq addr len hlen h]
  unfold transferRounds
  rw [e1, e2, ← e0]
  exact e

theorem roundAt_mem (addr len : Nat) (hlen : 1 ≤ len) (r : Round)
    (hr : r ∈ (List.range' (addr / 256) ((addr + len - 1) / 256 - addr / 256 + 1)).map
      (roundAt addr len)) :
    ∃ c, addr / 256 ≤ c ∧ c ≤ (addr + len - 1) / 256 ∧ r = roundAt addr len c := by
  rw [List.mem_map] at hr
  obtain ⟨c, hc, rfl⟩ := hr
  rw [List.mem_range'_1] at hc
  exact ⟨c, hc.1, by omega, rfl⟩

theorem roundAt_chain (addr len : Nat) (hlen : 1 ≤ len) :
    ∀ (m c : Nat), c + m = (addr + len - 1) / 256 + 1 → addr / 256 ≤ c →
      List.Chain' (fun r r2 : Round => r2.bufferIndex
          = r.bufferIndex + (r.upperBound - r.lowerBound))
        ((List.range' c m).map (roundAt addr len)) := by
  intro m
  induction m with
  | zero => intro c _ _; exact List.chain'_nil
  | succ m ih =>
    intro c hcm hs
    have t := ih (c + 1) (by omega) (by omega)
    rw [List.range'_succ, List.map_cons]
    cases m with
    | zero => exact List.chain'_singleton _
    | succ k =>
      rw [List.range'_succ, List.map_cons] at t ⊢
      refine List.Chain'.cons ?_ t
      simp only [roundAt]
      omega

theorem roundAt_sum (addr len : Nat) (hlen : 1 ≤ len) :
    ∀ (m c : Nat), c + m = (addr + len - 1) / 256 + 1 → addr / 256 ≤ c →
      (((List.range' c m).map (roundAt addr len)).map
          (fun r => r.upperBound - r.lowerBound)).sum
        = addr + len - max (256 * c) addr := by
  intro m
  induction m with
  | zero =>
    intro c hcm _
    simp only [List.range'_zero, List.map_nil, List.sum_nil]
    omega
  | succ m ih =>
    intro c hcm hs
    rw [List.range'_succ, List.map_cons, List.map_cons, List.sum_cons,
      ih (c + 1) (by omega) (by omega)]
    simp only [roundAt]
    omega

/-- The rounds of a request with `len >= 1` and `addr + len <= 1048576`, as
`transferRounds` lists them (the loop of `smsa_vread` / `smsa_vwrite` when no
call inside it ends the run): the last `bufferIndex` is `len`, and in each
round the bounds are those of `findMemCpyBounds` at the cursor, satisfy
`lowerBound < upperBound <= 256`, the offset `bufferIndex` before the copy is
`< len` and the copy ends at or before `len`; the first offset is 0, each
later offset is the previous one plus the previous copied length, and the
copied lengths sum to `len`. -/
theorem transferRounds_cover_the_buffer (addr len : Nat) (hlen : 1 ≤ len)
    (h : addr + len ≤ 1048576) :
    ∃ rs, transferRounds addr len = some (rs, len)
      ∧ (∀ r ∈ rs,
          (r.lowerBound, r.upperBound)
              = findMemCpyBounds (getDiskBlockParameters addr len).2 r.currentDrum r.currentBlock
            ∧ r.lowerBound < r.upperBound ∧ r.upperBound ≤ 256
            ∧ r.bufferIndex < len
            ∧ r.bufferIndex + (r.upperBound - r.lowerBound) ≤ len)
      ∧ rs.head?.map Round.bufferIndex = some 0
      ∧ List.Chain' (fun r r2 : Round => r2.bufferIndex
          = r.bufferIndex + (r.upperBound - r.lowerBound)) rs
      ∧ (rs.map (fun r => r.upperBound - r.lowerBound)).sum = len := by
  refine ⟨_, transferRounds_eq addr len hlen h, ?_, ?_, ?_, ?_⟩
  · intro r hr
    obtain ⟨c, hs, hc, rfl⟩ := roundAt_mem addr len hlen r hr
    refine ⟨?_, ?_⟩
    · simp only [roundAt]
      rw [findMemCpyBounds_inside addr len c hlen h hs hc]
    · simp only [roundAt]
      omega
  · rw [List.range'_succ, List.map_cons, List.head?_cons, Option.map_some']
    simp only [roundAt, Option.some.injEq]
    omega
  · exact roundAt_chain addr len hlen _ _ (by omega) (le_refl _)
  · rw [roundAt_sum addr len hlen _ _ (by omega) (le_refl _)]
    omega

/-- The request of 300 bytes at address 65500 is copied in three rounds, of
36, 256 and 8 bytes. -/
theorem transferRounds_cover_the_buffer_at_65500 :
    transferRounds 65500 300
        = some ([⟨0, 255, 220, 256, 0⟩, ⟨1, 0, 0, 256, 36⟩, ⟨1, 1, 0, 8, 292⟩], 300)
      ∧ ∃ rs, transferRounds 65500 300 = some (rs, 300)
        ∧ (∀ r ∈ rs,
            (r.lowerBound, r.upperBound)
                = findMemCpyBounds (getDiskBlockParameters 65500 300).2 r.currentDrum
                    r.currentBlock
              ∧ r.lowerBound < r.upperBound ∧ r.upperBound ≤ 256
              ∧ r.bufferIndex < 300
              ∧ r.bufferIndex + (r.upperBound - r.lowerBound) ≤ 300)
        ∧ rs.head?.map Round.bufferIndex = some 0
        ∧ List.Chain' (fun r r2 : Round => r2.bufferIndex
            = r.bufferIndex + (r.upperBound - r.lowerBound)) rs
        ∧ (rs.map (fun r => r.upperBound - r.lowerBound)).sum = 300 :=
  ⟨rfl, transferRounds_cover_the_buffer 65500 300 (by decide) (by decide)⟩

/-- The rounds of a request with `len >= 1` and `addr + len <= 1048576`, as
`transferRounds` lists them (the loop of `smsa_vread` / `smsa_vwrite` when no
call inside it ends the run): there are exactly
`(diskEnd * 256 + blockEnd) - (diskStart * 256 + blockStart) + 1` of them, and
their cursors `(currentDrum, currentBlock)` are, in order, the blocks of the
consecutive linear positions from the start block through the end block, each
with drum `< 16` and block `< 256`. -/
theorem transferRounds_visit_the_range_in_order (addr len : Nat) (hlen : 1 ≤ len)
    (h : addr + len ≤ 1048576) :
    ∃ rs fin, transferRounds addr len = some (rs, fin)
      ∧ rs.length
          = ((getDiskBlockParameters addr len).2.diskEnd * 256
                + (getDiskBlockParameters addr len).2.blockEnd)
              - ((getDiskBlockParameters addr len).2.diskStart * 256
                + (getDiskBlockParameters addr len).2.blockStart) + 1
      ∧ rs.map (fun r => (r.currentDrum, r.currentBlock))
          = (List.range' ((getDiskBlockParameters addr len).2.diskStart * 256
                + (getDiskBlockParameters addr len).2.blockStart) rs.length).map
              (fun c => (c / 256, c % 256))
      ∧ rs.map Round.position
          = List.range' ((getDiskBlockParameters addr len).2.diskStart * 256
                + (getDiskBlockParameters addr len).2.blockStart) rs.length
      ∧ (getDiskBlockParameters addr len).2.diskStart * 256
            + (getDiskBlockParameters addr len).2.blockStart + rs.length
          = (getDiskBlockParameters addr len).2.diskEnd * 256
            + (getDiskBlockParameters addr len).2.blockEnd + 1
      ∧ ∀ r ∈ rs, r.currentDrum < 16 ∧ r.currentBlock < 256 := by
  have es : (getDiskBlockParameters addr len).2.diskStart * 256
      + (getDiskBlockParameters addr len).2.blockStart = addr / 256 := by
    rw [getDiskBlockParameters_eq addr len hlen h]
    simp only []
    omega
  have ee : (getDiskBlockParameters addr len).2.diskEnd * 256
      + (getDiskBlockParameters addr len).2.blockEnd = (addr + len - 1) / 256 := by
    rw [getDiskBlockParameters_eq addr len hlen h]
    simp only []
    omega
  rw [es, ee]
  refine ⟨_, _, transferRounds_eq addr len hlen h, ?_, ?_, ?_, ?_, ?_⟩
  · rw [List.length_map, List.length_range']
  · rw [List.length_map, List.length_range', List.map_map]
    rfl
  · rw [List.length_map, List.length_range', List.map_map]
    conv_rhs => rw [← List.map_id (List.range' _ _)]
    apply List.map_congr_left
    intro c _
    simp only [Function.comp, Round.position, roundAt, id]
    omega
  · rw [List.length_map, List.length_range']
    omega
  · intro r hr
    obtain ⟨c, _, hc, rfl⟩ := roundAt_mem addr len hlen r hr
    simp only [roundAt]
    omega

/-- The request of 300 bytes at address 65500 takes three rounds, on blocks
`(0, 255)`, `(1, 0)` and `(1, 1)`. -/
theorem transferRounds_visit_the_range_at_65500 :
    (transferRounds 65500 300).map (fun x => x.1.map (fun r => (r.currentDrum, r.currentBlock)))
        = some [(0, 255), (1, 0), (1, 1)]
      ∧ ∃ rs fin, transferRounds 65500 300 = some (rs, fin)
        ∧ rs.length
            = ((getDiskBlockParameters 65500 300).2.diskEnd * 256
                  + (getDiskBlockParameters 65500 300).2.blockEnd)
                - ((getDiskBlockParameters 65500 300).2.diskStart * 256
                  + (getDiskBlockParameters 65500 300).2.blockStart) + 1
        ∧ rs.map (fun r => (r.currentDrum, r.currentBlock))
            = (List.range' ((getDiskBlockParameters 65500 300).2.diskStart * 256
                  + (getDiskBlockParameters 65500 300).2.blockStart) rs.length).map
                (fun c => (c / 256, c % 256))
        ∧ rs.map Round.position
            = List.range' ((getDiskBlockParameters 65500 300).2.diskStart * 256
                  + (getDiskBlockParameters 65500 300).2.blockStart) rs.length
        ∧ (getDiskBlockParameters 65500 300).2.diskStart * 256
              + (getDiskBlockParameters 65500 300).2.blockStart + rs.length
            = (getDiskBlockParameters 65500 300).2.diskEnd * 256
              + (getDiskBlockParameters 65500 300).2.blockEnd + 1
        ∧ ∀ r ∈ rs, r.currentDrum < 16 ∧ r.currentBlock < 256 :=
  ⟨rfl, transferRounds_visit_the_range_in_order 65500 300 (by decide) (by decide)⟩

/-! ## The command word of the driver (C40) -/

/-- The closed form of `generateOPCommand` with `reserved = 0` on legal
arguments. -/
theorem generateOPCommand_eq (opcode drum block : Nat) (hc : opcode < 9) (hd : drum < 16)
    (hb : block < 256) :
    generateOPCommand opcode drum 0 block = opcode * 67108864 + drum * 4194304 + block := by
  have e1 : u8 drum = drum := Nat.mod_eq_of_lt (by omega)
  have e2 : u16 block = block := Nat.mod_eq_of_lt (by omega)
  have e3 : u32 (opcode <<< 26) = opcode <<< 26 := by
    rw [Nat.shiftLeft_eq]
    exact Nat.mod_eq_of_lt (by omega)
  have e4 : u32 (0 <<< 8) = 0 := by decide
  unfold generateOPCommand
  rw [e1, e2, e3, e4, Nat.or_zero, command_word_sum opcode drum block hd hb]
  exact Nat.mod_eq_of_lt (by omega)

/-- Claim C40: for every opcode `< 9`, drum `< 16` and block `< 256` the word
built by `generateOPCommand(opcode, drum, 0, block)` of the driver is the word
built by `encode_SMSA_operation(opcode, drum, block)` of the device library
(which leaves `smsa_error_number` as it was); it is
`opcode * 2^26 + drum * 2^22 + block`. -/
theorem C40_generateOPCommand_matches_encode (opcode drum block errno : Nat) (hc : opcode < 9)
    (hd : drum < 16) (hb : block < 256) :
    encode_SMSA_operation opcode drum block errno
        = (generateOPCommand opcode drum 0 block, errno)
      ∧ generateOPCommand opcode drum 0 block = opcode * 67108864 + drum * 4194304 + block := by
  rw [encode_SMSA_operation_eq opcode drum block errno hc hd hb,
    generateOPCommand_eq opcode drum block hc hd hb]
  exact ⟨rfl, rfl⟩

/-- C40 at the seek-block command for block 255 and at the seek-drum command
for drum 15. -/
theorem C40_generateOPCommand_matches_encode_witness :
    (encode_SMSA_operation SMSA_SEEK_DRUM 15 0 0
        = (generateOPCommand SMSA_SEEK_DRUM 15 0 0, 0)
      ∧ generateOPCommand SMSA_SEEK_DRUM 15 0 0 = SMSA_SEEK_DRUM * 67108864 + 15 * 4194304 + 0)
    ∧ generateOPCommand SMSA_SEEK_BLOCK 0 0 255 = 201326847 :=
  ⟨C40_generateOPCommand_matches_encode SMSA_SEEK_DRUM 15 0 0 (by decide) (by decide)
    (by decide), by decide⟩

/-! ## Consecutive writes and a read on the mounted device (C35) -/

/-- Consecutive block writes on the mounted array from block `rh` of drum `dh`
on: they succeed, the read head advances by their number, block `rh + j` of the
drum holds the 256 bytes of the `j`-th block written and the bytes of the drum
below block `rh` are as before. -/
theorem writes_mounted_contents (err dh : Nat) (hd : dh < 16) (bs : List Block) :
    ∀ (rh : Nat) (disk : Nat → Nat → Nat) (cc : Nat), rh + bs.length ≤ 256 →
      ∃ disk1 cc1,
        runOperations (bs.map (fun b => (testOp SMSA_DISK_WRITE 0 0, b)))
            ⟨true, true, err, dh, rh, disk, cc⟩
          = Except.ok ⟨true, true, err, dh, rh + bs.length, disk1, cc1⟩
        ∧ (∀ off, off < rh * 256 → disk1 dh off = disk dh off)
        ∧ (∀ j k, j < bs.length → k < 256 →
            disk1 dh ((rh + j) * 256 + k) = bs.getD j (fun _ => 0) k) := by
  induction bs with
  | nil =>
    intro rh disk cc _
    refine ⟨disk, cc, rfl, fun _ _ => rfl, ?_⟩
    intro j k hj _
    simp only [List.length_nil] at hj
    omega
  | cons b rest ih =>
    intro rh disk cc hlen
    simp only [List.length_cons] at hlen
    obtain ⟨cc1, hw⟩ := write_mounted b err dh rh disk cc hd (by omega)
    obtain ⟨disk2, cc2, hrest, hlow, hcont⟩ := ih (rh + 1) _ cc1 (by omega)
    have e : rh + 1 + rest.length = rh + (rest.length + 1) := by omega
    rw [e] at hrest
    refine ⟨disk2, cc2, ?_, ?_, ?_⟩
    · rw [List.map_cons, runOperations_cons_ok _ _ _ _ _ hw, List.length_cons]
      exact hrest
    · intro off hoff
      rw [hlow off (by omega)]
      simp only [if_true, memcpy, SMSA_BLOCK_SIZE]
      rw [if_neg (by omega)]
    · intro j k hj hk
      cases j with
      | zero =>
        rw [Nat.add_zero, hlow (rh * 256 + k) (by omega)]
        simp only [if_true, memcpy, SMSA_BLOCK_SIZE, List.getD_cons_zero]
        rw [if_pos (by omega)]
        congr 1
        omega
      | succ i =>
        simp only [List.length_cons] at hj
        have h2 := hcont i k (by omega) hk
        have e2 : rh + (i + 1) = rh + 1 + i := by omega
        rw [e2, h2, List.getD_cons_succ]

/-- Claim C35: on a mounted array, for every drum `d < 16`, every list of
`n <= 256` blocks `w_0 .. w_(n-1)` and every `j < n`: the seek to drum `d` and
the `n` consecutive writes succeed and leave the drum head at `d` and the read
head at `n` (the seek put it at 0, every write advanced it by one); the seek to
block `j` and the read that follow return 0 and 0, the block read holds the 256
bytes of `w_j`, and the heads are then at drum `d`, block `j + 1`. -/
theorem C35_read_returns_the_block_written (err dh rh : Nat) (disk : Nat → Nat → Nat)
    (cc d j : Nat) (ws : List Block) (blk2 : Block) (hd : d < 16) (hn : ws.length ≤ 256)
    (hj : j < ws.length) :
    ∃ s1, runOperations (seekAndWrite d ws) ⟨true, true, err, dh, rh, disk, cc⟩ = Except.ok s1
      ∧ s1.smsa_mount_state = true ∧ s1.smsa_drum_head = d ∧ s1.smsa_read_head = ws.length
      ∧ ∃ blk s2, seekAndRead j blk2 s1 = Except.ok (0, 0, blk, s2)
        ∧ (∀ k, k < 256 → blk k = ws.getD j (fun _ => 0) k)
        ∧ s2.smsa_drum_head = d ∧ s2.smsa_read_head = j + 1 := by
  obtain ⟨cc1, hseek⟩ := seek_drum_mounted d (fun _ => 0) err dh rh disk cc hd
  obtain ⟨disk2, cc2, hwr, _, hcont⟩ :=
    writes_mounted_contents err d hd ws 0 disk cc1 (by omega)
  obtain ⟨cc3, hsb⟩ := seek_block_mounted j (fun _ => 0) err d (0 + ws.length) disk2 cc2
    (by omega)
  obtain ⟨cc4, hrd⟩ := read_mounted blk2 err d j disk2 cc3 hd (by omega)
  refine ⟨⟨true, true, err, d, 0 + ws.length, disk2, cc2⟩, ?_, rfl, rfl, Nat.zero_add _,
    memcpy blk2 0 (fun i => disk2 d (j * SMSA_BLOCK_SIZE + i)) 0 SMSA_BLOCK_SIZE,
    ⟨true, true, err, d, j + 1, disk2, cc4⟩, ?_, ?_, rfl, rfl⟩
  · unfold seekAndWrite
    rw [runOperations_cons_ok _ _ _ _ _ hseek]
    exact hwr
  · simp only [seekAndRead, hsb, hrd, bind, Except.bind, pure, Except.pure]
  · intro k hk
    have h := hcont j k hj hk
    rw [Nat.zero_add] at h
    simp only [memcpy, SMSA_BLOCK_SIZE]
    rw [if_pos (by omega), ← h]
    congr 1
    omega

/-- C35 on the array right after a mount: three blocks written to drum 3
(bytes 10, 11, 12), then block 1 read back. -/
theorem C35_read_returns_the_block_written_witness :
    ∃ s1, runOperations (seekAndWrite 3 [fun _ => 10, fun _ => 11, fun _ => 12])
          ⟨true, true, 0, 0, 0, fun _ _ => 0, 10000⟩ = Except.ok s1
      ∧ s1.smsa_mount_state = true ∧ s1.smsa_drum_head = 3
      ∧ s1.smsa_read_head = [fun (_ : Nat) => 10, fun _ => 11, fun _ => 12].length
      ∧ ∃ blk s2, seekAndRead 1 (fun _ => 0) s1 = Except.ok (0, 0, blk, s2)
        ∧ (∀ k, k < 256 → blk k = [fun _ => 10, fun _ => 11, fun _ => 12].getD 1 (fun _ => 0) k)
        ∧ s2.smsa_drum_head = 3 ∧ s2.smsa_read_head = 1 + 1 :=
  C35_read_returns_the_block_written 0 0 0 (fun _ _ => 0) 10000 3 1
    [fun _ => 10, fun _ => 11, fun _ => 12] (fun _ => 0) (by decide) (by decide) (by decide)

/-! ## Cache contents, tracked head, array indices, the last block and short
reads on concrete inputs (C31, C34, C37, C38, C39) -/

/-- C31, evaluated: `smsa_vmount(2)` and three in-range whole-block writes of
block (0,0) (all bytes 1, then 2, then 3), every primitive succeeding.  The
device then holds 3 in block (0,0), but the cache holds two lines with key
(0,0): one whose buffer holds the bytes of the third write and one whose
buffer still holds 2, the contents before the last write. -/
theorem C31_cache_keeps_a_stale_line :
    (∀ c ∈ [Call.vwrite 0 256 (fun _ => 1), Call.vwrite 0 256 (fun _ => 2),
            Call.vwrite 0 256 (fun _ => 3)], Call.inRange c) ∧
    (stateAfter [] 2 [Call.vwrite 0 256 (fun _ => 1), Call.vwrite 0 256 (fun _ => 2),
                      Call.vwrite 0 256 (fun _ => 3)]).map
        (fun d => (cacheFirstBytes d, deviceByte d 0, cacheMatchesDevice d,
          commands d, d.world.faults))
      = Except.ok ([(⟨0, 0, some 1⟩, 2), (⟨0, 0, some 2⟩, 3)], 3, false,
          [0, 201326592, 335544320, 201326592, 201326592, 335544320, 201326592, 201326592,
            335544320], []) ∧
    (stateAfter [] 2 [Call.vwrite 0 256 (fun _ => 1), Call.vwrite 0 256 (fun _ => 2)]).map
        (fun d => (cacheFirstBytes d, deviceByte d 0, cacheMatchesDevice d))
      = Except.ok ([(⟨0, 0, none⟩, 0), (⟨0, 0, some 1⟩, 2)], 2, true) :=
  ⟨by decide, rfl, rfl⟩

/-- C34, evaluated.  For every state and argument, whatever
`smsa_client_operation` returns, `setDrumHead` stores its argument in
`head.drum`, `setBlockHead` stores its argument in `head.block`, and
`readLowLevel` and `writeLowLevel` increment `head.block`.  On a connection to
a server whose array is not mounted the device rejects the command
(`smsa_error_number` becomes `SMSA_UNMOUNTED_DISK`, the device heads stay at
0), yet each of the four functions returns 0 and moves the tracked head from
(3,7).  Right after `smsa_vmount(2)`, with the transport failing for the next
command, the four functions return their codes 6, 7, 4 and 3, nothing reaches
the device, and the tracked head moves from (0,0) all the same. -/
theorem C34_tracked_head_moves_on_failure :
    (∀ (id : Nat) (d : Driver), (setDrumHead id d).map (fun x => x.2.head)
        = (setDrumHead id d).map (fun _ => ⟨u8 id, d.head.block⟩)) ∧
    (∀ (id : Nat) (d : Driver), (setBlockHead id d).map (fun x => x.2.head)
        = (setBlockHead id d).map (fun _ => ⟨d.head.drum, u16 id⟩)) ∧
    (∀ (p : Nat) (d : Driver), (readLowLevel p d).map (fun x => x.2.head)
        = (readLowLevel p d).map (fun _ => ⟨d.head.drum, u16 (d.head.block + 1)⟩)) ∧
    (∀ (p : Nat) (d : Driver), (writeLowLevel p d).map (fun x => x.2.head)
        = (writeLowLevel p d).map (fun _ => ⟨d.head.drum, u16 (d.head.block + 1)⟩)) ∧
    lowLevelView (setDrumHead 5 unmountedServerDriver)
      = Except.ok (0, ⟨5, 7⟩, 0, 0, SMSA_UNMOUNTED_DISK, [155189248]) ∧
    lowLevelView (setBlockHead 9 unmountedServerDriver)
      = Except.ok (0, ⟨3, 9⟩, 0, 0, SMSA_UNMOUNTED_DISK, [201326601]) ∧
    lowLevelView (readLowLevel 0 unmountedServerDriver)
      = Except.ok (0, ⟨3, 8⟩, 0, 0, SMSA_UNMOUNTED_DISK, [268435456]) ∧
    lowLevelView (writeLowLevel 0 unmountedServerDriver)
      = Except.ok (0, ⟨3, 8⟩, 0, 0, SMSA_UNMOUNTED_DISK, [335544320]) ∧
    (mountedOver [false, true] 2).map
        (fun d => (d.head, d.world.dev.smsa_drum_head, d.world.dev.smsa_read_head, commands d))
      = Except.ok (⟨0, 0⟩, 0, 0, [0]) ∧
    lowLevelView (do let d ← mountedOver [false, true] 2
                     setDrumHead 5 d)
      = Except.ok (6, ⟨5, 0⟩, 0, 0, 0, [0]) ∧
    lowLevelView (do let d ← mountedOver [false, true] 2
                     setBlockHead 9 d)
      = Except.ok (7, ⟨0, 9⟩, 0, 0, 0, [0]) ∧
    lowLevelView (do let d ← mountedOver [false, true] 2
                     readLowLevel 0 d)
      = Except.ok (4, ⟨0, 1⟩, 0, 0, 0, [0]) ∧
    lowLevelView (do let d ← mountedOver [false, true] 2
                     writeLowLevel 0 d)
      = Except.ok (3, ⟨0, 1⟩, 0, 0, 0, [0]) := by
  refine ⟨?_, ?_, ?_, ?_, rfl, rfl, rfl, rfl, rfl, rfl, rfl, rfl, rfl⟩
  · intro id d
    simp only [setDrumHead, bind, Except.bind]
    cases smsa_client_operation (generateOPCommand SMSA_SEEK_DRUM id 0 0) (fun _ => 0)
      d.world with
    | error e => rfl
    | ok r =>
      simp only [pure, Except.pure]
      split_ifs <;> rfl
  · intro id d
    simp only [setBlockHead, bind, Except.bind]
    cases smsa_client_operation (generateOPCommand SMSA_SEEK_BLOCK 0 0 id) (fun _ => 0)
      d.world with
    | error e => rfl
    | ok r =>
      simp only [pure, Except.pure]
      split_ifs <;> rfl
  · intro p d
    simp only [readLowLevel, bind, Except.bind]
    cases smsa_client_operation (generateOPCommand SMSA_DISK_READ 0 0 0) (d.mem p)
      d.world with
    | error e => rfl
    | ok r =>
      simp only [pure, Except.pure]
      split_ifs <;> rfl
  · intro p d
    simp only [writeLowLevel, bind, Except.bind]
    cases smsa_client_operation (generateOPCommand SMSA_DISK_WRITE 0 0 0) (d.mem p)
      d.world with
    | error e => rfl
    | ok r =>
      simp only [pure, Except.pure]
      split_ifs <;> rfl

/-- C37, evaluated: capacity 1.  After one insert the array is full with
`currentIndex = 0 = maxIndex - 1`.  `evictLRU` in that state stores to
`cache[currentIndex - 1]`, index -1, outside `[0, 1)`; it is reached by the
insert of a second key, also after a lookup hit in between. -/
theorem C37_index_below_the_array :
    (cacheAfter 1 [CacheOp.put 3 7 (some 5)]).map
        (fun c => (cacheLines c, c.currentIndex, c.maxIndex))
      = Except.ok ([⟨3, 7, some 5⟩], 0, 1) ∧
    (do let c ← cacheAfter 1 [CacheOp.put 3 7 (some 5)]
        let e ← c.rd c.currentIndex
        pure e) = Except.ok ⟨3, 7, some 5⟩ ∧
    (do let c ← cacheAfter 1 [CacheOp.put 3 7 (some 5)]
        let c ← c.wr (c.currentIndex - 1) ⟨3, 7, some 5⟩
        pure c.currentIndex) = Except.error Fault.outOfBounds ∧
    (do let c ← cacheAfter 1 [CacheOp.put 3 7 (some 5)]
        let r ← evictLRU c
        pure r.1) = Except.error Fault.outOfBounds ∧
    cacheReplies 1 [CacheOp.put 3 7 (some 5), CacheOp.put 3 8 (some 6)]
      = Except.error Fault.outOfBounds ∧
    cacheReplies 1 [CacheOp.put 3 7 (some 5), CacheOp.get 3 7, CacheOp.put 3 8 (some 6)]
      = Except.error Fault.outOfBounds :=
  ⟨rfl, rfl, rfl, rfl, rfl, rfl⟩

/-- C38, evaluated: after `smsa_vmount(2)` the in-range one-byte read of the
last byte of the array, address 1048575, returns 0, and the last command the
device receives for it is the word of `generateOPCommand(SMSA_SEEK_DRUM, 16, ..)`:
after block (15,255) the cursor is (16,0) and `seekIfNeedTo` calls
`setDrumHead(16)`.  Drum 16 does not fit the four drum bits; the word is
`3 << 26`, which the device decodes as a seek to block 0.  Afterwards the
tracked head is (16,0) while the device is at drum 15, block 0.  The one-byte
write at the same address ends the same way. -/
theorem C38_seek_to_drum_16 :
    Call.inRange (Call.vread 1048575 1) ∧
    (stateAfter [] 2 [Call.vread 1048575 1]).map
        (fun d => (commands d, d.head, d.world.dev.smsa_drum_head,
          d.world.dev.smsa_read_head))
      = Except.ok ([0, 197132288, 201326847, 268435456, 201326592], ⟨16, 0⟩, 15, 0) ∧
    replies 2 [Call.vread 1048575 1] = Except.ok [⟨0, [0]⟩] ∧
    generateOPCommand SMSA_SEEK_DRUM 16 0 0 = 201326592 ∧
    decode_SMSA_operation 201326592 0 = (0, ⟨SMSA_SEEK_BLOCK, 0, 0⟩, 0) ∧
    generateOPCommand SMSA_SEEK_DRUM 15 0 0 = 197132288 ∧
    (stateAfter [] 2 [Call.vwrite 1048575 1 (fun _ => 9)]).map
        (fun d => (commands d, d.head, d.world.dev.smsa_drum_head,
          d.world.dev.smsa_read_head))
      = Except.ok ([0, 197132288, 201326847, 268435456, 201326847, 335544320, 201326592],
          ⟨16, 0⟩, 15, 0) :=
  ⟨by decide, rfl, rfl, rfl, rfl, rfl, rfl⟩

/-- C39, evaluated: `readBytes(server, 8, block)` on a stream that holds the
bytes 1 to 16.  When the first `read` delivers all 8 bytes the call returns 0
with `block = 1..8` and 8 bytes consumed.  When the first `read` delivers 3
bytes, the second `read` asks for the 5 missing bytes and gets them, so
`block[0..8)` holds 1..8; but `readBytes =+ rb` has set the counter to 5, not
8, so a third `read` asks for 3 more bytes and stores 9, 10, 11 in
`block[5..8)`, a fourth asks for 5 and stores 12..16 in `block[3..8)`, and the
call returns 1 when the stream is exhausted: 16 bytes are consumed and the
block holds 1, 2, 3, 12, 13, 14, 15, 16.  With 11 bytes in the stream the call
consumes all 11 and returns 1 with 1, 2, 3, 4, 5, 9, 10, 11. -/
theorem C39_short_read_is_not_resumed :
    (readBytes ⟨[1, 2, 3, 4, 5, 6, 7, 8, 9, 10, 11, 12, 13, 14, 15, 16], []⟩ 8
        (fun _ => 0)).map (fun r => (r.1, loadBytes r.2.1 0 8, r.2.2.bytes))
      = Except.ok (0, [1, 2, 3, 4, 5, 6, 7, 8], [9, 10, 11, 12, 13, 14, 15, 16]) ∧
    Stream.readSize ⟨[1, 2, 3, 4, 5, 6, 7, 8, 9, 10, 11, 12, 13, 14, 15, 16], [3]⟩ 8 = 3 ∧
    (readBytes ⟨[1, 2, 3, 4, 5, 6, 7, 8, 9, 10, 11, 12, 13, 14, 15, 16], [3]⟩ 8
        (fun _ => 0)).map (fun r => (r.1, loadBytes r.2.1 0 8, r.2.2.bytes))
      = Except.ok (1, [1, 2, 3, 12, 13, 14, 15, 16], []) ∧
    (readBytes ⟨[1, 2, 3, 4, 5, 6, 7, 8, 9, 10, 11], [3]⟩ 8
        (fun _ => 0)).map (fun r => (r.1, loadBytes r.2.1 0 8, r.2.2.bytes))
      = Except.ok (1, [1, 2, 3, 4, 5, 9, 10, 11], []) :=
  ⟨rfl, rfl, rfl, rfl⟩

/-! ## The primitives on a live connection to the mounted array -/

theorem opcode_of_word (cmd did bid : Nat) (hd : did < 16) (hb : bid < 256) :
    SMSA_OPCODE (cmd * 67108864 + did * 4194304 + bid) = cmd := by
  unfold SMSA_OPCODE
  rw [Nat.shiftRight_eq_div_pow]
  omega

theorem generateOPCommand_testOp (cmd did bid : Nat) (hc : cmd < 9) (hd : did < 16)
    (hb : bid < 256) : generateOPCommand cmd did 0 bid = testOp cmd did bid := by
  rw [generateOPCommand_eq cmd did bid hc hd hb, testOp_eq cmd did bid hc hd hb]

theorem opcode_generateOPCommand (cmd did bid : Nat) (hc : cmd < 9) (hd : did < 16)
    (hb : bid < 256) : SMSA_OPCODE (generateOPCommand cmd did 0 bid) = cmd := by
  rw [generateOPCommand_eq cmd did bid hc hd hb]
  exact opcode_of_word cmd did bid hd hb

/-- A command other than mount and unmount through `smsa_client_operation` on an
open connection whose transport does not fail: the server runs
`smsa_operation` (on the caller's block for a write, on its own buffer
otherwise), and unless the result code is 1 the call returns 0. -/
theorem client_operation_open (op : Nat) (blk : Block) (dev : Device) (sb : Block)
    (tr : List Nat) (r : Int) (sb1 : Block) (dev1 : Device)
    (hm : ¬ SMSA_OPCODE op = SMSA_MOUNT) (hu : ¬ SMSA_OPCODE op = SMSA_UNMOUNT)
    (h : smsa_operation op (if SMSA_OPCODE op = SMSA_DISK_WRITE then blk else sb) dev
      = Except.ok (r, sb1, dev1))
    (hr : ¬ r = 1) :
    smsa_client_operation op blk ⟨dev, sb, tr, true, []⟩
      = Except.ok (0,
          (recievePacket r (if SMSA_OPCODE op = SMSA_DISK_READ then some sb1 else none) blk).2,
          ⟨dev1, sb1, tr ++ [op], true, []⟩) := by
  have hrp : ∀ reply, ¬ (recievePacket r reply blk).1 = 1 := by
    intro reply
    unfold recievePacket
    rw [if_neg hr]
    cases reply <;> exact Nat.zero_ne_one
  by_cases hw : SMSA_OPCODE op = SMSA_DISK_WRITE
  · rw [if_pos hw] at h
    have a1 : ¬ SMSA_DISK_WRITE = SMSA_MOUNT := by decide
    have a2 : ¬ SMSA_DISK_WRITE = SMSA_UNMOUNT := by decide
    simp only [smsa_client_operation, smsa_server_step, hw, a1, a2, if_true, if_false, h,
      List.tail_nil, bind, Except.bind, pure, Except.pure, Bool.true_eq_false, hrp]
  · rw [if_neg hw] at h
    simp only [smsa_client_operation, smsa_server_step, hm, hu, hw, if_true, if_false, h,
      List.tail_nil, bind, Except.bind, pure, Except.pure, Bool.true_eq_false, hrp]

/-- A seek-drum command to a drum below 16 through `smsa_client_operation` on a
live connection to the mounted array. -/
theorem client_seek_drum_live (did : Nat) (blk : Block) (err dh rh : Nat)
    (disk : Nat → Nat → Nat) (cc : Nat) (sb : Block) (tr : List Nat) (hd : did < 16) :
    ∃ cc1, smsa_client_operation (generateOPCommand SMSA_SEEK_DRUM did 0 0) blk
        ⟨⟨true, true, err, dh, rh, disk, cc⟩, sb, tr, true, []⟩
      = Except.ok (0, blk, ⟨⟨true, true, err, did, 0, disk, cc1⟩, sb,
          tr ++ [generateOPCommand SMSA_SEEK_DRUM did 0 0], true, []⟩) := by
  obtain ⟨cc1, h⟩ := seek_drum_mounted did sb err dh rh disk cc hd
  have ho := opcode_generateOPCommand SMSA_SEEK_DRUM did 0 (by decide) hd (by decide)
  rw [← generateOPCommand_testOp SMSA_SEEK_DRUM did 0 (by decide) hd (by decide)] at h
  have hw : ¬ SMSA_OPCODE (generateOPCommand SMSA_SEEK_DRUM did 0 0) = SMSA_DISK_WRITE := by
    rw [ho]; decide
  have hrd : ¬ SMSA_OPCODE (generateOPCommand SMSA_SEEK_DRUM did 0 0) = SMSA_DISK_READ := by
    rw [ho]; decide
  refine ⟨cc1, ?_⟩
  rw [client_operation_open _ blk _ sb tr 0 sb _ (by rw [ho]; decide) (by rw [ho]; decide)
    (by rw [if_neg hw]; exact h) (by decide), if_neg hrd]
  rfl

/-- A seek-block command to a block below 256 through `smsa_client_operation`
on a live connection to the mounted array. -/
theorem client_seek_block_live (bid : Nat) (blk : Block) (err dh rh : Nat)
    (disk : Nat → Nat → Nat) (cc : Nat) (sb : Block) (tr : List Nat) (hb : bid < 256) :
    ∃ cc1, smsa_client_operation (generateOPCommand SMSA_SEEK_BLOCK 0 0 bid) blk
        ⟨⟨true, true, err, dh, rh, disk, cc⟩, sb, tr, true, []⟩
      = Except.ok (0, blk, ⟨⟨true, true, err, dh, bid, disk, cc1⟩, sb,
          tr ++ [generateOPCommand SMSA_SEEK_BLOCK 0 0 bid], true, []⟩) := by
  obtain ⟨cc1, h⟩ := seek_block_mounted bid sb err dh rh disk cc hb
  have ho := opcode_generateOPCommand SMSA_SEEK_BLOCK 0 bid (by decide) (by decide) hb
  rw [← generateOPCommand_testOp SMSA_SEEK_BLOCK 0 bid (by decide) (by decide) hb] at h
  have hw : ¬ SMSA_OPCODE (generateOPCommand SMSA_SEEK_BLOCK 0 0 bid) = SMSA_DISK_WRITE := by
    rw [ho]; decide
  have hrd : ¬ SMSA_OPCODE (generateOPCommand SMSA_SEEK_BLOCK 0 0 bid) = SMSA_DISK_READ := by
    rw [ho]; decide
  refine ⟨cc1, ?_⟩
  rw [client_operation_open _ blk _ sb tr 0 sb _ (by rw [ho]; decide) (by rw [ho]; decide)
    (by rw [if_neg hw]; exact h) (by decide), if_neg hrd]
  rfl

/-- A block read through `smsa_client_operation` on a live connection to the
mounted array with the heads on a drum below 16 and a block below 256. -/
theorem client_read_live (blk : Block) (err dh rh : Nat) (disk : Nat → Nat → Nat) (cc : Nat)
    (sb : Block) (tr : List Nat) (hd : dh < 16) (hr : rh < 256) :
    ∃ cc1 blk1 sb1, smsa_client_operation (generateOPCommand SMSA_DISK_READ 0 0 0) blk
        ⟨⟨true, true, err, dh, rh, disk, cc⟩, sb, tr, true, []⟩
      = Except.ok (0, blk1, ⟨⟨true, true, err, dh, rh + 1, disk, cc1⟩, sb1,
          tr ++ [generateOPCommand SMSA_DISK_READ 0 0 0], true, []⟩) := by
  obtain ⟨cc1, h⟩ := read_mounted sb err dh rh disk cc hd hr
  have ho := opcode_generateOPCommand SMSA_DISK_READ 0 0 (by decide) (by decide) (by decide)
  rw [← generateOPCommand_testOp SMSA_DISK_READ 0 0 (by decide) (by decide) (by decide)] at h
  have hw : ¬ SMSA_OPCODE (generateOPCommand SMSA_DISK_READ 0 0 0) = SMSA_DISK_WRITE := by
    rw [ho]; decide
  exact ⟨cc1, _, _, client_operation_open _ blk _ sb tr 0 _ _ (by rw [ho]; decide)
    (by rw [ho]; decide) (by rw [if_neg hw]; exact h) (by decide)⟩

/-- A block write through `smsa_client_operation` on a live connection to the
mounted array with the heads on a drum below 16 and a block below 256. -/
theorem client_write_live (blk : Block) (err dh rh : Nat) (disk : Nat → Nat → Nat) (cc : Nat)
    (sb : Block) (tr : List Nat) (hd : dh < 16) (hr : rh < 256) :
    ∃ cc1 disk1 sb1, smsa_client_operation (generateOPCommand SMSA_DISK_WRITE 0 0 0) blk
        ⟨⟨true, true, err, dh, rh, disk, cc⟩, sb, tr, true, []⟩
      = Except.ok (0, blk, ⟨⟨true, true, err, dh, rh + 1, disk1, cc1⟩, sb1,
          tr ++ [generateOPCommand SMSA_DISK_WRITE 0 0 0], true, []⟩) := by
  obtain ⟨cc1, h⟩ := write_mounted blk err dh rh disk cc hd hr
  have ho := opcode_generateOPCommand SMSA_DISK_WRITE 0 0 (by decide) (by decide) (by decide)
  rw [← generateOPCommand_testOp SMSA_DISK_WRITE 0 0 (by decide) (by decide) (by decide)] at h
  have hw : SMSA_OPCODE (generateOPCommand SMSA_DISK_WRITE 0 0 0) = SMSA_DISK_WRITE := ho
  have hrd : ¬ SMSA_OPCODE (generateOPCommand SMSA_DISK_WRITE 0 0 0) = SMSA_DISK_READ := by
    rw [ho]; decide
  refine ⟨cc1, fun d => if d = dh
    then memcpy (disk d) (rh * SMSA_BLOCK_SIZE) blk 0 SMSA_BLOCK_SIZE else disk d, blk, ?_⟩
  rw [client_operation_open _ blk _ sb tr 0 blk _ (by rw [ho]; decide) (by rw [ho]; decide)
    (by rw [if_pos hw]; exact h) (by decide), if_neg hrd]
  rfl

/-! ## The low-level driver functions when every primitive succeeds -/

theorem checkForErrors_zero : ¬ (checkForErrors 0 = 1) := by decide

/-- `setDrumHead` to a drum below 16 when every primitive succeeds: one
seek-drum command, the device heads become `(drumID, 0)`, the tracked drum
becomes `drumID`. -/
theorem setDrumHead_live (drumID : Nat) (d : Driver) (dh rh : Nat) (hl : d.LiveAt dh rh)
    (hd : drumID < 16) :
    ∃ e, setDrumHead drumID d = Except.ok (0, e) ∧ e.LiveAt drumID 0
      ∧ e.head = ⟨drumID, d.head.block⟩
      ∧ e.world.trace = d.world.trace ++ [generateOPCommand SMSA_SEEK_DRUM drumID 0 0] := by
  obtain ⟨⟨⟨ini, mnt, err, dh0, rh0, disk, cc⟩, sb, tr, conn, faults⟩, cache, mem, brk, head,
    ch, dr⟩ := d
  obtain ⟨h1, h2, h3, h4, h5, h6⟩ := hl
  simp only at h1 h2 h3 h4 h5 h6
  subst h1 h2 h3 h4 h5 h6
  obtain ⟨cc1, h⟩ := client_seek_drum_live drumID (fun _ => 0) err dh0 rh0 disk cc sb tr hd
  have e8 : u8 drumID = drumID := Nat.mod_eq_of_lt (by omega)
  refine ⟨⟨⟨⟨true, true, err, drumID, 0, disk, cc1⟩, sb,
    tr ++ [generateOPCommand SMSA_SEEK_DRUM drumID 0 0], true, []⟩, cache, mem, brk,
    ⟨drumID, head.block⟩, ch, dr⟩, ?_, ⟨rfl, rfl, rfl, rfl, rfl, rfl⟩, rfl, rfl⟩
  simp only [setDrumHead, h, bind, Except.bind, pure, Except.pure, checkForErrors_zero,
    if_false, e8]

/-- `setBlockHead` to a block below 256 when every primitive succeeds: one
seek-block command, the device read head and the tracked block become
`blockID`. -/
theorem setBlockHead_live (blockID : Nat) (d : Driver) (dh rh : Nat) (hl : d.LiveAt dh rh)
    (hb : blockID < 256) :
    ∃ e, setBlockHead blockID d = Except.ok (0, e) ∧ e.LiveAt dh blockID
      ∧ e.head = ⟨d.head.drum, blockID⟩
      ∧ e.world.trace = d.world.trace ++ [generateOPCommand SMSA_SEEK_BLOCK 0 0 blockID]
      ∧ e.cache = d.cache ∧ e.cache_hits = d.cache_hits ∧ e.disk_reads = d.disk_reads := by
  obtain ⟨⟨⟨ini, mnt, err, dh0, rh0, disk, cc⟩, sb, tr, conn, faults⟩, cache, mem, brk, head,
    ch, dr⟩ := d
  obtain ⟨h1, h2, h3, h4, h5, h6⟩ := hl
  simp only at h1 h2 h3 h4 h5 h6
  subst h1 h2 h3 h4 h5 h6
  obtain ⟨cc1, h⟩ := client_seek_block_live blockID (fun _ => 0) err dh0 rh0 disk cc sb tr hb
  have e8 : u16 blockID = blockID := Nat.mod_eq_of_lt (by omega)
  refine ⟨⟨⟨⟨true, true, err, dh0, blockID, disk, cc1⟩, sb,
    tr ++ [generateOPCommand SMSA_SEEK_BLOCK 0 0 blockID], true, []⟩, cache, mem, brk,
    ⟨head.drum, blockID⟩, ch, dr⟩, ?_, ⟨rfl, rfl, rfl, rfl, rfl, rfl⟩, rfl, rfl, rfl, rfl, rfl⟩
  simp only [setBlockHead, h, bind, Except.bind, pure, Except.pure, checkForErrors_zero,
    if_false, e8]

/-- `readLowLevel` when every primitive succeeds and the device heads are on a
drum below 16 and a block below 256: one read command, the device read head
advances by one, and so does the tracked block. -/
theorem readLowLevel_live (buffer : Nat) (d : Driver) (dh rh : Nat) (hl : d.LiveAt dh rh)
    (hd : dh < 16) (hr : rh < 256) :
    ∃ e, readLowLevel buffer d = Except.ok (0, e) ∧ e.LiveAt dh (rh + 1)
      ∧ e.head = ⟨d.head.drum, u16 (d.head.block + 1)⟩
      ∧ e.world.trace = d.world.trace ++ [generateOPCommand SMSA_DISK_READ 0 0 0]
      ∧ e.cache = d.cache ∧ e.cache_hits = d.cache_hits ∧ e.disk_reads = d.disk_reads := by
  obtain ⟨⟨⟨ini, mnt, err, dh0, rh0, disk, cc⟩, sb, tr, conn, faults⟩, cache, mem, brk, head,
    ch, dr⟩ := d
  obtain ⟨h1, h2, h3, h4, h5, h6⟩ := hl
  simp only at h1 h2 h3 h4 h5 h6
  subst h1 h2 h3 h4 h5 h6
  obtain ⟨cc1, blk1, sb1, h⟩ := client_read_live (mem buffer) err dh0 rh0 disk cc sb tr hd hr
  refine ⟨⟨⟨⟨true, true, err, dh0, rh0 + 1, disk, cc1⟩, sb1,
    tr ++ [generateOPCommand SMSA_DISK_READ 0 0 0], true, []⟩, cache,
    fun p => if p = buffer then blk1 else mem p, brk,
    ⟨head.drum, u16 (head.block + 1)⟩, ch, dr⟩, ?_, ⟨rfl, rfl, rfl, rfl, rfl, rfl⟩, rfl, rfl,
    rfl, rfl, rfl⟩
  simp only [readLowLevel, h, bind, Except.bind, pure, Except.pure, checkForErrors_zero,
    if_false]

/-- `writeLowLevel` when every primitive succeeds and the device heads are on a
drum below 16 and a block below 256: one write command, the device read head
advances by one, and so does the tracked block. -/
theorem writeLowLevel_live (buffer : Nat) (d : Driver) (dh rh : Nat) (hl : d.LiveAt dh rh)
    (hd : dh < 16) (hr : rh < 256) :
    ∃ e, writeLowLevel buffer d = Except.ok (0, e) ∧ e.LiveAt dh (rh + 1)
      ∧ e.head = ⟨d.head.drum, u16 (d.head.block + 1)⟩
      ∧ e.world.trace = d.world.trace ++ [generateOPCommand SMSA_DISK_WRITE 0 0 0]
      ∧ e.cache = d.cache ∧ e.cache_hits = d.cache_hits ∧ e.disk_reads = d.disk_reads := by
  obtain ⟨⟨⟨ini, mnt, err, dh0, rh0, disk, cc⟩, sb, tr, conn, faults⟩, cache, mem, brk, head,
    ch, dr⟩ := d
  obtain ⟨h1, h2, h3, h4, h5, h6⟩ := hl
  simp only at h1 h2 h3 h4 h5 h6
  subst h1 h2 h3 h4 h5 h6
  obtain ⟨cc1, disk1, sb1, h⟩ :=
    client_write_live (mem buffer) err dh0 rh0 disk cc sb tr hd hr
  refine ⟨⟨⟨⟨true, true, err, dh0, rh0 + 1, disk1, cc1⟩, sb1,
    tr ++ [generateOPCommand SMSA_DISK_WRITE 0 0 0], true, []⟩, cache,
    fun p => if p = buffer then mem buffer else mem p, brk,
    ⟨head.drum, u16 (head.block + 1)⟩, ch, dr⟩, ?_, ⟨rfl, rfl, rfl, rfl, rfl, rfl⟩, rfl, rfl,
    rfl, rfl, rfl⟩
  simp only [writeLowLevel, h, bind, Except.bind, pure, Except.pure, checkForErrors_zero,
    if_false]

/-- `seekIfNeedTo` to a position with drum below 16 and block below 256 when
every primitive succeeds. -/
theorem seekIfNeedTo_live (cd cb : Nat) (d : Driver) (dh rh : Nat) (hl : d.LiveAt dh rh)
    (hd : cd < 16) (hb : cb < 256) :
    ∃ e, seekIfNeedTo cd cb d = Except.ok (0, e) ∧ e.head = ⟨cd, cb⟩
      ∧ e.world.trace = d.world.trace
          ++ (if cd ≠ d.head.drum then [generateOPCommand SMSA_SEEK_DRUM cd 0 0] else [])
          ++ (if cb ≠ (if cd ≠ d.head.drum then 0 else d.head.block)
              then [generateOPCommand SMSA_SEEK_BLOCK 0 0 cb] else [])
      ∧ e.LiveAt (if cd ≠ d.head.drum then cd else dh)
          (if cb ≠ (if cd ≠ d.head.drum then 0 else d.head.block) then cb
            else if cd ≠ d.head.drum then 0 else rh) := by
  unfold seekIfNeedTo
  simp only [bind, Except.bind, pure, Except.pure, checkForErrors_zero, if_false]
  by_cases hc : cd ≠ d.head.drum
  · obtain ⟨e, hs, hle, hhead, htr⟩ := setDrumHead_live cd d dh rh hl hd
    simp only [if_pos hc]
    rw [hs]
    simp only []
    have hle2 : Driver.LiveAt ⟨e.world, e.cache, e.mem, e.brk, ⟨e.head.drum, 0⟩, e.cache_hits,
        e.disk_reads⟩ cd 0 := hle
    by_cases hc2 : cb ≠ 0
    · obtain ⟨f, hs2, hlf, hhead2, htr2, _⟩ := setBlockHead_live cb _ cd 0 hle2 hb
      simp only [if_pos hc2]
      rw [hs2]
      refine ⟨f, rfl, ?_, ?_, hlf⟩
      · rw [hhead2, hhead]
      · rw [htr2]
        show e.world.trace ++ _ = _
        rw [htr]
    · simp only [if_neg hc2]
      have h0 : cb = 0 := by omega
      refine ⟨_, rfl, ?_, ?_, hle2⟩
      · rw [hhead, h0]
      · show e.world.trace = _
        rw [htr, List.append_nil]
  · simp only [if_neg hc]
    have hcd : cd = d.head.drum := by
      by_contra h
      exact hc h
    by_cases hc2 : cb ≠ d.head.block
    · obtain ⟨f, hs2, hlf, hhead2, htr2, _⟩ := setBlockHead_live cb d dh rh hl hb
      simp only [if_pos hc2]
      rw [hs2]
      refine ⟨f, rfl, ?_, ?_, hlf⟩
      · rw [hhead2, hcd]
      · rw [htr2, List.append_nil]
    · simp only [if_neg hc2]
      have hcb : cb = d.head.block := by
        by_contra h
        exact hc2 h
      refine ⟨d, rfl, ?_, ?_, hl⟩
      · rw [hcd, hcb]
      · rw [List.append_nil, List.append_nil]

/-! ## `seekIfNeedTo` when every primitive succeeds (C33) -/

theorem mountedDriver_synced : mountedDriver.SyncedAt 0 0 :=
  ⟨⟨rfl, rfl, rfl, rfl, rfl, rfl⟩, rfl⟩

/-- Claim C33: when every primitive succeeds, for every tracked head and every
target `(cd, cb)` with `cd < 16` and `cb < 256`, `seekIfNeedTo(cd, cb)` returns
0 and leaves the tracked head at `(cd, cb)`; the commands the device receives
are a seek-drum command to `cd` exactly when `cd` differs from the tracked
drum, followed by a seek-block command to `cb` exactly when `cb` differs from
the tracked block at that point (0 after a drum seek), and no other command;
nothing but the heads, the device's cycle count and the command trace changes;
when the tracked head is `(cd, cb)` already the state is unchanged; and when
the tracked head agreed with the device heads before, the device heads are at
`(cd, cb)` afterwards. -/
theorem C33_seekIfNeedTo_seeks_when_needed (cd cb : Nat) (d : Driver) (dh rh : Nat)
    (hl : d.LiveAt dh rh) (hd : cd < 16) (hb : cb < 256) :
    ∃ e, seekIfNeedTo cd cb d = Except.ok (0, e) ∧ e.head = ⟨cd, cb⟩
      ∧ e.world.trace = d.world.trace
          ++ (if cd ≠ d.head.drum then [generateOPCommand SMSA_SEEK_DRUM cd 0 0] else [])
          ++ (if cb ≠ (if cd ≠ d.head.drum then 0 else d.head.block)
              then [generateOPCommand SMSA_SEEK_BLOCK 0 0 cb] else [])
      ∧ (d.head = ⟨cd, cb⟩ → e = d)
      ∧ (d.head = ⟨dh, rh⟩ → e.SyncedAt cd cb)
      ∧ e.cache = d.cache ∧ e.mem = d.mem ∧ e.brk = d.brk ∧ e.cache_hits = d.cache_hits
      ∧ e.disk_reads = d.disk_reads ∧ e.world.dev.disk = d.world.dev.disk := by
  obtain ⟨e, hs, hhead, htr, hle⟩ := seekIfNeedTo_live cd cb d dh rh hl hd hb
  obtain ⟨e2, ws, hs2, f1, f2, f3, f4, f5, f6, _, _⟩ :=
    seekIfNeedTo_frame cd cb d (by omega) (by omega)
  have he : e2 = e := by
    rw [hs] at hs2
    cases hs2
    rfl
  subst he
  refine ⟨e2, hs, hhead, htr, ?_, ?_, f1, f2, f3, f4, f5, f6⟩
  · intro hh
    have h1 : ¬ (cd ≠ d.head.drum) := by rw [hh]; exact fun h => h rfl
    have h2 : ¬ (cb ≠ d.head.block) := by rw [hh]; exact fun h => h rfl
    have e0 : seekIfNeedTo cd cb d = Except.ok (0, d) := by
      unfold seekIfNeedTo
      simp only [bind, Except.bind, pure, Except.pure, checkForErrors_zero, if_false, h1, h2]
    rw [e0] at hs
    cases hs
    rfl
  · intro hh
    refine ⟨?_, hhead⟩
    have a1 : d.head.drum = dh := by rw [hh]
    have a2 : d.head.block = rh := by rw [hh]
    rw [a1, a2] at hle
    by_cases c1 : cd = dh
    · by_cases c2 : cb = rh
      · simpa [c1, c2] using hle
      · simpa [c1, c2] using hle
    · by_cases c2 : cb = 0
      · simpa [c1, c2] using hle
      · simpa [c1, c2] using hle

/-- C33 right after `smsa_vmount(2)` (tracked head and device heads at (0,0)):
the seek to (3,7) sends a seek-drum command to drum 3 and a seek-block command
to block 7. -/
theorem C33_seekIfNeedTo_seeks_when_needed_witness :
    mountedDriver.LiveAt 0 0 ∧ mountedDriver.head = ⟨0, 0⟩ ∧
    ∃ e, seekIfNeedTo 3 7 mountedDriver = Except.ok (0, e) ∧ e.head = ⟨3, 7⟩
      ∧ e.world.trace = mountedDriver.world.trace
          ++ (if 3 ≠ mountedDriver.head.drum then [generateOPCommand SMSA_SEEK_DRUM 3 0 0]
              else [])
          ++ (if 7 ≠ (if 3 ≠ mountedDriver.head.drum then 0 else mountedDriver.head.block)
              then [generateOPCommand SMSA_SEEK_BLOCK 0 0 7] else [])
      ∧ (mountedDriver.head = ⟨3, 7⟩ → e = mountedDriver)
      ∧ (mountedDriver.head = ⟨0, 0⟩ → e.SyncedAt 3 7)
      ∧ e.cache = mountedDriver.cache ∧ e.mem = mountedDriver.mem ∧ e.brk = mountedDriver.brk
      ∧ e.cache_hits = mountedDriver.cache_hits ∧ e.disk_reads = mountedDriver.disk_reads
      ∧ e.world.dev.disk = mountedDriver.world.dev.disk :=
  ⟨mountedDriver_synced.1, rfl,
    C33_seekIfNeedTo_seeks_when_needed 3 7 mountedDriver 0 0 mountedDriver_synced.1 (by decide)
      (by decide)⟩

/-! ## The low-level functions on a driver whose tracked head is the device's -/

theorem SyncedAt_frame (d e : Driver) (dh rh : Nat) (hw : e.world = d.world)
    (hh : e.head = d.head) (h : d.SyncedAt dh rh) : e.SyncedAt dh rh := by
  obtain ⟨⟨h1, h2, h3, h4, h5, h6⟩, h7⟩ := h
  unfold Driver.SyncedAt Driver.LiveAt
  rw [hw, hh]
  exact ⟨⟨h1, h2, h3, h4, h5, h6⟩, h7⟩

theorem headsAtCursor_synced (d : Driver) (dh rh : Nat) (h : d.SyncedAt dh rh) :
    headsAtCursor d dh rh = true := by
  obtain ⟨⟨_, _, _, _, h5, h6⟩, _⟩ := h
  unfold headsAtCursor
  rw [h5, h6]
  simp only [and_self, decide_True]

theorem headsAtCursor_live (d : Driver) (dh rh : Nat) (h : d.LiveAt dh rh) :
    headsAtCursor d dh rh = true := by
  obtain ⟨_, _, _, _, h5, h6⟩ := h
  unfold headsAtCursor
  rw [h5, h6]
  simp only [and_self, decide_True]

theorem seekIfNeedTo_synced (cd cb : Nat) (d : Driver) (dh rh : Nat) (h : d.SyncedAt dh rh)
    (hd : cd < 16) (hb : cb < 256) :
    ∃ e, seekIfNeedTo cd cb d = Except.ok (0, e) ∧ e.SyncedAt cd cb := by
  obtain ⟨e, hs, hhead, htr, hle⟩ := seekIfNeedTo_live cd cb d dh rh h.1 hd hb
  refine ⟨e, hs, ?_, hhead⟩
  have a1 : d.head.drum = dh := by rw [h.2]
  have a2 : d.head.block = rh := by rw [h.2]
  rw [a1, a2] at hle
  by_cases c1 : cd = dh
  · by_cases c2 : cb = rh
    · simpa [c1, c2] using hle
    · simpa [c1, c2] using hle
  · by_cases c2 : cb = 0
    · simpa [c1, c2] using hle
    · simpa [c1, c2] using hle

theorem readLowLevel_synced (buffer : Nat) (d : Driver) (dh rh : Nat) (h : d.SyncedAt dh rh)
    (hd : dh < 16) (hr : rh < 256) :
    ∃ e, readLowLevel buffer d = Except.ok (0, e) ∧ e.SyncedAt dh (rh + 1) := by
  obtain ⟨e, hs, hle, hhead, _⟩ := readLowLevel_live buffer d dh rh h.1 hd hr
  refine ⟨e, hs, hle, ?_⟩
  rw [hhead, h.2]
  have e1 : u16 (rh + 1) = rh + 1 := Nat.mod_eq_of_lt (by omega)
  simp only [e1]

theorem writeLowLevel_synced (buffer : Nat) (d : Driver) (dh rh : Nat) (h : d.SyncedAt dh rh)
    (hd : dh < 16) (hr : rh < 256) :
    ∃ e, writeLowLevel buffer d = Except.ok (0, e) ∧ e.SyncedAt dh (rh + 1) := by
  obtain ⟨e, hs, hle, hhead, _⟩ := writeLowLevel_live buffer d dh rh h.1 hd hr
  refine ⟨e, hs, hle, ?_⟩
  rw [hhead, h.2]
  have e1 : u16 (rh + 1) = rh + 1 := Nat.mod_eq_of_lt (by omega)
  simp only [e1]

theorem setBlockHead_synced (blockID : Nat) (d : Driver) (dh rh : Nat) (h : d.SyncedAt dh rh)
    (hb : blockID < 256) :
    ∃ e, setBlockHead blockID d = Except.ok (0, e) ∧ e.SyncedAt dh blockID := by
  obtain ⟨e, hs, hle, hhead, _⟩ := setBlockHead_live blockID d dh rh h.1 hb
  refine ⟨e, hs, hle, ?_⟩
  rw [hhead, h.2]

/-! ## The device heads at the block reads and writes of the transfer loops (C36) -/

/-- The seek at the end of a loop round, from a state whose tracked head is the
device's: it returns 0, and unless the loop is over the tracked head and the
device heads are at the next cursor. -/
theorem seekIfNeedTo_next (addr len c : Nat) (h : addr + len ≤ 1048576)
    (hc : c ≤ (addr + len - 1) / 256) (d : Driver) (dh rh : Nat) (hsy : d.SyncedAt dh rh) :
    ∃ e, seekIfNeedTo ((c + 1) / 256) ((c + 1) % 256) d = Except.ok (0, e)
      ∧ (c + 1 ≤ (addr + len - 1) / 256 → e.SyncedAt ((c + 1) / 256) ((c + 1) % 256)) := by
  by_cases hc1 : c + 1 ≤ (addr + len - 1) / 256
  · obtain ⟨e, hs, hse⟩ := seekIfNeedTo_synced ((c + 1) / 256) ((c + 1) % 256) d dh rh hsy
      (by omega) (by omega)
    exact ⟨e, hs, fun _ => hse⟩
  · obtain ⟨e, ws, hs, _⟩ := seekIfNeedTo_frame ((c + 1) / 256) ((c + 1) % 256) d (by omega)
      (by omega)
    exact ⟨e, hs, fun hx => absurd hx hc1⟩

theorem vreadLoopMonitored_eq (addr len : Nat) (hlen : 1 ≤ len) (h : addr + len ≤ 1048576) :
    ∀ (m c fuel err bi : Nat) (buf : Block) (d : Driver),
      c + m = (addr + len - 1) / 256 + 1 → addr / 256 ≤ c →
      (c ≤ (addr + len - 1) / 256 → d.SyncedAt (c / 256) (c % 256)) →
      vreadLoopMonitored (getDiskBlockParameters addr len).2 fuel true err (c / 256) (c % 256)
          bi buf d
        = (vreadLoop (getDiskBlockParameters addr len).2 fuel err (c / 256) (c % 256) bi buf
            d).map (fun r => (true, r)) := by
  intro m
  induction m with
  | zero =>
    intro c fuel err bi buf d hcm _ _
    cases fuel with
    | zero => rfl
    | succ f =>
      have hc : c = (addr + len - 1) / 256 + 1 := by omega
      unfold vreadLoopMonitored vreadLoop
      rw [hc, loopDone_after addr len hlen h]
      rfl
  | succ m ih =>
    intro c fuel err bi buf d hcm hs hsync
    cases fuel with
    | zero => rfl
    | succ f =>
      have hc : c ≤ (addr + len - 1) / 256 := by omega
      have hsy := hsync hc
      have hd16 : c / 256 < 16 := by omega
      have hb256 : c % 256 < 256 := by omega
      have hbounds := findMemCpyBounds_inside addr len c hlen h hs hc
      have hA : ¬ (addr - 256 * c
          + u32 (min (addr + len) (256 * (c + 1)) - 256 * c + 4294967296 - (addr - 256 * c))
          > SMSA_BLOCK_SIZE) := by
        unfold u32 SMSA_BLOCK_SIZE
        omega
      unfold vreadLoopMonitored vreadLoop
      rw [loopDone_inside addr len c hlen h hc]
      simp only [Bool.false_eq_true, if_false, bind, Except.bind, hbounds,
        nextCursor_linear c (by omega), hA, checkForErrors_zero, pure, Except.pure]
      cases hg : smsa_get_cache_line (c / 256) (c % 256) d.cache with
      | error e => rfl
      | ok r =>
        obtain ⟨cl, c1⟩ := r
        simp only []
        cases cl with
        | none =>
          have hsy2 : Driver.SyncedAt ⟨d.world, c1, d.mem, d.brk + 1, d.head, d.cache_hits,
              d.disk_reads⟩ (c / 256) (c % 256) := SyncedAt_frame d _ _ _ rfl rfl hsy
          obtain ⟨e, hrd, hse⟩ := readLowLevel_synced d.brk _ _ _ hsy2 hd16 hb256
          simp only [headsAtCursor_synced _ _ _ hsy2, Bool.and_true, hrd]
          cases hp : smsa_put_cache_line (c / 256) (c % 256) (some d.brk) e.cache with
          | error x => rfl
          | ok v =>
            obtain ⟨e2, hsk, hse2⟩ := seekIfNeedTo_next addr len c h hc
              ⟨e.world, v.2, e.mem, e.brk, e.head, e.cache_hits, e.disk_reads + 1⟩ (c / 256)
              (c % 256 + 1) (SyncedAt_frame e _ _ _ rfl rfl hse)
            simp only [hsk]
            exact ih (c + 1) f 0 _ _ e2 (by omega) (by omega) hse2
        | some q =>
          obtain ⟨e2, hsk, hse2⟩ := seekIfNeedTo_next addr len c h hc
            ⟨d.world, c1, d.mem, d.brk + 1, d.head, d.cache_hits + 1, d.disk_reads⟩ (c / 256)
            (c % 256) (SyncedAt_frame d _ _ _ rfl rfl hsy)
          simp only [hsk]
          exact ih (c + 1) f 0 _ _ e2 (by omega) (by omega) hse2

theorem vwriteLoopMonitored_eq (addr len : Nat) (hlen : 1 ≤ len) (h : addr + len ≤ 1048576)
    (buf : Block) :
    ∀ (m c fuel err bi : Nat) (d : Driver),
      c + m = (addr + len - 1) / 256 + 1 → addr / 256 ≤ c →
      (c ≤ (addr + len - 1) / 256 → d.SyncedAt (c / 256) (c % 256)) →
      vwriteLoopMonitored (getDiskBlockParameters addr len).2 buf fuel true err (c / 256)
          (c % 256) bi d
        = (vwriteLoop (getDiskBlockParameters addr len).2 buf fuel err (c / 256) (c % 256) bi
            d).map (fun r => (true, r)) := by
  intro m
  induction m with
  | zero =>
    intro c fuel err bi d hcm _ _
    cases fuel with
    | zero => rfl
    | succ f =>
      have hc : c = (addr + len - 1) / 256 + 1 := by omega
      unfold vwriteLoopMonitored vwriteLoop
      rw [hc, loopDone_after addr len hlen h]
      rfl
  | succ m ih =>
    intro c fuel err bi d hcm hs hsync
    cases fuel with
    | zero => rfl
    | succ f =>
      have hc : c ≤ (addr + len - 1) / 256 := by omega
      have hsy := hsync hc
      have hd16 : c / 256 < 16 := by omega
      have hb256 : c % 256 < 256 := by omega
      have hbounds := findMemCpyBounds_inside addr len c hlen h hs hc
      have hA : ¬ (addr - 256 * c
          + u32 (min (addr + len) (256 * (c + 1)) - 256 * c + 4294967296 - (addr - 256 * c))
          > SMSA_BLOCK_SIZE) := by
        unfold u32 SMSA_BLOCK_SIZE
        omega
      unfold vwriteLoopMonitored vwriteLoop
      rw [loopDone_inside addr len c hlen h hc]
      simp only [Bool.false_eq_true, if_false, bind, Except.bind, hbounds,
        nextCursor_linear c (by omega), hA, pure, Except.pure]
      set n := u32 (min (addr + len) (256 * (c + 1)) - 256 * c + 4294967296 - (addr - 256 * c))
        with hn
      by_cases hwhole : ¬ (addr - 256 * c = 0
          ∧ min (addr + len) (256 * (c + 1)) - 256 * c = SMSA_BLOCK_SIZE)
      · simp only [hwhole, not_false_eq_true, if_true]
        cases hg : smsa_get_cache_line (c / 256) (c % 256) d.cache with
        | error e => rfl
        | ok r =>
          obtain ⟨cl, c1⟩ := r
          simp only []
          cases cl with
          | none =>
            have hsy2 : Driver.SyncedAt ⟨d.world, c1, d.mem, d.brk + 1, d.head, d.cache_hits,
                d.disk_reads⟩ (c / 256) (c % 256) := SyncedAt_frame d _ _ _ rfl rfl hsy
            obtain ⟨e0, hrd, hse0⟩ := readLowLevel_synced d.brk _ _ _ hsy2 hd16 hb256
            simp only [headsAtCursor_synced _ _ _ hsy2, Bool.and_true, hrd]
            obtain ⟨e1, hsb, hse1⟩ := setBlockHead_synced (c % 256) 
              ⟨e0.world, e0.cache, fun q => if q = d.brk
                then memcpy (e0.mem d.brk) (addr - 256 * c) buf bi n else e0.mem q, e0.brk,
                e0.head, e0.cache_hits, e0.disk_reads + 1⟩ (c / 256) (c % 256 + 1) 
              (SyncedAt_frame e0 _ _ _ rfl rfl hse0) hb256
            obtain ⟨e2, hwr, hse2⟩ := writeLowLevel_synced d.brk e1 (c / 256) (c % 256) hse1 hd16 hb256
            simp only [hsb, hwr, headsAtCursor_synced _ _ _ hse1, Bool.and_true]
            cases hp : smsa_put_cache_line (c / 256) (c % 256) (some d.brk) e2.cache with
            | error x => rfl
            | ok v =>
              simp only []
              by_cases hck : checkForErrors v.1 = 1
              · simp only [hck, if_true]
                rfl
              · simp only [hck, if_false]
                obtain ⟨e3, hsk, hse3⟩ := seekIfNeedTo_next addr len c h hc
                  ⟨e2.world, v.2, e2.mem, e2.brk, e2.head, e2.cache_hits, e2.disk_reads⟩ (c / 256)
                  (c % 256 + 1) (SyncedAt_frame e2 _ _ _ rfl rfl hse2)
                simp only [hsk]
                exact ih (c + 1) f 0 _ e3 (by omega) (by omega) hse3
          | some q =>
            obtain ⟨e1, hsb, hse1⟩ := setBlockHead_synced (c % 256) 
              ⟨d.world, c1, fun q1 => if q1 = q
                then memcpy (d.mem q) (addr - 256 * c) buf bi n else d.mem q1, d.brk + 1,
                d.head, d.cache_hits + 1, d.disk_reads⟩ (c / 256) (c % 256) 
              (SyncedAt_frame d _ _ _ rfl rfl hsy) hb256
            obtain ⟨e2, hwr, hse2⟩ := writeLowLevel_synced q e1 (c / 256) (c % 256) hse1 hd16 hb256
            simp only [hsb, hwr, headsAtCursor_synced _ _ _ hse1, Bool.and_true]
            cases hp : smsa_put_cache_line (c / 256) (c % 256) (some q) e2.cache with
            | error x => rfl
            | ok v =>
              simp only []
              by_cases hck : checkForErrors v.1 = 1
              · simp only [hck, if_true]
                rfl
              · simp only [hck, if_false]
                obtain ⟨e3, hsk, hse3⟩ := seekIfNeedTo_next addr len c h hc
                  ⟨e2.world, v.2, e2.mem, e2.brk, e2.head, e2.cache_hits, e2.disk_reads⟩ (c / 256)
                  (c % 256 + 1) (SyncedAt_frame e2 _ _ _ rfl rfl hse2)
                simp only [hsk]
                exact ih (c + 1) f 0 _ e3 (by omega) (by omega) hse3
      · simp only [hwhole, if_false]
        obtain ⟨e1, hsb, hse1⟩ := setBlockHead_synced (c % 256) 
          ⟨d.world, d.cache, fun q => if q = d.brk
            then memcpy (d.mem d.brk) (addr - 256 * c) buf bi n else d.mem q, d.brk + 1,
            d.head, d.cache_hits, d.disk_reads⟩ (c / 256) (c % 256) 
          (SyncedAt_frame d _ _ _ rfl rfl hsy) hb256
        obtain ⟨e2, hwr, hse2⟩ := writeLowLevel_synced d.brk e1 (c / 256) (c % 256) hse1 hd16 hb256
        simp only [hsb, hwr, headsAtCursor_synced _ _ _ hse1, Bool.and_true]
        cases hp : smsa_put_cache_line (c / 256) (c % 256) (some d.brk) e2.cache with
        | error x => rfl
        | ok v =>
          simp only []
          by_cases hck : checkForErrors v.1 = 1
          · simp only [hck, if_true]
            rfl
          · simp only [hck, if_false]
            obtain ⟨e3, hsk, hse3⟩ := seekIfNeedTo_next addr len c h hc
              ⟨e2.world, v.2, e2.mem, e2.brk, e2.head, e2.cache_hits, e2.disk_reads⟩ (c / 256)
              (c % 256 + 1) (SyncedAt_frame e2 _ _ _ rfl rfl hse2)
            simp only [hsk]
            exact ih (c + 1) f 0 _ e3 (by omega) (by omega) hse3

/-- Claim C36: for every in-range request (`len >= 1`,
`addr + len <= 1048576`), started in a state in which every primitive succeeds
and the tracked head equals the device heads, the monitor of `smsa_vread` and
of `smsa_vwrite` is never cleared: whenever a block read or a block write
command of a loop round is issued, the device's drum head and read head are at
the cursor `(currentDrum, currentBlock)` of that round.  The monitored
functions otherwise compute what `smsa_vread` and `smsa_vwrite` compute. -/
theorem C36_device_heads_at_cursor (addr len : Nat) (buf : Block) (d : Driver) (dh rh : Nat)
    (hlen : 1 ≤ len) (h : addr + len ≤ 1048576) (hsy : d.SyncedAt dh rh) :
    smsa_vreadMonitored addr len buf d
        = (smsa_vread addr len buf d).map (fun r => (true, r))
      ∧ smsa_vwriteMonitored addr len buf d
        = (smsa_vwrite addr len buf d).map (fun r => (true, r)) := by
  have e1 : (getDiskBlockParameters addr len).2.diskStart = addr / 256 / 256 := by
    rw [getDiskBlockParameters_eq addr len hlen h]
    simp only []
    omega
  have e2 : (getDiskBlockParameters addr len).2.blockStart = addr / 256 % 256 := by
    rw [getDiskBlockParameters_eq addr len hlen h]
  obtain ⟨e, hsk, hse⟩ := seekIfNeedTo_synced (addr / 256 / 256) (addr / 256 % 256) d dh rh hsy
    (by omega) (by omega)
  constructor
  · unfold smsa_vreadMonitored smsa_vread
    simp only [e1, e2, hsk, bind, Except.bind]
    exact vreadLoopMonitored_eq addr len hlen h ((addr + len - 1) / 256 - addr / 256 + 1)
      (addr / 256) loopFuel 0 0 buf e (by omega) (le_refl _) (fun _ => hse)
  · unfold smsa_vwriteMonitored smsa_vwrite
    simp only [e1, e2, hsk, bind, Except.bind]
    exact vwriteLoopMonitored_eq addr len hlen h buf ((addr + len - 1) / 256 - addr / 256 + 1)
      (addr / 256) loopFuel 0 0 e (by omega) (le_refl _) (fun _ => hse)

/-- C36 right after `smsa_vmount(2)`, for the 300 bytes at address 65500
(blocks (0,255), (1,0) and (1,1)): both calls return 0 with the monitor
intact. -/
theorem C36_device_heads_at_cursor_witness :
    mountedDriver.SyncedAt 0 0
      ∧ (smsa_vreadMonitored 65500 300 (fun _ => 0) mountedDriver
          = (smsa_vread 65500 300 (fun _ => 0) mountedDriver).map (fun r => (true, r))
        ∧ smsa_vwriteMonitored 65500 300 (fun _ => 0) mountedDriver
          = (smsa_vwrite 65500 300 (fun _ => 0) mountedDriver).map (fun r => (true, r)))
      ∧ (smsa_vreadMonitored 65500 300 (fun _ => 0) mountedDriver).map
          (fun r => (r.1, r.2.1, commands r.2.2.2))
        = Except.ok (true, 0, [0, 201326847, 268435456, 138412032, 268435456, 268435456])
      ∧ (smsa_vwriteMonitored 65500 300 (fun _ => 0) mountedDriver).map
          (fun r => (r.1, r.2.1, commands r.2.2))
        = Except.ok (true, 0, [0, 201326847, 268435456, 201326847, 335544320, 138412032,
            201326592, 335544320, 268435456, 201326593, 335544320]) :=
  ⟨mountedDriver_synced,
    C36_device_heads_at_cursor 65500 300 (fun _ => 0) mountedDriver 0 0 (by decide) (by decide)
      mountedDriver_synced, rfl, rfl⟩

/-! ## The counters of the cache and of the driver (C32) -/

theorem bind_ok_inv {α β : Type} (x : Exec α) (f : α → Exec β) (b : β)
    (h : (x >>= f) = Except.ok b) : ∃ a, x = Except.ok a ∧ f a = Except.ok b := by
  cases x with
  | error e => cases h
  | ok a => exact ⟨a, rfl, h⟩

theorem wr_counters (c c1 : Cache) (i : Int) (v : SMSA_CACHE_LINE)
    (h : c.wr i v = Except.ok c1) :
    c1.hits = c.hits ∧ c1.misses = c.misses ∧ c1.currentIndex = c.currentIndex
      ∧ c1.maxIndex = c.maxIndex := by
  unfold Cache.wr at h
  split_ifs at h
  cases h
  exact ⟨rfl, rfl, rfl, rfl⟩

theorem shiftDown_counters :
    ∀ (n : Nat) (i : Int) (c c1 : Cache), shiftDown n i c = Except.ok c1 →
      c1.hits = c.hits ∧ c1.misses = c.misses ∧ c1.currentIndex = c.currentIndex
        ∧ c1.maxIndex = c.maxIndex := by
  intro n
  induction n with
  | zero =>
    intro i c c1 h
    cases h
    exact ⟨rfl, rfl, rfl, rfl⟩
  | succ n ih =>
    intro i c c1 h
    unfold shiftDown at h
    obtain ⟨a, _, h⟩ := bind_ok_inv _ _ _ h
    obtain ⟨b, _, h⟩ := bind_ok_inv _ _ _ h
    by_cases hk : a.drum = b.drum ∧ a.block = b.block
    · rw [if_pos hk] at h
      cases h
    · rw [if_neg hk] at h
      obtain ⟨c2, hw, h⟩ := bind_ok_inv _ _ _ h
      obtain ⟨a1, a2, a3, a4⟩ := wr_counters _ _ _ _ hw
      obtain ⟨b1, b2, b3, b4⟩ := ih _ _ _ h
      exact ⟨b1.trans a1, b2.trans a2, b3.trans a3, b4.trans a4⟩

theorem justUsedAdjust_counters (drm blk : Nat) (buf : Ptr) (index : Int) (c : Cache)
    (r : Nat × Cache) (h : justUsedAdjust drm blk buf index c = Except.ok r) :
    r.2.hits = c.hits ∧ r.2.misses = c.misses := by
  unfold justUsedAdjust at h
  by_cases h0 : index = c.currentIndex - 1 ∧ c.currentIndex ≠ c.maxIndex - 1
  · rw [if_pos h0] at h
    cases h
    exact ⟨rfl, rfl⟩
  · rw [if_neg h0] at h
    obtain ⟨c1, hs, h⟩ := bind_ok_inv _ _ _ h
    obtain ⟨a1, a2, a3, a4⟩ := shiftDown_counters _ _ _ _ hs
    dsimp only at h
    by_cases h1 : c1.currentIndex = c1.maxIndex - 1
    · rw [if_pos h1] at h
      obtain ⟨e, _, h⟩ := bind_ok_inv _ _ _ h
      obtain ⟨c3, hw1, h⟩ := bind_ok_inv _ _ _ h
      obtain ⟨c4, hw2, h⟩ := bind_ok_inv _ _ _ h
      obtain ⟨x1, x2, _, _⟩ := wr_counters _ _ _ _ hw1
      obtain ⟨y1, y2, _, _⟩ := wr_counters _ _ _ _ hw2
      split_ifs at h <;> cases h <;> exact ⟨(y1.trans x1).trans a1, (y2.trans x2).trans a2⟩
    · rw [if_neg h1] at h
      obtain ⟨c4, hw2, h⟩ := bind_ok_inv _ _ _ h
      obtain ⟨y1, y2, _, _⟩ := wr_counters _ _ _ _ hw2
      split_ifs at h <;> cases h <;> exact ⟨y1.trans a1, y2.trans a2⟩

theorem evictLRU_counters (c : Cache) (r : Nat × Cache) (h : evictLRU c = Except.ok r) :
    r.2.hits = c.hits ∧ r.2.misses = c.misses := by
  unfold evictLRU at h
  obtain ⟨c1, hs, h⟩ := bind_ok_inv _ _ _ h
  obtain ⟨a1, a2, a3, a4⟩ := shiftDown_counters _ _ _ _ hs
  by_cases h1 : c1.currentIndex = c1.maxIndex - 1
  · rw [if_pos h1] at h
    obtain ⟨e, _, h⟩ := bind_ok_inv _ _ _ h
    obtain ⟨c2, hw, h⟩ := bind_ok_inv _ _ _ h
    obtain ⟨x1, x2, _, _⟩ := wr_counters _ _ _ _ hw
    cases h
    exact ⟨x1.trans a1, x2.trans a2⟩
  · rw [if_neg h1] at h
    cases h
    exact ⟨a1, a2⟩

theorem writeToCache_tail_counters (drm blk : Nat) (buf : Ptr) (err : Nat) (c : Cache)
    (r : Nat × Cache)
    (h : (do
      let c ← c.wr c.currentIndex ⟨drm, blk, buf⟩
      let c := if c.currentIndex < c.maxIndex - 1
        then { c with currentIndex := c.currentIndex + 1 } else c
      let err := if c.currentIndex ≥ c.maxIndex then 1 else err
      (pure (err, c) : Exec (Nat × Cache))) = Except.ok r) :
    r.2.hits = c.hits ∧ r.2.misses = c.misses := by
  obtain ⟨c2, hw, h⟩ := bind_ok_inv _ _ _ h
  obtain ⟨x1, x2, _, _⟩ := wr_counters _ _ _ _ hw
  cases h
  dsimp only
  split_ifs <;> exact ⟨x1, x2⟩

theorem writeToCache_counters (drm blk : Nat) (buf : Ptr) (c : Cache) (r : Nat × Cache)
    (h : writeToCache drm blk buf c = Except.ok r) :
    r.2.hits = c.hits ∧ r.2.misses = c.misses := by
  unfold writeToCache at h
  dsimp only at h
  by_cases h1 : c.currentIndex = c.maxIndex - 1
  · rw [if_pos h1] at h
    obtain ⟨e, _, h⟩ := bind_ok_inv _ _ _ h
    obtain ⟨full, _, h⟩ := bind_ok_inv _ _ _ h
    by_cases hf : full = true
    · rw [if_pos hf] at h
      obtain ⟨ec, he, h⟩ := bind_ok_inv _ _ _ h
      obtain ⟨a1, a2⟩ := evictLRU_counters c ec he
      obtain ⟨b1, b2⟩ := writeToCache_tail_counters drm blk buf ec.1 ec.2 r h
      exact ⟨b1.trans a1, b2.trans a2⟩
    · rw [if_neg hf] at h
      obtain ⟨ec, he, h⟩ := bind_ok_inv _ _ _ h
      cases he
      exact writeToCache_tail_counters drm blk buf 0 c r h
  · rw [if_neg h1] at h
    obtain ⟨full, hfull, h⟩ := bind_ok_inv _ _ _ h
    cases hfull
    rw [if_neg Bool.false_ne_true] at h
    obtain ⟨ec, he, h⟩ := bind_ok_inv _ _ _ h
    cases he
    exact writeToCache_tail_counters drm blk buf 0 c r h

/-- `smsa_put_cache_line` leaves the counters `hits` and `misses` as they are. -/
theorem smsa_put_cache_line_counters (drm blk : Nat) (buf : Ptr) (c : Cache)
    (r : Nat × Cache) (h : smsa_put_cache_line drm blk buf c = Except.ok r) :
    r.2.hits = c.hits ∧ r.2.misses = c.misses := by
  unfold smsa_put_cache_line at h
  obtain ⟨fl, _, h⟩ := bind_ok_inv _ _ _ h
  cases fl with
  | none =>
    dsimp only at h
    obtain ⟨ec, he, h⟩ := bind_ok_inv _ _ _ h
    have := writeToCache_counters drm blk buf c ec he
    obtain ⟨e1, e2⟩ := ec
    cases h
    exact this
  | some i =>
    dsimp only at h
    obtain ⟨e, _, h⟩ := bind_ok_inv _ _ _ h
    obtain ⟨c1, hw, h⟩ := bind_ok_inv _ _ _ h
    obtain ⟨x1, x2, _, _⟩ := wr_counters _ _ _ _ hw
    by_cases h1 : i = c1.currentIndex
    · rw [if_pos h1] at h
      split_ifs at h <;> cases h <;> exact ⟨x1, x2⟩
    · rw [if_neg h1] at h
      obtain ⟨e2, _, h⟩ := bind_ok_inv _ _ _ h
      obtain ⟨r2, hj, h⟩ := bind_ok_inv _ _ _ h
      obtain ⟨y1, y2⟩ := justUsedAdjust_counters _ _ _ _ _ _ hj
      cases h
      exact ⟨y1.trans x1, y2.trans x2⟩

theorem smsa_get_cache_line_tail_counters (i : Int) (y : Cache) (r : Ptr × Cache)
    (h : (if y.currentIndex = y.maxIndex - 1 then do
          let e ← Cache.rd ⟨y.alloc, y.arr, y.currentIndex, y.maxIndex, y.misses, y.hits + 1⟩
            y.currentIndex
          deref e.line
          (pure (e.line, ⟨y.alloc, y.arr, y.currentIndex, y.maxIndex, y.misses, y.hits + 1⟩) :
            Exec (Ptr × Cache))
        else do
          let e ← Cache.rd ⟨y.alloc, y.arr, y.currentIndex, y.maxIndex, y.misses, y.hits + 1⟩ i
          deref e.line
          let r ← Cache.rd ⟨y.alloc, y.arr, y.currentIndex, y.maxIndex, y.misses, y.hits + 1⟩
            (y.currentIndex - 1)
          pure (r.line, ⟨y.alloc, y.arr, y.currentIndex, y.maxIndex, y.misses, y.hits + 1⟩))
      = Except.ok r) :
    r.2.hits = y.hits + 1 ∧ r.2.misses = y.misses := by
  by_cases h1 : y.currentIndex = y.maxIndex - 1
  · rw [if_pos h1] at h
    obtain ⟨e, _, h⟩ := bind_ok_inv _ _ _ h
    obtain ⟨u, _, h⟩ := bind_ok_inv _ _ _ h
    cases h
    exact ⟨rfl, rfl⟩
  · rw [if_neg h1] at h
    obtain ⟨e, _, h⟩ := bind_ok_inv _ _ _ h
    obtain ⟨u, _, h⟩ := bind_ok_inv _ _ _ h
    obtain ⟨r2, _, h⟩ := bind_ok_inv _ _ _ h
    cases h
    exact ⟨rfl, rfl⟩

/-- `smsa_get_cache_line` counts exactly one lookup: either `hits` or `misses`
grows by one. -/
theorem smsa_get_cache_line_counters (drm blk : Nat) (c : Cache) (r : Ptr × Cache)
    (h : smsa_get_cache_line drm blk c = Except.ok r) :
    r.2.hits + r.2.misses = c.hits + c.misses + 1 ∧ c.hits ≤ r.2.hits
      ∧ c.misses ≤ r.2.misses := by
  unfold smsa_get_cache_line at h
  obtain ⟨fl, _, h⟩ := bind_ok_inv _ _ _ h
  cases fl with
  | none =>
    dsimp only at h
    cases h
    dsimp only
    omega
  | some i =>
    dsimp only at h
    by_cases h1 : i ≠ c.currentIndex
    · rw [if_pos h1] at h
      obtain ⟨e, _, h⟩ := bind_ok_inv _ _ _ h
      obtain ⟨r2, hj, h⟩ := bind_ok_inv _ _ _ h
      obtain ⟨y1, y2⟩ := justUsedAdjust_counters _ _ _ _ _ _ hj
      obtain ⟨y, hy, h⟩ := bind_ok_inv _ _ _ h
      cases hy
      obtain ⟨z1, z2⟩ := smsa_get_cache_line_tail_counters i r2.2 r h
      omega
    · rw [if_neg h1] at h
      obtain ⟨y, hy, h⟩ := bind_ok_inv _ _ _ h
      cases hy
      obtain ⟨z1, z2⟩ := smsa_get_cache_line_tail_counters i c r h
      omega

theorem setBlockHead_counters (blockID : Nat) (d : Driver) (r : Nat × Driver)
    (h : setBlockHead blockID d = Except.ok r) :
    r.2.cache = d.cache ∧ r.2.cache_hits = d.cache_hits ∧ r.2.disk_reads = d.disk_reads := by
  unfold setBlockHead at h
  dsimp only at h
  obtain ⟨x, _, h⟩ := bind_ok_inv _ _ _ h
  obtain ⟨err, blk, w⟩ := x
  dsimp only at h
  split_ifs at h <;> cases h <;> exact ⟨rfl, rfl, rfl⟩

theorem readLowLevel_counters (buffer : Nat) (d : Driver) (r : Nat × Driver)
    (h : readLowLevel buffer d = Except.ok r) :
    r.2.cache = d.cache ∧ r.2.cache_hits = d.cache_hits ∧ r.2.disk_reads = d.disk_reads := by
  unfold readLowLevel at h
  dsimp only at h
  obtain ⟨x, _, h⟩ := bind_ok_inv _ _ _ h
  obtain ⟨err, blk, w⟩ := x
  dsimp only at h
  split_ifs at h <;> cases h <;> exact ⟨rfl, rfl, rfl⟩

theorem writeLowLevel_counters (buffer : Nat) (d : Driver) (r : Nat × Driver)
    (h : writeLowLevel buffer d = Except.ok r) :
    r.2.cache = d.cache ∧ r.2.cache_hits = d.cache_hits ∧ r.2.disk_reads = d.disk_reads := by
  unfold writeLowLevel at h
  dsimp only at h
  obtain ⟨x, _, h⟩ := bind_ok_inv _ _ _ h
  obtain ⟨err, blk, w⟩ := x
  dsimp only at h
  split_ifs at h <;> cases h <;> exact ⟨rfl, rfl, rfl⟩

/-- The seek of a loop round: it returns 0 and leaves the cache and the
counters of the driver as they are. -/
theorem seekIfNeedTo_counters (cd cb : Nat) (d : Driver) (h1 : cd ≤ 16) (h2 : cb ≤ 255) :
    ∃ e, seekIfNeedTo cd cb d = Except.ok (0, e) ∧ e.cache = d.cache
      ∧ e.cache_hits = d.cache_hits ∧ e.disk_reads = d.disk_reads := by
  obtain ⟨e, ws, hs, f1, _, _, f4, f5, _⟩ := seekIfNeedTo_frame cd cb d h1 h2
  exact ⟨e, hs, f1, f4, f5⟩

theorem partialBlock_roundAt (addr len c : Nat) :
    (roundAt addr len c).partialBlock
      = decide (¬ (addr - 256 * c = 0
          ∧ min (addr + len) (256 * (c + 1)) - 256 * c = SMSA_BLOCK_SIZE)) := rfl

theorem countsGrow_step (d e d1 : Driver) (k j : Nat) (hi : e.countsGrow d1 k)
    (h1 : e.cache_hits + e.disk_reads = d.cache_hits + d.disk_reads + j)
    (h2 : d.cache_hits ≤ e.cache_hits) (h3 : d.disk_reads ≤ e.disk_reads)
    (h4 : e.cache.hits + e.cache.misses = d.cache.hits + d.cache.misses + j)
    (h5 : d.cache.hits ≤ e.cache.hits) (h6 : d.cache.misses ≤ e.cache.misses) :
    d.countsGrow d1 (k + j) := by
  unfold Driver.countsGrow Driver.fetches Driver.lookups at hi ⊢
  omega

theorem vwriteLoop_counts (addr len : Nat) (hlen : 1 ≤ len) (h : addr + len ≤ 1048576)
    (buf : Block) :
    ∀ (m c fuel bi : Nat) (d d1 : Driver),
      c + m = (addr + len - 1) / 256 + 1 → addr / 256 ≤ c →
      vwriteLoop (getDiskBlockParameters addr len).2 buf fuel 0 (c / 256) (c % 256) bi d
        = Except.ok (0, d1) →
      d.countsGrow d1
        (((List.range' c m).map (roundAt addr len)).filter Round.partialBlock).length := by
  intro m
  induction m with
  | zero =>
    intro c fuel bi d d1 hcm _ hrun
    cases fuel with
    | zero => cases hrun
    | succ f =>
      have hc : c = (addr + len - 1) / 256 + 1 := by omega
      unfold vwriteLoop at hrun
      rw [hc, loopDone_after addr len hlen h] at hrun
      cases hrun
      exact ⟨rfl, rfl, le_refl _, le_refl _, le_refl _, le_refl _⟩
  | succ m ih =>
    intro c fuel bi d d1 hcm hs hrun
    cases fuel with
    | zero => cases hrun
    | succ f =>
      have hc : c ≤ (addr + len - 1) / 256 := by omega
      have hbounds := findMemCpyBounds_inside addr len c hlen h hs hc
      have hA : ¬ (addr - 256 * c
          + u32 (min (addr + len) (256 * (c + 1)) - 256 * c + 4294967296 - (addr - 256 * c))
          > SMSA_BLOCK_SIZE) := by
        unfold u32 SMSA_BLOCK_SIZE
        omega
      unfold vwriteLoop at hrun
      rw [loopDone_inside addr len c hlen h hc] at hrun
      simp only [Bool.false_eq_true, if_false, bind, Except.bind, hbounds,
        nextCursor_linear c (by omega), hA, pure, Except.pure] at hrun
      rw [List.range'_succ, List.map_cons, List.filter_cons, partialBlock_roundAt]
      by_cases hwhole : ¬ (addr - 256 * c = 0
          ∧ min (addr + len) (256 * (c + 1)) - 256 * c = SMSA_BLOCK_SIZE)
      · simp only [hwhole, not_false_eq_true, if_true, decide_True, List.length_cons] at hrun ⊢
        split at hrun
        · cases hrun
        · rename_i v0 hg
          obtain ⟨cl, c1⟩ := v0
          obtain ⟨q1, q2, q3⟩ := smsa_get_cache_line_counters _ _ _ _ hg
          dsimp only at hrun q1 q2 q3
          cases cl with
          | none =>
            dsimp only at hrun
            split at hrun
            · cases hrun
            · rename_i vr hrd
              obtain ⟨r1, r2, r3⟩ := readLowLevel_counters _ _ _ hrd
              dsimp only at r1 r2 r3
              split at hrun
              · cases hrun
              · rename_i v1 hsb
                split at hrun
                · cases hrun
                · rename_i v2 hwr
                  split at hrun
                  · cases hrun
                  · rename_i v3 hp
                    split_ifs at hrun with hck
                    · cases hrun
                    · obtain ⟨e3, hsk, g1, g2, g3⟩ := seekIfNeedTo_counters ((c + 1) / 256)
                        ((c + 1) % 256)
                        ⟨v2.2.world, v3.2, v2.2.mem, v2.2.brk, v2.2.head, v2.2.cache_hits,
                          v2.2.disk_reads⟩ (by omega) (by omega)
                      rw [hsk] at hrun
                      have hi := ih (c + 1) f _ e3 d1 (by omega) (by omega) hrun
                      obtain ⟨a1, a2, a3⟩ := setBlockHead_counters _ _ _ hsb
                      obtain ⟨b1, b2, b3⟩ := writeLowLevel_counters _ _ _ hwr
                      obtain ⟨p1, p2⟩ := smsa_put_cache_line_counters _ _ _ _ _ hp
                      dsimp only at g1 g2 g3 a1 a2 a3
                      rw [b1, a1, r1] at p1 p2
                      refine countsGrow_step d e3 d1 _ 1 hi ?_ ?_ ?_ ?_ ?_ ?_ <;> (try rw [g1]) <;> omega
          | some q =>
            dsimp only at hrun
            split at hrun
            · cases hrun
            · rename_i v1 hsb
              split at hrun
              · cases hrun
              · rename_i v2 hwr
                split at hrun
                · cases hrun
                · rename_i v3 hp
                  split_ifs at hrun with hck
                  · cases hrun
                  · obtain ⟨e3, hsk, g1, g2, g3⟩ := seekIfNeedTo_counters ((c + 1) / 256)
                      ((c + 1) % 256)
                      ⟨v2.2.world, v3.2, v2.2.mem, v2.2.brk, v2.2.head, v2.2.cache_hits,
                        v2.2.disk_reads⟩ (by omega) (by omega)
                    rw [hsk] at hrun
                    have hi := ih (c + 1) f _ e3 d1 (by omega) (by omega) hrun
                    obtain ⟨a1, a2, a3⟩ := setBlockHead_counters _ _ _ hsb
                    obtain ⟨b1, b2, b3⟩ := writeLowLevel_counters _ _ _ hwr
                    obtain ⟨p1, p2⟩ := smsa_put_cache_line_counters _ _ _ _ _ hp
                    dsimp only at g1 g2 g3 a1 a2 a3
                    rw [b1, a1] at p1 p2
                    refine countsGrow_step d e3 d1 _ 1 hi ?_ ?_ ?_ ?_ ?_ ?_ <;> (try rw [g1]) <;> omega
      · simp only [hwhole, if_false, decide_False, Bool.false_eq_true] at hrun ⊢
        split at hrun
        · cases hrun
        · rename_i v1 hsb
          split at hrun
          · cases hrun
          · rename_i v2 hwr
            split at hrun
            · cases hrun
            · rename_i v3 hp
              split_ifs at hrun with hck
              · cases hrun
              · obtain ⟨e3, hsk, g1, g2, g3⟩ := seekIfNeedTo_counters ((c + 1) / 256)
                  ((c + 1) % 256)
                  ⟨v2.2.world, v3.2, v2.2.mem, v2.2.brk, v2.2.head, v2.2.cache_hits,
                    v2.2.disk_reads⟩ (by omega) (by omega)
                rw [hsk] at hrun
                have hi := ih (c + 1) f _ e3 d1 (by omega) (by omega) hrun
                obtain ⟨a1, a2, a3⟩ := setBlockHead_counters _ _ _ hsb
                obtain ⟨b1, b2, b3⟩ := writeLowLevel_counters _ _ _ hwr
                obtain ⟨p1, p2⟩ := smsa_put_cache_line_counters _ _ _ _ _ hp
                dsimp only at g1 g2 g3 a1 a2 a3
                rw [b1, a1] at p1 p2
                refine countsGrow_step d e3 d1 _ 0 hi ?_ ?_ ?_ ?_ ?_ ?_ <;> (try rw [g1]) <;> omega

theorem position_roundAt (addr len c : Nat) : (roundAt addr len c).position = c := by
  unfold Round.position roundAt
  dsimp only
  omega

theorem partialBlock_iff (addr len c : Nat) (hlen : 1 ≤ len) (hs : addr / 256 ≤ c)
    (hc : c ≤ (addr + len - 1) / 256) :
    (roundAt addr len c).partialBlock = true
      ↔ (addr > 256 * c ∨ addr + len < 256 * (c + 1)) := by
  rw [partialBlock_roundAt]
  simp only [decide_eq_true_eq, SMSA_BLOCK_SIZE]
  omega

/-- Claim C32: for every in-range `smsa_vwrite` that returns 0, the rounds of
its loop are those of `transferRounds`; a round is one with a fetch of the
prior contents exactly when its copy bounds are not `(0, 256)`, which is when
the request does not cover the whole block; the driver counts one fetch
(`cache_hits` or `disk_reads`) and the cache one lookup (`hits` or `misses`)
for each such round and none for the others, so that a request of whole blocks
only leaves the four counters as they are. -/
theorem C32_fetch_only_for_partial_blocks (addr len : Nat) (buf : Block) (d d1 : Driver)
    (hlen : 1 ≤ len) (h : addr + len ≤ 1048576)
    (hrun : smsa_vwrite addr len buf d = Except.ok (0, d1)) :
    ∃ rs, transferRounds addr len = some (rs, len)
      ∧ (∀ r ∈ rs, (r.partialBlock = true
            ↔ ¬ (r.lowerBound = 0 ∧ r.upperBound = 256))
          ∧ (r.partialBlock = true
            ↔ (addr > 256 * r.position ∨ addr + len < 256 * (r.position + 1))))
      ∧ d1.cache_hits + d1.disk_reads
          = d.cache_hits + d.disk_reads + (rs.filter Round.partialBlock).length
      ∧ d1.cache.hits + d1.cache.misses
          = d.cache.hits + d.cache.misses + (rs.filter Round.partialBlock).length
      ∧ d.cache_hits ≤ d1.cache_hits ∧ d.disk_reads ≤ d1.disk_reads
      ∧ d.cache.hits ≤ d1.cache.hits ∧ d.cache.misses ≤ d1.cache.misses
      ∧ (addr % 256 = 0 → (addr + len) % 256 = 0 →
          d1.cache_hits = d.cache_hits ∧ d1.disk_reads = d.disk_reads
            ∧ d1.cache.hits = d.cache.hits ∧ d1.cache.misses = d.cache.misses) := by
  have e1 : (getDiskBlockParameters addr len).2.diskStart = addr / 256 / 256 := by
    rw [getDiskBlockParameters_eq addr len hlen h]
    simp only []
    omega
  have e2 : (getDiskBlockParameters addr len).2.blockStart = addr / 256 % 256 := by
    rw [getDiskBlockParameters_eq addr len hlen h]
  obtain ⟨e, hsk, g1, g2, g3⟩ := seekIfNeedTo_counters (addr / 256 / 256) (addr / 256 % 256) d
    (by omega) (by omega)
  unfold smsa_vwrite at hrun
  simp only [e1, e2, hsk, bind, Except.bind] at hrun
  have hcount := vwriteLoop_counts addr len hlen h buf
    ((addr + len - 1) / 256 - addr / 256 + 1) (addr / 256) loopFuel 0 e d1 (by omega)
    (le_refl _) hrun
  unfold Driver.countsGrow Driver.fetches Driver.lookups at hcount
  rw [g1, g2, g3] at hcount
  obtain ⟨c1, c2, c3, c4, c5, c6⟩ := hcount
  refine ⟨_, transferRounds_eq addr len hlen h, ?_, c1, c2, c3, c4, c5, c6, ?_⟩
  · intro r hr
    obtain ⟨c, hs, hc, rfl⟩ := roundAt_mem addr len hlen r hr
    refine ⟨?_, ?_⟩
    · unfold Round.partialBlock SMSA_BLOCK_SIZE
      simp only [decide_eq_true_eq]
    · rw [position_roundAt]
      exact partialBlock_iff addr len c hlen hs hc
  · intro ha hb
    have hnil : ((List.range' (addr / 256) ((addr + len - 1) / 256 - addr / 256 + 1)).map
        (roundAt addr len)).filter Round.partialBlock = [] := by
      rw [List.filter_eq_nil_iff]
      intro r hr
      obtain ⟨c, hs, hc, rfl⟩ := roundAt_mem addr len hlen r hr
      rw [partialBlock_iff addr len c hlen hs hc]
      omega
    rw [hnil, List.length_nil] at c1 c2
    omega

/-- C32 at the write of 300 bytes at address 65500 right after
`smsa_vmount(2)`: blocks (0,255) and (1,1) are covered in part, block (1,0) as
a whole; two fetches and two lookups are counted (both misses). -/
theorem C32_fetch_only_for_partial_blocks_witness :
    smsa_vwrite 65500 300 (fun _ => 5) mountedDriver = Except.ok (0, afterWrite300)
      ∧ (mountedDriver.cache_hits, mountedDriver.disk_reads, mountedDriver.cache.hits,
          mountedDriver.cache.misses) = (0, 0, 0, 0)
      ∧ (afterWrite300.cache_hits, afterWrite300.disk_reads, afterWrite300.cache.hits,
          afterWrite300.cache.misses) = (0, 2, 0, 2)
      ∧ (transferRounds 65500 300).map (fun x => x.1.map Round.partialBlock)
        = some [true, false, true]
      ∧ ∃ rs, transferRounds 65500 300 = some (rs, 300)
        ∧ (∀ r ∈ rs, (r.partialBlock = true
              ↔ ¬ (r.lowerBound = 0 ∧ r.upperBound = 256))
            ∧ (r.partialBlock = true
              ↔ (65500 > 256 * r.position ∨ 65500 + 300 < 256 * (r.position + 1))))
        ∧ afterWrite300.cache_hits + afterWrite300.disk_reads
            = mountedDriver.cache_hits + mountedDriver.disk_reads
              + (rs.filter Round.partialBlock).length
        ∧ afterWrite300.cache.hits + afterWrite300.cache.misses
            = mountedDriver.cache.hits + mountedDriver.cache.misses
              + (rs.filter Round.partialBlock).length
        ∧ mountedDriver.cache_hits ≤ afterWrite300.cache_hits
        ∧ mountedDriver.disk_reads ≤ afterWrite300.disk_reads
        ∧ mountedDriver.cache.hits ≤ afterWrite300.cache.hits
        ∧ mountedDriver.cache.misses ≤ afterWrite300.cache.misses
        ∧ (65500 % 256 = 0 → (65500 + 300) % 256 = 0 →
            afterWrite300.cache_hits = mountedDriver.cache_hits
              ∧ afterWrite300.disk_reads = mountedDriver.disk_reads
              ∧ afterWrite300.cache.hits = mountedDriver.cache.hits
              ∧ afterWrite300.cache.misses = mountedDriver.cache.misses) :=
  ⟨rfl, rfl, rfl, rfl,
    C32_fetch_only_for_partial_blocks 65500 300 (fun _ => 5) mountedDriver afterWrite300
      (by decide) (by decide) rfl⟩

/-! ## `readBytes` after a short read -/

theorem readSize_le (s : Stream) (request : Nat) : s.readSize request ≤ request := by
  unfold Stream.readSize
  cases s.chunks with
  | nil => exact Nat.min_le_left _ _
  | cons c cs =>
    dsimp only
    omega

/-- Once the counter of `readBytes` holds the size of a read that was shorter
than `len`, the loop never returns 0: every later read is for fewer than `len`
bytes and the counter is set to its size. -/
theorem readBytesLoop_after_short (len : Nat) :
    ∀ (fuel rb : Nat) (block : Block) (s : Stream) (r : Nat × Block × Stream),
      0 < rb → rb < len → readBytesLoop len fuel rb block s = Except.ok r → r.1 = 1 := by
  intro fuel
  induction fuel with
  | zero =>
    intro rb block s r _ _ h
    cases h
  | succ f ih =>
    intro rb block s r h0 h1 h
    unfold readBytesLoop at h
    rw [if_pos h1] at h
    dsimp only at h
    by_cases hz : s.readSize (len - rb) = 0
    · rw [if_pos hz] at h
      cases h
      rfl
    · rw [if_neg hz] at h
      have hle := readSize_le s (len - rb)
      exact ih _ _ _ r (by omega) (by omega) h

/-- `readBytes` returns 0 only if `len` is 0 or the first `read` delivers all
`len` bytes. -/
theorem readBytes_zero_only_if_first_read_complete (s : Stream) (len : Nat) (block : Block)
    (r : Nat × Block × Stream) (h : readBytes s len block = Except.ok r) (h0 : r.1 = 0) :
    len = 0 ∨ s.readSize len = len := by
  by_cases hl : len = 0
  · exact Or.inl hl
  · right
    unfold readBytes readBytesLoop at h
    rw [if_pos (by omega)] at h
    dsimp only at h
    by_cases hz : s.readSize (len - 0) = 0
    · rw [if_pos hz] at h
      cases h
      cases h0
    · rw [if_neg hz] at h
      have hle := readSize_le s (len - 0)
      by_contra hne
      have h1 := readBytesLoop_after_short len _ _ _ _ r (by omega)
        (by rw [Nat.sub_zero] at hle hz ⊢; omega) h
      omega

/-! ## The transfer loops with a record of their copies are the transfer loops -/

/-- The result of the loop of `smsa_vread` with the record of its copies is the
result of the loop, for every argument and state. -/
theorem vreadLoopTraced_result (p : DiskBlockParameters) :
    ∀ (fuel err currentDrum currentBlock bufferIndex : Nat) (buf : Block) (d : Driver)
      (rounds : List Round),
      (vreadLoopTraced p fuel err currentDrum currentBlock bufferIndex buf d rounds).2
        = vreadLoop p fuel err currentDrum currentBlock bufferIndex buf d := by
  intro fuel
  induction fuel with
  | zero => intro _ _ _ _ _ _ _; rfl
  | succ f ih =>
    intro err cd cb bi buf d rounds
    unfold vreadLoopTraced vreadLoop
    by_cases hd : loopDone p cd cb = true
    · rw [if_pos hd, if_pos hd]
    · rw [if_neg hd, if_neg hd]
      simp only [bind, Except.bind, pure, Except.pure, checkForErrors_zero]
      generalize findMemCpyBounds p cd cb = bd
      obtain ⟨lo, hi⟩ := bd
      generalize nextCursor cd cb = nx
      obtain ⟨nd, nb⟩ := nx
      cases hg : smsa_get_cache_line cd cb d.cache with
      | error e => rfl
      | ok r =>
        obtain ⟨cl, c1⟩ := r
        cases cl with
        | none =>
          simp only []
          cases hr : readLowLevel d.brk ⟨d.world, c1, d.mem, d.brk + 1, d.head, d.cache_hits,
              d.disk_reads⟩ with
          | error e => rfl
          | ok r2 =>
            simp only []
            cases hp : smsa_put_cache_line cd cb (some d.brk) r2.2.cache with
            | error e => rfl
            | ok r3 =>
              simp only []
              by_cases hb : lo + u32 (hi + 4294967296 - lo) > SMSA_BLOCK_SIZE
              · simp only [hb, if_true]
              · simp only [hb, if_false]
                cases hs : seekIfNeedTo nd nb ⟨r2.2.world, r3.2, r2.2.mem, r2.2.brk, r2.2.head,
                    r2.2.cache_hits, r2.2.disk_reads + 1⟩ with
                | error e => simp only [Nat.zero_ne_one, if_false]
                | ok r4 =>
                  simp only [Nat.zero_ne_one, if_false]
                  exact ih _ _ _ _ _ _ _
        | some q =>
          simp only []
          by_cases hb : lo + u32 (hi + 4294967296 - lo) > SMSA_BLOCK_SIZE
          · simp only [hb, if_true]
          · simp only [hb, if_false]
            cases hs : seekIfNeedTo nd nb ⟨d.world, c1, d.mem, d.brk + 1, d.head,
                d.cache_hits + 1, d.disk_reads⟩ with
            | error e => simp only [Nat.zero_ne_one, if_false]
            | ok r4 =>
              simp only [Nat.zero_ne_one, if_false]
              exact ih _ _ _ _ _ _ _

/-- The result of `smsa_vread` with the record of its copies is the result of
`smsa_vread`, for every argument and state. -/
theorem smsa_vreadTraced_result (addr len : Nat) (buf : Block) (d : Driver) :
    (smsa_vreadTraced addr len buf d).2 = smsa_vread addr len buf d := by
  unfold smsa_vreadTraced smsa_vread
  simp only [bind, Except.bind]
  cases hs : seekIfNeedTo (getDiskBlockParameters addr len).2.diskStart
      (getDiskBlockParameters addr len).2.blockStart d with
  | error e => rfl
  | ok r => exact vreadLoopTraced_result _ _ _ _ _ _ _ _ _

/-- The result of the loop of `smsa_vwrite` with the record of its copies is
the result of the loop, for every argument and state. -/
theorem vwriteLoopTraced_result (p : DiskBlockParameters) (buf : Block) :
    ∀ (fuel err currentDrum currentBlock bufferIndex : Nat) (d : Driver)
      (rounds : List Round),
      (vwriteLoopTraced p buf fuel err currentDrum currentBlock bufferIndex d rounds).2
        = vwriteLoop p buf fuel err currentDrum currentBlock bufferIndex d := by
  intro fuel
  induction fuel with
  | zero => intro _ _ _ _ _ _; rfl
  | succ f ih =>
    intro err cd cb bi d rounds
    unfold vwriteLoopTraced vwriteLoop
    by_cases hd : loopDone p cd cb = true
    · rw [if_pos hd, if_pos hd]
    · rw [if_neg hd, if_neg hd]
      simp only [bind, Except.bind, pure, Except.pure]
      generalize findMemCpyBounds p cd cb = bd
      obtain ⟨lo, hi⟩ := bd
      generalize nextCursor cd cb = nx
      obtain ⟨nd, nb⟩ := nx
      simp only []
      by_cases hw : ¬ (lo = 0 ∧ hi = SMSA_BLOCK_SIZE)
      · simp only [hw, not_false_eq_true, if_true]
        cases hg : smsa_get_cache_line cd cb d.cache with
        | error e => rfl
        | ok r =>
          obtain ⟨cl, c1⟩ := r
          cases cl with
          | none =>
            simp only []
            cases hr : readLowLevel d.brk ⟨d.world, c1, d.mem, d.brk + 1, d.head, d.cache_hits,
                d.disk_reads⟩ with
            | error e => rfl
            | ok r2 =>
              simp only []
              by_cases hb : lo + u32 (hi + 4294967296 - lo) > SMSA_BLOCK_SIZE
              · simp only [hb, if_true]
              · simp only [hb, if_false]
                cases hsb : setBlockHead cb ⟨r2.2.world, r2.2.cache, fun q => if q = d.brk
                    then memcpy (r2.2.mem d.brk) lo buf bi (u32 (hi + 4294967296 - lo)) else r2.2.mem q,
                    r2.2.brk, r2.2.head, r2.2.cache_hits, r2.2.disk_reads + 1⟩ with
                | error e => rfl
                | ok r3 =>
                  simp only []
                  cases hwl : writeLowLevel d.brk r3.2 with
                  | error e => rfl
                  | ok r4 =>
                    simp only []
                    cases hp : smsa_put_cache_line cd cb (some d.brk) r4.2.cache with
                    | error e => rfl
                    | ok r5 =>
                      simp only []
                      by_cases hck : checkForErrors r5.1 = 1
                      · simp only [hck, if_true]
                      · simp only [hck, if_false]
                        cases hs : seekIfNeedTo nd nb ⟨r4.2.world, r5.2, r4.2.mem, r4.2.brk, r4.2.head,
                            r4.2.cache_hits, r4.2.disk_reads⟩ with
                        | error e => rfl
                        | ok r6 => exact ih _ _ _ _ _ _
          | some q =>
            simp only []
            by_cases hb : lo + u32 (hi + 4294967296 - lo) > SMSA_BLOCK_SIZE
            · simp only [hb, if_true]
            · simp only [hb, if_false]
              cases hsb : setBlockHead cb ⟨d.world, c1, fun q1 => if q1 = q
                  then memcpy (d.mem q) lo buf bi (u32 (hi + 4294967296 - lo)) else d.mem q1,
                  d.brk + 1, d.head, d.cache_hits + 1, d.disk_reads⟩ with
              | error e => rfl
              | ok r3 =>
                simp only []
                cases hwl : writeLowLevel q r3.2 with
                | error e => rfl
                | ok r4 =>
                  simp only []
                  cases hp : smsa_put_cache_line cd cb (some q) r4.2.cache with
                  | error e => rfl
                  | ok r5 =>
                    simp only []
                    by_cases hck : checkForErrors r5.1 = 1
                    · simp only [hck, if_true]
                    · simp only [hck, if_false]
                      cases hs : seekIfNeedTo nd nb ⟨r4.2.world, r5.2, r4.2.mem, r4.2.brk, r4.2.head,
                          r4.2.cache_hits, r4.2.disk_reads⟩ with
                      | error e => rfl
                      | ok r6 => exact ih _ _ _ _ _ _
      · simp only [hw, if_false]
        by_cases hb : lo + u32 (hi + 4294967296 - lo) > SMSA_BLOCK_SIZE
        · simp only [hb, if_true]
        · simp only [hb, if_false]
          cases hsb : setBlockHead cb ⟨d.world, d.cache, fun q => if q = d.brk
              then memcpy (d.mem d.brk) lo buf bi (u32 (hi + 4294967296 - lo)) else d.mem q,
              d.brk + 1, d.head, d.cache_hits, d.disk_reads⟩ with
          | error e => rfl
          | ok r3 =>
            simp only []
            cases hwl : writeLowLevel d.brk r3.2 with
            | error e => rfl
            | ok r4 =>
              simp only []
              cases hp : smsa_put_cache_line cd cb (some d.brk) r4.2.cache with
              | error e => rfl
              | ok r5 =>
                simp only []
                by_cases hck : checkForErrors r5.1 = 1
                · simp only [hck, if_true]
                · simp only [hck, if_false]
                  cases hs : seekIfNeedTo nd nb ⟨r4.2.world, r5.2, r4.2.mem, r4.2.brk, r4.2.head,
                      r4.2.cache_hits, r4.2.disk_reads⟩ with
                  | error e => rfl
                  | ok r6 => exact ih _ _ _ _ _ _

/-- The result of `smsa_vwrite` with the record of its copies is the result of
`smsa_vwrite`, for every argument and state. -/
theorem smsa_vwriteTraced_result (addr len : Nat) (buf : Block) (d : Driver) :
    (smsa_vwriteTraced addr len buf d).2 = smsa_vwrite addr len buf d := by
  unfold smsa_vwriteTraced smsa_vwrite
  simp only [bind, Except.bind]
  cases hs : seekIfNeedTo (getDiskBlockParameters addr len).2.diskStart
      (getDiskBlockParameters addr len).2.blockStart d with
  | error e => rfl
  | ok r => exact vwriteLoopTraced_result _ _ _ _ _ _ _ _ _

/-! ## The copies of the transfer loops, on every run -/

/-- The loop of `smsa_vread` on an in-range request needs no more fuel than
the number of blocks left plus one: from the block of linear position `c`,
with `m` blocks left, the run is the same for every fuel above `m`, whatever
the state and however the run ends. -/
theorem vreadLoopTraced_fuel (addr len : Nat) (hlen : 1 ≤ len) (h : addr + len ≤ 1048576) :
    ∀ (m c fuel err bi : Nat) (buf : Block) (d : Driver) (rounds : List Round),
      c + m = (addr + len - 1) / 256 + 1 → addr / 256 ≤ c → m < fuel →
      vreadLoopTraced (getDiskBlockParameters addr len).2 fuel err (c / 256) (c % 256) bi buf d
          rounds
        = vreadLoopTraced (getDiskBlockParameters addr len).2 (m + 1) err (c / 256) (c % 256)
          bi buf d rounds := by
  intro m
  induction m with
  | zero =>
    intro c fuel err bi buf d rounds hcm _ hf
    obtain ⟨f, rfl⟩ : ∃ f, fuel = f + 1 := ⟨fuel - 1, by omega⟩
    have hc : c = (addr + len - 1) / 256 + 1 := by omega
    unfold vreadLoopTraced
    rw [hc, loopDone_after addr len hlen h]
    rfl
  | succ m ih =>
    intro c fuel err bi buf d rounds hcm hs hf
    obtain ⟨f, rfl⟩ : ∃ f, fuel = f + 1 := ⟨fuel - 1, by omega⟩
    have hc : c ≤ (addr + len - 1) / 256 := by omega
    unfold vreadLoopTraced
    rw [loopDone_inside addr len c hlen h hc]
    simp only [Bool.false_eq_true, if_false, bind, Except.bind,
      nextCursor_linear c (by omega), checkForErrors_zero, pure, Except.pure]
    generalize findMemCpyBounds (getDiskBlockParameters addr len).2 (c / 256) (c % 256) = bd
    obtain ⟨lo, hi⟩ := bd
    cases hg : smsa_get_cache_line (c / 256) (c % 256) d.cache with
    | error e => rfl
    | ok r =>
      obtain ⟨cl, c1⟩ := r
      cases cl with
      | none =>
        simp only []
        cases hr : readLowLevel d.brk ⟨d.world, c1, d.mem, d.brk + 1, d.head, d.cache_hits,
            d.disk_reads⟩ with
        | error e => rfl
        | ok r2 =>
          simp only []
          cases hp : smsa_put_cache_line (c / 256) (c % 256) (some d.brk) r2.2.cache with
          | error e => rfl
          | ok r3 =>
            simp only []
            by_cases hb : lo + u32 (hi + 4294967296 - lo) > SMSA_BLOCK_SIZE
            · simp only [hb, if_true]
            · simp only [hb, if_false]
              cases hs : seekIfNeedTo ((c + 1) / 256) ((c + 1) % 256) ⟨r2.2.world, r3.2,
                  r2.2.mem, r2.2.brk, r2.2.head, r2.2.cache_hits, r2.2.disk_reads + 1⟩ with
              | error e => rfl
              | ok r4 => exact ih (c + 1) f _ _ _ _ _ (by omega) (by omega) (by omega)
      | some q =>
        simp only []
        by_cases hb : lo + u32 (hi + 4294967296 - lo) > SMSA_BLOCK_SIZE
        · simp only [hb, if_true]
        · simp only [hb, if_false]
          cases hs : seekIfNeedTo ((c + 1) / 256) ((c + 1) % 256) ⟨d.world, c1, d.mem,
              d.brk + 1, d.head, d.cache_hits + 1, d.disk_reads⟩ with
          | error e => rfl
          | ok r4 => exact ih (c + 1) f _ _ _ _ _ (by omega) (by omega) (by omega)

/-- The copies made by the loop of `smsa_vread`, on every run from the block
of linear position `c` of an in-range request, whatever the state and however
the run ends: the rounds recorded are the rounds `roundAt` of `k` consecutive
blocks from `c` on, for some `k` of at most the `m` blocks left, and
`bufferIndex` has advanced by their sizes; `k = m` when the loop returns. -/
theorem vreadLoopTraced_rounds (addr len : Nat) (hlen : 1 ≤ len) (h : addr + len ≤ 1048576) :
    ∀ (m c fuel err : Nat) (buf : Block) (d : Driver) (rounds : List Round),
      c + m = (addr + len - 1) / 256 + 1 → addr / 256 ≤ c → m < fuel →
      ∃ k, k ≤ m
        ∧ (vreadLoopTraced (getDiskBlockParameters addr len).2 fuel err (c / 256) (c % 256)
            (min (256 * c) (addr + len) - addr) buf d rounds).1
          = (rounds ++ (List.range' c k).map (roundAt addr len),
              min (256 * (c + k)) (addr + len) - addr)
        ∧ ((∃ r, (vreadLoopTraced (getDiskBlockParameters addr len).2 fuel err (c / 256)
            (c % 256) (min (256 * c) (addr + len) - addr) buf d rounds).2 = Except.ok r)
            → k = m) := by
  intro m
  induction m with
  | zero =>
    intro c fuel err buf d rounds hcm _ hf
    obtain ⟨f, rfl⟩ : ∃ f, fuel = f + 1 := ⟨fuel - 1, by omega⟩
    have hc : c = (addr + len - 1) / 256 + 1 := by omega
    unfold vreadLoopTraced
    rw [hc, loopDone_after addr len hlen h]
    refine ⟨0, le_refl _, ?_, fun _ => rfl⟩
    simp only [if_true, List.range'_zero, List.map_nil, List.append_nil, Nat.add_zero]
  | succ m ih =>
    intro c fuel err buf d rounds hcm hs hf
    obtain ⟨f, rfl⟩ : ∃ f, fuel = f + 1 := ⟨fuel - 1, by omega⟩
    have hc : c ≤ (addr + len - 1) / 256 := by omega
    have hbounds := findMemCpyBounds_inside addr len c hlen h hs hc
    have hA : ¬ (addr - 256 * c
        + u32 (min (addr + len) (256 * (c + 1)) - 256 * c + 4294967296 - (addr - 256 * c))
        > SMSA_BLOCK_SIZE) := by
      unfold u32 SMSA_BLOCK_SIZE
      omega
    have hn : u32 (min (addr + len) (256 * (c + 1)) - 256 * c + 4294967296 - (addr - 256 * c))
        = min (addr + len) (256 * (c + 1)) - 256 * c - (addr - 256 * c) := by
      unfold u32
      omega
    have hA2 : ¬ (addr - 256 * c
        + (min (addr + len) (256 * (c + 1)) - 256 * c - (addr - 256 * c))
        > SMSA_BLOCK_SIZE) := by
      unfold SMSA_BLOCK_SIZE
      omega
    have hb : min (256 * c) (addr + len) - addr
          + (min (addr + len) (256 * (c + 1)) - 256 * c - (addr - 256 * c))
        = min (256 * (c + 1)) (addr + len) - addr := by omega
    have hi : min (256 * c) (addr + len) - addr = 256 * c - addr := by omega
    have hstop : (rounds, min (256 * c) (addr + len) - addr)
        = (rounds ++ (List.range' c 0).map (roundAt addr len),
            min (256 * (c + 0)) (addr + len) - addr) := by
      simp only [List.range'_zero, List.map_nil, List.append_nil, Nat.add_zero]
    have hone : (rounds ++ [(⟨c / 256, c % 256, addr - 256 * c,
          min (addr + len) (256 * (c + 1)) - 256 * c, min (256 * c) (addr + len) - addr⟩ : Round)],
          min (256 * (c + 1)) (addr + len) - addr)
        = (rounds ++ (List.range' c 1).map (roundAt addr len),
            min (256 * (c + 1)) (addr + len) - addr) := by
      rw [hi]
      rfl
    have hmore : ∀ k, (rounds ++ [(⟨c / 256, c % 256, addr - 256 * c,
          min (addr + len) (256 * (c + 1)) - 256 * c, min (256 * c) (addr + len) - addr⟩ : Round)]
            ++ (List.range' (c + 1) k).map (roundAt addr len),
          min (256 * (c + 1 + k)) (addr + len) - addr)
        = (rounds ++ (List.range' c (k + 1)).map (roundAt addr len),
            min (256 * (c + (k + 1))) (addr + len) - addr) := by
      intro k
      rw [hi, List.range'_succ, List.map_cons, List.append_assoc, Nat.add_assoc,
        Nat.add_comm 1 k]
      rfl
    unfold vreadLoopTraced
    rw [loopDone_inside addr len c hlen h hc]
    simp only [Bool.false_eq_true, if_false, bind, Except.bind, hbounds,
      nextCursor_linear c (by omega), hA, hA2, checkForErrors_zero, pure, Except.pure, hn, hb]
    cases hg : smsa_get_cache_line (c / 256) (c % 256) d.cache with
    | error e => exact ⟨0, Nat.zero_le _, hstop, fun hx => by obtain ⟨r, hr⟩ := hx; cases hr⟩
    | ok r =>
      obtain ⟨cl, c1⟩ := r
      cases cl with
      | none =>
        simp only []
        cases hr : readLowLevel d.brk ⟨d.world, c1, d.mem, d.brk + 1, d.head, d.cache_hits,
            d.disk_reads⟩ with
        | error e => exact ⟨0, Nat.zero_le _, hstop, fun hx => by obtain ⟨r, hr⟩ := hx; cases hr⟩
        | ok r2 =>
          simp only []
          cases hp : smsa_put_cache_line (c / 256) (c % 256) (some d.brk) r2.2.cache with
          | error e =>
            exact ⟨0, Nat.zero_le _, hstop, fun hx => by obtain ⟨r, hr⟩ := hx; cases hr⟩
          | ok r3 =>
            simp only []
            cases hs : seekIfNeedTo ((c + 1) / 256) ((c + 1) % 256) ⟨r2.2.world, r3.2,
                r2.2.mem, r2.2.brk, r2.2.head, r2.2.cache_hits, r2.2.disk_reads + 1⟩ with
            | error e =>
              exact ⟨1, by omega, hone, fun hx => by obtain ⟨r, hr⟩ := hx; cases hr⟩
            | ok r4 =>
              simp only []
              obtain ⟨k, hk, h1, h2⟩ := ih (c + 1) f r4.1
                (memcpy buf (min (256 * c) (addr + len) - addr) (r2.2.mem d.brk)
                  (addr - 256 * c)
                  (min (addr + len) (256 * (c + 1)) - 256 * c - (addr - 256 * c))) r4.2
                (rounds ++ [⟨c / 256, c % 256, addr - 256 * c,
                  min (addr + len) (256 * (c + 1)) - 256 * c,
                  min (256 * c) (addr + len) - addr⟩]) (by omega) (by omega) (by omega)
              exact ⟨k + 1, by omega, h1.trans (hmore k), fun hx => by rw [h2 hx]⟩
      | some q =>
        simp only []
        cases hs : seekIfNeedTo ((c + 1) / 256) ((c + 1) % 256) ⟨d.world, c1, d.mem,
            d.brk + 1, d.head, d.cache_hits + 1, d.disk_reads⟩ with
        | error e =>
          exact ⟨1, by omega, hone, fun hx => by obtain ⟨r, hr⟩ := hx; cases hr⟩
        | ok r4 =>
          simp only []
          obtain ⟨k, hk, h1, h2⟩ := ih (c + 1) f r4.1
            (memcpy buf (min (256 * c) (addr + len) - addr) (d.mem q) (addr - 256 * c)
              (min (addr + len) (256 * (c + 1)) - 256 * c - (addr - 256 * c))) r4.2
            (rounds ++ [⟨c / 256, c % 256, addr - 256 * c,
              min (addr + len) (256 * (c + 1)) - 256 * c,
              min (256 * c) (addr + len) - addr⟩]) (by omega) (by omega) (by omega)
          exact ⟨k + 1, by omega, h1.trans (hmore k), fun hx => by rw [h2 hx]⟩

/-- The loop of `smsa_vwrite` on an in-range request needs no more fuel than
the number of blocks left plus one: from the block of linear position `c`,
with `m` blocks left, the run is the same for every fuel above `m`, whatever
the state and however the run ends. -/
theorem vwriteLoopTraced_fuel (addr len : Nat) (hlen : 1 ≤ len) (h : addr + len ≤ 1048576)
    (buf : Block) :
    ∀ (m c fuel err bi : Nat) (d : Driver) (rounds : List Round),
      c + m = (addr + len - 1) / 256 + 1 → addr / 256 ≤ c → m < fuel →
      vwriteLoopTraced (getDiskBlockParameters addr len).2 buf fuel err (c / 256) (c % 256) bi d
          rounds
        = vwriteLoopTraced (getDiskBlockParameters addr len).2 buf (m + 1) err (c / 256)
          (c % 256) bi d rounds := by
  intro m
  induction m with
  | zero =>
    intro c fuel err bi d rounds hcm _ hf
    obtain ⟨f, rfl⟩ : ∃ f, fuel = f + 1 := ⟨fuel - 1, by omega⟩
    have hc : c = (addr + len - 1) / 256 + 1 := by omega
    unfold vwriteLoopTraced
    rw [hc, loopDone_after addr len hlen h]
    rfl
  | succ m ih =>
    intro c fuel err bi d rounds hcm hs hf
    obtain ⟨f, rfl⟩ : ∃ f, fuel = f + 1 := ⟨fuel - 1, by omega⟩
    have hc : c ≤ (addr + len - 1) / 256 := by omega
    unfold vwriteLoopTraced
    rw [loopDone_inside addr len c hlen h hc]
    simp only [Bool.false_eq_true, if_false, bind, Except.bind,
      nextCursor_linear c (by omega), pure, Except.pure]
    generalize findMemCpyBounds (getDiskBlockParameters addr len).2 (c / 256) (c % 256) = bd
    obtain ⟨lo, hi⟩ := bd
    simp only []
    by_cases hw : ¬ (lo = 0 ∧ hi = SMSA_BLOCK_SIZE)
    · simp only [hw, not_false_eq_true, if_true]
      cases hg : smsa_get_cache_line (c / 256) (c % 256) d.cache with
      | error e => rfl
      | ok r =>
        obtain ⟨cl, c1⟩ := r
        cases cl with
        | none =>
          simp only []
          cases hr : readLowLevel d.brk ⟨d.world, c1, d.mem, d.brk + 1, d.head, d.cache_hits,
              d.disk_reads⟩ with
          | error e => rfl
          | ok r2 =>
            simp only []
            by_cases hb : lo + u32 (hi + 4294967296 - lo) > SMSA_BLOCK_SIZE
            · simp only [hb, if_true]
            · simp only [hb, if_false]
              cases hsb : setBlockHead (c % 256) ⟨r2.2.world, r2.2.cache, fun q => if q = d.brk
                  then memcpy (r2.2.mem d.brk) lo buf bi (u32 (hi + 4294967296 - lo)) else r2.2.mem q,
                  r2.2.brk, r2.2.head, r2.2.cache_hits, r2.2.disk_reads + 1⟩ with
              | error e => rfl
              | ok r3 =>
                simp only []
                cases hwl : writeLowLevel d.brk r3.2 with
                | error e => rfl
                | ok r4 =>
                  simp only []
                  cases hp : smsa_put_cache_line (c / 256) (c % 256) (some d.brk) r4.2.cache with
                  | error e => rfl
                  | ok r5 =>
                    simp only []
                    by_cases hck : checkForErrors r5.1 = 1
                    · simp only [hck, if_true]
                    · simp only [hck, if_false]
                      cases hs : seekIfNeedTo ((c + 1) / 256) ((c + 1) % 256) ⟨r4.2.world, r5.2, r4.2.mem,
                          r4.2.brk, r4.2.head, r4.2.cache_hits, r4.2.disk_reads⟩ with
                      | error e => rfl
                      | ok r6 => exact ih (c + 1) f _ _ _ _ (by omega) (by omega) (by omega)
        | some q =>
          simp only []
          by_cases hb : lo + u32 (hi + 4294967296 - lo) > SMSA_BLOCK_SIZE
          · simp only [hb, if_true]
          · simp only [hb, if_false]
            cases hsb : setBlockHead (c % 256) ⟨d.world, c1, fun q1 => if q1 = q
                then memcpy (d.mem q) lo buf bi (u32 (hi + 4294967296 - lo)) else d.mem q1,
                d.brk + 1, d.head, d.cache_hits + 1, d.disk_reads⟩ with
            | error e => rfl
            | ok r3 =>
              simp only []
              cases hwl : writeLowLevel q r3.2 with
              | error e => rfl
              | ok r4 =>
                simp only []
                cases hp : smsa_put_cache_line (c / 256) (c % 256) (some q) r4.2.cache with
                | error e => rfl
                | ok r5 =>
                  simp only []
                  by_cases hck : checkForErrors r5.1 = 1
                  · simp only [hck, if_true]
                  · simp only [hck, if_false]
                    cases hs : seekIfNeedTo ((c + 1) / 256) ((c + 1) % 256) ⟨r4.2.world, r5.2, r4.2.mem,
                        r4.2.brk, r4.2.head, r4.2.cache_hits, r4.2.disk_reads⟩ with
                    | error e => rfl
                    | ok r6 => exact ih (c + 1) f _ _ _ _ (by omega) (by omega) (by omega)
    · simp only [hw, if_false]
      by_cases hb : lo + u32 (hi + 4294967296 - lo) > SMSA_BLOCK_SIZE
      · simp only [hb, if_true]
      · simp only [hb, if_false]
        cases hsb : setBlockHead (c % 256) ⟨d.world, d.cache, fun q => if q = d.brk
            then memcpy (d.mem d.brk) lo buf bi (u32 (hi + 4294967296 - lo)) else d.mem q,
            d.brk + 1, d.head, d.cache_hits, d.disk_reads⟩ with
        | error e => rfl
        | ok r3 =>
          simp only []
          cases hwl : writeLowLevel d.brk r3.2 with
          | error e => rfl
          | ok r4 =>
            simp only []
            cases hp : smsa_put_cache_line (c / 256) (c % 256) (some d.brk) r4.2.cache with
            | error e => rfl
            | ok r5 =>
              simp only []
              by_cases hck : checkForErrors r5.1 = 1
              · simp only [hck, if_true]
              · simp only [hck, if_false]
                cases hs : seekIfNeedTo ((c + 1) / 256) ((c + 1) % 256) ⟨r4.2.world, r5.2, r4.2.mem,
                    r4.2.brk, r4.2.head, r4.2.cache_hits, r4.2.disk_reads⟩ with
                | error e => rfl
                | ok r6 => exact ih (c + 1) f _ _ _ _ (by omega) (by omega) (by omega)

/-- The copies made by the loop of `smsa_vwrite`, on every run from the block
of linear position `c` of an in-range request, whatever the state and however
the run ends: the rounds recorded are the rounds `roundAt` of `k` consecutive
blocks from `c` on, for some `k` of at most the `m` blocks left, and
`bufferIndex` has advanced by their sizes; `k = m` when the loop returns 0. -/
theorem vwriteLoopTraced_rounds (addr len : Nat) (hlen : 1 ≤ len) (h : addr + len ≤ 1048576)
    (buf : Block) :
    ∀ (m c fuel err : Nat) (d : Driver) (rounds : List Round),
      c + m = (addr + len - 1) / 256 + 1 → addr / 256 ≤ c → m < fuel →
      ∃ k, k ≤ m
        ∧ (vwriteLoopTraced (getDiskBlockParameters addr len).2 buf fuel err (c / 256)
            (c % 256) (min (256 * c) (addr + len) - addr) d rounds).1
          = (rounds ++ (List.range' c k).map (roundAt addr len),
              min (256 * (c + k)) (addr + len) - addr)
        ∧ ((∃ d1, (vwriteLoopTraced (getDiskBlockParameters addr len).2 buf fuel err (c / 256)
            (c % 256) (min (256 * c) (addr + len) - addr) d rounds).2 = Except.ok (0, d1))
            → k = m) := by
  intro m
  induction m with
  | zero =>
    intro c fuel err d rounds hcm _ hf
    obtain ⟨f, rfl⟩ : ∃ f, fuel = f + 1 := ⟨fuel - 1, by omega⟩
    have hc : c = (addr + len - 1) / 256 + 1 := by omega
    unfold vwriteLoopTraced
    rw [hc, loopDone_after addr len hlen h]
    refine ⟨0, le_refl _, ?_, fun _ => rfl⟩
    simp only [if_true, List.range'_zero, List.map_nil, List.append_nil, Nat.add_zero]
  | succ m ih =>
    intro c fuel err d rounds hcm hs hf
    obtain ⟨f, rfl⟩ : ∃ f, fuel = f + 1 := ⟨fuel - 1, by omega⟩
    have hc : c ≤ (addr + len - 1) / 256 := by omega
    have hbounds := findMemCpyBounds_inside addr len c hlen h hs hc
    have hA : ¬ (addr - 256 * c
        + u32 (min (addr + len) (256 * (c + 1)) - 256 * c + 4294967296 - (addr - 256 * c))
        > SMSA_BLOCK_SIZE) := by
      unfold u32 SMSA_BLOCK_SIZE
      omega
    have hn : u32 (min (addr + len) (256 * (c + 1)) - 256 * c + 4294967296 - (addr - 256 * c))
        = min (addr + len) (256 * (c + 1)) - 256 * c - (addr - 256 * c) := by
      unfold u32
      omega
    have hA2 : ¬ (addr - 256 * c
        + (min (addr + len) (256 * (c + 1)) - 256 * c - (addr - 256 * c))
        > SMSA_BLOCK_SIZE) := by
      unfold SMSA_BLOCK_SIZE
      omega
    have hb : min (256 * c) (addr + len) - addr
          + (min (addr + len) (256 * (c + 1)) - 256 * c - (addr - 256 * c))
        = min (256 * (c + 1)) (addr + len) - addr := by omega
    have hi : min (256 * c) (addr + len) - addr = 256 * c - addr := by omega
    have hstop : (rounds, min (256 * c) (addr + len) - addr)
        = (rounds ++ (List.range' c 0).map (roundAt addr len),
            min (256 * (c + 0)) (addr + len) - addr) := by
      simp only [List.range'_zero, List.map_nil, List.append_nil, Nat.add_zero]
    have hone : (rounds ++ [(⟨c / 256, c % 256, addr - 256 * c,
          min (addr + len) (256 * (c + 1)) - 256 * c, min (256 * c) (addr + len) - addr⟩ : Round)],
          min (256 * (c + 1)) (addr + len) - addr)
        = (rounds ++ (List.range' c 1).map (roundAt addr len),
            min (256 * (c + 1)) (addr + len) - addr) := by
      rw [hi]
      rfl
    have hmore : ∀ k, (rounds ++ [(⟨c / 256, c % 256, addr - 256 * c,
          min (addr + len) (256 * (c + 1)) - 256 * c, min (256 * c) (addr + len) - addr⟩ : Round)]
            ++ (List.range' (c + 1) k).map (roundAt addr len),
          min (256 * (c + 1 + k)) (addr + len) - addr)
        = (rounds ++ (List.range' c (k + 1)).map (roundAt addr len),
            min (256 * (c + (k + 1))) (addr + len) - addr) := by
      intro k
      rw [hi, List.range'_succ, List.map_cons, List.append_assoc, Nat.add_assoc,
        Nat.add_comm 1 k]
      rfl
    unfold vwriteLoopTraced
    rw [loopDone_inside addr len c hlen h hc]
    simp only [Bool.false_eq_true, if_false, bind, Except.bind, hbounds,
      nextCursor_linear c (by omega), hA, hA2, pure, Except.pure, hn, hb]
    by_cases hwhole : ¬ (addr - 256 * c = 0
        ∧ min (addr + len) (256 * (c + 1)) - 256 * c = SMSA_BLOCK_SIZE)
    · simp only [hwhole, not_false_eq_true, if_true]
      cases hg : smsa_get_cache_line (c / 256) (c % 256) d.cache with
      | error e => exact ⟨0, Nat.zero_le _, hstop, fun hx => by obtain ⟨r, hr⟩ := hx; cases hr⟩
      | ok r =>
        obtain ⟨cl, c1⟩ := r
        cases cl with
        | none =>
          simp only []
          cases hr : readLowLevel d.brk ⟨d.world, c1, d.mem, d.brk + 1, d.head, d.cache_hits,
              d.disk_reads⟩ with
          | error e => exact ⟨0, Nat.zero_le _, hstop, fun hx => by obtain ⟨r, hr⟩ := hx; cases hr⟩
          | ok r2 =>
            simp only []
            cases hsb : setBlockHead (c % 256) ⟨r2.2.world, r2.2.cache, fun q => if q = d.brk
                then memcpy (r2.2.mem d.brk) (addr - 256 * c) buf (min (256 * c) (addr + len) - addr) (min (addr + len) (256 * (c + 1)) - 256 * c - (addr - 256 * c)) else r2.2.mem q,
                r2.2.brk, r2.2.head, r2.2.cache_hits, r2.2.disk_reads + 1⟩ with
            | error e => exact ⟨1, by omega, hone, fun hx => by obtain ⟨r, hr⟩ := hx; cases hr⟩
            | ok r3 =>
              simp only []
              cases hwl : writeLowLevel d.brk r3.2 with
              | error e => exact ⟨1, by omega, hone, fun hx => by obtain ⟨r, hr⟩ := hx; cases hr⟩
              | ok r4 =>
                simp only []
                cases hp : smsa_put_cache_line (c / 256) (c % 256) (some d.brk) r4.2.cache with
                | error e => exact ⟨1, by omega, hone, fun hx => by obtain ⟨r, hr⟩ := hx; cases hr⟩
                | ok r5 =>
                  simp only []
                  by_cases hck : checkForErrors r5.1 = 1
                  · simp only [hck, if_true]
                    exact ⟨1, by omega, hone, fun hx => by obtain ⟨r, hr⟩ := hx; cases hr⟩
                  · simp only [hck, if_false]
                    cases hs : seekIfNeedTo ((c + 1) / 256) ((c + 1) % 256) ⟨r4.2.world, r5.2, r4.2.mem,
                        r4.2.brk, r4.2.head, r4.2.cache_hits, r4.2.disk_reads⟩ with
                    | error e => exact ⟨1, by omega, hone, fun hx => by obtain ⟨r, hr⟩ := hx; cases hr⟩
                    | ok r6 =>
                      simp only []
                      obtain ⟨k, hk, h1, h2⟩ := ih (c + 1) f r6.1 r6.2
                        (rounds ++ [⟨c / 256, c % 256, addr - 256 * c, min (addr + len) (256 * (c + 1)) - 256 * c, min (256 * c) (addr + len) - addr⟩]) (by omega) (by omega) (by omega)
                      exact ⟨k + 1, by omega, h1.trans (hmore k), fun hx => by rw [h2 hx]⟩
        | some q =>
          simp only []
          cases hsb : setBlockHead (c % 256) ⟨d.world, c1, fun q1 => if q1 = q
              then memcpy (d.mem q) (addr - 256 * c) buf (min (256 * c) (addr + len) - addr) (min (addr + len) (256 * (c + 1)) - 256 * c - (addr - 256 * c)) else d.mem q1,
              d.brk + 1, d.head, d.cache_hits + 1, d.disk_reads⟩ with
          | error e => exact ⟨1, by omega, hone, fun hx => by obtain ⟨r, hr⟩ := hx; cases hr⟩
          | ok r3 =>
            simp only []
            cases hwl : writeLowLevel q r3.2 with
            | error e => exact ⟨1, by omega, hone, fun hx => by obtain ⟨r, hr⟩ := hx; cases hr⟩
            | ok r4 =>
              simp only []
              cases hp : smsa_put_cache_line (c / 256) (c % 256) (some q) r4.2.cache with
              | error e => exact ⟨1, by omega, hone, fun hx => by obtain ⟨r, hr⟩ := hx; cases hr⟩
              | ok r5 =>
                simp only []
                by_cases hck : checkForErrors r5.1 = 1
                · simp only [hck, if_true]
                  exact ⟨1, by omega, hone, fun hx => by obtain ⟨r, hr⟩ := hx; cases hr⟩
                · simp only [hck, if_false]
                  cases hs : seekIfNeedTo ((c + 1) / 256) ((c + 1) % 256) ⟨r4.2.world, r5.2, r4.2.mem,
                      r4.2.brk, r4.2.head, r4.2.cache_hits, r4.2.disk_reads⟩ with
                  | error e => exact ⟨1, by omega, hone, fun hx => by obtain ⟨r, hr⟩ := hx; cases hr⟩
                  | ok r6 =>
                    simp only []
                    obtain ⟨k, hk, h1, h2⟩ := ih (c + 1) f r6.1 r6.2
                      (rounds ++ [⟨c / 256, c % 256, addr - 256 * c, min (addr + len) (256 * (c + 1)) - 256 * c, min (256 * c) (addr + len) - addr⟩]) (by omega) (by omega) (by omega)
                    exact ⟨k + 1, by omega, h1.trans (hmore k), fun hx => by rw [h2 hx]⟩
    · simp only [hwhole, if_false]
      cases hsb : setBlockHead (c % 256) ⟨d.world, d.cache, fun q => if q = d.brk
          then memcpy (d.mem d.brk) (addr - 256 * c) buf (min (256 * c) (addr + len) - addr) (min (addr + len) (256 * (c + 1)) - 256 * c - (addr - 256 * c)) else d.mem q,
          d.brk + 1, d.head, d.cache_hits, d.disk_reads⟩ with
      | error e => exact ⟨1, by omega, hone, fun hx => by obtain ⟨r, hr⟩ := hx; cases hr⟩
      | ok r3 =>
        simp only []
        cases hwl : writeLowLevel d.brk r3.2 with
        | error e => exact ⟨1, by omega, hone, fun hx => by obtain ⟨r, hr⟩ := hx; cases hr⟩
        | ok r4 =>
          simp only []
          cases hp : smsa_put_cache_line (c / 256) (c % 256) (some d.brk) r4.2.cache with
          | error e => exact ⟨1, by omega, hone, fun hx => by obtain ⟨r, hr⟩ := hx; cases hr⟩
          | ok r5 =>
            simp only []
            by_cases hck : checkForErrors r5.1 = 1
            · simp only [hck, if_true]
              exact ⟨1, by omega, hone, fun hx => by obtain ⟨r, hr⟩ := hx; cases hr⟩
            · simp only [hck, if_false]
              cases hs : seekIfNeedTo ((c + 1) / 256) ((c + 1) % 256) ⟨r4.2.world, r5.2, r4.2.mem,
                  r4.2.brk, r4.2.head, r4.2.cache_hits, r4.2.disk_reads⟩ with
              | error e => exact ⟨1, by omega, hone, fun hx => by obtain ⟨r, hr⟩ := hx; cases hr⟩
              | ok r6 =>
                simp only []
                obtain ⟨k, hk, h1, h2⟩ := ih (c + 1) f r6.1 r6.2
                  (rounds ++ [⟨c / 256, c % 256, addr - 256 * c, min (addr + len) (256 * (c + 1)) - 256 * c, min (256 * c) (addr + len) - addr⟩]) (by omega) (by omega) (by omega)
                exact ⟨k + 1, by omega, h1.trans (hmore k), fun hx => by rw [h2 hx]⟩

/-! ## The copies of `smsa_vread` and `smsa_vwrite`, on every run -/

theorem take_range' : ∀ (k n s : Nat), k ≤ n → (List.range' s n).take k = List.range' s k := by
  intro k
  induction k with
  | zero => intro n s _; rfl
  | succ k ih =>
    intro n s hk
    obtain ⟨n1, rfl⟩ : ∃ n1, n = n1 + 1 := ⟨n - 1, by omega⟩
    rw [List.range'_succ, List.range'_succ, List.take_succ_cons, ih n1 (s + 1) (by omega)]

/-- The sizes of the copies of `k` consecutive rounds from the block of linear
position `c` on sum to the distance `bufferIndex` advances over them. -/
theorem roundAt_prefix_sum (addr len : Nat) (hlen : 1 ≤ len) :
    ∀ (k c : Nat), addr / 256 ≤ c → c + k ≤ (addr + len - 1) / 256 + 1 →
      (((List.range' c k).map (roundAt addr len)).map
          (fun r => r.upperBound - r.lowerBound)).sum
        = min (256 * (c + k)) (addr + len) - max (256 * c) addr := by
  intro k
  induction k with
  | zero =>
    intro c _ _
    simp only [List.range'_zero, List.map_nil, List.sum_nil]
    omega
  | succ k ih =>
    intro c hs hk
    rw [List.range'_succ, List.map_cons, List.map_cons, List.sum_cons,
      ih (c + 1) (by omega) (by omega)]
    simp only [roundAt]
    omega

/-- The copies of `smsa_vread`, on every run: for every request with
`len >= 1` and `addr + len <= 1048576`, every buffer and every state, however
the call ends, the rounds whose `memcpy` was executed are the first `k` of
the rounds of `transferRounds`, in order, and `bufferIndex` is the sum of
their sizes; when `smsa_vread` returns, they are all the rounds and
`bufferIndex` is `len`. -/
theorem smsa_vreadTraced_copies (addr len : Nat) (buf : Block) (d : Driver) (hlen : 1 ≤ len)
    (h : addr + len ≤ 1048576) :
    ∃ rs k, transferRounds addr len = some (rs, len)
      ∧ k ≤ rs.length
      ∧ (smsa_vreadTraced addr len buf d).1.1 = rs.take k
      ∧ (smsa_vreadTraced addr len buf d).1.2
          = ((rs.take k).map (fun r => r.upperBound - r.lowerBound)).sum
      ∧ ((∃ r, smsa_vread addr len buf d = Except.ok r)
          → k = rs.length ∧ (smsa_vreadTraced addr len buf d).1 = (rs, len)) := by
  have e1 : (getDiskBlockParameters addr len).2.diskStart = addr / 256 / 256 := by
    rw [getDiskBlockParameters_eq addr len hlen h]
    simp only []
    omega
  have e2 : (getDiskBlockParameters addr len).2.blockStart = addr / 256 % 256 := by
    rw [getDiskBlockParameters_eq addr len hlen h]
  have e0 : min (256 * (addr / 256)) (addr + len) - addr = 0 := by omega
  have hres := smsa_vreadTraced_result addr len buf d
  unfold smsa_vreadTraced at hres ⊢
  simp only [] at hres ⊢
  rw [e1, e2] at hres ⊢
  cases hs : seekIfNeedTo (addr / 256 / 256) (addr / 256 % 256) d with
  | error e =>
    rw [hs] at hres
    refine ⟨_, 0, transferRounds_eq addr len hlen h, Nat.zero_le _, rfl, rfl, fun hx => ?_⟩
    obtain ⟨r, hr⟩ := hx
    rw [← hres] at hr
    cases hr
  | ok r =>
    rw [hs] at hres
    simp only [] at hres ⊢
    obtain ⟨k, hk, h1, h2⟩ := vreadLoopTraced_rounds addr len hlen h
      ((addr + len - 1) / 256 - addr / 256 + 1) (addr / 256) loopFuel r.1 buf r.2 []
      (by omega) (le_refl _) (by unfold loopFuel; omega)
    rw [e0] at h1 h2
    rw [List.nil_append] at h1
    have ht : ((List.range' (addr / 256) ((addr + len - 1) / 256 - addr / 256 + 1)).map
        (roundAt addr len)).take k = (List.range' (addr / 256) k).map (roundAt addr len) := by
      rw [← List.map_take, take_range' k _ _ hk]
    have hsum := roundAt_prefix_sum addr len hlen k (addr / 256) (le_refl _) (by omega)
    refine ⟨_, k, transferRounds_eq addr len hlen h,
      by rw [List.length_map, List.length_range']; exact hk, ?_, ?_, fun hx => ?_⟩
    · rw [ht, h1]
    · rw [ht, hsum, h1]
      simp only []
      omega
    · obtain ⟨v, hv⟩ := hx
      rw [← hres] at hv
      have hkm := h2 ⟨v, hv⟩
      refine ⟨by rw [List.length_map, List.length_range']; exact hkm, ?_⟩
      rw [h1, hkm]
      simp only [Prod.mk.injEq, true_and]
      omega

/-- The copies of `smsa_vwrite`, on every run: for every request with
`len >= 1` and `addr + len <= 1048576`, every buffer and every state, however
the call ends, the rounds whose `memcpy` was executed are the first `k` of
the rounds of `transferRounds`, in order, and `bufferIndex` is the sum of
their sizes; when `smsa_vwrite` returns 0, they are all the rounds and
`bufferIndex` is `len`. -/
theorem smsa_vwriteTraced_copies (addr len : Nat) (buf : Block) (d : Driver) (hlen : 1 ≤ len)
    (h : addr + len ≤ 1048576) :
    ∃ rs k, transferRounds addr len = some (rs, len)
      ∧ k ≤ rs.length
      ∧ (smsa_vwriteTraced addr len buf d).1.1 = rs.take k
      ∧ (smsa_vwriteTraced addr len buf d).1.2
          = ((rs.take k).map (fun r => r.upperBound - r.lowerBound)).sum
      ∧ ((∃ d1, smsa_vwrite addr len buf d = Except.ok (0, d1))
          → k = rs.length ∧ (smsa_vwriteTraced addr len buf d).1 = (rs, len)) := by
  have e1 : (getDiskBlockParameters addr len).2.diskStart = addr / 256 / 256 := by
    rw [getDiskBlockParameters_eq addr len hlen h]
    simp only []
    omega
  have e2 : (getDiskBlockParameters addr len).2.blockStart = addr / 256 % 256 := by
    rw [getDiskBlockParameters_eq addr len hlen h]
  have e0 : min (256 * (addr / 256)) (addr + len) - addr = 0 := by omega
  have hres := smsa_vwriteTraced_result addr len buf d
  unfold smsa_vwriteTraced at hres ⊢
  simp only [] at hres ⊢
  rw [e1, e2] at hres ⊢
  cases hs : seekIfNeedTo (addr / 256 / 256) (addr / 256 % 256) d with
  | error e =>
    rw [hs] at hres
    refine ⟨_, 0, transferRounds_eq addr len hlen h, Nat.zero_le _, rfl, rfl, fun hx => ?_⟩
    obtain ⟨r, hr⟩ := hx
    rw [← hres] at hr
    cases hr
  | ok r =>
    rw [hs] at hres
    simp only [] at hres ⊢
    obtain ⟨k, hk, h1, h2⟩ := vwriteLoopTraced_rounds addr len hlen h buf
      ((addr + len - 1) / 256 - addr / 256 + 1) (addr / 256) loopFuel r.1 r.2 []
      (by omega) (le_refl _) (by unfold loopFuel; omega)
    rw [e0] at h1 h2
    rw [List.nil_append] at h1
    have ht : ((List.range' (addr / 256) ((addr + len - 1) / 256 - addr / 256 + 1)).map
        (roundAt addr len)).take k = (List.range' (addr / 256) k).map (roundAt addr len) := by
      rw [← List.map_take, take_range' k _ _ hk]
    have hsum := roundAt_prefix_sum addr len hlen k (addr / 256) (le_refl _) (by omega)
    refine ⟨_, k, transferRounds_eq addr len hlen h,
      by rw [List.length_map, List.length_range']; exact hk, ?_, ?_, fun hx => ?_⟩
    · rw [ht, h1]
    · rw [ht, hsum, h1]
      simp only []
      omega
    · obtain ⟨v, hv⟩ := hx
      rw [← hres] at hv
      have hkm := h2 ⟨v, hv⟩
      refine ⟨by rw [List.length_map, List.length_range']; exact hkm, ?_⟩
      rw [h1, hkm]
      simp only [Prod.mk.injEq, true_and]
      omega

/-- The fuel of the model is enough for every in-range request: the loops of
`smsa_vread` and `smsa_vwrite`, started as these functions start them, run the
same with every fuel above the number of blocks of the request, so no run ends
because the fuel is used up. -/
theorem transfer_loops_fuel (addr len : Nat) (buf : Block) (hlen : 1 ≤ len)
    (h : addr + len ≤ 1048576) (fuel err : Nat) (d : Driver)
    (hf : (addr + len - 1) / 256 - addr / 256 + 1 < fuel) :
    vreadLoopTraced (getDiskBlockParameters addr len).2 fuel err
        (getDiskBlockParameters addr len).2.diskStart
        (getDiskBlockParameters addr len).2.blockStart 0 buf d []
      = vreadLoopTraced (getDiskBlockParameters addr len).2 loopFuel err
        (getDiskBlockParameters addr len).2.diskStart
        (getDiskBlockParameters addr len).2.blockStart 0 buf d []
    ∧ vwriteLoopTraced (getDiskBlockParameters addr len).2 buf fuel err
        (getDiskBlockParameters addr len).2.diskStart
        (getDiskBlockParameters addr len).2.blockStart 0 d []
      = vwriteLoopTraced (getDiskBlockParameters addr len).2 buf loopFuel err
        (getDiskBlockParameters addr len).2.diskStart
        (getDiskBlockParameters addr len).2.blockStart 0 d [] := by
  have e1 : (getDiskBlockParameters addr len).2.diskStart = addr / 256 / 256 := by
    rw [getDiskBlockParameters_eq addr len hlen h]
    simp only []
    omega
  have e2 : (getDiskBlockParameters addr len).2.blockStart = addr / 256 % 256 := by
    rw [getDiskBlockParameters_eq addr len hlen h]
  rw [e1, e2]
  constructor
  · exact (vreadLoopTraced_fuel addr len hlen h ((addr + len - 1) / 256 - addr / 256 + 1)
        (addr / 256) fuel err 0 buf d [] (by omega) (le_refl _) hf).trans
      (vreadLoopTraced_fuel addr len hlen h ((addr + len - 1) / 256 - addr / 256 + 1)
        (addr / 256) loopFuel err 0 buf d [] (by omega) (le_refl _)
        (by unfold loopFuel; omega)).symm
  · exact (vwriteLoopTraced_fuel addr len hlen h buf ((addr + len - 1) / 256 - addr / 256 + 1)
        (addr / 256) fuel err 0 d [] (by omega) (le_refl _) hf).trans
      (vwriteLoopTraced_fuel addr len hlen h buf ((addr + len - 1) / 256 - addr / 256 + 1)
        (addr / 256) loopFuel err 0 d [] (by omega) (le_refl _)
        (by unfold loopFuel; omega)).symm

/-! ## Transfer loops that are left before the end block (C27, C28) -/

/-- C27 fails on the code: a call that faults inside the loop leaves the
caller's buffer partly or wholly uncopied.  The request `(0, 512)` has two
rounds of 256 bytes each, but `smsa_vread(0, 512, buf)` right after
`smsa_vmount(2)` ends in the NULL dereference of `smsa_get_cache_line` in its
first round, before any `memcpy`: no round is copied and `bufferIndex` stays 0.
The request `(65500, 300)` has three rounds of 36, 256 and 8 bytes; right
after `smsa_vmount(1)`, `smsa_vread` copies the first (36 bytes, `bufferIndex`
36) and ends in the out-of-bounds store of `evictLRU` in the second, and
`smsa_vwrite` copies the first two (`bufferIndex` 292) and ends in the same
store.  Right after `smsa_vmount(2)` the same request is copied in full
(`bufferIndex` 300) and the call returns 0. -/
theorem C27_copies_stop_short_of_len :
    transferRounds 0 512 = some ([⟨0, 0, 0, 256, 0⟩, ⟨0, 1, 0, 256, 256⟩], 512)
    ∧ smsa_vread 0 512 (fun _ => 0) mountedDriver = Except.error Fault.nullDeref
    ∧ smsa_vreadTraced 0 512 (fun _ => 0) mountedDriver
        = (([], 0), Except.error Fault.nullDeref)
    ∧ transferRounds 65500 300
        = some ([⟨0, 255, 220, 256, 0⟩, ⟨1, 0, 0, 256, 36⟩, ⟨1, 1, 0, 8, 292⟩], 300)
    ∧ smsa_vread 65500 300 (fun _ => 0) oneLineDriver = Except.error Fault.outOfBounds
    ∧ smsa_vreadTraced 65500 300 (fun _ => 0) oneLineDriver
        = (([⟨0, 255, 220, 256, 0⟩], 36), Except.error Fault.outOfBounds)
    ∧ smsa_vwrite 65500 300 (fun _ => 5) oneLineDriver = Except.error Fault.outOfBounds
    ∧ smsa_vwriteTraced 65500 300 (fun _ => 5) oneLineDriver
        = (([⟨0, 255, 220, 256, 0⟩, ⟨1, 0, 0, 256, 36⟩], 292),
            Except.error Fault.outOfBounds)
    ∧ (smsa_vreadTraced 65500 300 (fun _ => 0) mountedDriver).1
        = ([⟨0, 255, 220, 256, 0⟩, ⟨1, 0, 0, 256, 36⟩, ⟨1, 1, 0, 8, 292⟩], 300)
    ∧ (smsa_vread 65500 300 (fun _ => 0) mountedDriver).map (fun r => r.1) = Except.ok 0 :=
  ⟨rfl, rfl, rfl, rfl, rfl, rfl, rfl, rfl, rfl, rfl⟩

/-- C28 fails on the code: a call that faults inside the loop leaves the loop
before the end block.  For the request `(1, 300)` the claimed number of
iterations is 2 (blocks `(0, 0)` and `(0, 1)`), but `smsa_vwrite(1, 300, buf)`
right after `smsa_vmount(2)` ends in the NULL dereference of
`smsa_get_cache_line` in its first iteration, on block `(0, 0)`, before the
`memcpy`, and so does `smsa_vread(0, 512, buf)` (claimed: 2).  For the request
`(65500, 300)` the claimed number is 3 (blocks `(0, 255)`, `(1, 0)`,
`(1, 1)`); right after `smsa_vmount(1)`, `smsa_vwrite` ends in the
out-of-bounds store of `evictLRU` in its second iteration, after the copies
of blocks `(0, 255)` and `(1, 0)`, and never reaches the end block `(1, 1)`.
Right after `smsa_vmount(2)` the same call visits the three blocks in order and
returns 0. -/
theorem C28_loop_is_left_before_the_end_block :
    claimedRounds 1 300 = 2
    ∧ smsa_vwrite 1 300 (fun _ => 5) mountedDriver = Except.error Fault.nullDeref
    ∧ smsa_vwriteTraced 1 300 (fun _ => 5) mountedDriver
        = (([], 0), Except.error Fault.nullDeref)
    ∧ claimedRounds 0 512 = 2
    ∧ (smsa_vreadTraced 0 512 (fun _ => 0) mountedDriver).1.1.length = 0
    ∧ (smsa_vreadTraced 0 512 (fun _ => 0) mountedDriver).2 = Except.error Fault.nullDeref
    ∧ claimedRounds 65500 300 = 3
    ∧ (smsa_vwriteTraced 65500 300 (fun _ => 5) oneLineDriver).1.1.map
        (fun r => (r.currentDrum, r.currentBlock)) = [(0, 255), (1, 0)]
    ∧ (smsa_vwriteTraced 65500 300 (fun _ => 5) oneLineDriver).2
        = Except.error Fault.outOfBounds
    ∧ (smsa_vwriteTraced 65500 300 (fun _ => 5) mountedDriver).1.1.map
        (fun r => (r.currentDrum, r.currentBlock)) = [(0, 255), (1, 0), (1, 1)]
    ∧ (smsa_vwrite 65500 300 (fun _ => 5) mountedDriver).map (fun r => r.1) = Except.ok 0 :=
  ⟨rfl, rfl, rfl, rfl, rfl, rfl, rfl, rfl, rfl, rfl, rfl⟩

end SMSA
